import Mathlib

/-!
X.509 CRL decoder (`deps/mbedtls/x509_crl.c`).

Shallow embedding of the CRL parsing functions of `x509_crl.c`.

* Pointers into the record being decoded are byte offsets (`Nat`) into the
  owned copy of the input (`crl->raw.p`); a null pointer is `none`.
* A linked list reached through `next` pointers is a `List` of nodes; the
  null pointer is the empty list.
* The collaborators that are declared in headers only (the ASN.1 tag/length
  reader, the scalar readers, the algorithm registry, `calloc`) and the
  numeric constants of those headers are parameters: `Env` and `Consts`.
  The PEM module used by `mbedtls_x509_crl_parse` is the parameter `Pem`; the
  text functions used by `mbedtls_x509_crl_info` are the parameter `Txt`, and
  the output buffer of that function is the list of its bytes.
* `int` values are `Int`; `size_t` values are `Nat`. Sums of error codes are
  not reduced modulo the word size: the codes are small. The conversions
  `(size_t)( a - b )` and `(int)( size - n )` are reduced (`size_of_diff`,
  `int_of_size`).
* A loop runs for a bounded number of iterations (the distance of the cursor
  from its bound, which suffices when each iteration moves the cursor
  forward); a run that needs more, or that reads a byte outside the record
  copy, ends in a `Fault` instead of a return value.
-/

namespace X509Crl

/-! ## Data model -/

/-- Reasons for which a run of the model has no C-level result. -/
inductive Fault where
  /-- a loop did not finish within the iteration budget of the model -/
  | out_of_fuel
  /-- a byte was read outside the record copy -/
  | out_of_bounds
deriving DecidableEq, Repr

deriving instance DecidableEq for Except

/-- The struct `mbedtls_x509_buf`: tag, length and start of a span. -/
structure mbedtls_x509_buf where
  tag : Int
  len : Nat
  p : Option Nat
deriving DecidableEq, Repr

/-- The struct `mbedtls_x509_time`, with the fields printed by `mbedtls_x509_crl_info`. -/
structure mbedtls_x509_time where
  year : Int
  mon : Int
  day : Int
  hour : Int
  min : Int
  sec : Int
deriving DecidableEq, Repr

/-- One node of the issuer name list. The struct is declared outside the
sources at hand; its content is kept as an uninterpreted byte string. -/
structure mbedtls_x509_name where
  data : List Nat
deriving DecidableEq, Repr

/-- The struct `mbedtls_x509_crl_entry` without its `next` link: the nodes
that follow are kept in a list next to it. -/
structure mbedtls_x509_crl_entry where
  raw : mbedtls_x509_buf
  serial : mbedtls_x509_buf
  revocation_date : mbedtls_x509_time
  entry_ext : mbedtls_x509_buf
deriving DecidableEq, Repr

/-- The struct `mbedtls_x509_crl` without its `next` link. `raw_p` is the
owned copy of the input (`raw.p`), `entry_next` the nodes reached from
`entry.next`, `issuer_next` the nodes reached from `issuer.next`. -/
structure mbedtls_x509_crl where
  raw_p : Option (List Nat)
  raw_len : Nat
  tbs : mbedtls_x509_buf
  version : Int
  sig_oid : mbedtls_x509_buf
  issuer_raw : mbedtls_x509_buf
  issuer : mbedtls_x509_name
  issuer_next : List mbedtls_x509_name
  this_update : mbedtls_x509_time
  next_update : mbedtls_x509_time
  entry : mbedtls_x509_crl_entry
  entry_next : List mbedtls_x509_crl_entry
  crl_ext : mbedtls_x509_buf
  sig : mbedtls_x509_buf
  sig_md : Int
  sig_pk : Int
  sig_opts : Option Nat
deriving DecidableEq, Repr

/-- All-zero `mbedtls_x509_buf`. -/
def zero_buf : mbedtls_x509_buf := ⟨0, 0, none⟩

/-- All-zero `mbedtls_x509_time`. -/
def zero_time : mbedtls_x509_time := ⟨0, 0, 0, 0, 0, 0⟩

/-- All-zero name node. -/
def zero_name : mbedtls_x509_name := ⟨[]⟩

/-- All-zero entry node, as returned by `calloc`. -/
def zero_entry : mbedtls_x509_crl_entry := ⟨zero_buf, zero_buf, zero_time, zero_buf⟩

/-- All-zero CRL node: the state set by `mbedtls_x509_crl_init`. -/
def zero_crl : mbedtls_x509_crl :=
  { raw_p := none, raw_len := 0, tbs := zero_buf, version := 0, sig_oid := zero_buf,
    issuer_raw := zero_buf, issuer := zero_name, issuer_next := [],
    this_update := zero_time, next_update := zero_time,
    entry := zero_entry, entry_next := [], crl_ext := zero_buf, sig := zero_buf,
    sig_md := 0, sig_pk := 0, sig_opts := none }

/-- Allocation bookkeeping: number of `calloc` requests made and number of
blocks handed to `free`. -/
structure Heap where
  nalloc : Nat
  nfree : Nat
deriving DecidableEq, Repr

/-! ## Constants and collaborators declared outside the sources -/

/-- Numeric constants used by `x509_crl.c` whose values are fixed in headers. -/
structure Consts where
  MBEDTLS_ERR_ASN1_OUT_OF_DATA : Int
  MBEDTLS_ERR_ASN1_UNEXPECTED_TAG : Int
  MBEDTLS_ERR_ASN1_LENGTH_MISMATCH : Int
  MBEDTLS_ERR_X509_INVALID_FORMAT : Int
  MBEDTLS_ERR_X509_INVALID_VERSION : Int
  MBEDTLS_ERR_X509_INVALID_DATE : Int
  MBEDTLS_ERR_X509_INVALID_EXTENSIONS : Int
  MBEDTLS_ERR_X509_UNKNOWN_VERSION : Int
  MBEDTLS_ERR_X509_UNKNOWN_SIG_ALG : Int
  MBEDTLS_ERR_X509_SIG_MISMATCH : Int
  MBEDTLS_ERR_X509_BAD_INPUT_DATA : Int
  MBEDTLS_ERR_X509_ALLOC_FAILED : Int
  MBEDTLS_ASN1_CONSTRUCTED : Nat
  MBEDTLS_ASN1_SEQUENCE : Nat
  /-- largest value of `size_t` -/
  SIZE_MAX : Nat
  /-- whether `MBEDTLS_X509_RSASSA_PSS_SUPPORT` is defined -/
  MBEDTLS_X509_RSASSA_PSS_SUPPORT : Bool

/-- Result of `mbedtls_asn1_get_tag`: return code, cursor and `*len` after the call. -/
structure TagRes where
  ret : Int
  p : Nat
  len : Nat
deriving DecidableEq, Repr

/-- Result of `mbedtls_asn1_get_int`: return code, cursor and `*val` after the call. -/
structure IntRes where
  ret : Int
  p : Nat
  val : Int
deriving DecidableEq, Repr

/-- Result of a reader with one `mbedtls_x509_buf` output. -/
structure BufRes where
  ret : Int
  p : Nat
  out : mbedtls_x509_buf
deriving DecidableEq, Repr

/-- Result of `mbedtls_x509_get_alg`. -/
structure AlgRes where
  ret : Int
  p : Nat
  alg : mbedtls_x509_buf
  params : mbedtls_x509_buf
deriving DecidableEq, Repr

/-- Result of `mbedtls_x509_get_sig_alg`. -/
structure SigAlgRes where
  ret : Int
  md_alg : Int
  pk_alg : Int
  sig_opts : Option Nat
deriving DecidableEq, Repr

/-- Result of `mbedtls_x509_get_name`. -/
structure NameRes where
  ret : Int
  p : Nat
  cur : mbedtls_x509_name
  next : List mbedtls_x509_name
deriving DecidableEq, Repr

/-- Result of `mbedtls_x509_get_time`. -/
structure TimeRes where
  ret : Int
  p : Nat
  time : mbedtls_x509_time
deriving DecidableEq, Repr

/-- The functions called by `x509_crl.c` that are defined elsewhere. Each one
receives the memory it can read (the record copy), the cursor `*p`, the bound
`end` and the current value of every object it may write, and gives back its
return code, the cursor and those objects after the call. -/
structure Env where
  mbedtls_asn1_get_tag : (mem : List Nat) → (p end_ : Nat) → (len : Nat) → (tag : Int) → TagRes
  mbedtls_asn1_get_int : (mem : List Nat) → (p end_ : Nat) → (val : Int) → IntRes
  mbedtls_x509_get_alg : (mem : List Nat) → (p end_ : Nat) →
    (alg params : mbedtls_x509_buf) → AlgRes
  mbedtls_x509_get_sig_alg : (mem : List Nat) → (sig_oid sig_params : mbedtls_x509_buf) →
    (md_alg pk_alg : Int) → (sig_opts : Option Nat) → SigAlgRes
  mbedtls_x509_get_name : (mem : List Nat) → (p end_ : Nat) →
    (cur : mbedtls_x509_name) → (next : List mbedtls_x509_name) → NameRes
  mbedtls_x509_get_time : (mem : List Nat) → (p end_ : Nat) → (t : mbedtls_x509_time) → TimeRes
  mbedtls_x509_get_serial : (mem : List Nat) → (p end_ : Nat) →
    (serial : mbedtls_x509_buf) → BufRes
  mbedtls_x509_get_ext : (mem : List Nat) → (p end_ : Nat) →
    (ext : mbedtls_x509_buf) → (tag : Int) → BufRes
  mbedtls_x509_get_sig : (mem : List Nat) → (p end_ : Nat) → (sig : mbedtls_x509_buf) → BufRes
  /-- whether the `n`-th `calloc` request of `x509_crl.c` gives a block -/
  calloc_ok : (n : Nat) → Bool

section Code

variable (K : Consts) (E : Env)

/-- The tag argument `MBEDTLS_ASN1_CONSTRUCTED | MBEDTLS_ASN1_SEQUENCE`. -/
def seq_tag : Int := ((K.MBEDTLS_ASN1_CONSTRUCTED ||| K.MBEDTLS_ASN1_SEQUENCE : Nat) : Int)

/-- The conversion `(size_t)( a - b )` of a pointer difference: the
difference itself when it is not negative, reduced modulo `SIZE_MAX + 1`
otherwise. -/
def size_of_diff (a b : Nat) : Nat :=
  if b ≤ a then a - b
  else ((K.SIZE_MAX + 1) - ((b - a) % (K.SIZE_MAX + 1))) % (K.SIZE_MAX + 1)

/-! ## `x509_crl_get_version` -/

/-- Result of `x509_crl_get_version`. -/
structure VersionRes where
  ret : Int
  p : Nat
  ver : Int
deriving DecidableEq, Repr

/-- `x509_crl_get_version( p, end, ver )`. -/
def x509_crl_get_version (mem : List Nat) (p end_ : Nat) (ver : Int) : VersionRes :=
  let r := E.mbedtls_asn1_get_int mem p end_ ver
  if r.ret ≠ 0 then
    if r.ret = K.MBEDTLS_ERR_ASN1_UNEXPECTED_TAG then
      { ret := 0, p := r.p, ver := 0 }
    else
      { ret := K.MBEDTLS_ERR_X509_INVALID_VERSION + r.ret, p := r.p, ver := r.val }
  else
    { ret := 0, p := r.p, ver := r.val }

/-! ## Extension envelopes -/

/-- Result of an extension validator: return code, cursor and `*ext`. -/
structure ExtRes where
  ret : Int
  p : Nat
  ext : mbedtls_x509_buf
deriving DecidableEq, Repr

/-- The loop `while( *p < end ) { get_tag; *p += len; }` shared by both
extension validators. The result is `some code` when the `return` inside the
loop is taken with the value `code`, `none` when the loop is left normally,
together with the cursor and `len`. -/
def ext_walk (mem : List Nat) (end_ : Nat) : (fuel : Nat) → (p len : Nat) →
    Except Fault (Option Int × Nat × Nat)
  | 0, p, len => if p < end_ then .error .out_of_fuel else .ok (none, p, len)
  | fuel + 1, p, len =>
    if p < end_ then
      let t := E.mbedtls_asn1_get_tag mem p end_ len (seq_tag K)
      if t.ret ≠ 0 then
        .ok (some (K.MBEDTLS_ERR_X509_INVALID_EXTENSIONS + t.ret), t.p, t.len)
      else
        ext_walk mem end_ fuel (t.p + t.len) t.len
    else .ok (none, p, len)

/-- `x509_get_crl_ext( p, end, ext )`. -/
def x509_get_crl_ext (mem : List Nat) (p end_ : Nat) (ext : mbedtls_x509_buf) :
    Except Fault ExtRes :=
  let r := E.mbedtls_x509_get_ext mem p end_ ext 0
  if r.ret ≠ 0 then
    if r.ret = K.MBEDTLS_ERR_ASN1_UNEXPECTED_TAG then
      .ok { ret := 0, p := r.p, ext := r.out }
    else
      .ok { ret := r.ret, p := r.p, ext := r.out }
  else
    match ext_walk K E mem end_ (end_ - r.p) r.p 0 with
    | .error f => .error f
    | .ok (some ret, p1, _) => .ok { ret := ret, p := p1, ext := r.out }
    | .ok (none, p1, _) =>
      if p1 ≠ end_ then
        .ok { ret := K.MBEDTLS_ERR_X509_INVALID_EXTENSIONS + K.MBEDTLS_ERR_ASN1_LENGTH_MISMATCH,
              p := p1, ext := r.out }
      else .ok { ret := 0, p := p1, ext := r.out }

/-- `x509_get_crl_entry_ext( p, end, ext )`. -/
def x509_get_crl_entry_ext (mem : List Nat) (p end_ : Nat) (ext : mbedtls_x509_buf) :
    Except Fault ExtRes :=
  if end_ ≤ p then .ok { ret := 0, p := p, ext := ext }
  else
    match mem[p]? with
    | none => .error .out_of_bounds
    | some b =>
      let ext1 : mbedtls_x509_buf := { tag := (b : Int), len := ext.len, p := some p }
      let t := E.mbedtls_asn1_get_tag mem p end_ ext1.len (seq_tag K)
      let ext2 : mbedtls_x509_buf := { ext1 with len := t.len }
      if t.ret ≠ 0 then
        if t.ret = K.MBEDTLS_ERR_ASN1_UNEXPECTED_TAG then
          .ok { ret := 0, p := t.p, ext := { ext2 with p := none } }
        else
          .ok { ret := K.MBEDTLS_ERR_X509_INVALID_EXTENSIONS + t.ret, p := t.p, ext := ext2 }
      else
        let end1 := t.p + ext2.len
        if end1 ≠ t.p + ext2.len then
          .ok { ret := K.MBEDTLS_ERR_X509_INVALID_EXTENSIONS +
                       K.MBEDTLS_ERR_ASN1_LENGTH_MISMATCH, p := t.p, ext := ext2 }
        else
          match ext_walk K E mem end1 (end1 - t.p) t.p 0 with
          | .error f => .error f
          | .ok (some ret, p1, _) => .ok { ret := ret, p := p1, ext := ext2 }
          | .ok (none, p1, _) =>
            if p1 ≠ end1 then
              .ok { ret := K.MBEDTLS_ERR_X509_INVALID_EXTENSIONS +
                           K.MBEDTLS_ERR_ASN1_LENGTH_MISMATCH, p := p1, ext := ext2 }
            else .ok { ret := 0, p := p1, ext := ext2 }

/-! ## `x509_get_entries` -/

/-- Result of `x509_get_entries`: return code, cursor, the embedded entry,
the nodes linked behind it, and the allocation bookkeeping. -/
structure EntriesRes where
  ret : Int
  p : Nat
  entry : mbedtls_x509_crl_entry
  next : List mbedtls_x509_crl_entry
  heap : Heap
deriving DecidableEq, Repr

/-- The list headed by the embedded entry, seen from `cur_entry`: `done` are
the nodes before `cur_entry`, `rest` the nodes behind it. -/
def relink (done : List mbedtls_x509_crl_entry) (cur : mbedtls_x509_crl_entry)
    (rest : List mbedtls_x509_crl_entry) :
    mbedtls_x509_crl_entry × List mbedtls_x509_crl_entry :=
  match done with
  | [] => (cur, rest)
  | d :: ds => (d, ds ++ cur :: rest)

/-- Final state of `x509_get_entries` when it returns `ret` at cursor `p`. -/
def entries_result (ret : Int) (p : Nat) (done : List mbedtls_x509_crl_entry)
    (cur : mbedtls_x509_crl_entry) (rest : List mbedtls_x509_crl_entry) (h : Heap) :
    EntriesRes :=
  { ret := ret, p := p, entry := (relink done cur rest).1, next := (relink done cur rest).2,
    heap := h }

/-- Result of the decoding part of one loop iteration of `x509_get_entries`. -/
structure EntryRes where
  ret : Int
  p : Nat
  cur : mbedtls_x509_crl_entry
deriving DecidableEq, Repr

/-- Lines 206-226 of `x509_get_entries`: one entry is decoded into
`*cur_entry`. `len2` is not initialised by the C code; the model passes `0`
for it. -/
def get_entry (mem : List Nat) (end_ p : Nat) (cur : mbedtls_x509_crl_entry) :
    Except Fault EntryRes :=
  let t := E.mbedtls_asn1_get_tag mem p end_ 0 (seq_tag K)
  if t.ret ≠ 0 then .ok { ret := t.ret, p := t.p, cur := cur }
  else
    match mem[t.p]? with
    | none => .error .out_of_bounds
    | some b =>
      let cur1 := { cur with raw := { tag := (b : Int), p := some t.p, len := t.len } }
      let end2 := t.p + t.len
      let s := E.mbedtls_x509_get_serial mem t.p end2 cur1.serial
      let cur2 := { cur1 with serial := s.out }
      if s.ret ≠ 0 then .ok { ret := s.ret, p := s.p, cur := cur2 }
      else
        let d := E.mbedtls_x509_get_time mem s.p end2 cur2.revocation_date
        let cur3 := { cur2 with revocation_date := d.time }
        if d.ret ≠ 0 then .ok { ret := d.ret, p := d.p, cur := cur3 }
        else
          match x509_get_crl_entry_ext K E mem d.p end2 cur3.entry_ext with
          | .error f => .error f
          | .ok e => .ok { ret := e.ret, p := e.p, cur := { cur3 with entry_ext := e.ext } }

/-- The loop `while( *p < end )` of `x509_get_entries`: decode one entry,
then allocate and link the next node when bytes remain. -/
def entries_loop (mem : List Nat) (end_ : Nat) : (fuel : Nat) → (p : Nat) →
    (done : List mbedtls_x509_crl_entry) → (cur : mbedtls_x509_crl_entry) →
    (rest : List mbedtls_x509_crl_entry) → (h : Heap) → Except Fault EntriesRes
  | 0, p, done, cur, rest, h =>
    if p < end_ then .error .out_of_fuel else .ok (entries_result 0 p done cur rest h)
  | fuel + 1, p, done, cur, rest, h =>
    if p < end_ then
      match get_entry K E mem end_ p cur with
      | .error f => .error f
      | .ok r =>
        if r.ret ≠ 0 then .ok (entries_result r.ret r.p done r.cur rest h)
        else if r.p < end_ then
          let h1 : Heap := { h with nalloc := h.nalloc + 1 }
          if E.calloc_ok h.nalloc then
            entries_loop mem end_ fuel r.p (done ++ [r.cur]) zero_entry [] h1
          else
            .ok (entries_result K.MBEDTLS_ERR_X509_ALLOC_FAILED r.p done r.cur [] h1)
        else
          entries_loop mem end_ fuel r.p done r.cur rest h
    else .ok (entries_result 0 p done cur rest h)

/-- `x509_get_entries( p, end, entry )`; `next` is the list behind `entry`.
`entry_len` is not initialised by the C code; the model passes `0` for it. -/
def x509_get_entries (mem : List Nat) (p end_ : Nat) (entry : mbedtls_x509_crl_entry)
    (next : List mbedtls_x509_crl_entry) (h : Heap) : Except Fault EntriesRes :=
  if p = end_ then .ok { ret := 0, p := p, entry := entry, next := next, heap := h }
  else
    let t := E.mbedtls_asn1_get_tag mem p end_ 0 (seq_tag K)
    if t.ret ≠ 0 then
      if t.ret = K.MBEDTLS_ERR_ASN1_UNEXPECTED_TAG then
        .ok { ret := 0, p := t.p, entry := entry, next := next, heap := h }
      else
        .ok { ret := t.ret, p := t.p, entry := entry, next := next, heap := h }
    else
      let end1 := t.p + t.len
      entries_loop K E mem end1 (end1 - t.p) t.p [] entry next h

/-! ## `mbedtls_x509_crl_init`, `mbedtls_x509_crl_free` -/

/-- `mbedtls_x509_crl_init( crl )`: the node is zeroed. -/
def mbedtls_x509_crl_init (_crl : mbedtls_x509_crl) : mbedtls_x509_crl := zero_crl

/-- Number of blocks released for one node by the first loop of
`mbedtls_x509_crl_free`: `sig_opts` (when RSASSA-PSS support is compiled in and
the pointer is set), the name nodes and entry nodes behind the embedded ones,
and the raw copy. -/
def free_node_blocks (c : mbedtls_x509_crl) : Nat :=
  (if K.MBEDTLS_X509_RSASSA_PSS_SUPPORT && c.sig_opts.isSome then 1 else 0) +
  c.issuer_next.length + c.entry_next.length + (if c.raw_p.isSome then 1 else 0)

/-- First loop of `mbedtls_x509_crl_free`: release what each node owns. -/
def free_contents : List mbedtls_x509_crl → Heap → Heap
  | [], h => h
  | c :: rest, h => free_contents rest { h with nfree := h.nfree + free_node_blocks K c }

/-- Second loop of `mbedtls_x509_crl_free`, for the nodes behind the head:
each one is zeroed and released. -/
def free_tail_nodes : List mbedtls_x509_crl → Heap → Heap
  | [], h => h
  | _ :: rest, h => free_tail_nodes rest { h with nfree := h.nfree + 1 }

/-- `mbedtls_x509_crl_free( crl )` on the list that starts at `crl`: what is
left is the zeroed head, which is not released. -/
def mbedtls_x509_crl_free (crl : List mbedtls_x509_crl) (h : Heap) :
    List mbedtls_x509_crl × Heap :=
  match crl with
  | [] => ([], h)
  | c :: rest => ([zero_crl], free_tail_nodes rest (free_contents K (c :: rest) h))

/-! ## `mbedtls_x509_crl_parse_der` -/

/-- What the caller can observe after a call: the chain and the heap bookkeeping. -/
structure World where
  chain : List mbedtls_x509_crl
  heap : Heap
deriving DecidableEq, Repr

/-- Local state of `mbedtls_x509_crl_parse_der` while a record is decoded.
`pre` are the chain nodes before `crl`, `post` the nodes behind it, `mem` the
bytes of the block `crl->raw.p`. -/
structure DecSt where
  pre : List mbedtls_x509_crl
  crl : mbedtls_x509_crl
  post : List mbedtls_x509_crl
  heap : Heap
  mem : List Nat
  p : Nat
  end_ : Nat
  len : Nat
  ret : Int
  sig_params1 : mbedtls_x509_buf
  sig_params2 : mbedtls_x509_buf
  sig_oid2 : mbedtls_x509_buf
deriving DecidableEq, Repr

/-- Outcome of a block of statements: control falls through to the next
statement, or a `return` was executed, or the run has no C-level result. -/
inductive Step (σ : Type) where
  | next (s : σ)
  | ret (code : Int) (w : World)
  | fault (f : Fault)
deriving DecidableEq, Repr

/-- The chain as the caller sees it from state `s`. -/
def DecSt.world (s : DecSt) : World :=
  { chain := s.pre ++ s.crl :: s.post, heap := s.heap }

/-- The statement pair `mbedtls_x509_crl_free( crl ); return( code );`. -/
def fail_free (s : DecSt) (code : Int) : Step DecSt :=
  .ret code { chain := s.pre ++ (mbedtls_x509_crl_free K (s.crl :: s.post) s.heap).1,
              heap := (mbedtls_x509_crl_free K (s.crl :: s.post) s.heap).2 }

/-- The loop `while( crl->version != 0 && crl->next != NULL ) crl = crl->next;`
started at node `c` followed by the given nodes: the nodes passed, the node
reached and the nodes behind it. -/
def find_slot (pre : List mbedtls_x509_crl) (c : mbedtls_x509_crl) :
    List mbedtls_x509_crl → List mbedtls_x509_crl × mbedtls_x509_crl × List mbedtls_x509_crl
  | [] => (pre, c, [])
  | n :: rest => if c.version ≠ 0 then find_slot (pre ++ [c]) n rest else (pre, c, n :: rest)

/-- Lines 284-295: the raw copy of the input and the initial cursor. The locals
`len` and `ret` are not initialised by the C code; the model starts them at `0`. -/
def copy_raw (pre : List mbedtls_x509_crl) (c : mbedtls_x509_crl)
    (post : List mbedtls_x509_crl) (h : Heap) (b : List Nat) (buflen : Nat) : Step DecSt :=
  let h1 : Heap := { h with nalloc := h.nalloc + 1 }
  if E.calloc_ok h.nalloc then
    if b.length < buflen then .fault .out_of_bounds
    else
      .next { pre := pre, crl := { c with raw_p := some (b.take buflen), raw_len := buflen },
              post := post, heap := h1, mem := b.take buflen, p := 0, end_ := buflen,
              len := 0, ret := 0, sig_params1 := zero_buf, sig_params2 := zero_buf,
              sig_oid2 := zero_buf }
  else .ret K.MBEDTLS_ERR_X509_ALLOC_FAILED { chain := pre ++ c :: post, heap := h1 }

/-- Lines 254-295: argument check, choice of the node to fill, raw copy.
`chain = []` is the null chain pointer, `buf = none` the null buffer pointer. -/
def parse_der_begin (chain : List mbedtls_x509_crl) (buf : Option (List Nat))
    (buflen : Nat) (h : Heap) : Step DecSt :=
  match chain, buf with
  | [], _ => .ret K.MBEDTLS_ERR_X509_BAD_INPUT_DATA { chain := chain, heap := h }
  | _ :: _, none => .ret K.MBEDTLS_ERR_X509_BAD_INPUT_DATA { chain := chain, heap := h }
  | c0 :: rest0, some b =>
    let slot := find_slot [] c0 rest0
    if slot.2.1.version ≠ 0 ∧ slot.2.2 = [] then
      let h1 : Heap := { h with nalloc := h.nalloc + 1 }
      if E.calloc_ok h.nalloc then
        copy_raw K E (slot.1 ++ [slot.2.1]) (mbedtls_x509_crl_init zero_crl) [] h1 b buflen
      else
        .ret K.MBEDTLS_ERR_X509_ALLOC_FAILED
          { chain := slot.1 ++ (mbedtls_x509_crl_free K [slot.2.1] h1).1,
            heap := (mbedtls_x509_crl_free K [slot.2.1] h1).2 }
    else copy_raw K E slot.1 slot.2.1 slot.2.2 h b buflen

/-- Lines 303-315: the outer `CertificateList` SEQUENCE header and the check
of its length against the bytes that remain. -/
def step_outer_seq (s : DecSt) : Step DecSt :=
  let t := E.mbedtls_asn1_get_tag s.mem s.p s.end_ s.len (seq_tag K)
  let s1 := { s with p := t.p, len := t.len }
  if t.ret ≠ 0 then fail_free K s1 K.MBEDTLS_ERR_X509_INVALID_FORMAT
  else if s1.len ≠ size_of_diff K s1.end_ s1.p then
    fail_free K s1 (K.MBEDTLS_ERR_X509_INVALID_FORMAT + K.MBEDTLS_ERR_ASN1_LENGTH_MISMATCH)
  else .next s1

/-- Lines 317-330: the `TBSCertList` SEQUENCE header; `end` becomes the end
of `tbsCertList`. -/
def step_tbs (s : DecSt) : Step DecSt :=
  let s1 := { s with crl := { s.crl with tbs := { s.crl.tbs with p := some s.p } } }
  let t := E.mbedtls_asn1_get_tag s1.mem s1.p s1.end_ s1.len (seq_tag K)
  let s2 := { s1 with p := t.p, len := t.len, ret := t.ret }
  if t.ret ≠ 0 then fail_free K s2 (K.MBEDTLS_ERR_X509_INVALID_FORMAT + t.ret)
  else
    let end1 := s2.p + s2.len
    .next { s2 with end_ := end1,
                    crl := { s2.crl with tbs := { s2.crl.tbs with len := size_of_diff K end1 s.p } } }

/-- Lines 338-343: the version and the inner `AlgorithmIdentifier`. -/
def step_version_alg (s : DecSt) : Step DecSt :=
  let v := x509_crl_get_version K E s.mem s.p s.end_ s.crl.version
  let s1 := { s with p := v.p, ret := v.ret, crl := { s.crl with version := v.ver } }
  if v.ret ≠ 0 then fail_free K s1 v.ret
  else
    let a := E.mbedtls_x509_get_alg s1.mem s1.p s1.end_ s1.crl.sig_oid s1.sig_params1
    let s2 := { s1 with p := a.p, ret := a.ret, crl := { s1.crl with sig_oid := a.alg },
                        sig_params1 := a.params }
    if a.ret ≠ 0 then fail_free K s2 a.ret
    else .next s2

/-- Lines 345-351: range check of the version, then `crl->version++`. -/
def step_version_range (s : DecSt) : Step DecSt :=
  if s.crl.version < 0 ∨ s.crl.version > 1 then
    fail_free K s K.MBEDTLS_ERR_X509_UNKNOWN_VERSION
  else .next { s with crl := { s.crl with version := s.crl.version + 1 } }

/-- Lines 353-359: resolution of the signature algorithm. -/
def step_sig_alg (s : DecSt) : Step DecSt :=
  let r := E.mbedtls_x509_get_sig_alg s.mem s.crl.sig_oid s.sig_params1
             s.crl.sig_md s.crl.sig_pk s.crl.sig_opts
  let s1 := { s with crl := { s.crl with sig_md := r.md_alg, sig_pk := r.pk_alg,
                                         sig_opts := r.sig_opts } }
  if r.ret ≠ 0 then fail_free K s1 K.MBEDTLS_ERR_X509_UNKNOWN_SIG_ALG
  else .next s1

/-- Lines 361-379: the issuer `Name`. -/
def step_issuer (s : DecSt) : Step DecSt :=
  let s1 := { s with crl := { s.crl with issuer_raw := { s.crl.issuer_raw with p := some s.p } } }
  let t := E.mbedtls_asn1_get_tag s1.mem s1.p s1.end_ s1.len (seq_tag K)
  let s2 := { s1 with p := t.p, len := t.len, ret := t.ret }
  if t.ret ≠ 0 then fail_free K s2 (K.MBEDTLS_ERR_X509_INVALID_FORMAT + t.ret)
  else
    let n := E.mbedtls_x509_get_name s2.mem s2.p (s2.p + s2.len) s2.crl.issuer s2.crl.issuer_next
    let s3 := { s2 with p := n.p, ret := n.ret,
                        crl := { s2.crl with issuer := n.cur, issuer_next := n.next } }
    if n.ret ≠ 0 then fail_free K s3 n.ret
    else
      .next { s3 with crl := { s3.crl with
        issuer_raw := { s3.crl.issuer_raw with len := size_of_diff K s3.p s.p } } }

/-- Lines 385-389: `thisUpdate`. -/
def step_this_update (s : DecSt) : Step DecSt :=
  let r := E.mbedtls_x509_get_time s.mem s.p s.end_ s.crl.this_update
  let s1 := { s with p := r.p, ret := r.ret, crl := { s.crl with this_update := r.time } }
  if r.ret ≠ 0 then fail_free K s1 r.ret
  else .next s1

/-- Lines 391-401: `nextUpdate`. -/
def step_next_update (s : DecSt) : Step DecSt :=
  let r := E.mbedtls_x509_get_time s.mem s.p s.end_ s.crl.next_update
  let s1 := { s with p := r.p, ret := r.ret, crl := { s.crl with next_update := r.time } }
  if r.ret ≠ 0 then
    if r.ret ≠ K.MBEDTLS_ERR_X509_INVALID_DATE + K.MBEDTLS_ERR_ASN1_UNEXPECTED_TAG ∧
       r.ret ≠ K.MBEDTLS_ERR_X509_INVALID_DATE + K.MBEDTLS_ERR_ASN1_OUT_OF_DATA then
      fail_free K s1 r.ret
    else .next s1
  else .next s1

/-- Lines 411-415: `revokedCertificates`. -/
def step_entries (s : DecSt) : Step DecSt :=
  match x509_get_entries K E s.mem s.p s.end_ s.crl.entry s.crl.entry_next s.heap with
  | .error f => .fault f
  | .ok r =>
    let s1 := { s with p := r.p, ret := r.ret, heap := r.heap,
                       crl := { s.crl with entry := r.entry, entry_next := r.next } }
    if r.ret ≠ 0 then fail_free K s1 r.ret
    else .next s1

/-- Lines 421-430: `crlExtensions`, for version 2 only. -/
def step_crl_ext (s : DecSt) : Step DecSt :=
  if s.crl.version = 2 then
    match x509_get_crl_ext K E s.mem s.p s.end_ s.crl.crl_ext with
    | .error f => .fault f
    | .ok r =>
      let s1 := { s with p := r.p, ret := r.ret, crl := { s.crl with crl_ext := r.ext } }
      if r.ret ≠ 0 then fail_free K s1 r.ret
      else .next s1
  else .next s

/-- Lines 432-439: the cursor must be at the end of `tbsCertList`; `end`
becomes the end of the raw copy. -/
def step_tbs_end (s : DecSt) : Step DecSt :=
  if s.p ≠ s.end_ then
    fail_free K s (K.MBEDTLS_ERR_X509_INVALID_FORMAT + K.MBEDTLS_ERR_ASN1_LENGTH_MISMATCH)
  else .next { s with end_ := s.crl.raw_len }

/-- Lines 445-449: the outer `signatureAlgorithm`. -/
def step_outer_alg (s : DecSt) : Step DecSt :=
  let a := E.mbedtls_x509_get_alg s.mem s.p s.end_ s.sig_oid2 s.sig_params2
  let s1 := { s with p := a.p, ret := a.ret, sig_oid2 := a.alg, sig_params2 := a.params }
  if a.ret ≠ 0 then fail_free K s1 a.ret
  else .next s1

/-- The byte `ptr[i]` of the record copy. -/
def read_byte (mem : List Nat) (ptr : Option Nat) (i : Nat) : Except Fault Nat :=
  match ptr with
  | none => .error .out_of_bounds
  | some a =>
    match mem[a + i]? with
    | none => .error .out_of_bounds
    | some b => .ok b

/-- The bytes `a[i..]` and `b[i..]` compared as `memcmp` does, `n` bytes from
index `i` on: `0` when all are equal, otherwise the difference of the first
pair that differs. -/
def memcmp_from (mem : List Nat) (a b : Option Nat) : (n i : Nat) → Except Fault Int
  | 0, _ => .ok 0
  | n + 1, i =>
    match read_byte mem a i, read_byte mem b i with
    | .ok x, .ok y => if x ≠ y then .ok ((x : Int) - (y : Int)) else memcmp_from mem a b n (i + 1)
    | .error f, _ => .error f
    | _, .error f => .error f

/-- The library function `memcmp( a, b, n )` on the record copy. -/
def memcmp (mem : List Nat) (a b : Option Nat) (n : Nat) : Except Fault Int :=
  memcmp_from mem a b n 0

/-- The condition of lines 451-455, with the short-circuit evaluation of `||`
and `&&`. -/
def sig_alg_differs (s : DecSt) : Except Fault Bool :=
  if s.crl.sig_oid.len ≠ s.sig_oid2.len then .ok true
  else
    match memcmp s.mem s.crl.sig_oid.p s.sig_oid2.p s.crl.sig_oid.len with
    | .error f => .error f
    | .ok c1 =>
      if c1 ≠ 0 then .ok true
      else if s.sig_params1.len ≠ s.sig_params2.len then .ok true
      else if s.sig_params1.len ≠ 0 then
        match memcmp s.mem s.sig_params1.p s.sig_params2.p s.sig_params1.len with
        | .error f => .error f
        | .ok c2 => .ok (decide (c2 ≠ 0))
      else .ok false

/-- Lines 451-459: comparison of the two algorithm identifiers. -/
def step_sig_cmp (s : DecSt) : Step DecSt :=
  match sig_alg_differs s with
  | .error f => .fault f
  | .ok true => fail_free K s K.MBEDTLS_ERR_X509_SIG_MISMATCH
  | .ok false => .next s

/-- Lines 461-465: the signature BIT STRING. -/
def step_sig (s : DecSt) : Step DecSt :=
  let r := E.mbedtls_x509_get_sig s.mem s.p s.end_ s.crl.sig
  let s1 := { s with p := r.p, ret := r.ret, crl := { s.crl with sig := r.out } }
  if r.ret ≠ 0 then fail_free K s1 r.ret
  else .next s1

/-- Lines 467-472: the cursor must be at the end of the record. -/
def step_end (s : DecSt) : Step DecSt :=
  if s.p ≠ s.end_ then
    fail_free K s (K.MBEDTLS_ERR_X509_INVALID_FORMAT + K.MBEDTLS_ERR_ASN1_LENGTH_MISMATCH)
  else .next s

/-- Statement blocks run one after the other, until one of them returns. -/
def run_steps : List (DecSt → Step DecSt) → DecSt → Step DecSt
  | [], s => .next s
  | f :: fs, s =>
    match f s with
    | .next s1 => run_steps fs s1
    | .ret code w => .ret code w
    | .fault e => .fault e

/-- Lines 303-349 in order: through the version range check. -/
def steps_to_version : List (DecSt → Step DecSt) :=
  [step_outer_seq K E, step_tbs K E, step_version_alg K E, step_version_range K]

/-- Lines 353-401 in order: signature algorithm, issuer and both times. -/
def steps_to_times : List (DecSt → Step DecSt) :=
  [step_sig_alg K E, step_issuer K E, step_this_update K E, step_next_update K E]

/-- Lines 411-437 in order: entries, CRL extensions, end of `tbsCertList`. -/
def steps_to_tbs_end : List (DecSt → Step DecSt) :=
  [step_entries K E, step_crl_ext K E, step_tbs_end K]

/-- Lines 445-472 in order: outer algorithm, comparison, signature, end check. -/
def steps_to_end : List (DecSt → Step DecSt) :=
  [step_outer_alg K E, step_sig_cmp K, step_sig K E, step_end K]

/-- The body of `mbedtls_x509_crl_parse_der` from line 303 to line 472. -/
def decode_steps : List (DecSt → Step DecSt) :=
  steps_to_version K E ++ steps_to_times K E ++ steps_to_tbs_end K E ++ steps_to_end K E

/-- Result of a call: the return value and what the caller can observe. -/
structure Result where
  ret : Int
  world : World
deriving DecidableEq, Repr

/-- The value of a whole function body: falling through all blocks reaches
the final `return( 0 );`. -/
def finish : Step DecSt → Except Fault Result
  | .next s => .ok { ret := 0, world := s.world }
  | .ret code w => .ok { ret := code, world := w }
  | .fault f => .error f

/-- `mbedtls_x509_crl_parse_der( chain, buf, buflen )` run from heap state `h`. -/
def mbedtls_x509_crl_parse_der (chain : List mbedtls_x509_crl) (buf : Option (List Nat))
    (buflen : Nat) (h : Heap) : Except Fault Result :=
  match parse_der_begin K E chain buf buflen h with
  | .next s0 => finish (run_steps (decode_steps K E) s0)
  | .ret code w => .ok { ret := code, world := w }
  | .fault f => .error f

end Code

/-! ## Sample collaborators

A DER reader written in the manner of the ASN.1 and X.509 helper library the
file is linked with, and the usual values of the header constants. They serve
to evaluate the decoder on concrete byte strings; the general theorems hold
for every `Consts` and `Env`. -/

namespace Sample

/-- The usual header values of the constants. -/
def consts : Consts :=
  { MBEDTLS_ERR_ASN1_OUT_OF_DATA := -0x0060
    MBEDTLS_ERR_ASN1_UNEXPECTED_TAG := -0x0062
    MBEDTLS_ERR_ASN1_LENGTH_MISMATCH := -0x0066
    MBEDTLS_ERR_X509_INVALID_FORMAT := -0x2180
    MBEDTLS_ERR_X509_INVALID_VERSION := -0x2200
    MBEDTLS_ERR_X509_INVALID_DATE := -0x2400
    MBEDTLS_ERR_X509_INVALID_EXTENSIONS := -0x2500
    MBEDTLS_ERR_X509_UNKNOWN_VERSION := -0x2580
    MBEDTLS_ERR_X509_UNKNOWN_SIG_ALG := -0x2600
    MBEDTLS_ERR_X509_SIG_MISMATCH := -0x2680
    MBEDTLS_ERR_X509_BAD_INPUT_DATA := -0x2800
    MBEDTLS_ERR_X509_ALLOC_FAILED := -0x2880
    MBEDTLS_ASN1_CONSTRUCTED := 0x20
    MBEDTLS_ASN1_SEQUENCE := 0x10
    SIZE_MAX := 2 ^ 64 - 1
    MBEDTLS_X509_RSASSA_PSS_SUPPORT := false }

/-- Error code of the sample reader for an unsupported length form. -/
def ERR_ASN1_INVALID_LENGTH : Int := -0x0064

/-- Error code of the sample reader for malformed content. -/
def ERR_ASN1_INVALID_DATA : Int := -0x0068

/-- Context code of the sample serial reader. -/
def ERR_X509_INVALID_SERIAL : Int := -0x2280

/-- Context code of the sample algorithm reader. -/
def ERR_X509_INVALID_ALG : Int := -0x2300

/-- Context code of the sample name reader. -/
def ERR_X509_INVALID_NAME : Int := -0x2380

/-- Context code of the sample signature reader. -/
def ERR_X509_INVALID_SIGNATURE : Int := -0x2480

/-- The byte at offset `i` (`0` outside the block). -/
def byte (mem : List Nat) (i : Nat) : Nat := mem.getD i 0

/-- Big-endian value of the `n` bytes from offset `i` on. -/
def be_value (mem : List Nat) : (n i acc : Nat) → Nat
  | 0, _, acc => acc
  | n + 1, i, acc => be_value mem n (i + 1) (acc * 256 + byte mem i)

/-- Definite length octets: short form, or long form with one to four octets. -/
def get_len (mem : List Nat) (p end_ : Nat) (len : Nat) : TagRes :=
  if end_ ≤ p then ⟨consts.MBEDTLS_ERR_ASN1_OUT_OF_DATA, p, len⟩
  else
    let b := byte mem p
    if b &&& 0x80 = 0 then
      if b > end_ - (p + 1) then ⟨consts.MBEDTLS_ERR_ASN1_OUT_OF_DATA, p + 1, b⟩
      else ⟨0, p + 1, b⟩
    else
      let n := b &&& 0x7F
      if n = 0 ∨ n > 4 then ⟨ERR_ASN1_INVALID_LENGTH, p, len⟩
      else if end_ - p < n + 1 then ⟨consts.MBEDTLS_ERR_ASN1_OUT_OF_DATA, p, len⟩
      else
        let v := be_value mem n (p + 1) 0
        if v > end_ - (p + 1 + n) then ⟨consts.MBEDTLS_ERR_ASN1_OUT_OF_DATA, p + 1 + n, v⟩
        else ⟨0, p + 1 + n, v⟩

/-- Tag octet, then length octets. -/
def get_tag (mem : List Nat) (p end_ : Nat) (len : Nat) (tag : Int) : TagRes :=
  if end_ ≤ p then ⟨consts.MBEDTLS_ERR_ASN1_OUT_OF_DATA, p, len⟩
  else if (byte mem p : Int) ≠ tag then ⟨consts.MBEDTLS_ERR_ASN1_UNEXPECTED_TAG, p, len⟩
  else get_len mem (p + 1) end_ len

/-- INTEGER of one to four content octets, not negative. -/
def get_int (mem : List Nat) (p end_ : Nat) (val : Int) : IntRes :=
  let t := get_tag mem p end_ 0 0x02
  if t.ret ≠ 0 then ⟨t.ret, t.p, val⟩
  else if t.len = 0 ∨ t.len > 4 ∨ byte mem t.p &&& 0x80 ≠ 0 then
    ⟨ERR_ASN1_INVALID_LENGTH, t.p, val⟩
  else ⟨0, t.p + t.len, (be_value mem t.len t.p 0 : Int)⟩

/-- AlgorithmIdentifier: SEQUENCE of an OID and optional parameters. -/
def get_alg_inner (mem : List Nat) (p end_ : Nat) (alg params : mbedtls_x509_buf) : AlgRes :=
  let t := get_tag mem p end_ 0 0x30
  if t.ret ≠ 0 then ⟨t.ret, t.p, alg, params⟩
  else if end_ ≤ t.p then ⟨consts.MBEDTLS_ERR_ASN1_OUT_OF_DATA, t.p, alg, params⟩
  else
    let alg1 : mbedtls_x509_buf := { alg with tag := (byte mem t.p : Int) }
    let end1 := t.p + t.len
    let o := get_tag mem t.p end1 alg1.len 0x06
    let alg2 : mbedtls_x509_buf := { alg1 with len := o.len }
    if o.ret ≠ 0 then ⟨o.ret, o.p, alg2, params⟩
    else
      let alg3 : mbedtls_x509_buf := { alg2 with p := some o.p }
      let p1 := o.p + alg3.len
      if p1 = end1 then ⟨0, p1, alg3, zero_buf⟩
      else
        let params1 : mbedtls_x509_buf := { params with tag := (byte mem p1 : Int) }
        let l := get_len mem (p1 + 1) end1 params1.len
        let params2 : mbedtls_x509_buf := { params1 with len := l.len }
        if l.ret ≠ 0 then ⟨l.ret, l.p, alg3, params2⟩
        else
          let params3 : mbedtls_x509_buf := { params2 with p := some l.p }
          if l.p + params3.len ≠ end1 then
            ⟨consts.MBEDTLS_ERR_ASN1_LENGTH_MISMATCH, l.p + params3.len, alg3, params3⟩
          else ⟨0, l.p + params3.len, alg3, params3⟩

/-- AlgorithmIdentifier with the X.509 context code added on failure. -/
def get_alg (mem : List Nat) (p end_ : Nat) (alg params : mbedtls_x509_buf) : AlgRes :=
  let r := get_alg_inner mem p end_ alg params
  if r.ret ≠ 0 then { r with ret := ERR_X509_INVALID_ALG + r.ret } else r

/-- The bytes of a span (`[]` for a null span). -/
def span_bytes (mem : List Nat) (b : mbedtls_x509_buf) : List Nat :=
  match b.p with
  | none => []
  | some a => (mem.drop a).take b.len

/-- Content octets of the OID sha256WithRSAEncryption (1.2.840.113549.1.1.11). -/
def oid_sha256_rsa : List Nat := [0x2A, 0x86, 0x48, 0x86, 0xF7, 0x0D, 0x01, 0x01, 0x0B]

/-- Content octets of the OID sha1WithRSAEncryption (1.2.840.113549.1.1.5). -/
def oid_sha1_rsa : List Nat := [0x2A, 0x86, 0x48, 0x86, 0xF7, 0x0D, 0x01, 0x01, 0x05]

/-- Registry look-up for two RSA signature algorithms; their parameters must
be absent or an empty NULL. -/
def get_sig_alg (mem : List Nat) (sig_oid sig_params : mbedtls_x509_buf)
    (md_alg pk_alg : Int) (sig_opts : Option Nat) : SigAlgRes :=
  if sig_opts ≠ none then ⟨consts.MBEDTLS_ERR_X509_BAD_INPUT_DATA, md_alg, pk_alg, sig_opts⟩
  else
    let o := span_bytes mem sig_oid
    let md : Int := if o = oid_sha256_rsa then 6 else if o = oid_sha1_rsa then 4 else 0
    if md = 0 then ⟨consts.MBEDTLS_ERR_X509_UNKNOWN_SIG_ALG - 0x002E, md_alg, pk_alg, sig_opts⟩
    else if (sig_params.tag ≠ 0x05 ∧ sig_params.tag ≠ 0) ∨ sig_params.len ≠ 0 then
      ⟨ERR_X509_INVALID_ALG, md, 1, sig_opts⟩
    else ⟨0, md, 1, sig_opts⟩

/-- Name: a non-empty run of SETs up to `end`; the content of each SET is
kept whole as one name node. -/
def get_name_loop (mem : List Nat) (end_ : Nat) : (fuel p : Nat) →
    (done : List mbedtls_x509_name) → Int × Nat × List mbedtls_x509_name
  | 0, p, done => (ERR_X509_INVALID_NAME, p, done)
  | fuel + 1, p, done =>
    let t := get_tag mem p end_ 0 0x31
    if t.ret ≠ 0 then (ERR_X509_INVALID_NAME + t.ret, t.p, done)
    else
      let node : mbedtls_x509_name := ⟨(mem.drop t.p).take t.len⟩
      if t.p + t.len = end_ then (0, t.p + t.len, done ++ [node])
      else get_name_loop mem end_ fuel (t.p + t.len) (done ++ [node])

/-- Name reader: the first node is written in place, the others are linked. -/
def get_name (mem : List Nat) (p end_ : Nat) (cur : mbedtls_x509_name)
    (next : List mbedtls_x509_name) : NameRes :=
  match get_name_loop mem end_ (end_ - p + 1) p [] with
  | (ret, p1, []) => ⟨ret, p1, cur, next⟩
  | (ret, p1, n :: ns) => ⟨ret, p1, n, ns⟩

/-- Value of `n` decimal digit characters from offset `i` on (`none` when one
of them is not a digit). -/
def parse_int (mem : List Nat) : (n i acc : Nat) → Option Nat
  | 0, _, acc => some acc
  | n + 1, i, acc =>
    let c := byte mem i
    if c < 0x30 ∨ 0x39 < c then none else parse_int mem n (i + 1) (acc * 10 + (c - 0x30))

/-- Time: UTCTime `YYMMDDhhmmssZ` or GeneralizedTime `YYYYMMDDhhmmssZ`. -/
def get_time (mem : List Nat) (p end_ : Nat) (t : mbedtls_x509_time) : TimeRes :=
  if end_ ≤ p then ⟨consts.MBEDTLS_ERR_X509_INVALID_DATE + consts.MBEDTLS_ERR_ASN1_OUT_OF_DATA, p, t⟩
  else
    let tag := byte mem p
    if tag ≠ 0x17 ∧ tag ≠ 0x18 then
      ⟨consts.MBEDTLS_ERR_X509_INVALID_DATE + consts.MBEDTLS_ERR_ASN1_UNEXPECTED_TAG, p, t⟩
    else
      let ylen := if tag = 0x17 then 2 else 4
      let l := get_len mem (p + 1) end_ 0
      if l.ret ≠ 0 then ⟨consts.MBEDTLS_ERR_X509_INVALID_DATE + l.ret, l.p, t⟩
      else if l.len ≠ ylen + 11 ∨ byte mem (l.p + ylen + 10) ≠ 0x5A then
        ⟨consts.MBEDTLS_ERR_X509_INVALID_DATE, l.p, t⟩
      else
        match parse_int mem ylen l.p 0, parse_int mem 2 (l.p + ylen) 0,
              parse_int mem 2 (l.p + ylen + 2) 0, parse_int mem 2 (l.p + ylen + 4) 0,
              parse_int mem 2 (l.p + ylen + 6) 0, parse_int mem 2 (l.p + ylen + 8) 0 with
        | some y, some mo, some d, some h, some mi, some sc =>
          let year := if ylen = 2 then (if y < 50 then y + 2000 else y + 1900) else y
          ⟨0, l.p + l.len, ⟨year, mo, d, h, mi, sc⟩⟩
        | _, _, _, _, _, _ => ⟨consts.MBEDTLS_ERR_X509_INVALID_DATE, l.p, t⟩

/-- Serial number: an INTEGER (or `[2]` primitive) taken as a span. -/
def get_serial (mem : List Nat) (p end_ : Nat) (serial : mbedtls_x509_buf) : BufRes :=
  if end_ ≤ p then ⟨ERR_X509_INVALID_SERIAL + consts.MBEDTLS_ERR_ASN1_OUT_OF_DATA, p, serial⟩
  else if byte mem p ≠ 0x82 ∧ byte mem p ≠ 0x02 then
    ⟨ERR_X509_INVALID_SERIAL + consts.MBEDTLS_ERR_ASN1_UNEXPECTED_TAG, p, serial⟩
  else
    let s1 : mbedtls_x509_buf := { serial with tag := (byte mem p : Int) }
    let l := get_len mem (p + 1) end_ s1.len
    let s2 : mbedtls_x509_buf := { s1 with len := l.len }
    if l.ret ≠ 0 then ⟨ERR_X509_INVALID_SERIAL + l.ret, l.p, s2⟩
    else ⟨0, l.p + s2.len, { s2 with p := some l.p }⟩

/-- Extensions wrapper: explicit tag `[tag]` around one SEQUENCE that fills it. -/
def get_ext (mem : List Nat) (p end_ : Nat) (ext : mbedtls_x509_buf) (tag : Int) : BufRes :=
  if p = end_ then ⟨0, p, ext⟩
  else
    let e1 : mbedtls_x509_buf := { ext with tag := (byte mem p : Int) }
    let t := get_tag mem p end_ e1.len (0xA0 + tag)
    let e2 : mbedtls_x509_buf := { e1 with len := t.len }
    if t.ret ≠ 0 then ⟨t.ret, t.p, e2⟩
    else
      let e3 : mbedtls_x509_buf := { e2 with p := some t.p }
      let end1 := t.p + e3.len
      let q := get_tag mem t.p end1 0 0x30
      if q.ret ≠ 0 then ⟨consts.MBEDTLS_ERR_X509_INVALID_EXTENSIONS + q.ret, q.p, e3⟩
      else if end1 ≠ q.p + q.len then
        ⟨consts.MBEDTLS_ERR_X509_INVALID_EXTENSIONS + consts.MBEDTLS_ERR_ASN1_LENGTH_MISMATCH,
         q.p, e3⟩
      else ⟨0, q.p, e3⟩

/-- Signature: a BIT STRING without unused bits, taken as a span. -/
def get_sig (mem : List Nat) (p end_ : Nat) (sig : mbedtls_x509_buf) : BufRes :=
  if end_ ≤ p then ⟨ERR_X509_INVALID_SIGNATURE + consts.MBEDTLS_ERR_ASN1_OUT_OF_DATA, p, sig⟩
  else
    let s1 : mbedtls_x509_buf := { sig with tag := (byte mem p : Int) }
    let t := get_tag mem p end_ 0 0x03
    if t.ret ≠ 0 then ⟨ERR_X509_INVALID_SIGNATURE + t.ret, t.p, s1⟩
    else if t.len < 2 ∨ byte mem t.p ≠ 0 then
      ⟨ERR_X509_INVALID_SIGNATURE + ERR_ASN1_INVALID_DATA, t.p + 1, s1⟩
    else ⟨0, t.p + t.len, { s1 with len := t.len - 1, p := some (t.p + 1) }⟩

/-- The sample collaborators; every allocation request is granted. -/
def env : Env :=
  { mbedtls_asn1_get_tag := get_tag
    mbedtls_asn1_get_int := get_int
    mbedtls_x509_get_alg := get_alg
    mbedtls_x509_get_sig_alg := get_sig_alg
    mbedtls_x509_get_name := get_name
    mbedtls_x509_get_time := get_time
    mbedtls_x509_get_serial := get_serial
    mbedtls_x509_get_ext := get_ext
    mbedtls_x509_get_sig := get_sig
    calloc_ok := fun _ => true }

end Sample


/-! ## `mbedtls_x509_crl_parse` -/

/-- Result of `mbedtls_pem_read_buffer`: return code, the fields `buf` and
`buflen` of the context, and `*use_len` after the call. -/
structure PemRes where
  ret : Int
  buf : Option (List Nat)
  buflen : Nat
  use_len : Nat
deriving DecidableEq, Repr

/-- The PEM module as `x509_crl.c` sees it: whether `MBEDTLS_PEM_PARSE_C` is
defined, the error constant, and the reader. The reader receives the two marker
strings, the bytes from `data` on (it is given no length: it reads up to the
terminating NUL), the password arguments and the current value of `*use_len`;
the context it writes was zeroed by `mbedtls_pem_init` just before. The blocks
that the PEM module allocates and releases are its own and are not counted in
`Heap`. -/
structure Pem where
  MBEDTLS_PEM_PARSE_C : Bool
  MBEDTLS_ERR_PEM_NO_HEADER_FOOTER_PRESENT : Int
  mbedtls_pem_read_buffer : (header footer data : List Nat) → (pwd : Option (List Nat)) →
    (pwdlen : Nat) → (use_len : Nat) → PemRes

/-- The string literal `"-----BEGIN X509 CRL-----"`. -/
def pem_begin : List Nat := "-----BEGIN X509 CRL-----".toList.map Char.toNat

/-- The string literal `"-----END X509 CRL-----"`. -/
def pem_end : List Nat := "-----END X509 CRL-----".toList.map Char.toNat

/-- Local state of `mbedtls_x509_crl_parse`: the chain and the heap as the
caller sees them, the bytes from the pointer `buf` on, and the locals. -/
structure ParseSt where
  chain : List mbedtls_x509_crl
  heap : Heap
  buf : List Nat
  buflen : Nat
  ret : Int
  use_len : Nat
  is_pem : Bool
deriving DecidableEq, Repr

section Parse

variable (K : Consts) (E : Env) (P : Pem)

/-- Lines 497-503: the value given to `ret` before `if( ret == 0 )`, with what
the reader wrote. `buf[buflen - 1]` is not read when `buflen == 0`. -/
def read_envelope (s : ParseSt) : Except Fault PemRes :=
  if s.buflen = 0 then
    .ok { ret := P.MBEDTLS_ERR_PEM_NO_HEADER_FOOTER_PRESENT, buf := none, buflen := 0,
          use_len := s.use_len }
  else
    match s.buf[s.buflen - 1]? with
    | none => .error .out_of_bounds
    | some c =>
      if c ≠ 0 then
        .ok { ret := P.MBEDTLS_ERR_PEM_NO_HEADER_FOOTER_PRESENT, buf := none, buflen := 0,
              use_len := s.use_len }
      else .ok (P.mbedtls_pem_read_buffer pem_begin pem_end s.buf none 0 s.use_len)

/-- Lines 493-526: one execution of the body of the `do ... while` loop. -/
def parse_round (s : ParseSt) : Step ParseSt :=
  match read_envelope P s with
  | .error f => .fault f
  | .ok r =>
    if r.ret = 0 then
      let s1 := { s with is_pem := true, use_len := r.use_len,
                         buflen := size_of_diff K s.buflen r.use_len,
                         buf := s.buf.drop r.use_len }
      match mbedtls_x509_crl_parse_der K E s1.chain r.buf r.buflen s1.heap with
      | .error f => .fault f
      | .ok d =>
        if d.ret ≠ 0 then .ret d.ret d.world
        else .next { s1 with ret := d.ret, chain := d.world.chain, heap := d.world.heap }
    else if s.is_pem then .ret r.ret { chain := s.chain, heap := s.heap }
    else .next { s with ret := r.ret, use_len := r.use_len }

/-- The loop `do ... while( is_pem && buflen > 1 )`. The fuel bounds the number
of rounds; `buflen + 1` is enough whenever every successful round uses at least
one byte and no more than `buflen`. -/
def parse_loop : (fuel : Nat) → ParseSt → Step ParseSt
  | 0, _ => .fault .out_of_fuel
  | fuel + 1, s =>
    match parse_round K E P s with
    | .next s1 => if s1.is_pem = true ∧ s1.buflen > 1 then parse_loop fuel s1 else .next s1
    | .ret code w => .ret code w
    | .fault f => .fault f

/-- `mbedtls_x509_crl_parse( chain, buf, buflen )` run from heap state `h`.
The locals `ret` and `use_len` are not initialised by the C code; the model
starts them at `0`. Without `MBEDTLS_PEM_PARSE_C` the function is the call of
`mbedtls_x509_crl_parse_der` alone. -/
def mbedtls_x509_crl_parse (chain : List mbedtls_x509_crl) (buf : Option (List Nat))
    (buflen : Nat) (h : Heap) : Except Fault Result :=
  if P.MBEDTLS_PEM_PARSE_C then
    match chain, buf with
    | [], _ => .ok { ret := K.MBEDTLS_ERR_X509_BAD_INPUT_DATA, world := { chain := chain, heap := h } }
    | _ :: _, none =>
      .ok { ret := K.MBEDTLS_ERR_X509_BAD_INPUT_DATA, world := { chain := chain, heap := h } }
    | _ :: _, some b =>
      match parse_loop K E P (buflen + 1)
          { chain := chain, heap := h, buf := b, buflen := buflen, ret := 0, use_len := 0,
            is_pem := false } with
      | .next s =>
        if s.is_pem then .ok { ret := 0, world := { chain := s.chain, heap := s.heap } }
        else mbedtls_x509_crl_parse_der K E s.chain (some s.buf) s.buflen s.heap
      | .ret code w => .ok { ret := code, world := w }
      | .fault f => .error f
  else mbedtls_x509_crl_parse_der K E chain buf buflen h

end Parse

/-! ## Sample envelope reader

Written in the manner of the PEM reader the file is linked with, without
encrypted payloads. It serves the same purpose as the sample collaborators. -/

namespace Sample

/-- Whether `pat` is at the start of `data`. -/
def starts_with : (pat data : List Nat) → Bool
  | [], _ => true
  | _ :: _, [] => false
  | a :: as, d :: ds => a == d && starts_with as ds

/-- Index of the first place at or behind `i` where `pat` occurs, as `strstr`. -/
def find_sub (pat : List Nat) : (data : List Nat) → (i : Nat) → Option Nat
  | [], i => if pat = [] then some i else none
  | c :: cs, i => if starts_with pat (c :: cs) then some i else find_sub pat cs (i + 1)

/-- Value of a Base64 digit. -/
def b64_val (c : Nat) : Option Nat :=
  if 65 ≤ c ∧ c ≤ 90 then some (c - 65)
  else if 97 ≤ c ∧ c ≤ 122 then some (c - 71)
  else if 48 ≤ c ∧ c ≤ 57 then some (c + 4)
  else if c = 43 then some 62
  else if c = 47 then some 63
  else none

/-- Base64 groups of four digits, the last one possibly padded with `=`. -/
def b64_groups : List Nat → Option (List Nat)
  | [] => some []
  | a :: b :: c :: d :: rest =>
    match b64_val a, b64_val b with
    | some x, some y =>
      if d = 61 then
        if rest ≠ [] then none
        else if c = 61 then some [(x * 4 + y / 16) % 256]
        else
          match b64_val c with
          | some z => some [(x * 4 + y / 16) % 256, (y * 16 + z / 4) % 256]
          | none => none
      else
        match b64_val c, b64_val d, b64_groups rest with
        | some z, some w, some tl =>
          some ((x * 4 + y / 16) % 256 :: (y * 16 + z / 4) % 256 :: (z * 64 + w) % 256 :: tl)
        | _, _, _ => none
    | _, _ => none
  | _ => none

/-- Base64 text with line ends skipped. -/
def b64_decode (text : List Nat) : Option (List Nat) :=
  b64_groups (text.filter (fun c => c ≠ 10 ∧ c ≠ 13))

/-- The index behind an optional character `c` at index `i`. -/
def skip_char (str : List Nat) (c i : Nat) : Nat :=
  if str[i]? = some c then i + 1 else i

/-- The value of `MBEDTLS_ERR_PEM_INVALID_DATA`. -/
def ERR_PEM_INVALID_DATA : Int := -0x1100

/-- The value of `MBEDTLS_ERR_BASE64_INVALID_CHARACTER`. -/
def ERR_BASE64_INVALID_CHARACTER : Int := -0x002C

/-- The envelope reader: markers located as `strstr` does, line end behind the
begin marker required, `*use_len` set to the index behind the end marker and
its line end, payload decoded from Base64. -/
def pem_read_buffer (header footer data : List Nat) (_pwd : Option (List Nat))
    (_pwdlen : Nat) (use_len : Nat) : PemRes :=
  let str := data.takeWhile (fun c => c ≠ 0)
  match find_sub header str 0, find_sub footer str 0 with
  | some s1, some s2 =>
    if s2 ≤ s1 then ⟨-0x1080, none, 0, use_len⟩
    else
      let a := skip_char str 13 (skip_char str 32 (s1 + header.length))
      if str[a]? ≠ some 10 then ⟨-0x1080, none, 0, use_len⟩
      else
        let e := skip_char str 10 (skip_char str 13 (skip_char str 32 (s2 + footer.length)))
        if s2 ≤ a + 1 then ⟨ERR_PEM_INVALID_DATA, none, 0, e⟩
        else
          match b64_decode ((str.take s2).drop (a + 1)) with
          | none => ⟨ERR_PEM_INVALID_DATA + ERR_BASE64_INVALID_CHARACTER, none, 0, e⟩
          | some bytes => ⟨0, some bytes, bytes.length, e⟩
  | _, _ => ⟨-0x1080, none, 0, use_len⟩

/-- The PEM module compiled in, with the usual value of its error constant. -/
def pem : Pem :=
  { MBEDTLS_PEM_PARSE_C := true
    MBEDTLS_ERR_PEM_NO_HEADER_FOOTER_PRESENT := -0x1080
    mbedtls_pem_read_buffer := pem_read_buffer }

/-- The sample collaborators with an allocator that grants the first `n`
requests and refuses the following ones. -/
def env_allocs (n : Nat) : Env := { env with calloc_ok := fun k => decide (k < n) }

end Sample
/-! ## Sample inputs -/

namespace Sample

/-- The state in which the decoding of `b` starts when the chain is a single
empty node and no allocation was made before. -/
def start (b : List Nat) : DecSt :=
  { pre := [], crl := { zero_crl with raw_p := some b, raw_len := b.length }, post := [],
    heap := ⟨1, 0⟩, mem := b, p := 0, end_ := b.length, len := 0, ret := 0,
    sig_params1 := zero_buf, sig_params2 := zero_buf, sig_oid2 := zero_buf }

/-- AlgorithmIdentifier for an RSA signature OID `1.2.840.113549.1.1.x` whose
last octet is `oid_last`, with empty parameters of tag `ptag`. -/
def alg_id (oid_last ptag : Nat) : List Nat :=
  [0x30, 0x0D, 0x06, 0x09, 0x2A, 0x86, 0x48, 0x86, 0xF7, 0x0D, 0x01, 0x01, oid_last, ptag, 0x00]

/-- Issuer name with the single component `CN=A`. -/
def issuer_cn_a : List Nat :=
  [0x30, 0x0C, 0x31, 0x0A, 0x30, 0x08, 0x06, 0x03, 0x55, 0x04, 0x03, 0x0C, 0x01, 0x41]

/-- UTCTime `YYMM01000000Z` with the given digit characters for the year and month. -/
def utc (y1 y2 m1 m2 : Nat) : List Nat :=
  [0x17, 0x0D, y1, y2, m1, m2, 0x30, 0x31, 0x30, 0x30, 0x30, 0x30, 0x30, 0x30, 0x5A]

/-- Signature BIT STRING with two content octets. -/
def sig_bits : List Nat := [0x03, 0x03, 0x00, 0xAA, 0xBB]

/-- Fields of a `tbsCertList` from the signature algorithm to `nextUpdate`:
sha256WithRSAEncryption, `CN=A`, January 2024, January 2025. -/
def tbs_fields : List Nat :=
  alg_id 0x0B 0x05 ++ issuer_cn_a ++ utc 0x32 0x34 0x30 0x31 ++ utc 0x32 0x35 0x30 0x31

/-- A list without version and without entries: outer header declaring
`outer_len` bytes, `tbsCertList`, then the outer algorithm identifier with last
OID octet `oid_last` and parameter tag `ptag`, then the signature. -/
def crl_v1 (outer_len oid_last ptag : Nat) : List Nat :=
  [0x30, outer_len, 0x30, 0x3B] ++ tbs_fields ++ alg_id oid_last ptag ++ sig_bits

/-- A well-formed version 1 list without entries (83 bytes). -/
def crl_ok_v1 : List Nat := crl_v1 0x51 0x0B 0x05

/-- The list `crl_ok_v1` with an outer SEQUENCE that declares `0x50` bytes
while `0x51` bytes follow the header. -/
def crl_short_outer : List Nat := crl_v1 0x50 0x0B 0x05

/-- The list `crl_ok_v1` with one octet changed: the parameters of the outer
algorithm identifier are `0C 00` instead of `05 00`. -/
def crl_param_tag : List Nat := crl_v1 0x51 0x0B 0x0C

/-- The list `crl_ok_v1` with one octet changed: the outer OID is
sha1WithRSAEncryption instead of sha256WithRSAEncryption. -/
def crl_oid_mismatch : List Nat := crl_v1 0x51 0x05 0x05

/-- One revoked entry without extensions: serial number `serial`, revoked on
the first day of month `m1 m2` (digit characters) of 2024. -/
def entry_rec (serial m1 m2 : Nat) : List Nat :=
  [0x30, 0x12, 0x02, 0x01, serial] ++ utc 0x32 0x34 m1 m2

/-- A `revokedCertificates` SEQUENCE with two entries (42 bytes). -/
def revoked_two : List Nat := [0x30, 0x28] ++ entry_rec 0x05 0x30 0x32 ++ entry_rec 0x06 0x30 0x33

/-- The first entry of `revoked_two` as decoded. -/
def revoked_two_first : mbedtls_x509_crl_entry :=
  { raw := ⟨0x02, 18, some 4⟩, serial := ⟨0x02, 1, some 6⟩,
    revocation_date := ⟨2024, 2, 1, 0, 0, 0⟩, entry_ext := zero_buf }

/-- The second entry of `revoked_two` as decoded. -/
def revoked_two_second : mbedtls_x509_crl_entry :=
  { raw := ⟨0x02, 18, some 24⟩, serial := ⟨0x02, 1, some 26⟩,
    revocation_date := ⟨2024, 3, 1, 0, 0, 0⟩, entry_ext := zero_buf }
/-- A list whose version INTEGER holds 2 and is followed by `05 00`, which is
not an algorithm identifier (9 bytes). -/
def crl_version2_bad_alg : List Nat := [0x30, 0x07, 0x30, 0x05, 0x02, 0x01, 0x02, 0x05, 0x00]

/-- A list whose version INTEGER holds 2 and is followed by a well-formed
algorithm identifier, where `tbsCertList` ends (22 bytes). -/
def crl_version2 : List Nat := [0x30, 0x14, 0x30, 0x12, 0x02, 0x01, 0x02] ++ alg_id 0x0B 0x05

/-- A well-formed version 1 list without `nextUpdate` and without entries
(68 bytes). -/
def crl_no_next_update : List Nat :=
  [0x30, 0x42, 0x30, 0x2C] ++ alg_id 0x0B 0x05 ++ issuer_cn_a ++ utc 0x32 0x34 0x30 0x31 ++
    alg_id 0x0B 0x05 ++ sig_bits

/-- A list without version whose `tbsCertList` ends with a `crlExtensions`
block `A0 04 30 02 30 00` (89 bytes). -/
def crl_v1_with_ext : List Nat :=
  [0x30, 0x57, 0x30, 0x41] ++ tbs_fields ++ [0xA0, 0x04, 0x30, 0x02, 0x30, 0x00] ++
    alg_id 0x0B 0x05 ++ sig_bits

/-- The list `crl_ok_v1` with one more byte inside the outer SEQUENCE, behind
the signature (84 bytes). -/
def crl_trailing_byte : List Nat :=
  [0x30, 0x52, 0x30, 0x3B] ++ tbs_fields ++ alg_id 0x0B 0x05 ++ sig_bits ++ [0x00]

/-- A list without version (stored version 1) with one revoked entry that
carries the per-entry extensions `30 02 30 00` (109 bytes). -/
def crl_v1_entry_ext : List Nat :=
  [0x30, 0x6B, 0x30, 0x55] ++ tbs_fields ++
    [0x30, 0x18, 0x30, 0x16, 0x02, 0x01, 0x07] ++ utc 0x32 0x34 0x30 0x32 ++
    [0x30, 0x02, 0x30, 0x00] ++ alg_id 0x0B 0x05 ++ sig_bits

/-- The entry of `crl_v1_entry_ext` as decoded. -/
def entry_with_ext : mbedtls_x509_crl_entry :=
  { raw := ⟨0x02, 22, some 67⟩, serial := ⟨0x02, 1, some 69⟩,
    revocation_date := ⟨2024, 2, 1, 0, 0, 0⟩, entry_ext := ⟨0x30, 2, some 85⟩ }

/-- The text of a wrapped record: begin marker, one line of Base64, end marker. -/
def wrap (b64 : String) : List Nat :=
  ("-----BEGIN X509 CRL-----\n" ++ b64 ++ "\n-----END X509 CRL-----\n").toList.map Char.toNat

/-- The record `crl_ok_v1`, wrapped (161 bytes). -/
def pem_ok_v1 : List Nat :=
  wrap ("MFEwOzANBgkqhkiG9w0BAQsFADAMMQowCAYDVQQDDAFBFw0yNDAxMDEwMDAwMDBaFw0yNTAx" ++
    "MDEwMDAwMDBaMA0GCSqGSIb3DQEBCwUAAwMAqrs=")

/-- The record `crl_no_next_update`, wrapped (141 bytes). -/
def pem_no_next_update : List Nat :=
  wrap ("MEIwLDANBgkqhkiG9w0BAQsFADAMMQowCAYDVQQDDAFBFw0yNDAxMDEwMDAwMDBaMA0GCSqG" ++
    "SIb3DQEBCwUAAwMAqrs=")

/-- Two wrapped records one behind the other and the terminating NUL (303 bytes). -/
def pem_two : List Nat := pem_ok_v1 ++ pem_no_next_update ++ [0]

end Sample
/-! ## Notions used in the statements -/

section Notions

variable (K : Consts) (E : Env)

/-- The state in which the `n`-th block of the body (counted from `0`) is
entered, when the `n` blocks before it all fall through. -/
def state_before (n : Nat) (s0 : DecSt) : Step DecSt :=
  run_steps ((decode_steps K E).take n) s0

/-- The state carried by an outcome that falls through (`d` for the others). -/
def Step.state_or (d : DecSt) : Step DecSt → DecSt
  | .next s => s
  | .ret _ _ => d
  | .fault _ => d

/-- The result of a run that has one (`d` otherwise). -/
def result_or (d : Result) : Except Fault Result → Result
  | .ok r => r
  | .error _ => d

/-- The return value of a run. -/
def ret_of (r : Except Fault Result) : Except Fault Int := r.map (fun x => x.ret)

end Notions

section SaneCodes

variable (K : Consts) (E : Env)

/-- Every error value that `mbedtls_x509_crl_parse_der` can return differs
from `0`, the value that reports success: the error constants are not `0`, the tag
reader has no failure code that cancels `MBEDTLS_ERR_X509_INVALID_FORMAT`, and
the integer reader has none that cancels `MBEDTLS_ERR_X509_INVALID_VERSION`. -/
structure NonzeroCodes : Prop where
  invalid_format : K.MBEDTLS_ERR_X509_INVALID_FORMAT ≠ 0
  format_length : K.MBEDTLS_ERR_X509_INVALID_FORMAT + K.MBEDTLS_ERR_ASN1_LENGTH_MISMATCH ≠ 0
  unknown_version : K.MBEDTLS_ERR_X509_UNKNOWN_VERSION ≠ 0
  unknown_sig_alg : K.MBEDTLS_ERR_X509_UNKNOWN_SIG_ALG ≠ 0
  sig_mismatch : K.MBEDTLS_ERR_X509_SIG_MISMATCH ≠ 0
  alloc_failed : K.MBEDTLS_ERR_X509_ALLOC_FAILED ≠ 0
  bad_input : K.MBEDTLS_ERR_X509_BAD_INPUT_DATA ≠ 0
  format_tag : ∀ mem p end_ len tag,
    K.MBEDTLS_ERR_X509_INVALID_FORMAT + (E.mbedtls_asn1_get_tag mem p end_ len tag).ret ≠ 0
  version_int : ∀ mem p end_ val,
    K.MBEDTLS_ERR_X509_INVALID_VERSION + (E.mbedtls_asn1_get_int mem p end_ val).ret ≠ 0

end SaneCodes

section Compare

/-- Whether a read has a value. -/
def is_ok {α : Type} : Except Fault α → Bool
  | .ok _ => true
  | .error _ => false

/-- The `n` bytes from `a` on lie inside the record copy. -/
def Readable (mem : List Nat) (a : Option Nat) (n : Nat) : Prop :=
  ∀ i, i < n → is_ok (read_byte mem a i) = true

/-- The `n`-byte strings at `a` and at `b` differ in some position. -/
def BytesDiffer (mem : List Nat) (a b : Option Nat) (n : Nat) : Prop :=
  ∃ i, i < n ∧ read_byte mem a i ≠ read_byte mem b i

instance (mem : List Nat) (a : Option Nat) (n : Nat) : Decidable (Readable mem a n) := by
  unfold Readable; infer_instance

instance (mem : List Nat) (a b : Option Nat) (n : Nat) : Decidable (BytesDiffer mem a b n) := by
  unfold BytesDiffer; infer_instance

/-- The condition of claim C3 on the state in which the comparison is made:
the OID lengths differ, or the OID bytes differ, or the parameter lengths
differ, or the parameter lengths are equal and not zero and the parameter
bytes differ. -/
def AlgsDiffer (s : DecSt) : Prop :=
  s.crl.sig_oid.len ≠ s.sig_oid2.len ∨
  BytesDiffer s.mem s.crl.sig_oid.p s.sig_oid2.p s.crl.sig_oid.len ∨
  s.sig_params1.len ≠ s.sig_params2.len ∨
  (s.sig_params1.len = s.sig_params2.len ∧ s.sig_params1.len ≠ 0 ∧
    BytesDiffer s.mem s.sig_params1.p s.sig_params2.p s.sig_params1.len)

/-- The four spans that the comparison reads lie inside the record copy. -/
def SpansReadable (s : DecSt) : Prop :=
  Readable s.mem s.crl.sig_oid.p s.crl.sig_oid.len ∧
  Readable s.mem s.sig_oid2.p s.sig_oid2.len ∧
  Readable s.mem s.sig_params1.p s.sig_params1.len ∧
  Readable s.mem s.sig_params2.p s.sig_params2.len

instance (s : DecSt) : Decidable (AlgsDiffer s) := by
  unfold AlgsDiffer; infer_instance

instance (s : DecSt) : Decidable (SpansReadable s) := by
  unfold SpansReadable; infer_instance

end Compare

section Entries

variable (K : Consts) (E : Env)

end Entries


/-! ## Sample chains -/

namespace Sample

/-- The outcome of decoding `crl_ok_v1` into a chain that is one empty node. -/
def first_call : Result :=
  result_or ⟨1, ⟨[], ⟨0, 0⟩⟩⟩
    (mbedtls_x509_crl_parse_der consts env [zero_crl] (some crl_ok_v1) 83 ⟨0, 0⟩)

end Sample

/-! ## Wrapped records -/

section Envelopes

variable (K : Consts) (E : Env) (P : Pem)

/-- The payloads `(buf, buflen)` decoded one after the other, each by one call
of `mbedtls_x509_crl_parse_der` on the chain that the calls before it left, up
to the first call that does not return `0`. -/
def decode_all : World → List (Option (List Nat) × Nat) → Except Fault Result
  | w, [] => .ok { ret := 0, world := w }
  | w, x :: rest =>
    match mbedtls_x509_crl_parse_der K E w.chain x.1 x.2 w.heap with
    | .error f => .error f
    | .ok d => if d.ret ≠ 0 then .ok d else decode_all d.world rest

/-- The `buflen` bytes at `buf` are wrapped records one behind the other and
then the terminating NUL alone: the last byte is `0`; the envelope reader,
called at `buf`, returns `0`, gives the first payload and uses at least one
byte and fewer than `buflen`; the bytes behind the ones it used hold the
remaining records in the same way; behind the last record one byte is left. -/
def HoldsRecords : List (Option (List Nat) × Nat) → (buf : List Nat) → (buflen use_len : Nat) →
    Prop
  | [], _, buflen, _ => buflen = 1
  | x :: rest, buf, buflen, use_len =>
    0 < buflen ∧ buf[buflen - 1]? = some 0 ∧
    (P.mbedtls_pem_read_buffer pem_begin pem_end buf none 0 use_len).ret = 0 ∧
    (P.mbedtls_pem_read_buffer pem_begin pem_end buf none 0 use_len).buf = x.1 ∧
    (P.mbedtls_pem_read_buffer pem_begin pem_end buf none 0 use_len).buflen = x.2 ∧
    1 ≤ (P.mbedtls_pem_read_buffer pem_begin pem_end buf none 0 use_len).use_len ∧
    (P.mbedtls_pem_read_buffer pem_begin pem_end buf none 0 use_len).use_len < buflen ∧
    HoldsRecords rest
      (buf.drop (P.mbedtls_pem_read_buffer pem_begin pem_end buf none 0 use_len).use_len)
      (buflen - (P.mbedtls_pem_read_buffer pem_begin pem_end buf none 0 use_len).use_len)
      (P.mbedtls_pem_read_buffer pem_begin pem_end buf none 0 use_len).use_len

end Envelopes

/-! ## Sample inputs with extensions -/

namespace Sample

/-- A version 2 list whose `tbsCertList` holds, behind the `crlExtensions`
block `A0 04 30 02 30 00`, two more bytes `30 00` (94 bytes). -/
def crl_v2_ext_trailing : List Nat :=
  [0x30, 0x5C, 0x30, 0x46, 0x02, 0x01, 0x01] ++ tbs_fields ++
    [0xA0, 0x04, 0x30, 0x02, 0x30, 0x00, 0x30, 0x00] ++ alg_id 0x0B 0x05 ++ sig_bits

end Sample

/-! ## `mbedtls_x509_crl_info` -/

/-- Result of a function that writes text into the output buffer: its return
value and the bytes of the buffer after the call. -/
structure WriteRes where
  ret : Int
  out : List Nat
deriving DecidableEq, Repr

/-- An argument of `snprintf` behind the format string. -/
inductive FmtArg where
  | str (s : List Nat)
  | int (v : Int)
deriving DecidableEq, Repr

/-- The text functions called by `mbedtls_x509_crl_info` that are defined
elsewhere, and the error constant of the renderer. Each function receives the
bytes of the output buffer, the offset `p` at which it writes and the capacity
`n` it may use; the record copy `mem` stands for the bytes that the spans of
the record point to. -/
structure Txt where
  MBEDTLS_ERR_X509_BUFFER_TOO_SMALL : Int
  INT_MAX : Nat
  snprintf : (out : List Nat) → (p n : Nat) → (fmt : List Nat) → (args : List FmtArg) →
    WriteRes
  mbedtls_x509_dn_gets : (out : List Nat) → (p n : Nat) → (dn : mbedtls_x509_name) →
    (next : List mbedtls_x509_name) → WriteRes
  mbedtls_x509_serial_gets : (out : List Nat) → (p n : Nat) → (mem : Option (List Nat)) →
    (serial : mbedtls_x509_buf) → WriteRes
  mbedtls_x509_sig_alg_gets : (out : List Nat) → (p n : Nat) → (mem : Option (List Nat)) →
    (sig_oid : mbedtls_x509_buf) → (pk_alg md_alg : Int) → (sig_opts : Option Nat) → WriteRes

/-- Local state of `mbedtls_x509_crl_info`: the bytes of the output buffer, the
offset `p - buf`, the remaining capacity `n` and `ret`. -/
structure InfoSt where
  out : List Nat
  p : Nat
  n : Nat
  ret : Int
deriving DecidableEq, Repr

/-- What `mbedtls_x509_crl_info` leaves: its return value and the bytes of the
output buffer. -/
structure InfoRes where
  ret : Int
  out : List Nat
deriving DecidableEq, Repr

/-- A write step: a function that writes at offset `p` within capacity `n`. -/
abbrev Writer := List Nat → Nat → Nat → WriteRes

/-- The text of a string literal of the source. -/
def c_str (s : String) : List Nat := s.toList.map Char.toNat

section Info

variable (T : Txt)

/-- Modelled from the spec: the macro `MBEDTLS_X509_SAFE_SNPRINTF`, which is
defined in a header that is not among the sources. It runs after every write
step. When the step failed (`ret < 0`) or produced a piece whose length is not
strictly less than the remaining capacity (`ret >= n`), the function returns
`MBEDTLS_ERR_X509_BUFFER_TOO_SMALL` at once; otherwise the remaining capacity
goes down and the write position goes up by `ret`. -/
def MBEDTLS_X509_SAFE_SNPRINTF (s : InfoSt) : Except InfoRes InfoSt :=
  if s.ret < 0 ∨ s.n ≤ s.ret.toNat then
    .error { ret := T.MBEDTLS_ERR_X509_BUFFER_TOO_SMALL, out := s.out }
  else .ok { s with n := s.n - s.ret.toNat, p := s.p + s.ret.toNat }

/-- The statement pair `ret = w( p, n, ... ); MBEDTLS_X509_SAFE_SNPRINTF;`. -/
def write_step (w : Writer) (s : InfoSt) : Except InfoRes InfoSt :=
  MBEDTLS_X509_SAFE_SNPRINTF T { s with out := (w s.out s.p s.n).out, ret := (w s.out s.p s.n).ret }

/-- The six `int` arguments printed for a time. -/
def time_args (t : mbedtls_x509_time) : List FmtArg :=
  [.int t.year, .int t.mon, .int t.day, .int t.hour, .int t.min, .int t.sec]

/-- Line 581: the version line. -/
def write_version (pfx : List Nat) (crl : mbedtls_x509_crl) : Writer :=
  fun out p n => T.snprintf out p n (c_str "%sCRL version   : %d") [.str pfx, .int crl.version]

/-- Line 585: the label of the issuer line. -/
def write_issuer_label (pfx : List Nat) : Writer :=
  fun out p n => T.snprintf out p n (c_str "\n%sissuer name   : ") [.str pfx]

/-- Line 587: the issuer name. -/
def write_issuer (crl : mbedtls_x509_crl) : Writer :=
  fun out p n => T.mbedtls_x509_dn_gets out p n crl.issuer crl.issuer_next

/-- Lines 590-594: the `thisUpdate` line. -/
def write_this_update (pfx : List Nat) (crl : mbedtls_x509_crl) : Writer :=
  fun out p n => T.snprintf out p n
    (c_str ("\n%sthis update   : " ++ "%04d-%02d-%02d %02d:%02d:%02d"))
    (.str pfx :: time_args crl.this_update)

/-- Lines 597-601: the `nextUpdate` line. -/
def write_next_update (pfx : List Nat) (crl : mbedtls_x509_crl) : Writer :=
  fun out p n => T.snprintf out p n
    (c_str ("\n%snext update   : " ++ "%04d-%02d-%02d %02d:%02d:%02d"))
    (.str pfx :: time_args crl.next_update)

/-- Lines 606-607: the heading of the entry lines. -/
def write_revoked_label (pfx : List Nat) : Writer :=
  fun out p n => T.snprintf out p n (c_str "\n%sRevoked certificates:") [.str pfx]

/-- Lines 612-613: the label of an entry line. -/
def write_serial_label (pfx : List Nat) : Writer :=
  fun out p n => T.snprintf out p n (c_str "\n%sserial number: ") [.str pfx]

/-- Line 616: the serial number of an entry. -/
def write_serial (mem : Option (List Nat)) (e : mbedtls_x509_crl_entry) : Writer :=
  fun out p n => T.mbedtls_x509_serial_gets out p n mem e.serial

/-- Lines 619-623: the revocation date of an entry. -/
def write_revocation_date (e : mbedtls_x509_crl_entry) : Writer :=
  fun out p n => T.snprintf out p n
    (c_str (" revocation date: " ++ "%04d-%02d-%02d %02d:%02d:%02d"))
    (time_args e.revocation_date)

/-- Line 629: the label of the signature line. -/
def write_signed_label (pfx : List Nat) : Writer :=
  fun out p n => T.snprintf out p n (c_str "\n%ssigned using  : ") [.str pfx]

/-- Lines 632-633: the name of the signature algorithm. -/
def write_sig_alg (crl : mbedtls_x509_crl) : Writer :=
  fun out p n => T.mbedtls_x509_sig_alg_gets out p n crl.raw_p crl.sig_oid crl.sig_pk
    crl.sig_md crl.sig_opts

/-- Line 636: the final line end. -/
def write_newline : Writer :=
  fun out p n => T.snprintf out p n (c_str "\n") []

/-- Lines 610-627: the loop `while( entry != NULL && entry->raw.len != 0 )` over
the list that starts at the embedded entry. -/
def info_entries (pfx : List Nat) (mem : Option (List Nat)) :
    List mbedtls_x509_crl_entry → InfoSt → Except InfoRes InfoSt
  | [], s => .ok s
  | e :: rest, s =>
    if e.raw.len ≠ 0 then
      match write_step T (write_serial_label T pfx) s with
      | .error r => .error r
      | .ok s1 =>
        match write_step T (write_serial T mem e) s1 with
        | .error r => .error r
        | .ok s2 =>
          match write_step T (write_revocation_date T e) s2 with
          | .error r => .error r
          | .ok s3 => info_entries pfx mem rest s3
    else .ok s

/-- Write steps run one after the other, until one of them makes the function
return. -/
def run_writes : List Writer → InfoSt → Except InfoRes InfoSt
  | [], s => .ok s
  | w :: ws, s =>
    match write_step T w s with
    | .error r => .error r
    | .ok s1 => run_writes ws s1

/-- Lines 581-607 in order: the write steps before the entry lines. -/
def info_head (pfx : List Nat) (crl : mbedtls_x509_crl) : List Writer :=
  [write_version T pfx crl, write_issuer_label T pfx, write_issuer T crl,
   write_this_update T pfx crl, write_next_update T pfx crl, write_revoked_label T pfx]

/-- Lines 629-637 in order: the write steps behind the entry lines. -/
def info_tail (pfx : List Nat) (crl : mbedtls_x509_crl) : List Writer :=
  [write_signed_label T pfx, write_sig_alg T crl, write_newline T]

/-- The conversion `(int) x` of a `size_t` value `x`: the value itself when it
is at most `INT_MAX`, and otherwise the value reduced modulo
`2 * (INT_MAX + 1)` into the range of `int`, as two's complement
implementations do. -/
def int_of_size (x : Nat) : Int :=
  if x % (2 * (T.INT_MAX + 1)) ≤ T.INT_MAX then ((x % (2 * (T.INT_MAX + 1)) : Nat) : Int)
  else ((x % (2 * (T.INT_MAX + 1)) : Nat) : Int) - ((2 * (T.INT_MAX + 1) : Nat) : Int)

/-- `mbedtls_x509_crl_info( buf, size, prefix, crl )`, with `buf` the bytes of
the output buffer and `pfx` the string `prefix`. The local `ret` is not
initialised by the C code; the model starts it at `0`. Line 642 returns
`(int) ( size - n )`. -/
def mbedtls_x509_crl_info (buf : List Nat) (size : Nat) (pfx : List Nat)
    (crl : mbedtls_x509_crl) : InfoRes :=
  match run_writes T (info_head T pfx crl) { out := buf, p := 0, n := size, ret := 0 } with
  | .error r => r
  | .ok s1 =>
    match info_entries T pfx crl.raw_p (crl.entry :: crl.entry_next) s1 with
    | .error r => r
    | .ok s2 =>
      match run_writes T (info_tail T pfx crl) s2 with
      | .error r => r
      | .ok s3 => { ret := int_of_size T (size - s3.n), out := s3.out }

end Info

/-! ## Sample text functions

Text functions that follow the C99 rules of `snprintf` (the return value is
the length of the whole text; at most `n - 1` characters and a NUL are stored,
nothing when `n` is `0`). They serve the same purpose as the sample
collaborators. -/

namespace Sample

/-- The text stored at offset `p` of `out` within capacity `n`. -/
def put_text (out : List Nat) (p n : Nat) (text : List Nat) : List Nat :=
  if n = 0 then out
  else out.take p ++ (text.take (n - 1) ++ [0]) ++ out.drop (p + (text.take (n - 1)).length + 1)

/-- Decimal digits of `v`, with zeros in front up to `width` characters. -/
def fmt_int (width : Nat) (v : Int) : List Nat :=
  let digits := (Nat.toDigits 10 v.natAbs).map Char.toNat
  let body := List.replicate (width - digits.length - (if v < 0 then 1 else 0)) 48 ++ digits
  if v < 0 then 45 :: body else body

/-- Expansion of a format with the conversions `%s`, `%d` and `%0wd`. -/
def fmt_text : (fmt : List Nat) → (args : List FmtArg) → List Nat
  | [], _ => []
  | 37 :: 115 :: rest, .str s :: args => s ++ fmt_text rest args
  | 37 :: 100 :: rest, .int v :: args => fmt_int 0 v ++ fmt_text rest args
  | 37 :: 48 :: w :: 100 :: rest, .int v :: args => fmt_int (w - 48) v ++ fmt_text rest args
  | c :: rest, args => c :: fmt_text rest args

/-- The library function `snprintf`. -/
def snprintf (out : List Nat) (p n : Nat) (fmt : List Nat) (args : List FmtArg) : WriteRes :=
  { ret := ((fmt_text fmt args).length : Int), out := put_text out p n (fmt_text fmt args) }

/-- A text function of the library: the text is stored when it fits with its
NUL, otherwise the result is `MBEDTLS_ERR_X509_BUFFER_TOO_SMALL`. -/
def gets (out : List Nat) (p n : Nat) (text : List Nat) : WriteRes :=
  if n ≤ text.length then { ret := -0x2980, out := put_text out p n text }
  else { ret := (text.length : Int), out := put_text out p n text }

/-- Two hexadecimal digits for each byte of a span of the record copy. -/
def hex_span (mem : Option (List Nat)) (b : mbedtls_x509_buf) : List Nat :=
  match mem, b.p with
  | some m, some a =>
    ((m.drop a).take b.len).flatMap (fun x => (Nat.toDigits 16 (256 + x % 256)).tail.map Char.toNat)
  | _, _ => []

/-- The sample text functions, the usual value of the error constant, and an
`int` of 32 bits. -/
def txt : Txt :=
  { MBEDTLS_ERR_X509_BUFFER_TOO_SMALL := -0x2980
    INT_MAX := 2 ^ 31 - 1
    snprintf := snprintf
    mbedtls_x509_dn_gets := fun out p n dn next =>
      gets out p n (dn.data ++ next.flatMap (fun x => [44, 32] ++ x.data))
    mbedtls_x509_serial_gets := fun out p n mem serial => gets out p n (hex_span mem serial)
    mbedtls_x509_sig_alg_gets := fun out p n _ _ pk md _ =>
      gets out p n (c_str "alg " ++ fmt_int 0 pk ++ [47] ++ fmt_int 0 md) }

/-- The node filled from `crl_ok_v1`. -/
def crl_node_ok : mbedtls_x509_crl := first_call.world.chain.headD zero_crl

/-- The node filled from `crl_v1_entry_ext`, which has one entry. -/
def crl_node_entry : mbedtls_x509_crl :=
  (result_or ⟨1, ⟨[], ⟨0, 0⟩⟩⟩ (mbedtls_x509_crl_parse_der consts env [zero_crl]
    (some crl_v1_entry_ext) 109 ⟨0, 0⟩)).world.chain.headD zero_crl

end Sample

/-! ## Notions used in the statements about the renderer -/

section InfoNotions

variable (T : Txt)

/-- The write steps of one entry line. -/
def entry_writes (pfx : List Nat) (mem : Option (List Nat)) (e : mbedtls_x509_crl_entry) :
    List Writer :=
  [write_serial_label T pfx, write_serial T mem e, write_revocation_date T e]

/-- The write steps of a call that prints entry lines for `es`, in order. -/
def info_writes (pfx : List Nat) (crl : mbedtls_x509_crl) (es : List mbedtls_x509_crl_entry) :
    List Writer :=
  info_head T pfx crl ++ es.flatMap (entry_writes T pfx crl.raw_p) ++ info_tail T pfx crl

/-- The entries of the list that starts at the embedded entry, up to the first
one whose `raw.len` is `0`. -/
def printed_entries (crl : mbedtls_x509_crl) : List mbedtls_x509_crl_entry :=
  (crl.entry :: crl.entry_next).takeWhile (fun e => decide (e.raw.len ≠ 0))

/-- The write steps `ws`, run one after the other from state `s`, all succeed:
each produces a piece whose length, an element of `lens`, is strictly less
than the capacity that remains when it runs; `sf` is the state afterwards. -/
def Fit : List Writer → InfoSt → List Nat → InfoSt → Prop
  | [], s, lens, sf => lens = [] ∧ sf = s
  | w :: ws, s, lens, sf =>
    ∃ l rest, lens = l :: rest ∧ (w s.out s.p s.n).ret = (l : Int) ∧ l < s.n ∧
      Fit ws { out := (w s.out s.p s.n).out, p := s.p + l, n := s.n - l, ret := (l : Int) }
        rest sf

/-- The write step `w` produces a piece of `l` characters: it returns `l`
whenever the capacity is more than `l`, and a negative value or a value that is
not less than the capacity otherwise. -/
def Needs (w : Writer) (l : Nat) : Prop :=
  ∀ out p n, (l < n → (w out p n).ret = (l : Int)) ∧
    (n ≤ l → (w out p n).ret < 0 ∨ (n : Int) ≤ (w out p n).ret)

end InfoNotions

/-- The value of a call whose write steps ended as given: the return value of
the step that made the function return, or `(int) ( size - n )` at the end. -/
def info_result (T : Txt) (size : Nat) : Except InfoRes InfoSt → InfoRes
  | .error r => r
  | .ok s => { ret := int_of_size T (size - s.n), out := s.out }

/-! ## Sample inputs for the envelope loop -/

namespace Sample

/-- A NUL-terminated text with both markers whose payload `!!!!` is not
Base64 (54 bytes). -/
def pem_bad_payload : List Nat := wrap "!!!!" ++ [0]

/-- The wrapped record `pem_ok_v1`, then the five characters `junk` and a line
end, then the terminating NUL (167 bytes). -/
def pem_then_text : List Nat := pem_ok_v1 ++ "junk\n".toList.map Char.toNat ++ [0]

end Sample

/-! ## Notions used in the statements about the cursor -/

section CursorNotions

variable (K : Consts) (E : Env)

/-- The readers called by `x509_get_entries` stay within the bound they are
given: a successful read of a SEQUENCE header leaves the cursor at or behind
where it was and announces a content that ends within the bound; a read that
fails with `MBEDTLS_ERR_ASN1_UNEXPECTED_TAG` leaves the cursor where it was;
a successful read of a serial number or of a time leaves the cursor at or
before the bound. -/
structure ReadersInBounds : Prop where
  tag : ∀ mem p end_ len, (E.mbedtls_asn1_get_tag mem p end_ len (seq_tag K)).ret = 0 →
    p ≤ (E.mbedtls_asn1_get_tag mem p end_ len (seq_tag K)).p ∧
    (E.mbedtls_asn1_get_tag mem p end_ len (seq_tag K)).p +
      (E.mbedtls_asn1_get_tag mem p end_ len (seq_tag K)).len ≤ end_
  tag_keeps : ∀ mem p end_ len,
    (E.mbedtls_asn1_get_tag mem p end_ len (seq_tag K)).ret = K.MBEDTLS_ERR_ASN1_UNEXPECTED_TAG →
    (E.mbedtls_asn1_get_tag mem p end_ len (seq_tag K)).p = p
  serial : ∀ mem p end_ sr, (E.mbedtls_x509_get_serial mem p end_ sr).ret = 0 →
    (E.mbedtls_x509_get_serial mem p end_ sr).p ≤ end_
  time : ∀ mem p end_ t, (E.mbedtls_x509_get_time mem p end_ t).ret = 0 →
    (E.mbedtls_x509_get_time mem p end_ t).p ≤ end_

end CursorNotions

/-! ## Sample inputs about the bounds of entries -/

namespace Sample

/-- A `revokedCertificates` SEQUENCE with one entry of 42 content bytes:
serial `07`, a date, the extensions `30 02 30 00`, and behind them, still
inside the entry, the 20 bytes of an entry with serial `06` (46 bytes). -/
def revoked_nested : List Nat :=
  [0x30, 0x2C, 0x30, 0x2A, 0x02, 0x01, 0x07] ++ utc 0x32 0x34 0x30 0x32 ++
    [0x30, 0x02, 0x30, 0x00] ++ entry_rec 0x06 0x30 0x33

/-- A version 1 list whose `revokedCertificates` is `revoked_nested`
(129 bytes). -/
def crl_nested_entry : List Nat :=
  [0x30, 0x7F, 0x30, 0x69] ++ tbs_fields ++ revoked_nested ++ alg_id 0x0B 0x05 ++ sig_bits

/-- A `tbsCertList` that ends with a `revokedCertificates` SEQUENCE of one
entry `30 00`, and nothing behind it (67 bytes). -/
def crl_empty_entry_at_end : List Nat :=
  [0x30, 0x41, 0x30, 0x3F] ++ tbs_fields ++ [0x30, 0x02, 0x30, 0x00]

end Sample

/-! ## Notions used in the statements about the envelope loop -/

section LoopNotions

variable (K : Consts) (E : Env) (P : Pem)

/-- The number of rounds of the loop of `mbedtls_x509_crl_parse` that are run
from state `s` when at most `fuel` rounds are allowed: a round is counted when
its body is run, and another round follows it exactly when the body falls
through with `is_pem` set and `buflen > 1`. -/
def loop_rounds : (fuel : Nat) → ParseSt → Nat
  | 0, _ => 0
  | fuel + 1, s =>
    match parse_round K E P s with
    | .next s1 => if s1.is_pem = true ∧ s1.buflen > 1 then 1 + loop_rounds fuel s1 else 1
    | .ret _ _ => 1
    | .fault _ => 1

end LoopNotions

/-! ## Notions used in the statements about the chain -/

section ChainNotions

variable (K : Consts) (E : Env) (P : Pem)

/-- The chain invariant: the chain is not empty, every node before the last
one has version 1 or 2, and the last node has version 0, 1 or 2. -/
def ChainInv (chain : List mbedtls_x509_crl) : Prop :=
  ∃ init last, chain = init ++ [last] ∧ (∀ n ∈ init, n.version = 1 ∨ n.version = 2) ∧
    (last.version = 0 ∨ last.version = 1 ∨ last.version = 2)

/-- A sequence of calls made one after the other on the same chain: each call
is `mbedtls_x509_crl_parse` (first component `true`) or
`mbedtls_x509_crl_parse_der` (`false`) with the given buffer and length; the
return values are dropped. -/
def run_calls : World → List (Bool × Option (List Nat) × Nat) → Except Fault World
  | w, [] => .ok w
  | w, c :: cs =>
    match (if c.1 then mbedtls_x509_crl_parse K E P w.chain c.2.1 c.2.2 w.heap
           else mbedtls_x509_crl_parse_der K E w.chain c.2.1 c.2.2 w.heap) with
    | .error f => .error f
    | .ok r => run_calls r.world cs

end ChainNotions

/-! ## Sample inputs about the return value of the renderer -/

namespace Sample

/-- A list without version with one revoked entry whose serial number has
seven octets (111 bytes). -/
def crl_long_serial : List Nat :=
  [0x30, 0x6D, 0x30, 0x57] ++ tbs_fields ++
    [0x30, 0x1A, 0x30, 0x18, 0x02, 0x07, 0x01, 0x02, 0x03, 0x04, 0x05, 0x06, 0x07] ++
    utc 0x32 0x34 0x30 0x32 ++ alg_id 0x0B 0x05 ++ sig_bits

/-- The node filled from `crl_long_serial`. -/
def crl_node_long_serial : mbedtls_x509_crl :=
  (result_or ⟨1, ⟨[], ⟨0, 0⟩⟩⟩ (mbedtls_x509_crl_parse_der consts env [zero_crl]
    (some crl_long_serial) 111 ⟨0, 0⟩)).world.chain.headD zero_crl

end Sample

/-! ## Notions used in the statement about the decoded entries -/

section EntryNotions

variable (K : Consts) (E : Env)

end EntryNotions

/-! ## General facts about the sequencing of blocks -/

section Sequencing

variable (K : Consts) (E : Env)

theorem run_steps_append (l1 l2 : List (DecSt → Step DecSt)) (s : DecSt) :
    run_steps (l1 ++ l2) s =
      match run_steps l1 s with
      | .next s1 => run_steps l2 s1
      | .ret code w => .ret code w
      | .fault e => .fault e := by
  induction l1 generalizing s with
  | nil => simp [run_steps]
  | cons f fs ih =>
    simp only [List.cons_append, run_steps]
    cases f s with
    | next s1 => simpa using ih s1
    | ret code w => rfl
    | fault e => rfl

theorem run_steps_split (n : Nat) (s0 s : DecSt)
    (h : state_before K E n s0 = .next s) :
    run_steps (decode_steps K E) s0 = run_steps ((decode_steps K E).drop n) s := by
  have h1 := run_steps_append ((decode_steps K E).take n) ((decode_steps K E).drop n) s0
  rw [List.take_append_drop] at h1
  rw [h1]
  unfold state_before at h
  rw [h]

/-- When the decoding starts in `s0` and block `n` is entered in state `s`, the
call returns what the blocks from `n` on yield from `s`. -/
theorem parse_der_from (chain : List mbedtls_x509_crl) (buf : Option (List Nat))
    (buflen : Nat) (h : Heap) (n : Nat) (s0 s : DecSt)
    (hb : parse_der_begin K E chain buf buflen h = .next s0)
    (hs : state_before K E n s0 = .next s) :
    mbedtls_x509_crl_parse_der K E chain buf buflen h =
      finish (run_steps ((decode_steps K E).drop n) s) := by
  unfold mbedtls_x509_crl_parse_der
  rw [hb]
  simp only
  rw [run_steps_split K E n s0 s hs]

theorem copy_raw_next (pre : List mbedtls_x509_crl) (c : mbedtls_x509_crl)
    (post : List mbedtls_x509_crl) (h : Heap) (b : List Nat) (buflen : Nat) (s0 : DecSt)
    (hc : copy_raw K E pre c post h b buflen = .next s0) :
    s0.mem = b.take buflen ∧ s0.p = 0 ∧ s0.end_ = buflen ∧ s0.len = 0 ∧
    s0.crl.raw_len = buflen ∧ buflen ≤ b.length ∧ s0.pre = pre ∧ s0.post = post ∧
    s0.crl = { c with raw_p := some (b.take buflen), raw_len := buflen } ∧
    s0.sig_params1 = zero_buf ∧ s0.sig_params2 = zero_buf ∧ s0.sig_oid2 = zero_buf := by
  unfold copy_raw at hc
  split at hc
  · split at hc
    · cases hc
    · cases hc
      simp
      omega
  · cases hc

/-- Facts about the state in which the decoding starts. -/
theorem parse_der_begin_next (chain : List mbedtls_x509_crl) (buf : Option (List Nat))
    (buflen : Nat) (h : Heap) (s0 : DecSt)
    (hb : parse_der_begin K E chain buf buflen h = .next s0) :
    ∃ b, buf = some b ∧ chain ≠ [] ∧ buflen ≤ b.length ∧
      s0.mem = b.take buflen ∧ s0.p = 0 ∧ s0.end_ = buflen ∧ s0.len = 0 ∧
      s0.crl.raw_len = buflen ∧ s0.sig_params1 = zero_buf ∧ s0.sig_params2 = zero_buf ∧
      s0.sig_oid2 = zero_buf := by
  unfold parse_der_begin at hb
  split at hb
  · cases hb
  · cases hb
  · rename_i c0 rest0 b
    refine ⟨b, rfl, by simp, ?_⟩
    simp only at hb
    split at hb
    · split at hb
      · have := copy_raw_next K E _ _ _ _ _ _ _ hb
        tauto
      · cases hb
    · have := copy_raw_next K E _ _ _ _ _ _ _ hb
      tauto



theorem run_steps_cons_next (f : DecSt → Step DecSt) (fs : List (DecSt → Step DecSt))
    (s s' : DecSt) :
    run_steps (f :: fs) s = .next s' ↔ ∃ s1, f s = .next s1 ∧ run_steps fs s1 = .next s' := by
  simp only [run_steps]
  cases f s with
  | next s1 => simp
  | ret code w => simp
  | fault e => simp

theorem run_steps_nil_next (s s' : DecSt) : run_steps [] s = .next s' ↔ s = s' := by
  simp [run_steps]

end Sequencing

/-! ## What falling through each block means -/

section Blocks

variable (K : Consts) (E : Env)

theorem step_outer_seq_next (s s' : DecSt) (h : step_outer_seq K E s = .next s') :
    (E.mbedtls_asn1_get_tag s.mem s.p s.end_ s.len (seq_tag K)).ret = 0 ∧
    (E.mbedtls_asn1_get_tag s.mem s.p s.end_ s.len (seq_tag K)).len =
      size_of_diff K s.end_ (E.mbedtls_asn1_get_tag s.mem s.p s.end_ s.len (seq_tag K)).p ∧
    s' = { s with p := (E.mbedtls_asn1_get_tag s.mem s.p s.end_ s.len (seq_tag K)).p,
                  len := (E.mbedtls_asn1_get_tag s.mem s.p s.end_ s.len (seq_tag K)).len } := by
  unfold step_outer_seq fail_free at h
  simp only at h
  split at h
  · cases h
  · split at h
    · cases h
    · cases h
      simp_all

theorem step_tbs_next (s s' : DecSt) (h : step_tbs K E s = .next s') :
    (E.mbedtls_asn1_get_tag s.mem s.p s.end_ s.len (seq_tag K)).ret = 0 ∧
    s' = { s with
      p := (E.mbedtls_asn1_get_tag s.mem s.p s.end_ s.len (seq_tag K)).p,
      len := (E.mbedtls_asn1_get_tag s.mem s.p s.end_ s.len (seq_tag K)).len,
      ret := (E.mbedtls_asn1_get_tag s.mem s.p s.end_ s.len (seq_tag K)).ret,
      end_ := (E.mbedtls_asn1_get_tag s.mem s.p s.end_ s.len (seq_tag K)).p +
              (E.mbedtls_asn1_get_tag s.mem s.p s.end_ s.len (seq_tag K)).len,
      crl := { s.crl with tbs :=
        { tag := s.crl.tbs.tag, p := some s.p,
          len := size_of_diff K
            ((E.mbedtls_asn1_get_tag s.mem s.p s.end_ s.len (seq_tag K)).p +
              (E.mbedtls_asn1_get_tag s.mem s.p s.end_ s.len (seq_tag K)).len) s.p } } } := by
  unfold step_tbs fail_free at h
  simp only at h
  split at h
  · cases h
  · cases h
    simp_all

theorem step_version_alg_next (s s' : DecSt) (h : step_version_alg K E s = .next s') :
    (x509_crl_get_version K E s.mem s.p s.end_ s.crl.version).ret = 0 ∧
    (E.mbedtls_x509_get_alg s.mem (x509_crl_get_version K E s.mem s.p s.end_ s.crl.version).p
      s.end_ s.crl.sig_oid s.sig_params1).ret = 0 ∧
    s' = { s with
      p := (E.mbedtls_x509_get_alg s.mem
        (x509_crl_get_version K E s.mem s.p s.end_ s.crl.version).p
        s.end_ s.crl.sig_oid s.sig_params1).p,
      ret := (E.mbedtls_x509_get_alg s.mem
        (x509_crl_get_version K E s.mem s.p s.end_ s.crl.version).p
        s.end_ s.crl.sig_oid s.sig_params1).ret,
      sig_params1 := (E.mbedtls_x509_get_alg s.mem
        (x509_crl_get_version K E s.mem s.p s.end_ s.crl.version).p
        s.end_ s.crl.sig_oid s.sig_params1).params,
      crl := { s.crl with
        version := (x509_crl_get_version K E s.mem s.p s.end_ s.crl.version).ver,
        sig_oid := (E.mbedtls_x509_get_alg s.mem
          (x509_crl_get_version K E s.mem s.p s.end_ s.crl.version).p
          s.end_ s.crl.sig_oid s.sig_params1).alg } } := by
  unfold step_version_alg fail_free at h
  simp only at h
  split at h
  · cases h
  · split at h
    · cases h
    · cases h
      simp_all

theorem step_version_range_next (s s' : DecSt) (h : step_version_range K s = .next s') :
    0 ≤ s.crl.version ∧ s.crl.version ≤ 1 ∧
    s' = { s with crl := { s.crl with version := s.crl.version + 1 } } := by
  unfold step_version_range fail_free at h
  split at h
  · cases h
  · cases h
    rename_i hv
    refine ⟨?_, ?_, rfl⟩ <;> omega

theorem step_sig_alg_next (s s' : DecSt) (h : step_sig_alg K E s = .next s') :
    (E.mbedtls_x509_get_sig_alg s.mem s.crl.sig_oid s.sig_params1
      s.crl.sig_md s.crl.sig_pk s.crl.sig_opts).ret = 0 ∧
    s' = { s with crl := { s.crl with
      sig_md := (E.mbedtls_x509_get_sig_alg s.mem s.crl.sig_oid s.sig_params1
        s.crl.sig_md s.crl.sig_pk s.crl.sig_opts).md_alg,
      sig_pk := (E.mbedtls_x509_get_sig_alg s.mem s.crl.sig_oid s.sig_params1
        s.crl.sig_md s.crl.sig_pk s.crl.sig_opts).pk_alg,
      sig_opts := (E.mbedtls_x509_get_sig_alg s.mem s.crl.sig_oid s.sig_params1
        s.crl.sig_md s.crl.sig_pk s.crl.sig_opts).sig_opts } } := by
  unfold step_sig_alg fail_free at h
  simp only at h
  split at h
  · cases h
  · cases h
    simp_all

theorem step_issuer_next (s s' : DecSt) (h : step_issuer K E s = .next s') :
    (E.mbedtls_asn1_get_tag s.mem s.p s.end_ s.len (seq_tag K)).ret = 0 ∧
    (E.mbedtls_x509_get_name s.mem
      (E.mbedtls_asn1_get_tag s.mem s.p s.end_ s.len (seq_tag K)).p
      ((E.mbedtls_asn1_get_tag s.mem s.p s.end_ s.len (seq_tag K)).p +
        (E.mbedtls_asn1_get_tag s.mem s.p s.end_ s.len (seq_tag K)).len)
      s.crl.issuer s.crl.issuer_next).ret = 0 ∧
    s' = { s with
      p := (E.mbedtls_x509_get_name s.mem
        (E.mbedtls_asn1_get_tag s.mem s.p s.end_ s.len (seq_tag K)).p
        ((E.mbedtls_asn1_get_tag s.mem s.p s.end_ s.len (seq_tag K)).p +
          (E.mbedtls_asn1_get_tag s.mem s.p s.end_ s.len (seq_tag K)).len)
        s.crl.issuer s.crl.issuer_next).p,
      len := (E.mbedtls_asn1_get_tag s.mem s.p s.end_ s.len (seq_tag K)).len,
      ret := (E.mbedtls_x509_get_name s.mem
        (E.mbedtls_asn1_get_tag s.mem s.p s.end_ s.len (seq_tag K)).p
        ((E.mbedtls_asn1_get_tag s.mem s.p s.end_ s.len (seq_tag K)).p +
          (E.mbedtls_asn1_get_tag s.mem s.p s.end_ s.len (seq_tag K)).len)
        s.crl.issuer s.crl.issuer_next).ret,
      crl := { s.crl with
        issuer_raw :=
          { tag := s.crl.issuer_raw.tag, p := some s.p,
            len := size_of_diff K (E.mbedtls_x509_get_name s.mem
              (E.mbedtls_asn1_get_tag s.mem s.p s.end_ s.len (seq_tag K)).p
              ((E.mbedtls_asn1_get_tag s.mem s.p s.end_ s.len (seq_tag K)).p +
                (E.mbedtls_asn1_get_tag s.mem s.p s.end_ s.len (seq_tag K)).len)
              s.crl.issuer s.crl.issuer_next).p s.p },
        issuer := (E.mbedtls_x509_get_name s.mem
          (E.mbedtls_asn1_get_tag s.mem s.p s.end_ s.len (seq_tag K)).p
          ((E.mbedtls_asn1_get_tag s.mem s.p s.end_ s.len (seq_tag K)).p +
            (E.mbedtls_asn1_get_tag s.mem s.p s.end_ s.len (seq_tag K)).len)
          s.crl.issuer s.crl.issuer_next).cur,
        issuer_next := (E.mbedtls_x509_get_name s.mem
          (E.mbedtls_asn1_get_tag s.mem s.p s.end_ s.len (seq_tag K)).p
          ((E.mbedtls_asn1_get_tag s.mem s.p s.end_ s.len (seq_tag K)).p +
            (E.mbedtls_asn1_get_tag s.mem s.p s.end_ s.len (seq_tag K)).len)
          s.crl.issuer s.crl.issuer_next).next } } := by
  unfold step_issuer fail_free at h
  simp only at h
  split at h
  · cases h
  · split at h
    · cases h
    · cases h
      simp_all

theorem step_this_update_next (s s' : DecSt) (h : step_this_update K E s = .next s') :
    (E.mbedtls_x509_get_time s.mem s.p s.end_ s.crl.this_update).ret = 0 ∧
    s' = { s with
      p := (E.mbedtls_x509_get_time s.mem s.p s.end_ s.crl.this_update).p,
      ret := (E.mbedtls_x509_get_time s.mem s.p s.end_ s.crl.this_update).ret,
      crl := { s.crl with
        this_update := (E.mbedtls_x509_get_time s.mem s.p s.end_ s.crl.this_update).time } } := by
  unfold step_this_update fail_free at h
  simp only at h
  split at h
  · cases h
  · cases h
    simp_all

theorem step_next_update_next (s s' : DecSt) (h : step_next_update K E s = .next s') :
    s' = { s with
      p := (E.mbedtls_x509_get_time s.mem s.p s.end_ s.crl.next_update).p,
      ret := (E.mbedtls_x509_get_time s.mem s.p s.end_ s.crl.next_update).ret,
      crl := { s.crl with
        next_update := (E.mbedtls_x509_get_time s.mem s.p s.end_ s.crl.next_update).time } } := by
  unfold step_next_update fail_free at h
  simp only at h
  split at h
  · split at h
    · cases h
    · cases h
      rfl
  · cases h
    rfl

theorem step_entries_next (s s' : DecSt) (h : step_entries K E s = .next s') :
    ∃ r, x509_get_entries K E s.mem s.p s.end_ s.crl.entry s.crl.entry_next s.heap = .ok r ∧
      r.ret = 0 ∧
      s' = { s with p := r.p, ret := r.ret, heap := r.heap,
                    crl := { s.crl with entry := r.entry, entry_next := r.next } } := by
  unfold step_entries fail_free at h
  split at h
  · cases h
  · rename_i r hr
    simp only at h
    split at h
    · cases h
    · cases h
      exact ⟨r, hr, by simp_all, rfl⟩

theorem step_crl_ext_next (s s' : DecSt) (h : step_crl_ext K E s = .next s') :
    (s.crl.version ≠ 2 ∧ s' = s) ∨
    (s.crl.version = 2 ∧
      ∃ r, x509_get_crl_ext K E s.mem s.p s.end_ s.crl.crl_ext = .ok r ∧ r.ret = 0 ∧
        s' = { s with p := r.p, ret := r.ret, crl := { s.crl with crl_ext := r.ext } }) := by
  unfold step_crl_ext fail_free at h
  split at h
  · rename_i hv
    split at h
    · cases h
    · rename_i r hr
      simp only at h
      split at h
      · cases h
      · cases h
        exact Or.inr ⟨hv, r, hr, by simp_all, rfl⟩
  · cases h
    rename_i hv
    exact Or.inl ⟨hv, rfl⟩

theorem step_tbs_end_next (s s' : DecSt) (h : step_tbs_end K s = .next s') :
    s.p = s.end_ ∧ s' = { s with end_ := s.crl.raw_len } := by
  unfold step_tbs_end fail_free at h
  split at h
  · cases h
  · cases h
    simp_all

theorem step_outer_alg_next (s s' : DecSt) (h : step_outer_alg K E s = .next s') :
    (E.mbedtls_x509_get_alg s.mem s.p s.end_ s.sig_oid2 s.sig_params2).ret = 0 ∧
    s' = { s with
      p := (E.mbedtls_x509_get_alg s.mem s.p s.end_ s.sig_oid2 s.sig_params2).p,
      ret := (E.mbedtls_x509_get_alg s.mem s.p s.end_ s.sig_oid2 s.sig_params2).ret,
      sig_oid2 := (E.mbedtls_x509_get_alg s.mem s.p s.end_ s.sig_oid2 s.sig_params2).alg,
      sig_params2 :=
        (E.mbedtls_x509_get_alg s.mem s.p s.end_ s.sig_oid2 s.sig_params2).params } := by
  unfold step_outer_alg fail_free at h
  simp only at h
  split at h
  · cases h
  · cases h
    simp_all

theorem step_sig_cmp_next (s s' : DecSt) (h : step_sig_cmp K s = .next s') :
    sig_alg_differs s = .ok false ∧ s' = s := by
  unfold step_sig_cmp fail_free at h
  split at h
  · cases h
  · cases h
  · cases h
    rename_i hd
    exact ⟨hd, rfl⟩

theorem step_sig_next (s s' : DecSt) (h : step_sig K E s = .next s') :
    (E.mbedtls_x509_get_sig s.mem s.p s.end_ s.crl.sig).ret = 0 ∧
    s' = { s with
      p := (E.mbedtls_x509_get_sig s.mem s.p s.end_ s.crl.sig).p,
      ret := (E.mbedtls_x509_get_sig s.mem s.p s.end_ s.crl.sig).ret,
      crl := { s.crl with sig := (E.mbedtls_x509_get_sig s.mem s.p s.end_ s.crl.sig).out } } := by
  unfold step_sig fail_free at h
  simp only at h
  split at h
  · cases h
  · cases h
    simp_all

theorem step_end_next (s s' : DecSt) (h : step_end K s = .next s') :
    s.p = s.end_ ∧ s' = s := by
  unfold step_end fail_free at h
  split at h
  · cases h
  · cases h
    simp_all

end Blocks

/-! ## A return value `0` comes from the final `return( 0 )` only -/

section Accepted

variable (K : Consts) (E : Env)

theorem decode_steps_ret_ne_zero (hz : NonzeroCodes K E) (f : DecSt → Step DecSt)
    (hf : f ∈ decode_steps K E) (s : DecSt) (code : Int) (w : World)
    (h : f s = .ret code w) : code ≠ 0 := by
  have hIF := hz.invalid_format
  have hFL := hz.format_length
  have hUV := hz.unknown_version
  have hUS := hz.unknown_sig_alg
  have hSM := hz.sig_mismatch
  have hFT := hz.format_tag
  simp only [decode_steps, steps_to_version, steps_to_times, steps_to_tbs_end, steps_to_end,
    List.cons_append, List.nil_append, List.mem_cons, List.mem_singleton, List.not_mem_nil,
    or_false] at hf
  rcases hf with rfl | rfl | rfl | rfl | rfl | rfl | rfl | rfl | rfl | rfl | rfl | rfl | rfl | rfl |
    rfl
  · unfold step_outer_seq fail_free at h
    simp only at h
    split at h
    · cases h; exact hIF
    · split at h
      · cases h; exact hFL
      · cases h
  · unfold step_tbs fail_free at h
    simp only at h
    split at h
    · cases h; exact hFT _ _ _ _ _
    · cases h
  · unfold step_version_alg fail_free at h
    simp only at h
    split at h
    · cases h; assumption
    · split at h
      · cases h; assumption
      · cases h
  · unfold step_version_range fail_free at h
    split at h
    · cases h; exact hUV
    · cases h
  · unfold step_sig_alg fail_free at h
    simp only at h
    split at h
    · cases h; exact hUS
    · cases h
  · unfold step_issuer fail_free at h
    simp only at h
    split at h
    · cases h; exact hFT _ _ _ _ _
    · split at h
      · cases h; assumption
      · cases h
  · unfold step_this_update fail_free at h
    simp only at h
    split at h
    · cases h; assumption
    · cases h
  · unfold step_next_update fail_free at h
    simp only at h
    split at h
    · split at h
      · cases h; assumption
      · cases h
    · cases h
  · unfold step_entries fail_free at h
    split at h
    · cases h
    · simp only at h
      split at h
      · cases h; assumption
      · cases h
  · unfold step_crl_ext fail_free at h
    split at h
    · split at h
      · cases h
      · simp only at h
        split at h
        · cases h; assumption
        · cases h
    · cases h
  · unfold step_tbs_end fail_free at h
    split at h
    · cases h; exact hFL
    · cases h
  · unfold step_outer_alg fail_free at h
    simp only at h
    split at h
    · cases h; assumption
    · cases h
  · unfold step_sig_cmp fail_free at h
    split at h
    · cases h
    · cases h; exact hSM
    · cases h
  · unfold step_sig fail_free at h
    simp only at h
    split at h
    · cases h; assumption
    · cases h
  · unfold step_end fail_free at h
    split at h
    · cases h; exact hFL
    · cases h

theorem run_steps_ret_ne_zero (l : List (DecSt → Step DecSt))
    (hl : ∀ f ∈ l, ∀ s code w, f s = .ret code w → code ≠ 0)
    (s : DecSt) (code : Int) (w : World) (h : run_steps l s = .ret code w) : code ≠ 0 := by
  induction l generalizing s with
  | nil => simp [run_steps] at h
  | cons f fs ih =>
    simp only [run_steps] at h
    cases hfs : f s with
    | next s1 =>
      rw [hfs] at h
      exact ih (fun g hg => hl g (List.mem_cons_of_mem _ hg)) s1 h
    | ret c w1 =>
      rw [hfs] at h
      cases h
      exact hl f (List.mem_cons_self _ _) s _ _ hfs
    | fault e =>
      rw [hfs] at h
      cases h

theorem copy_raw_ret_ne_zero (hz : NonzeroCodes K E) (pre : List mbedtls_x509_crl)
    (c : mbedtls_x509_crl) (post : List mbedtls_x509_crl) (h : Heap) (b : List Nat)
    (buflen : Nat) (code : Int) (w : World)
    (hc : copy_raw K E pre c post h b buflen = .ret code w) : code ≠ 0 := by
  unfold copy_raw at hc
  split at hc
  · split at hc <;> cases hc
  · cases hc
    exact hz.alloc_failed

theorem parse_der_begin_ret_ne_zero (hz : NonzeroCodes K E) (chain : List mbedtls_x509_crl)
    (buf : Option (List Nat)) (buflen : Nat) (h : Heap) (code : Int) (w : World)
    (hb : parse_der_begin K E chain buf buflen h = .ret code w) : code ≠ 0 := by
  unfold parse_der_begin at hb
  split at hb
  · cases hb; exact hz.bad_input
  · cases hb; exact hz.bad_input
  · simp only at hb
    split at hb
    · split at hb
      · exact copy_raw_ret_ne_zero K E hz _ _ _ _ _ _ _ _ hb
      · cases hb; exact hz.alloc_failed
    · exact copy_raw_ret_ne_zero K E hz _ _ _ _ _ _ _ _ hb

/-- A call that returns `0` went through every block of the body: the decoding
started in some state `s0`, all blocks fell through, and the caller sees the
final state. -/
theorem accepted_falls_through (hz : NonzeroCodes K E) (chain : List mbedtls_x509_crl)
    (buf : Option (List Nat)) (buflen : Nat) (h : Heap) (r : Result)
    (hr : mbedtls_x509_crl_parse_der K E chain buf buflen h = .ok r) (h0 : r.ret = 0) :
    ∃ s0 sf, parse_der_begin K E chain buf buflen h = .next s0 ∧
      run_steps (decode_steps K E) s0 = .next sf ∧ r.world = sf.world := by
  unfold mbedtls_x509_crl_parse_der at hr
  cases hb : parse_der_begin K E chain buf buflen h with
  | next s0 =>
    rw [hb] at hr
    simp only at hr
    cases hrun : run_steps (decode_steps K E) s0 with
    | next sf =>
      rw [hrun] at hr
      simp only [finish, Except.ok.injEq] at hr
      exact ⟨s0, sf, rfl, hrun, by rw [← hr]⟩
    | ret code w =>
      rw [hrun] at hr
      simp only [finish, Except.ok.injEq] at hr
      have := run_steps_ret_ne_zero _ (decode_steps_ret_ne_zero K E hz) s0 code w hrun
      rw [← hr] at h0
      exact absurd h0 this
    | fault e =>
      rw [hrun] at hr
      simp [finish] at hr
  | ret code w =>
    rw [hb] at hr
    simp only [Except.ok.injEq] at hr
    have := parse_der_begin_ret_ne_zero K E hz _ _ _ _ _ _ hb
    rw [← hr] at h0
    exact absurd h0 this
  | fault e =>
    rw [hb] at hr
    simp at hr

/-- The states between the blocks of a run in which every block falls through. -/
theorem decode_trace (s0 sf : DecSt) (h : run_steps (decode_steps K E) s0 = .next sf) :
    ∃ s1 s2 s3 s4 s5 s6 s7 s8 s9 s10 s11 s12 s13 s14,
      step_outer_seq K E s0 = .next s1 ∧ step_tbs K E s1 = .next s2 ∧
      step_version_alg K E s2 = .next s3 ∧ step_version_range K s3 = .next s4 ∧
      step_sig_alg K E s4 = .next s5 ∧ step_issuer K E s5 = .next s6 ∧
      step_this_update K E s6 = .next s7 ∧ step_next_update K E s7 = .next s8 ∧
      step_entries K E s8 = .next s9 ∧ step_crl_ext K E s9 = .next s10 ∧
      step_tbs_end K s10 = .next s11 ∧ step_outer_alg K E s11 = .next s12 ∧
      step_sig_cmp K s12 = .next s13 ∧ step_sig K E s13 = .next s14 ∧
      step_end K s14 = .next sf := by
  simp only [decode_steps, steps_to_version, steps_to_times, steps_to_tbs_end, steps_to_end,
    List.cons_append, List.nil_append, run_steps_cons_next, run_steps_nil_next] at h
  obtain ⟨s1, h1, s2, h2, s3, h3, s4, h4, s5, h5, s6, h6, s7, h7, s8, h8, s9, h9, s10, h10,
    s11, h11, s12, h12, s13, h13, s14, h14, s15, h15, hf⟩ := h
  subst hf
  exact ⟨s1, s2, s3, s4, s5, s6, s7, s8, s9, s10, s11, s12, s13, s14, h1, h2, h3, h4, h5, h6,
    h7, h8, h9, h10, h11, h12, h13, h14, h15⟩

end Accepted

/-! ## `memcmp` and the comparison of the algorithm identifiers -/

section Compare

theorem memcmp_from_spec (mem : List Nat) (a b : Option Nat) (n i : Nat)
    (ha : ∀ j, j < n → is_ok (read_byte mem a (i + j)) = true)
    (hb : ∀ j, j < n → is_ok (read_byte mem b (i + j)) = true) :
    ∃ c, memcmp_from mem a b n i = .ok c ∧
      (c ≠ 0 ↔ ∃ j, j < n ∧ read_byte mem a (i + j) ≠ read_byte mem b (i + j)) := by
  induction n generalizing i with
  | zero => exact ⟨0, rfl, by simp⟩
  | succ n ih =>
    have ha0 := ha 0 (Nat.succ_pos n)
    have hb0 := hb 0 (Nat.succ_pos n)
    simp only [Nat.add_zero] at ha0 hb0
    cases hx : read_byte mem a i with
    | error f => rw [hx] at ha0; simp [is_ok] at ha0
    | ok x =>
      cases hy : read_byte mem b i with
      | error f => rw [hy] at hb0; simp [is_ok] at hb0
      | ok y =>
        simp only [memcmp_from, hx, hy]
        by_cases hxy : x = y
        · subst hxy
          simp only [ne_eq, not_true_eq_false, if_false]
          obtain ⟨c, hc, hiff⟩ := ih (i + 1)
            (fun j hj => by have := ha (j + 1) (by omega); rwa [show i + (j + 1) = i + 1 + j by omega] at this)
            (fun j hj => by have := hb (j + 1) (by omega); rwa [show i + (j + 1) = i + 1 + j by omega] at this)
          refine ⟨c, hc, hiff.trans ⟨?_, ?_⟩⟩
          · rintro ⟨j, hj, hne⟩
            exact ⟨j + 1, by omega, by rwa [show i + (j + 1) = i + 1 + j by omega]⟩
          · rintro ⟨j, hj, hne⟩
            cases j with
            | zero => simp [hx, hy] at hne
            | succ j =>
              exact ⟨j, by omega, by rwa [show i + (j + 1) = i + 1 + j by omega] at hne⟩
        · simp only [ne_eq, hxy, not_false_eq_true, if_true]
          refine ⟨(x : Int) - (y : Int), rfl, ?_⟩
          constructor
          · intro _
            exact ⟨0, Nat.succ_pos n, by simp [hx, hy, hxy]⟩
          · intro _
            omega

theorem memcmp_spec (mem : List Nat) (a b : Option Nat) (n : Nat)
    (ha : Readable mem a n) (hb : Readable mem b n) :
    ∃ c, memcmp mem a b n = .ok c ∧ (c ≠ 0 ↔ BytesDiffer mem a b n) := by
  have := memcmp_from_spec mem a b n 0 (by simpa using ha) (by simpa using hb)
  simpa [memcmp, BytesDiffer] using this

theorem sig_alg_differs_spec (s : DecSt) (hr : SpansReadable s) :
    ∃ d, sig_alg_differs s = .ok d ∧ (d = true ↔ AlgsDiffer s) := by
  obtain ⟨h1, h2, h3, h4⟩ := hr
  unfold sig_alg_differs AlgsDiffer
  by_cases hl : s.crl.sig_oid.len = s.sig_oid2.len
  · obtain ⟨c1, hc1, hi1⟩ := memcmp_spec s.mem s.crl.sig_oid.p s.sig_oid2.p s.crl.sig_oid.len h1
      (by rw [hl]; exact h2)
    simp only [hl, ne_eq, not_true_eq_false, if_false, false_or]
    rw [← hl, hc1]
    simp only
    by_cases hz1 : c1 = 0
    · have hnd : ¬ BytesDiffer s.mem s.crl.sig_oid.p s.sig_oid2.p s.crl.sig_oid.len := by
        intro hd
        exact (hi1.mpr hd) hz1
      simp only [hz1, ne_eq, not_true_eq_false, if_false, hnd, false_or]
      by_cases hp : s.sig_params1.len = s.sig_params2.len
      · simp only [hp, not_true_eq_false, if_false, false_or, true_and]
        by_cases hp0 : s.sig_params2.len = 0
        · simp [hp0]
        · obtain ⟨c2, hc2, hi2⟩ := memcmp_spec s.mem s.sig_params1.p s.sig_params2.p
            s.sig_params1.len h3 (by rw [hp]; exact h4)
          simp only [hp0, not_false_eq_true, if_true, true_and]
          rw [← hp, hc2]
          exact ⟨_, rfl, by simpa using hi2⟩
      · simp [hp]
    · have hd : BytesDiffer s.mem s.crl.sig_oid.p s.sig_oid2.p s.crl.sig_oid.len := hi1.mp hz1
      simp [hz1, hd]
  · simp [hl]

end Compare

/-! ## The loop of `x509_get_entries` on a well-formed sequence -/

section Entries

variable (K : Consts) (E : Env)

theorem relink_list (done : List mbedtls_x509_crl_entry) (cur : mbedtls_x509_crl_entry)
    (rest : List mbedtls_x509_crl_entry) :
    (relink done cur rest).1 :: (relink done cur rest).2 = done ++ cur :: rest := by
  cases done <;> simp [relink]

end Entries

/-! ## What the blocks leave unchanged -/

section Frames

variable (K : Consts) (E : Env)

theorem run_steps_inv {α : Type} (R : DecSt → α) (l : List (DecSt → Step DecSt))
    (hl : ∀ f ∈ l, ∀ s s', f s = .next s' → R s' = R s) (s s' : DecSt)
    (h : run_steps l s = .next s') : R s' = R s := by
  induction l generalizing s with
  | nil =>
    simp only [run_steps_nil_next] at h
    rw [h]
  | cons f fs ih =>
    obtain ⟨s1, h1, h2⟩ := (run_steps_cons_next f fs s s').mp h
    rw [ih (fun g hg => hl g (List.mem_cons_of_mem _ hg)) s1 h2]
    exact hl f (List.mem_cons_self _ _) s s1 h1

/-- No block changes the chain around the node, the record copy, or its length. -/
theorem decode_steps_fixed (f : DecSt → Step DecSt) (hf : f ∈ decode_steps K E)
    (s s' : DecSt) (h : f s = .next s') :
    (s'.pre, s'.post, s'.mem, s'.crl.raw_len, s'.crl.raw_p) =
      (s.pre, s.post, s.mem, s.crl.raw_len, s.crl.raw_p) := by
  simp only [decode_steps, steps_to_version, steps_to_times, steps_to_tbs_end, steps_to_end,
    List.cons_append, List.nil_append, List.mem_cons, List.mem_singleton, List.not_mem_nil,
    or_false] at hf
  rcases hf with rfl | rfl | rfl | rfl | rfl | rfl | rfl | rfl | rfl | rfl | rfl | rfl | rfl | rfl |
    rfl
  · obtain ⟨-, -, rfl⟩ := step_outer_seq_next K E _ _ h; rfl
  · obtain ⟨-, rfl⟩ := step_tbs_next K E _ _ h; rfl
  · obtain ⟨-, -, rfl⟩ := step_version_alg_next K E _ _ h; rfl
  · obtain ⟨-, -, rfl⟩ := step_version_range_next K _ _ h; rfl
  · obtain ⟨-, rfl⟩ := step_sig_alg_next K E _ _ h; rfl
  · obtain ⟨-, -, rfl⟩ := step_issuer_next K E _ _ h; rfl
  · obtain ⟨-, rfl⟩ := step_this_update_next K E _ _ h; rfl
  · have := step_next_update_next K E _ _ h; subst this; rfl
  · obtain ⟨r, -, -, rfl⟩ := step_entries_next K E _ _ h; rfl
  · rcases step_crl_ext_next K E _ _ h with ⟨-, rfl⟩ | ⟨-, r, -, -, rfl⟩ <;> rfl
  · obtain ⟨-, rfl⟩ := step_tbs_end_next K _ _ h; rfl
  · obtain ⟨-, rfl⟩ := step_outer_alg_next K E _ _ h; rfl
  · obtain ⟨-, rfl⟩ := step_sig_cmp_next K _ _ h; rfl
  · obtain ⟨-, rfl⟩ := step_sig_next K E _ _ h; rfl
  · obtain ⟨-, rfl⟩ := step_end_next K _ _ h; rfl

/-- After the range check no block changes the stored version. -/
theorem late_steps_version (f : DecSt → Step DecSt) (hf : f ∈ (decode_steps K E).drop 4)
    (s s' : DecSt) (h : f s = .next s') : s'.crl.version = s.crl.version := by
  simp only [decode_steps, steps_to_version, steps_to_times, steps_to_tbs_end, steps_to_end,
    List.cons_append, List.nil_append, List.drop_succ_cons, List.drop_zero, List.mem_cons,
    List.mem_singleton, List.not_mem_nil, or_false] at hf
  rcases hf with rfl | rfl | rfl | rfl | rfl | rfl | rfl | rfl | rfl | rfl | rfl
  · obtain ⟨-, rfl⟩ := step_sig_alg_next K E _ _ h; rfl
  · obtain ⟨-, -, rfl⟩ := step_issuer_next K E _ _ h; rfl
  · obtain ⟨-, rfl⟩ := step_this_update_next K E _ _ h; rfl
  · have := step_next_update_next K E _ _ h; subst this; rfl
  · obtain ⟨r, -, -, rfl⟩ := step_entries_next K E _ _ h; rfl
  · rcases step_crl_ext_next K E _ _ h with ⟨-, rfl⟩ | ⟨-, r, -, -, rfl⟩ <;> rfl
  · obtain ⟨-, rfl⟩ := step_tbs_end_next K _ _ h; rfl
  · obtain ⟨-, rfl⟩ := step_outer_alg_next K E _ _ h; rfl
  · obtain ⟨-, rfl⟩ := step_sig_cmp_next K _ _ h; rfl
  · obtain ⟨-, rfl⟩ := step_sig_next K E _ _ h; rfl
  · obtain ⟨-, rfl⟩ := step_end_next K _ _ h; rfl

/-- A run through all blocks passes through a state before each block. -/
theorem state_before_of_run (s0 sf : DecSt) (h : run_steps (decode_steps K E) s0 = .next sf)
    (n : Nat) : ∃ s, state_before K E n s0 = .next s ∧
      run_steps ((decode_steps K E).drop n) s = .next sf := by
  have h1 := run_steps_append ((decode_steps K E).take n) ((decode_steps K E).drop n) s0
  rw [List.take_append_drop, h] at h1
  unfold state_before
  cases hs : run_steps ((decode_steps K E).take n) s0 with
  | next s => rw [hs] at h1; exact ⟨s, rfl, h1.symm⟩
  | ret c w => rw [hs] at h1; cases h1
  | fault e => rw [hs] at h1; cases h1

theorem state_before_fixed (n : Nat) (s0 s : DecSt) (h : state_before K E n s0 = .next s) :
    s.pre = s0.pre ∧ s.post = s0.post ∧ s.mem = s0.mem ∧ s.crl.raw_len = s0.crl.raw_len ∧
      s.crl.raw_p = s0.crl.raw_p := by
  have := run_steps_inv (fun s => (s.pre, s.post, s.mem, s.crl.raw_len, s.crl.raw_p))
    ((decode_steps K E).take n)
    (fun f hf => decode_steps_fixed K E f (List.mem_of_mem_take hf)) s0 s h
  simpa using this

theorem state_before_succ (n : Nat) (s0 s : DecSt) (h : state_before K E n s0 = .next s)
    (f : DecSt → Step DecSt) (hf : (decode_steps K E)[n]? = some f) :
    state_before K E (n + 1) s0 = f s := by
  unfold state_before at h ⊢
  have hlt : n < (decode_steps K E).length := by
    rcases Nat.lt_or_ge n (decode_steps K E).length with h1 | h1
    · exact h1
    · rw [List.getElem?_eq_none h1] at hf; cases hf
  have hget : (decode_steps K E)[n] = f := by
    rw [List.getElem?_eq_getElem hlt] at hf
    exact Option.some.inj hf
  rw [List.take_succ, hf, run_steps_append, h]
  simp only [Option.toList, run_steps]
  cases f s <;> rfl
end Frames

/-! ## The version step -/

section Version

variable (K : Consts) (E : Env)

/-- What a return value `0` of `x509_crl_get_version` means. -/
theorem x509_crl_get_version_ok (hz : NonzeroCodes K E) (mem : List Nat) (p end_ : Nat)
    (ver : Int) (h : (x509_crl_get_version K E mem p end_ ver).ret = 0) :
    (x509_crl_get_version K E mem p end_ ver).p = (E.mbedtls_asn1_get_int mem p end_ ver).p ∧
    (((E.mbedtls_asn1_get_int mem p end_ ver).ret = 0 ∧
        (x509_crl_get_version K E mem p end_ ver).ver =
          (E.mbedtls_asn1_get_int mem p end_ ver).val) ∨
     ((E.mbedtls_asn1_get_int mem p end_ ver).ret ≠ 0 ∧
        (E.mbedtls_asn1_get_int mem p end_ ver).ret = K.MBEDTLS_ERR_ASN1_UNEXPECTED_TAG ∧
        (x509_crl_get_version K E mem p end_ ver).ver = 0)) := by
  unfold x509_crl_get_version at h ⊢
  simp only at h ⊢
  split at h
  · rename_i hg
    split at h
    · rename_i hut
      have hne : K.MBEDTLS_ERR_ASN1_UNEXPECTED_TAG ≠ 0 := hut ▸ hg
      simp [hut, hne]
    · exact absurd h (hz.version_int mem p end_ ver)
  · rename_i hg
    simp only [ne_eq, not_not] at hg
    simp [hg]

end Version

/-! ## Facts about the sample collaborators -/

namespace Sample

theorem get_len_ret (mem : List Nat) (p end_ len : Nat) :
    (get_len mem p end_ len).ret = 0 ∨ (get_len mem p end_ len).ret = -0x60 ∨
      (get_len mem p end_ len).ret = -0x64 := by
  unfold get_len
  simp only [consts, ERR_ASN1_INVALID_LENGTH]
  split
  · simp
  · split
    · split <;> simp
    · split
      · simp
      · split
        · simp
        · split <;> simp

theorem get_tag_ret (mem : List Nat) (p end_ len : Nat) (tag : Int) :
    ((get_tag mem p end_ len tag).ret = 0 ∨ (get_tag mem p end_ len tag).ret = -0x60 ∨
      (get_tag mem p end_ len tag).ret = -0x64) ∨
    ((get_tag mem p end_ len tag).ret = -0x62 ∧ (get_tag mem p end_ len tag).p = p) := by
  unfold get_tag
  simp only [consts]
  split
  · simp
  · split
    · simp
    · exact Or.inl (get_len_ret mem (p + 1) end_ len)

theorem get_tag_keeps (mem : List Nat) (p end_ len : Nat) (tag : Int)
    (h : (get_tag mem p end_ len tag).ret = -0x62) : (get_tag mem p end_ len tag).p = p := by
  rcases get_tag_ret mem p end_ len tag with h1 | h1
  · omega
  · exact h1.2

theorem get_int_keeps (mem : List Nat) (p end_ : Nat) (val : Int)
    (h : (get_int mem p end_ val).ret = -0x62) : (get_int mem p end_ val).p = p := by
  unfold get_int at h ⊢
  simp only [ERR_ASN1_INVALID_LENGTH] at h ⊢
  rcases get_tag_ret mem p end_ 0 0x02 with h1 | h1
  · split at h
    · simp only at h
      omega
    · split at h
      · simp at h
      · simp at h
  · rw [if_pos (by rw [h1.1]; decide)]
    exact h1.2

theorem get_int_ret (mem : List Nat) (p end_ : Nat) (val : Int) :
    (get_int mem p end_ val).ret = 0 ∨ (get_int mem p end_ val).ret = -0x60 ∨
      (get_int mem p end_ val).ret = -0x62 ∨ (get_int mem p end_ val).ret = -0x64 := by
  unfold get_int
  simp only [ERR_ASN1_INVALID_LENGTH]
  rcases get_tag_ret mem p end_ 0 0x02 with h1 | h1
  · split
    · simp only
      omega
    · split <;> simp
  · rw [if_pos (by rw [h1.1]; decide)]
    simp [h1.1]

/-- The sample constants and collaborators have no error value `0`. -/
theorem nonzero_codes : NonzeroCodes consts env where
  invalid_format := by decide
  format_length := by decide
  unknown_version := by decide
  unknown_sig_alg := by decide
  sig_mismatch := by decide
  alloc_failed := by decide
  bad_input := by decide
  format_tag := by
    intro mem p end_ len tag
    show (-0x2180 : Int) + (get_tag mem p end_ len tag).ret ≠ 0
    have := get_tag_ret mem p end_ len tag
    omega
  version_int := by
    intro mem p end_ val
    show (-0x2200 : Int) + (get_int mem p end_ val).ret ≠ 0
    have := get_int_ret mem p end_ val
    omega

end Sample

section Frames2

variable (K : Consts) (E : Env)

/-- Before the `nextUpdate` block no block changes `next_update`. -/
theorem early_steps_next_update (f : DecSt → Step DecSt)
    (hf : f ∈ (decode_steps K E).take 7) (s s' : DecSt) (h : f s = .next s') :
    s'.crl.next_update = s.crl.next_update := by
  simp only [decode_steps, steps_to_version, steps_to_times, steps_to_tbs_end, steps_to_end,
    List.cons_append, List.nil_append, List.take_succ_cons, List.take_zero, List.mem_cons,
    List.mem_singleton, List.not_mem_nil, or_false] at hf
  rcases hf with rfl | rfl | rfl | rfl | rfl | rfl | rfl
  · obtain ⟨-, -, rfl⟩ := step_outer_seq_next K E _ _ h; rfl
  · obtain ⟨-, rfl⟩ := step_tbs_next K E _ _ h; rfl
  · obtain ⟨-, -, rfl⟩ := step_version_alg_next K E _ _ h; rfl
  · obtain ⟨-, -, rfl⟩ := step_version_range_next K _ _ h; rfl
  · obtain ⟨-, rfl⟩ := step_sig_alg_next K E _ _ h; rfl
  · obtain ⟨-, -, rfl⟩ := step_issuer_next K E _ _ h; rfl
  · obtain ⟨-, rfl⟩ := step_this_update_next K E _ _ h; rfl

end Frames2

section Frames3

variable (K : Consts) (E : Env)

/-- Before the `crlExtensions` block no block changes `crl_ext`. -/
theorem early_steps_crl_ext (f : DecSt → Step DecSt)
    (hf : f ∈ (decode_steps K E).take 9) (s s' : DecSt) (h : f s = .next s') :
    s'.crl.crl_ext = s.crl.crl_ext := by
  simp only [decode_steps, steps_to_version, steps_to_times, steps_to_tbs_end, steps_to_end,
    List.cons_append, List.nil_append, List.take_succ_cons, List.take_zero, List.mem_cons,
    List.mem_singleton, List.not_mem_nil, or_false] at hf
  rcases hf with rfl | rfl | rfl | rfl | rfl | rfl | rfl | rfl | rfl
  · obtain ⟨-, -, rfl⟩ := step_outer_seq_next K E _ _ h; rfl
  · obtain ⟨-, rfl⟩ := step_tbs_next K E _ _ h; rfl
  · obtain ⟨-, -, rfl⟩ := step_version_alg_next K E _ _ h; rfl
  · obtain ⟨-, -, rfl⟩ := step_version_range_next K _ _ h; rfl
  · obtain ⟨-, rfl⟩ := step_sig_alg_next K E _ _ h; rfl
  · obtain ⟨-, -, rfl⟩ := step_issuer_next K E _ _ h; rfl
  · obtain ⟨-, rfl⟩ := step_this_update_next K E _ _ h; rfl
  · have := step_next_update_next K E _ _ h; subst this; rfl
  · obtain ⟨r, -, -, rfl⟩ := step_entries_next K E _ _ h; rfl

/-- After the `crlExtensions` block no block changes `crl_ext`. -/
theorem late_steps_crl_ext (f : DecSt → Step DecSt)
    (hf : f ∈ (decode_steps K E).drop 10) (s s' : DecSt) (h : f s = .next s') :
    s'.crl.crl_ext = s.crl.crl_ext := by
  simp only [decode_steps, steps_to_version, steps_to_times, steps_to_tbs_end, steps_to_end,
    List.cons_append, List.nil_append, List.drop_succ_cons, List.drop_zero, List.mem_cons,
    List.mem_singleton, List.not_mem_nil, or_false] at hf
  rcases hf with rfl | rfl | rfl | rfl | rfl
  · obtain ⟨-, rfl⟩ := step_tbs_end_next K _ _ h; rfl
  · obtain ⟨-, rfl⟩ := step_outer_alg_next K E _ _ h; rfl
  · obtain ⟨-, rfl⟩ := step_sig_cmp_next K _ _ h; rfl
  · obtain ⟨-, rfl⟩ := step_sig_next K E _ _ h; rfl
  · obtain ⟨-, rfl⟩ := step_end_next K _ _ h; rfl

/-- Between the `TBSCertList` header and the check of its end no block changes `end`. -/
theorem mid_steps_end (f : DecSt → Step DecSt)
    (hf : f ∈ ((decode_steps K E).drop 2).take 8) (s s' : DecSt) (h : f s = .next s') :
    s'.end_ = s.end_ := by
  simp only [decode_steps, steps_to_version, steps_to_times, steps_to_tbs_end, steps_to_end,
    List.cons_append, List.nil_append, List.drop_succ_cons, List.drop_zero,
    List.take_succ_cons, List.take_zero, List.mem_cons,
    List.mem_singleton, List.not_mem_nil, or_false] at hf
  rcases hf with rfl | rfl | rfl | rfl | rfl | rfl | rfl | rfl
  · obtain ⟨-, -, rfl⟩ := step_version_alg_next K E _ _ h; rfl
  · obtain ⟨-, -, rfl⟩ := step_version_range_next K _ _ h; rfl
  · obtain ⟨-, rfl⟩ := step_sig_alg_next K E _ _ h; rfl
  · obtain ⟨-, -, rfl⟩ := step_issuer_next K E _ _ h; rfl
  · obtain ⟨-, rfl⟩ := step_this_update_next K E _ _ h; rfl
  · have := step_next_update_next K E _ _ h; subst this; rfl
  · obtain ⟨r, -, -, rfl⟩ := step_entries_next K E _ _ h; rfl
  · rcases step_crl_ext_next K E _ _ h with ⟨-, rfl⟩ | ⟨-, r, -, -, rfl⟩ <;> rfl

/-- Splitting the blocks before block `n + m` at block `n`. -/
theorem state_before_add (n m : Nat) (s0 s : DecSt) (h : state_before K E n s0 = .next s) :
    state_before K E (n + m) s0 = run_steps (((decode_steps K E).drop n).take m) s := by
  unfold state_before at h ⊢
  rw [List.take_add, run_steps_append, h]

/-- The four last blocks: where the cursor and the bound are. -/
theorem tail_blocks (s10 s11 s12 s13 s14 : DecSt)
    (h11 : step_tbs_end K s10 = .next s11) (h12 : step_outer_alg K E s11 = .next s12)
    (h13 : step_sig_cmp K s12 = .next s13) (h14 : step_sig K E s13 = .next s14) :
    s10.p = s10.end_ ∧ s11.p = s10.p ∧ s11.end_ = s10.crl.raw_len ∧ s11.mem = s10.mem ∧
    s12.p = (E.mbedtls_x509_get_alg s11.mem s11.p s11.end_ s11.sig_oid2 s11.sig_params2).p ∧
    s12.end_ = s10.crl.raw_len ∧ s12.mem = s10.mem ∧ s13 = s12 ∧
    s14.p = (E.mbedtls_x509_get_sig s12.mem s12.p s12.end_ s12.crl.sig).p ∧
    s14.end_ = s10.crl.raw_len := by
  obtain ⟨hp, e11⟩ := step_tbs_end_next K _ _ h11
  obtain ⟨-, e12⟩ := step_outer_alg_next K E _ _ h12
  obtain ⟨-, e13⟩ := step_sig_cmp_next K _ _ h13
  obtain ⟨-, e14⟩ := step_sig_next K E _ _ h14
  have a1 : s11.p = s10.p := by rw [e11]
  have a2 : s11.end_ = s10.crl.raw_len := by rw [e11]
  have a3 : s11.mem = s10.mem := by rw [e11]
  have a4 : s12.p =
      (E.mbedtls_x509_get_alg s11.mem s11.p s11.end_ s11.sig_oid2 s11.sig_params2).p := by
    rw [e12]
  have a5 : s12.end_ = s11.end_ := by rw [e12]
  have a6 : s12.mem = s11.mem := by rw [e12]
  have a7 : s14.p = (E.mbedtls_x509_get_sig s13.mem s13.p s13.end_ s13.crl.sig).p := by
    rw [e14]
  have a8 : s14.end_ = s13.end_ := by rw [e14]
  rw [e13] at a7 a8
  exact ⟨hp, a1, a2, a3, a4, by rw [a5, a2], by rw [a6, a3], e13, a7, by rw [a8, a5, a2]⟩

end Frames3

/-! ## What a failing block leaves behind -/

section Failure

variable (K : Consts) (E : Env)

theorem free_contents_nfree (l : List mbedtls_x509_crl) (h : Heap) :
    h.nfree ≤ (free_contents K l h).nfree ∧ (free_contents K l h).nalloc = h.nalloc := by
  induction l generalizing h with
  | nil => simp [free_contents]
  | cons c rest ih =>
    simp only [free_contents]
    have := ih { h with nfree := h.nfree + free_node_blocks K c }
    simp only at this
    omega

theorem free_tail_nodes_nfree (l : List mbedtls_x509_crl) (h : Heap) :
    h.nfree ≤ (free_tail_nodes l h).nfree ∧ (free_tail_nodes l h).nalloc = h.nalloc := by
  induction l generalizing h with
  | nil => simp [free_tail_nodes]
  | cons c rest ih =>
    simp only [free_tail_nodes]
    have := ih { h with nfree := h.nfree + 1 }
    simp only at this
    omega

/-- `mbedtls_x509_crl_free` on a list that starts at a node leaves the zeroed
node alone and releases at least the raw copy of that node. -/
theorem crl_free_cons (c : mbedtls_x509_crl) (post : List mbedtls_x509_crl) (h : Heap) :
    (mbedtls_x509_crl_free K (c :: post) h).1 = [zero_crl] ∧
    (mbedtls_x509_crl_free K (c :: post) h).2.nalloc = h.nalloc ∧
    (c.raw_p.isSome = true → h.nfree + 1 ≤ (mbedtls_x509_crl_free K (c :: post) h).2.nfree) := by
  refine ⟨rfl, ?_, ?_⟩
  · simp only [mbedtls_x509_crl_free, free_contents]
    rw [(free_tail_nodes_nfree _ _).2, (free_contents_nfree K _ _).2]
  · intro hraw
    simp only [mbedtls_x509_crl_free, free_contents]
    have h1 := (free_tail_nodes_nfree post
      (free_contents K post { h with nfree := h.nfree + free_node_blocks K c })).1
    have h2 := (free_contents_nfree K post { h with nfree := h.nfree + free_node_blocks K c }).1
    have h3 : 1 ≤ free_node_blocks K c := by
      unfold free_node_blocks
      simp only [hraw, if_true]
      omega
    simp only at h2
    omega

theorem fail_free_world (s : DecSt) (code c : Int) (w : World)
    (h : fail_free K s code = .ret c w) :
    c = code ∧ w.chain = s.pre ++ [zero_crl] ∧ w.heap.nalloc = s.heap.nalloc ∧
    (s.crl.raw_p.isSome = true → s.heap.nfree + 1 ≤ w.heap.nfree) := by
  unfold fail_free at h
  cases h
  obtain ⟨h1, h2, h3⟩ := crl_free_cons K s.crl s.post s.heap
  exact ⟨rfl, by simp only [h1], h2, h3⟩

theorem entries_loop_heap (mem : List Nat) (end_ : Nat) :
    ∀ (fuel p : Nat) (done : List mbedtls_x509_crl_entry) (cur : mbedtls_x509_crl_entry)
      (rest : List mbedtls_x509_crl_entry) (h : Heap) (r : EntriesRes),
      entries_loop K E mem end_ fuel p done cur rest h = .ok r →
      r.heap.nfree = h.nfree ∧ h.nalloc ≤ r.heap.nalloc := by
  intro fuel
  induction fuel with
  | zero =>
    intro p done cur rest h r hr
    simp only [entries_loop] at hr
    split at hr
    · cases hr
    · cases hr
      simp [entries_result]
  | succ fuel ih =>
    intro p done cur rest h r hr
    simp only [entries_loop] at hr
    split at hr
    · split at hr
      · cases hr
      · rename_i e he
        split at hr
        · cases hr
          simp [entries_result]
        · split at hr
          · split at hr
            · have := ih _ _ _ _ _ _ hr
              simp only at this
              omega
            · cases hr
              simp [entries_result]
          · exact ih _ _ _ _ _ _ hr
    · cases hr
      simp [entries_result]

theorem get_entries_heap (mem : List Nat) (p end_ : Nat) (entry : mbedtls_x509_crl_entry)
    (next : List mbedtls_x509_crl_entry) (h : Heap) (r : EntriesRes)
    (hr : x509_get_entries K E mem p end_ entry next h = .ok r) :
    r.heap.nfree = h.nfree ∧ h.nalloc ≤ r.heap.nalloc := by
  unfold x509_get_entries at hr
  split at hr
  · cases hr; simp
  · simp only at hr
    split at hr
    · split at hr <;> cases hr <;> simp
    · exact entries_loop_heap K E _ _ _ _ _ _ _ _ _ hr

/-- A block that returns has released the node: the caller sees the nodes
before it followed by one zeroed node. -/
theorem decode_steps_ret_world (f : DecSt → Step DecSt) (hf : f ∈ decode_steps K E)
    (s : DecSt) (code : Int) (w : World) (h : f s = .ret code w) :
    w.chain = s.pre ++ [zero_crl] ∧
    (s.crl.raw_p.isSome = true → s.heap.nfree + 1 ≤ w.heap.nfree) := by
  simp only [decode_steps, steps_to_version, steps_to_times, steps_to_tbs_end, steps_to_end,
    List.cons_append, List.nil_append, List.mem_cons, List.mem_singleton, List.not_mem_nil,
    or_false] at hf
  rcases hf with rfl | rfl | rfl | rfl | rfl | rfl | rfl | rfl | rfl | rfl | rfl | rfl | rfl | rfl |
    rfl
  · unfold step_outer_seq at h
    simp only at h
    split at h
    · obtain ⟨-, h1, -, h2⟩ := fail_free_world K _ _ _ _ h; exact ⟨h1, h2⟩
    · split at h
      · obtain ⟨-, h1, -, h2⟩ := fail_free_world K _ _ _ _ h; exact ⟨h1, h2⟩
      · cases h
  · unfold step_tbs at h
    simp only at h
    split at h
    · obtain ⟨-, h1, -, h2⟩ := fail_free_world K _ _ _ _ h; exact ⟨h1, h2⟩
    · cases h
  · unfold step_version_alg at h
    simp only at h
    split at h
    · obtain ⟨-, h1, -, h2⟩ := fail_free_world K _ _ _ _ h; exact ⟨h1, h2⟩
    · split at h
      · obtain ⟨-, h1, -, h2⟩ := fail_free_world K _ _ _ _ h; exact ⟨h1, h2⟩
      · cases h
  · unfold step_version_range at h
    split at h
    · obtain ⟨-, h1, -, h2⟩ := fail_free_world K _ _ _ _ h; exact ⟨h1, h2⟩
    · cases h
  · unfold step_sig_alg at h
    simp only at h
    split at h
    · obtain ⟨-, h1, -, h2⟩ := fail_free_world K _ _ _ _ h; exact ⟨h1, h2⟩
    · cases h
  · unfold step_issuer at h
    simp only at h
    split at h
    · obtain ⟨-, h1, -, h2⟩ := fail_free_world K _ _ _ _ h; exact ⟨h1, h2⟩
    · split at h
      · obtain ⟨-, h1, -, h2⟩ := fail_free_world K _ _ _ _ h; exact ⟨h1, h2⟩
      · cases h
  · unfold step_this_update at h
    simp only at h
    split at h
    · obtain ⟨-, h1, -, h2⟩ := fail_free_world K _ _ _ _ h; exact ⟨h1, h2⟩
    · cases h
  · unfold step_next_update at h
    simp only at h
    split at h
    · split at h
      · obtain ⟨-, h1, -, h2⟩ := fail_free_world K _ _ _ _ h; exact ⟨h1, h2⟩
      · cases h
    · cases h
  · unfold step_entries at h
    split at h
    · cases h
    · rename_i r hr
      simp only at h
      split at h
      · obtain ⟨-, h1, -, h2⟩ := fail_free_world K _ _ _ _ h
        have hh := (get_entries_heap K E _ _ _ _ _ _ _ hr).1
        refine ⟨h1, fun hraw => ?_⟩
        have := h2 hraw
        simp only at this
        omega
      · cases h
  · unfold step_crl_ext at h
    split at h
    · split at h
      · cases h
      · simp only at h
        split at h
        · obtain ⟨-, h1, -, h2⟩ := fail_free_world K _ _ _ _ h; exact ⟨h1, h2⟩
        · cases h
    · cases h
  · unfold step_tbs_end at h
    split at h
    · obtain ⟨-, h1, -, h2⟩ := fail_free_world K _ _ _ _ h; exact ⟨h1, h2⟩
    · cases h
  · unfold step_outer_alg at h
    simp only at h
    split at h
    · obtain ⟨-, h1, -, h2⟩ := fail_free_world K _ _ _ _ h; exact ⟨h1, h2⟩
    · cases h
  · unfold step_sig_cmp at h
    split at h
    · cases h
    · obtain ⟨-, h1, -, h2⟩ := fail_free_world K _ _ _ _ h; exact ⟨h1, h2⟩
    · cases h
  · unfold step_sig at h
    simp only at h
    split at h
    · obtain ⟨-, h1, -, h2⟩ := fail_free_world K _ _ _ _ h; exact ⟨h1, h2⟩
    · cases h
  · unfold step_end at h
    split at h
    · obtain ⟨-, h1, -, h2⟩ := fail_free_world K _ _ _ _ h; exact ⟨h1, h2⟩
    · cases h
end Failure

section Failure2

variable (K : Consts) (E : Env)

/-- No block that falls through releases anything. -/
theorem decode_steps_nfree (f : DecSt → Step DecSt) (hf : f ∈ decode_steps K E)
    (s s' : DecSt) (h : f s = .next s') : s'.heap.nfree = s.heap.nfree := by
  simp only [decode_steps, steps_to_version, steps_to_times, steps_to_tbs_end, steps_to_end,
    List.cons_append, List.nil_append, List.mem_cons, List.mem_singleton, List.not_mem_nil,
    or_false] at hf
  rcases hf with rfl | rfl | rfl | rfl | rfl | rfl | rfl | rfl | rfl | rfl | rfl | rfl | rfl | rfl |
    rfl
  · obtain ⟨-, -, rfl⟩ := step_outer_seq_next K E _ _ h; rfl
  · obtain ⟨-, rfl⟩ := step_tbs_next K E _ _ h; rfl
  · obtain ⟨-, -, rfl⟩ := step_version_alg_next K E _ _ h; rfl
  · obtain ⟨-, -, rfl⟩ := step_version_range_next K _ _ h; rfl
  · obtain ⟨-, rfl⟩ := step_sig_alg_next K E _ _ h; rfl
  · obtain ⟨-, -, rfl⟩ := step_issuer_next K E _ _ h; rfl
  · obtain ⟨-, rfl⟩ := step_this_update_next K E _ _ h; rfl
  · have := step_next_update_next K E _ _ h; subst this; rfl
  · obtain ⟨r, hr, -, rfl⟩ := step_entries_next K E _ _ h
    exact (get_entries_heap K E _ _ _ _ _ _ _ hr).1
  · rcases step_crl_ext_next K E _ _ h with ⟨-, rfl⟩ | ⟨-, r, -, -, rfl⟩ <;> rfl
  · obtain ⟨-, rfl⟩ := step_tbs_end_next K _ _ h; rfl
  · obtain ⟨-, rfl⟩ := step_outer_alg_next K E _ _ h; rfl
  · obtain ⟨-, rfl⟩ := step_sig_cmp_next K _ _ h; rfl
  · obtain ⟨-, rfl⟩ := step_sig_next K E _ _ h; rfl
  · obtain ⟨-, rfl⟩ := step_end_next K _ _ h; rfl

/-- A run of blocks that ends in a `return` has released the node. -/
theorem run_steps_ret_world (l : List (DecSt → Step DecSt))
    (hl : ∀ f ∈ l, f ∈ decode_steps K E) (s : DecSt) (code : Int) (w : World)
    (h : run_steps l s = .ret code w) :
    w.chain = s.pre ++ [zero_crl] ∧
    (s.crl.raw_p.isSome = true → s.heap.nfree + 1 ≤ w.heap.nfree) := by
  induction l generalizing s with
  | nil => simp [run_steps] at h
  | cons f fs ih =>
    simp only [run_steps] at h
    cases hfs : f s with
    | next s1 =>
      rw [hfs] at h
      have hfix := decode_steps_fixed K E f (hl f (List.mem_cons_self _ _)) s s1 hfs
      have hnf := decode_steps_nfree K E f (hl f (List.mem_cons_self _ _)) s s1 hfs
      simp only [Prod.mk.injEq] at hfix
      obtain ⟨hpre, -, -, -, hraw⟩ := hfix
      obtain ⟨h1, h2⟩ := ih (fun g hg => hl g (List.mem_cons_of_mem _ hg)) s1 h
      rw [hpre] at h1
      rw [hraw, hnf] at h2
      exact ⟨h1, h2⟩
    | ret c w1 =>
      rw [hfs] at h
      cases h
      exact decode_steps_ret_world K E f (hl f (List.mem_cons_self _ _)) s _ _ hfs
    | fault e =>
      rw [hfs] at h
      cases h

theorem copy_raw_raw (pre : List mbedtls_x509_crl) (c : mbedtls_x509_crl)
    (post : List mbedtls_x509_crl) (h : Heap) (b : List Nat) (buflen : Nat) (s0 : DecSt)
    (hc : copy_raw K E pre c post h b buflen = .next s0) :
    s0.crl.raw_p = some (b.take buflen) ∧ s0.heap = { h with nalloc := h.nalloc + 1 } := by
  unfold copy_raw at hc
  split at hc
  · split at hc
    · cases hc
    · cases hc
      simp
  · cases hc

/-- The raw copy that the node holds when the decoding starts. -/
theorem parse_der_begin_raw (chain : List mbedtls_x509_crl) (b : List Nat)
    (buflen : Nat) (h : Heap) (s0 : DecSt)
    (hb : parse_der_begin K E chain (some b) buflen h = .next s0) :
    s0.crl.raw_p = some (b.take buflen) ∧ s0.heap.nfree = h.nfree := by
  unfold parse_der_begin at hb
  split at hb
  · cases hb
  · cases hb
  · rename_i c0 rest0 b' heq
    cases heq
    simp only at hb
    split at hb
    · split at hb
      · obtain ⟨h1, h2⟩ := copy_raw_raw K E _ _ _ _ _ _ _ hb
        exact ⟨h1, by rw [h2]⟩
      · cases hb
    · obtain ⟨h1, h2⟩ := copy_raw_raw K E _ _ _ _ _ _ _ hb
      exact ⟨h1, by rw [h2]⟩

end Failure2


/-! ## The node that a call fills -/

section Slot

variable (K : Consts) (E : Env)

theorem find_slot_empty_head (c0 : mbedtls_x509_crl) (rest : List mbedtls_x509_crl)
    (pre : List mbedtls_x509_crl) (h : c0.version = 0) :
    find_slot pre c0 rest = (pre, c0, rest) := by
  cases rest with
  | nil => rfl
  | cons n rest => simp [find_slot, h]

theorem find_slot_all_populated (rest : List mbedtls_x509_crl) :
    ∀ (pre : List mbedtls_x509_crl) (c : mbedtls_x509_crl),
      (∀ n ∈ c :: rest, n.version ≠ 0) →
      ∃ last, find_slot pre c rest = ((pre ++ c :: rest).dropLast, last, []) ∧
        (pre ++ c :: rest).dropLast ++ [last] = pre ++ c :: rest ∧ last.version ≠ 0 := by
  induction rest with
  | nil =>
    intro pre c h
    refine ⟨c, ?_, ?_, h c (List.mem_cons_self _ _)⟩
    · simp [find_slot, List.dropLast_concat]
    · simp [List.dropLast_concat]
  | cons n rest ih =>
    intro pre c h
    have hc : c.version ≠ 0 := h c (List.mem_cons_self _ _)
    obtain ⟨last, h1, h2, h3⟩ := ih (pre ++ [c]) n
      (fun m hm => h m (List.mem_cons_of_mem _ hm))
    refine ⟨last, ?_, ?_, h3⟩
    · simp only [find_slot, hc, ne_eq, not_false_eq_true, if_true]
      rw [h1]
      simp
    · simpa using h2

theorem copy_raw_frame (pre : List mbedtls_x509_crl) (c : mbedtls_x509_crl)
    (post : List mbedtls_x509_crl) (h : Heap) (b : List Nat) (buflen : Nat) (s0 : DecSt)
    (hc : copy_raw K E pre c post h b buflen = .next s0) :
    s0.pre = pre ∧ s0.post = post ∧
    s0.crl = { c with raw_p := some (b.take buflen), raw_len := buflen } := by
  obtain ⟨-, -, -, -, -, -, h1, h2, h3, -⟩ := copy_raw_next K E _ _ _ _ _ _ _ hc
  exact ⟨h1, h2, h3⟩

/-- The node at which the decoding starts: the head when it is empty, a new
node behind the last one when every node is populated. -/
theorem parse_der_begin_slot (chain : List mbedtls_x509_crl) (buf : Option (List Nat))
    (buflen : Nat) (h : Heap) (s0 : DecSt)
    (hb : parse_der_begin K E chain buf buflen h = .next s0) :
    (∀ c0 rest, chain = c0 :: rest → c0.version = 0 →
      s0.pre = [] ∧ s0.post = rest ∧ ∃ b, buf = some b ∧
        s0.crl = { c0 with raw_p := some (b.take buflen), raw_len := buflen }) ∧
    ((∀ n ∈ chain, n.version ≠ 0) →
      s0.pre = chain ∧ s0.post = [] ∧ ∃ b, buf = some b ∧
        s0.crl = { zero_crl with raw_p := some (b.take buflen), raw_len := buflen }) := by
  unfold parse_der_begin at hb
  split at hb
  · cases hb
  · cases hb
  · rename_i c0 rest0 b
    simp only at hb
    constructor
    · intro c0' rest' hch hv
      simp only [List.cons.injEq] at hch
      obtain ⟨rfl, rfl⟩ := hch
      rw [find_slot_empty_head c0 rest0 [] hv] at hb
      simp only [hv, ne_eq, not_true_eq_false, false_and, if_false] at hb
      obtain ⟨h1, h2, h3⟩ := copy_raw_frame K E _ _ _ _ _ _ _ hb
      exact ⟨h1, h2, b, rfl, h3⟩
    · intro hall
      obtain ⟨last, hfs, happ, hlast⟩ := find_slot_all_populated rest0 [] c0 hall
      rw [hfs] at hb
      simp only [hlast, ne_eq, not_false_eq_true, and_self, if_true] at hb
      split at hb
      · obtain ⟨h1, h2, h3⟩ := copy_raw_frame K E _ _ _ _ _ _ _ hb
        refine ⟨?_, h2, b, rfl, ?_⟩
        · rw [h1, happ]
          rfl
        · rw [h3]
          rfl
      · cases hb

/-- A call that returns `0` has filled the node at which the decoding started,
with version 1 or 2, and has left the nodes around it as they were. -/
theorem accepted_world (hz : NonzeroCodes K E) (chain : List mbedtls_x509_crl)
    (buf : Option (List Nat)) (buflen : Nat) (h : Heap) (r : Result)
    (hr : mbedtls_x509_crl_parse_der K E chain buf buflen h = .ok r) (h0 : r.ret = 0) :
    ∃ s0 sf, parse_der_begin K E chain buf buflen h = .next s0 ∧
      run_steps (decode_steps K E) s0 = .next sf ∧
      r.world.chain = s0.pre ++ sf.crl :: s0.post ∧
      (sf.crl.version = 1 ∨ sf.crl.version = 2) ∧
      sf.crl.raw_p = s0.crl.raw_p ∧ sf.crl.raw_len = s0.crl.raw_len ∧ sf.mem = s0.mem := by
  obtain ⟨s0, sf, hb, hrun, hw⟩ := accepted_falls_through K E hz chain buf buflen h r hr h0
  obtain ⟨s3, hs3, hrest⟩ := state_before_of_run K E s0 sf hrun 3
  have hdrop : (decode_steps K E).drop 3 =
      step_version_range K :: (decode_steps K E).drop 4 := rfl
  rw [hdrop] at hrest
  obtain ⟨s4, h4, hrest⟩ := (run_steps_cons_next _ _ _ _).mp hrest
  have hver : sf.crl.version = s4.crl.version :=
    run_steps_inv (fun s => s.crl.version) _ (late_steps_version K E) s4 sf hrest
  obtain ⟨hpre, hpost, hmem, hrl, hrp⟩ := state_before_fixed K E _ s0 sf
    (show state_before K E (decode_steps K E).length s0 = .next sf by
      unfold state_before; rw [List.take_length]; exact hrun)
  obtain ⟨hv0, hv1, e4⟩ := step_version_range_next K _ _ h4
  have hv4 : s4.crl.version = s3.crl.version + 1 := by rw [e4]
  refine ⟨s0, sf, hb, hrun, ?_, ?_, hrp, hrl, hmem⟩
  · rw [hw, DecSt.world, hpre, hpost]
  · rw [hver, hv4]; omega

end Slot

/-! ## Which blocks write which span -/

section Frames

variable (K : Consts) (E : Env)

/-- After its header is read no block changes the `tbs` span. -/
theorem late_steps_tbs (f : DecSt → Step DecSt) (hf : f ∈ (decode_steps K E).drop 2)
    (s s' : DecSt) (h : f s = .next s') : s'.crl.tbs = s.crl.tbs := by
  simp only [decode_steps, steps_to_version, steps_to_times, steps_to_tbs_end, steps_to_end,
    List.cons_append, List.nil_append, List.drop_succ_cons, List.drop_zero, List.mem_cons,
    List.mem_singleton, List.not_mem_nil, or_false] at hf
  rcases hf with rfl | rfl | rfl | rfl | rfl | rfl | rfl | rfl | rfl | rfl | rfl | rfl | rfl
  · obtain ⟨-, -, rfl⟩ := step_version_alg_next K E _ _ h; rfl
  · obtain ⟨-, -, rfl⟩ := step_version_range_next K _ _ h; rfl
  · obtain ⟨-, rfl⟩ := step_sig_alg_next K E _ _ h; rfl
  · obtain ⟨-, -, rfl⟩ := step_issuer_next K E _ _ h; rfl
  · obtain ⟨-, rfl⟩ := step_this_update_next K E _ _ h; rfl
  · have := step_next_update_next K E _ _ h; subst this; rfl
  · obtain ⟨r, -, -, rfl⟩ := step_entries_next K E _ _ h; rfl
  · rcases step_crl_ext_next K E _ _ h with ⟨-, rfl⟩ | ⟨-, r, -, -, rfl⟩ <;> rfl
  · obtain ⟨-, rfl⟩ := step_tbs_end_next K _ _ h; rfl
  · obtain ⟨-, rfl⟩ := step_outer_alg_next K E _ _ h; rfl
  · obtain ⟨-, rfl⟩ := step_sig_cmp_next K _ _ h; rfl
  · obtain ⟨-, rfl⟩ := step_sig_next K E _ _ h; rfl
  · obtain ⟨-, rfl⟩ := step_end_next K _ _ h; rfl

/-- After the inner algorithm identifier is read no block changes `sig_oid`. -/
theorem late_steps_sig_oid (f : DecSt → Step DecSt) (hf : f ∈ (decode_steps K E).drop 3)
    (s s' : DecSt) (h : f s = .next s') : s'.crl.sig_oid = s.crl.sig_oid := by
  simp only [decode_steps, steps_to_version, steps_to_times, steps_to_tbs_end, steps_to_end,
    List.cons_append, List.nil_append, List.drop_succ_cons, List.drop_zero, List.mem_cons,
    List.mem_singleton, List.not_mem_nil, or_false] at hf
  rcases hf with rfl | rfl | rfl | rfl | rfl | rfl | rfl | rfl | rfl | rfl | rfl | rfl
  · obtain ⟨-, -, rfl⟩ := step_version_range_next K _ _ h; rfl
  · obtain ⟨-, rfl⟩ := step_sig_alg_next K E _ _ h; rfl
  · obtain ⟨-, -, rfl⟩ := step_issuer_next K E _ _ h; rfl
  · obtain ⟨-, rfl⟩ := step_this_update_next K E _ _ h; rfl
  · have := step_next_update_next K E _ _ h; subst this; rfl
  · obtain ⟨r, -, -, rfl⟩ := step_entries_next K E _ _ h; rfl
  · rcases step_crl_ext_next K E _ _ h with ⟨-, rfl⟩ | ⟨-, r, -, -, rfl⟩ <;> rfl
  · obtain ⟨-, rfl⟩ := step_tbs_end_next K _ _ h; rfl
  · obtain ⟨-, rfl⟩ := step_outer_alg_next K E _ _ h; rfl
  · obtain ⟨-, rfl⟩ := step_sig_cmp_next K _ _ h; rfl
  · obtain ⟨-, rfl⟩ := step_sig_next K E _ _ h; rfl
  · obtain ⟨-, rfl⟩ := step_end_next K _ _ h; rfl

/-- After the issuer is read no block changes the `issuer_raw` span. -/
theorem late_steps_issuer_raw (f : DecSt → Step DecSt) (hf : f ∈ (decode_steps K E).drop 6)
    (s s' : DecSt) (h : f s = .next s') : s'.crl.issuer_raw = s.crl.issuer_raw := by
  simp only [decode_steps, steps_to_version, steps_to_times, steps_to_tbs_end, steps_to_end,
    List.cons_append, List.nil_append, List.drop_succ_cons, List.drop_zero, List.mem_cons,
    List.mem_singleton, List.not_mem_nil, or_false] at hf
  rcases hf with rfl | rfl | rfl | rfl | rfl | rfl | rfl | rfl | rfl
  · obtain ⟨-, rfl⟩ := step_this_update_next K E _ _ h; rfl
  · have := step_next_update_next K E _ _ h; subst this; rfl
  · obtain ⟨r, -, -, rfl⟩ := step_entries_next K E _ _ h; rfl
  · rcases step_crl_ext_next K E _ _ h with ⟨-, rfl⟩ | ⟨-, r, -, -, rfl⟩ <;> rfl
  · obtain ⟨-, rfl⟩ := step_tbs_end_next K _ _ h; rfl
  · obtain ⟨-, rfl⟩ := step_outer_alg_next K E _ _ h; rfl
  · obtain ⟨-, rfl⟩ := step_sig_cmp_next K _ _ h; rfl
  · obtain ⟨-, rfl⟩ := step_sig_next K E _ _ h; rfl
  · obtain ⟨-, rfl⟩ := step_end_next K _ _ h; rfl

/-- After the revoked entries are read no block changes the entry list. -/
theorem late_steps_entry (f : DecSt → Step DecSt) (hf : f ∈ (decode_steps K E).drop 9)
    (s s' : DecSt) (h : f s = .next s') :
    (s'.crl.entry, s'.crl.entry_next) = (s.crl.entry, s.crl.entry_next) := by
  simp only [decode_steps, steps_to_version, steps_to_times, steps_to_tbs_end, steps_to_end,
    List.cons_append, List.nil_append, List.drop_succ_cons, List.drop_zero, List.mem_cons,
    List.mem_singleton, List.not_mem_nil, or_false] at hf
  rcases hf with rfl | rfl | rfl | rfl | rfl | rfl
  · rcases step_crl_ext_next K E _ _ h with ⟨-, rfl⟩ | ⟨-, r, -, -, rfl⟩ <;> rfl
  · obtain ⟨-, rfl⟩ := step_tbs_end_next K _ _ h; rfl
  · obtain ⟨-, rfl⟩ := step_outer_alg_next K E _ _ h; rfl
  · obtain ⟨-, rfl⟩ := step_sig_cmp_next K _ _ h; rfl
  · obtain ⟨-, rfl⟩ := step_sig_next K E _ _ h; rfl
  · obtain ⟨-, rfl⟩ := step_end_next K _ _ h; rfl

/-- The blocks from a state before block `n` on, in a run through all blocks. -/
theorem run_from_state_before (n : Nat) (s0 s sf : DecSt)
    (hs : state_before K E n s0 = .next s)
    (hrun : run_steps (decode_steps K E) s0 = .next sf) :
    run_steps ((decode_steps K E).drop n) s = .next sf := by
  obtain ⟨s', hs', hrest⟩ := state_before_of_run K E s0 sf hrun n
  rw [hs] at hs'
  cases hs'
  exact hrest

/-- The input is used through its first `buflen` bytes only. -/
theorem parse_der_begin_take (chain : List mbedtls_x509_crl) (b : List Nat) (buflen : Nat)
    (h : Heap) (hlen : buflen ≤ b.length) :
    parse_der_begin K E chain (some (b.take buflen)) buflen h =
      parse_der_begin K E chain (some b) buflen h := by
  have h1 : ¬ b.length < buflen := by omega
  have h2 : ¬ (b.take buflen).length < buflen := by
    rw [List.length_take]; omega
  cases chain with
  | nil => rfl
  | cons c0 rest0 =>
    simp only [parse_der_begin, copy_raw, h1, h2, if_false, List.take_take, min_self]

end Frames

/-! ## Bounds of the sample tag reader -/

namespace Sample

theorem get_len_bounds (mem : List Nat) (p end_ len : Nat)
    (h : (get_len mem p end_ len).ret = 0) :
    p ≤ (get_len mem p end_ len).p ∧
      (get_len mem p end_ len).p + (get_len mem p end_ len).len ≤ end_ := by
  unfold get_len at h ⊢
  simp only [consts, ERR_ASN1_INVALID_LENGTH] at h ⊢
  split
  · rename_i h1; rw [if_pos h1] at h; simp at h
  · rename_i h1
    rw [if_neg h1] at h
    split
    · rename_i h2
      rw [if_pos h2] at h
      split
      · rename_i h3; rw [if_pos h3] at h; simp at h
      · simp only; omega
    · rename_i h2
      rw [if_neg h2] at h
      split
      · rename_i h3; rw [if_pos h3] at h; simp at h
      · rename_i h3
        rw [if_neg h3] at h
        split
        · rename_i h4; rw [if_pos h4] at h; simp at h
        · rename_i h4
          rw [if_neg h4] at h
          split
          · rename_i h5; rw [if_pos h5] at h; simp at h
          · simp only; omega

/-- The sample tag reader moves the cursor forward, and the content it
announces ends within the bound. -/
theorem get_tag_bounds (mem : List Nat) (p end_ len : Nat) (tag : Int)
    (h : (get_tag mem p end_ len tag).ret = 0) :
    p ≤ (get_tag mem p end_ len tag).p ∧
      (get_tag mem p end_ len tag).p + (get_tag mem p end_ len tag).len ≤ end_ := by
  unfold get_tag at h ⊢
  simp only [consts] at h ⊢
  split
  · rename_i h1; rw [if_pos h1] at h; simp at h
  · rename_i h1
    rw [if_neg h1] at h
    split
    · rename_i h2; rw [if_pos h2] at h; simp at h
    · rename_i h2
      rw [if_neg h2] at h
      have := get_len_bounds mem (p + 1) end_ len h
      omega

end Sample

/-! ## The entries block and the stored version -/

section EntryExt

variable (K : Consts) (E : Env)

end EntryExt

/-! ## Input that is not an envelope -/

section RawInput

variable (K : Consts) (E : Env)

/-- A first round in which the envelope reader is not called or reports a
failure: the call is the one call of `mbedtls_x509_crl_parse_der`. -/
theorem parse_no_envelope (P : Pem) (c0 : mbedtls_x509_crl) (rest : List mbedtls_x509_crl)
    (b : List Nat) (buflen : Nat) (h : Heap) (r : PemRes)
    (hread : read_envelope P ⟨c0 :: rest, h, b, buflen, 0, 0, false⟩ = .ok r)
    (hne : r.ret ≠ 0) :
    mbedtls_x509_crl_parse K E P (c0 :: rest) (some b) buflen h =
      mbedtls_x509_crl_parse_der K E (c0 :: rest) (some b) buflen h := by
  unfold mbedtls_x509_crl_parse
  cases P.MBEDTLS_PEM_PARSE_C with
  | false => rfl
  | true =>
    simp only [if_true, parse_loop, parse_round, hread, if_neg hne, Bool.false_eq_true,
      if_false, false_and]

end RawInput

/-! ## The loop over wrapped records -/

section Wrapped

variable (K : Consts) (E : Env)

theorem holds_records_length (P : Pem) (recs : List (Option (List Nat) × Nat)) :
    ∀ (buf : List Nat) (buflen use_len : Nat), HoldsRecords P recs buf buflen use_len →
      recs.length + 1 ≤ buflen := by
  induction recs with
  | nil =>
    intro buf buflen use_len h
    simp only [HoldsRecords] at h
    simp [h]
  | cons x rest ih =>
    intro buf buflen use_len h
    simp only [HoldsRecords] at h
    obtain ⟨-, -, -, -, -, h1, h2, hrest⟩ := h
    have := ih _ _ _ hrest
    simp only [List.length_cons]
    omega

/-- A first successful decode in `decode_all`. -/
theorem decode_all_cons (w : World) (x : Option (List Nat) × Nat)
    (rest : List (Option (List Nat) × Nat)) (r : Result)
    (hd : decode_all K E w (x :: rest) = .ok r) (h0 : r.ret = 0) :
    ∃ d, mbedtls_x509_crl_parse_der K E w.chain x.1 x.2 w.heap = .ok d ∧ d.ret = 0 ∧
      decode_all K E d.world rest = .ok r := by
  simp only [decode_all] at hd
  cases hp : mbedtls_x509_crl_parse_der K E w.chain x.1 x.2 w.heap with
  | error f => rw [hp] at hd; cases hd
  | ok d =>
    rw [hp] at hd
    simp only at hd
    by_cases hne : d.ret ≠ 0
    · rw [if_pos hne] at hd
      cases hd
      exact absurd h0 hne
    · rw [if_neg hne] at hd
      exact ⟨d, rfl, not_not.mp hne, hd⟩

/-- The loop of `mbedtls_x509_crl_parse` on wrapped records that all decode:
it ends, in the envelope mode, with the chain that the decodes leave. -/
theorem parse_loop_records (P : Pem) (recs : List (Option (List Nat) × Nat)) :
    ∀ (fuel : Nat) (s : ParseSt) (r : Result), recs ≠ [] → recs.length ≤ fuel →
      HoldsRecords P recs s.buf s.buflen s.use_len →
      decode_all K E { chain := s.chain, heap := s.heap } recs = .ok r → r.ret = 0 →
      ∃ sf, parse_loop K E P fuel s = .next sf ∧ sf.is_pem = true ∧
        sf.chain = r.world.chain ∧ sf.heap = r.world.heap := by
  induction recs with
  | nil => intro _ _ _ hne; exact absurd rfl hne
  | cons x rest ih =>
    intro fuel s r _ hfuel hrec hd h0
    cases fuel with
    | zero => simp at hfuel
    | succ fuel =>
      simp only [HoldsRecords] at hrec
      obtain ⟨hpos, hlast, hret, hbuf, hlen, hul1, hul2, hrest⟩ := hrec
      obtain ⟨d, hpd, hd0, hdrest⟩ := decode_all_cons K E _ x rest r hd h0
      simp only at hpd
      have hread : read_envelope P s =
          .ok (P.mbedtls_pem_read_buffer pem_begin pem_end s.buf none 0 s.use_len) := by
        unfold read_envelope
        have hb0 : s.buflen ≠ 0 := by omega
        simp only [hb0, if_false, hlast, ne_eq, not_true_eq_false]
      have hsub : size_of_diff K s.buflen
          (P.mbedtls_pem_read_buffer pem_begin pem_end s.buf none 0 s.use_len).use_len =
          s.buflen - (P.mbedtls_pem_read_buffer pem_begin pem_end s.buf none 0 s.use_len).use_len := by
        unfold size_of_diff
        rw [if_pos (by omega)]
      have hround : parse_round K E P s = .next
          { s with is_pem := true,
                   use_len := (P.mbedtls_pem_read_buffer pem_begin pem_end s.buf none 0
                     s.use_len).use_len,
                   buflen := s.buflen - (P.mbedtls_pem_read_buffer pem_begin pem_end s.buf none 0
                     s.use_len).use_len,
                   buf := s.buf.drop (P.mbedtls_pem_read_buffer pem_begin pem_end s.buf none 0
                     s.use_len).use_len,
                   ret := d.ret, chain := d.world.chain, heap := d.world.heap } := by
        unfold parse_round
        rw [hread]
        simp only [hret, if_true, hbuf, hlen, hpd, hd0, ne_eq, not_true_eq_false, if_false, hsub]
      simp only [parse_loop, hround]
      cases rest with
      | nil =>
        simp only [HoldsRecords] at hrest
        simp only [decode_all, Except.ok.injEq] at hdrest
        rw [if_neg (fun hc => by
          have h2 : s.buflen - (P.mbedtls_pem_read_buffer pem_begin pem_end s.buf none 0
            s.use_len).use_len > 1 := hc.2
          omega)]
        refine ⟨_, rfl, rfl, ?_, ?_⟩
        · rw [← hdrest]
        · rw [← hdrest]
      | cons y rest2 =>
        have hlen2 := holds_records_length P (y :: rest2) _ _ _ hrest
        simp only [List.length_cons] at hlen2 hfuel
        have h2 : s.buflen - (P.mbedtls_pem_read_buffer pem_begin pem_end s.buf none 0
            s.use_len).use_len > 1 := by omega
        rw [if_pos ⟨trivial, h2⟩]
        exact ih fuel _ r (by simp) (by simp only [List.length_cons]; omega) hrest hdrest h0

end Wrapped

/-! ## Records decoded one after the other -/

section DecodeAll

variable (K : Consts) (E : Env)

/-- Where an accepted record is put: into the head when the head is empty,
into one new node behind the last one when all nodes are populated. -/
theorem accepted_slot (hz : NonzeroCodes K E) (chain : List mbedtls_x509_crl)
    (buf : Option (List Nat)) (buflen : Nat) (h : Heap) (r : Result)
    (hr : mbedtls_x509_crl_parse_der K E chain buf buflen h = .ok r) (h0 : r.ret = 0) :
    (∀ c0 rest, chain = c0 :: rest → c0.version = 0 →
      ∃ c, r.world.chain = c :: rest ∧ (c.version = 1 ∨ c.version = 2)) ∧
    ((∀ n ∈ chain, n.version ≠ 0) →
      ∃ c, r.world.chain = chain ++ [c] ∧ (c.version = 1 ∨ c.version = 2)) := by
  obtain ⟨s0, sf, hb, -, hw, hv, -⟩ := accepted_world K E hz chain buf buflen h r hr h0
  obtain ⟨hhead, hall⟩ := parse_der_begin_slot K E chain buf buflen h s0 hb
  constructor
  · intro c0 rest hch hv0
    obtain ⟨hpre, hpost, -⟩ := hhead c0 rest hch hv0
    refine ⟨sf.crl, ?_, hv⟩
    rw [hw, hpre, hpost]
    rfl
  · intro hpop
    obtain ⟨hpre, hpost, -⟩ := hall hpop
    refine ⟨sf.crl, ?_, hv⟩
    rw [hw, hpre, hpost]

/-- Records decoded one after the other into a chain whose nodes are all
populated: one node is appended for each, in order. -/
theorem decode_all_appends (hz : NonzeroCodes K E) (recs : List (Option (List Nat) × Nat)) :
    ∀ (w : World) (r : Result), (∀ n ∈ w.chain, n.version ≠ 0) →
      decode_all K E w recs = .ok r → r.ret = 0 →
      ∃ ext, r.world.chain = w.chain ++ ext ∧ ext.length = recs.length ∧
        (∀ n ∈ ext, n.version = 1 ∨ n.version = 2) ∧
        ∀ k, k ≤ recs.length → ∃ wk, decode_all K E w (recs.take k) =
          .ok { ret := 0, world := wk } ∧ wk.chain = w.chain ++ ext.take k := by
  induction recs with
  | nil =>
    intro w r _ hd _
    simp only [decode_all, Except.ok.injEq] at hd
    refine ⟨[], ?_, rfl, by simp, ?_⟩
    · rw [← hd]; simp
    · intro k _
      exact ⟨w, by simp [decode_all], by simp⟩
  | cons x rest ih =>
    intro w r hpop hd h0
    obtain ⟨d, hpd, hd0, hdrest⟩ := decode_all_cons K E w x rest r hd h0
    obtain ⟨c, hc, hcv⟩ := (accepted_slot K E hz _ _ _ _ d hpd hd0).2 hpop
    have hpop2 : ∀ n ∈ d.world.chain, n.version ≠ 0 := by
      intro n hn
      rw [hc, List.mem_append, List.mem_singleton] at hn
      rcases hn with hn | rfl
      · exact hpop n hn
      · omega
    obtain ⟨ext, hext, hlen, hver, hk⟩ := ih d.world r hpop2 hdrest h0
    refine ⟨c :: ext, ?_, by simp [hlen], ?_, ?_⟩
    · rw [hext, hc]; simp
    · intro n hn
      rw [List.mem_cons] at hn
      rcases hn with rfl | hn
      · exact hcv
      · exact hver n hn
    · intro k hkle
      cases k with
      | zero => exact ⟨w, by simp [decode_all], by simp⟩
      | succ k =>
        simp only [List.length_cons] at hkle
        obtain ⟨wk, hwk, hwkc⟩ := hk k (by omega)
        refine ⟨wk, ?_, ?_⟩
        · simp only [List.take_succ_cons, decode_all, hpd, hd0, ne_eq, not_true_eq_false,
            if_false]
          exact hwk
        · rw [hwkc, hc]; simp

end DecodeAll

/-! ## How many blocks the destructor releases -/

section FreeCount

variable (K : Consts) (E : Env)

/-- The first loop of `mbedtls_x509_crl_free` releases, for every node, what
`free_node_blocks` counts, and nothing else. -/
theorem free_contents_count (l : List mbedtls_x509_crl) :
    ∀ h : Heap, (free_contents K l h).nalloc = h.nalloc ∧
      (free_contents K l h).nfree = h.nfree + (l.map (free_node_blocks K)).sum := by
  induction l with
  | nil => intro h; simp [free_contents]
  | cons c rest ih =>
    intro h
    obtain ⟨h1, h2⟩ := ih { h with nfree := h.nfree + free_node_blocks K c }
    simp only at h1 h2
    simp only [free_contents, List.map_cons, List.sum_cons]
    exact ⟨h1, by rw [h2]; omega⟩

/-- The second loop of `mbedtls_x509_crl_free` releases one block for every
node behind the head. -/
theorem free_tail_nodes_count (l : List mbedtls_x509_crl) :
    ∀ h : Heap, (free_tail_nodes l h).nalloc = h.nalloc ∧
      (free_tail_nodes l h).nfree = h.nfree + l.length := by
  induction l with
  | nil => intro h; simp [free_tail_nodes]
  | cons c rest ih =>
    intro h
    obtain ⟨h1, h2⟩ := ih { h with nfree := h.nfree + 1 }
    simp only at h1 h2
    simp only [free_tail_nodes, List.length_cons]
    exact ⟨h1, by rw [h2]; omega⟩

end FreeCount

/-! ## The renderer as a run of write steps -/

section InfoRun

variable (K : Consts) (E : Env)

/-- A write step goes on exactly when the piece is strictly shorter than the
remaining capacity. -/
theorem write_step_ok (T : Txt) (w : Writer) (s s1 : InfoSt) :
    write_step T w s = .ok s1 ↔
      ∃ l : Nat, (w s.out s.p s.n).ret = (l : Int) ∧ l < s.n ∧
        s1 = { out := (w s.out s.p s.n).out, p := s.p + l, n := s.n - l, ret := (l : Int) } := by
  unfold write_step MBEDTLS_X509_SAFE_SNPRINTF
  simp only
  constructor
  · intro h
    split at h
    · cases h
    · rename_i hc
      simp only [not_or, not_lt, not_le] at hc
      cases h
      refine ⟨(w s.out s.p s.n).ret.toNat, (Int.toNat_of_nonneg hc.1).symm, hc.2, ?_⟩
      rw [Int.toNat_of_nonneg hc.1]
  · rintro ⟨l, hl, hlt, rfl⟩
    rw [if_neg]
    · simp only [hl, Int.toNat_ofNat]
    · simp only [hl, Int.toNat_ofNat, not_or, not_lt, not_le]
      exact ⟨Int.ofNat_nonneg l, hlt⟩

/-- A write step makes the function return exactly when it failed or its piece
is not strictly shorter than the remaining capacity; the buffer is then as
the step left it. -/
theorem write_step_error (T : Txt) (w : Writer) (s : InfoSt) (r : InfoRes) :
    write_step T w s = .error r ↔
      ((w s.out s.p s.n).ret < 0 ∨ (s.n : Int) ≤ (w s.out s.p s.n).ret) ∧
        r = { ret := T.MBEDTLS_ERR_X509_BUFFER_TOO_SMALL, out := (w s.out s.p s.n).out } := by
  unfold write_step MBEDTLS_X509_SAFE_SNPRINTF
  simp only
  have key : ((w s.out s.p s.n).ret < 0 ∨ s.n ≤ (w s.out s.p s.n).ret.toNat) ↔
      ((w s.out s.p s.n).ret < 0 ∨ (s.n : Int) ≤ (w s.out s.p s.n).ret) := by
    constructor
    · rintro (h | h)
      · exact Or.inl h
      · by_cases hneg : (w s.out s.p s.n).ret < 0
        · exact Or.inl hneg
        · right
          omega
    · rintro (h | h)
      · exact Or.inl h
      · right
        omega
  constructor
  · intro h
    split at h
    · rename_i hc
      cases h
      exact ⟨key.mp hc, rfl⟩
    · cases h
  · rintro ⟨hc, rfl⟩
    rw [if_pos (key.mpr hc)]

theorem run_writes_append (T : Txt) (a b : List Writer) :
    ∀ s, run_writes T (a ++ b) s =
      match run_writes T a s with
      | .error r => .error r
      | .ok s1 => run_writes T b s1 := by
  induction a with
  | nil => intro s; rfl
  | cons w ws ih =>
    intro s
    simp only [List.cons_append, run_writes]
    cases write_step T w s with
    | error r => rfl
    | ok s1 => exact ih s1

/-- The loop over the entries performs the write steps of the printed entries,
in order. -/
theorem info_entries_eq (T : Txt) (pfx : List Nat) (mem : Option (List Nat))
    (l : List mbedtls_x509_crl_entry) :
    ∀ s, info_entries T pfx mem l s =
      run_writes T ((l.takeWhile (fun e => decide (e.raw.len ≠ 0))).flatMap
        (entry_writes T pfx mem)) s := by
  induction l with
  | nil => intro s; rfl
  | cons e rest ih =>
    intro s
    by_cases he : e.raw.len ≠ 0
    · have hd : decide (e.raw.len ≠ 0) = true := by simpa using he
      simp only [info_entries, if_pos he, List.takeWhile_cons, hd, if_true, List.flatMap_cons,
        entry_writes, List.cons_append, List.nil_append, run_writes]
      cases write_step T (write_serial_label T pfx) s with
      | error r => rfl
      | ok s1 =>
        simp only
        cases write_step T (write_serial T mem e) s1 with
        | error r => rfl
        | ok s2 =>
          simp only
          cases write_step T (write_revocation_date T e) s2 with
          | error r => rfl
          | ok s3 => exact ih s3
    · have hd : decide (e.raw.len ≠ 0) = false := by simpa using he
      simp only [info_entries, if_neg he, List.takeWhile_cons, hd]
      rfl

/-- The call as one run of write steps. -/
theorem info_eq_run (T : Txt) (buf : List Nat) (size : Nat) (pfx : List Nat)
    (crl : mbedtls_x509_crl) :
    mbedtls_x509_crl_info T buf size pfx crl =
      match run_writes T (info_writes T pfx crl (printed_entries crl))
          { out := buf, p := 0, n := size, ret := 0 } with
      | .error r => r
      | .ok s => { ret := int_of_size T (size - s.n), out := s.out } := by
  unfold mbedtls_x509_crl_info info_writes printed_entries
  rw [run_writes_append, run_writes_append]
  cases run_writes T (info_head T pfx crl) { out := buf, p := 0, n := size, ret := 0 } with
  | error r => rfl
  | ok s1 =>
    simp only
    rw [info_entries_eq]
    cases run_writes T ((List.takeWhile (fun e => decide (e.raw.len ≠ 0))
        (crl.entry :: crl.entry_next)).flatMap (entry_writes T pfx crl.raw_p)) s1 with
    | error r => rfl
    | ok s2 => rfl

end InfoRun

/-! ## When the write steps fit -/

section InfoFit

variable (K : Consts) (E : Env)

/-- A run of write steps reaches its end exactly when all of them fit. -/
theorem run_writes_ok (T : Txt) (ws : List Writer) :
    ∀ s sf, run_writes T ws s = .ok sf ↔ ∃ lens, Fit ws s lens sf := by
  induction ws with
  | nil =>
    intro s sf
    simp only [run_writes, Except.ok.injEq, Fit]
    constructor
    · intro h; exact ⟨[], rfl, h.symm⟩
    · rintro ⟨_, -, h⟩; exact h.symm
  | cons w ws ih =>
    intro s sf
    simp only [run_writes, Fit]
    constructor
    · intro h
      cases hw : write_step T w s with
      | error r => rw [hw] at h; cases h
      | ok s1 =>
        rw [hw] at h
        obtain ⟨l, hl, hlt, rfl⟩ := (write_step_ok T w s s1).mp hw
        obtain ⟨lens, hfit⟩ := (ih _ sf).mp h
        exact ⟨l :: lens, l, lens, rfl, hl, hlt, hfit⟩
    · rintro ⟨_, l, rest, -, hl, hlt, hfit⟩
      rw [(write_step_ok T w s _).mpr ⟨l, hl, hlt, rfl⟩]
      exact (ih _ sf).mpr ⟨rest, hfit⟩

/-- What the pieces add up to when all steps fit. -/
theorem fit_sum (ws : List Writer) :
    ∀ s lens sf, Fit ws s lens sf →
      sf.n + lens.sum = s.n ∧ sf.p = s.p + lens.sum ∧ lens.length = ws.length ∧
      (ws ≠ [] → 0 < sf.n) := by
  induction ws with
  | nil =>
    rintro s lens sf ⟨rfl, rfl⟩
    simp
  | cons w ws ih =>
    rintro s lens sf ⟨l, rest, rfl, hl, hlt, hfit⟩
    obtain ⟨h1, h2, h3, h4⟩ := ih _ _ _ hfit
    simp only at h1 h2
    refine ⟨by simp only [List.sum_cons]; omega, by simp only [List.sum_cons]; omega,
      by simp [h3], fun _ => ?_⟩
    cases ws with
    | nil =>
      obtain ⟨-, rfl⟩ := hfit
      simp only
      omega
    | cons w2 ws2 => exact h4 (by simp)

/-- A run of write steps ends in a return exactly when some step, reached
because all steps before it fit, does not fit; the buffer is then as that step
left it. -/
theorem run_writes_error (T : Txt) (ws : List Writer) :
    ∀ s r, run_writes T ws s = .error r ↔
      ∃ k w lens sk, ws[k]? = some w ∧ Fit (ws.take k) s lens sk ∧
        ((w sk.out sk.p sk.n).ret < 0 ∨ (sk.n : Int) ≤ (w sk.out sk.p sk.n).ret) ∧
        r = { ret := T.MBEDTLS_ERR_X509_BUFFER_TOO_SMALL, out := (w sk.out sk.p sk.n).out } := by
  induction ws with
  | nil =>
    intro s r
    constructor
    · intro h
      cases h
    · rintro ⟨k, w, lens, sk, hk, -⟩
      simp at hk
  | cons w ws ih =>
    intro s r
    simp only [run_writes]
    constructor
    · intro h
      cases hw : write_step T w s with
      | error r1 =>
        rw [hw] at h
        cases h
        obtain ⟨hbad, hr⟩ := (write_step_error T w s r).mp hw
        exact ⟨0, w, [], s, by simp, ⟨rfl, rfl⟩, hbad, hr⟩
      | ok s1 =>
        rw [hw] at h
        obtain ⟨l, hl, hlt, rfl⟩ := (write_step_ok T w s s1).mp hw
        obtain ⟨k, w2, lens, sk, hk, hfit, hbad, hr⟩ := (ih _ r).mp h
        exact ⟨k + 1, w2, l :: lens, sk, by simpa using hk,
          ⟨l, lens, rfl, hl, hlt, hfit⟩, hbad, hr⟩
    · rintro ⟨k, w2, lens, sk, hk, hfit, hbad, hr⟩
      cases k with
      | zero =>
        simp only [List.getElem?_cons_zero, Option.some.injEq] at hk
        obtain ⟨-, hsk⟩ := hfit
        rw [hsk, ← hk] at hbad hr
        rw [(write_step_error T w s r).mpr ⟨hbad, hr⟩]
      | succ k =>
        simp only [List.getElem?_cons_succ] at hk
        simp only [List.take_succ_cons, Fit] at hfit
        obtain ⟨l, rest, -, hl, hlt, hfit⟩ := hfit
        rw [(write_step_ok T w s _).mpr ⟨l, hl, hlt, rfl⟩]
        exact (ih _ r).mpr ⟨k, w2, rest, sk, hk, hfit, hbad, hr⟩

/-- Steps that need `lens` fit exactly when the capacity is more than the sum
of `lens`; one byte of capacity is then left for every capacity that is the
sum plus one. -/
theorem run_writes_needs (T : Txt) (ws : List Writer) :
    ∀ (lens : List Nat) (s : InfoSt), List.Forall₂ Needs ws lens →
      (lens.sum < s.n → ∃ sf, run_writes T ws s = .ok sf ∧ Fit ws s lens sf ∧
        sf.n = s.n - lens.sum) ∧
      (s.n ≤ lens.sum → ws ≠ [] → ∃ out, run_writes T ws s =
        .error { ret := T.MBEDTLS_ERR_X509_BUFFER_TOO_SMALL, out := out }) := by
  induction ws with
  | nil =>
    intro lens s h
    cases h
    refine ⟨fun _ => ⟨s, rfl, ⟨rfl, rfl⟩, by simp⟩, fun _ hne => absurd rfl hne⟩
  | cons w ws ih =>
    intro lens s h
    cases h with
    | cons hw hrest =>
      rename_i l rest
      obtain ⟨hfits, hbad⟩ := hw s.out s.p s.n
      simp only [List.sum_cons, run_writes]
      constructor
      · intro hlt
        have hl := hfits (by omega)
        rw [(write_step_ok T w s _).mpr ⟨l, hl, by omega, rfl⟩]
        obtain ⟨sf, hrun, hfit, hn⟩ :=
          (ih rest { out := (w s.out s.p s.n).out, p := s.p + l, n := s.n - l, ret := (l : Int) }
            hrest).1 (by simp only; omega)
        refine ⟨sf, hrun, ⟨l, rest, rfl, hl, by omega, hfit⟩, ?_⟩
        rw [hn]
        simp only
        omega
      · intro hle _
        by_cases hl : l < s.n
        · have hret := hfits hl
          rw [(write_step_ok T w s _).mpr ⟨l, hret, hl, rfl⟩]
          cases ws with
          | nil =>
            cases hrest
            simp only [List.sum_nil, add_zero] at hle
            omega
          | cons w2 ws2 =>
            exact (ih rest _ hrest).2 (by simp only; omega) (by simp)
        · have hb := hbad (by omega)
          exact ⟨_, by rw [(write_step_error T w s _).mpr ⟨hb, rfl⟩]⟩

end InfoFit

/-! ## What the sample text functions need -/

namespace Sample

/-- The sample `snprintf` needs the length of the expanded text. -/
theorem snprintf_needs (fmt : List Nat) (args : List FmtArg) :
    Needs (fun out p n => snprintf out p n fmt args) (fmt_text fmt args).length := by
  intro out p n
  simp only [snprintf]
  constructor
  · intro _; trivial
  · intro h; right; omega

/-- The sample text functions of the library need the length of their text. -/
theorem gets_needs (text : List Nat) :
    Needs (fun out p n => gets out p n text) text.length := by
  intro out p n
  simp only [gets]
  constructor
  · intro h
    rw [if_neg (by omega)]
  · intro h
    rw [if_pos h]
    left
    show (-0x2980 : Int) < 0
    decide

end Sample

/-! ## Decoded entries have a content -/

section EntryLen

variable (K : Consts) (E : Env)

/-- An entry that is decoded without error has a content of at least one byte,
when the serial reader fails on an empty range. -/
theorem get_entry_raw_len
    (hserial : ∀ mem p end_ sr, end_ ≤ p → (E.mbedtls_x509_get_serial mem p end_ sr).ret ≠ 0)
    (mem : List Nat) (end_ p : Nat) (cur : mbedtls_x509_crl_entry) (g : EntryRes)
    (hg : get_entry K E mem end_ p cur = .ok g) (h0 : g.ret = 0) : g.cur.raw.len ≠ 0 := by
  unfold get_entry at hg
  simp only at hg
  split at hg
  · rename_i h1
    cases hg
    exact absurd h0 h1
  · split at hg
    · cases hg
    · rename_i b hb
      split at hg
      · rename_i h1
        cases hg
        exact absurd h0 h1
      · rename_i h1
        have hlen : (E.mbedtls_asn1_get_tag mem p end_ 0 (seq_tag K)).len ≠ 0 := by
          intro hz
          apply h1
          apply hserial
          rw [hz]
          omega
        split at hg
        · cases hg
          exact hlen
        · split at hg
          · cases hg
          · cases hg
            exact hlen

/-- The loop of `x509_get_entries` at the end of its range. -/
theorem entries_loop_done (mem : List Nat) (end_ fuel p : Nat)
    (done : List mbedtls_x509_crl_entry) (cur : mbedtls_x509_crl_entry)
    (rest : List mbedtls_x509_crl_entry) (h : Heap) (hp : ¬ p < end_) :
    entries_loop K E mem end_ fuel p done cur rest h = .ok (entries_result 0 p done cur rest h) := by
  cases fuel <;> simp only [entries_loop, if_neg hp]

/-- Every node of the list that the loop of `x509_get_entries` leaves when it
returns `0` after at least one round has `raw.len != 0`. -/
theorem entries_loop_raw_len
    (hserial : ∀ mem p end_ sr, end_ ≤ p → (E.mbedtls_x509_get_serial mem p end_ sr).ret ≠ 0)
    (mem : List Nat) (end_ : Nat) :
    ∀ (fuel p : Nat) (done : List mbedtls_x509_crl_entry) (cur : mbedtls_x509_crl_entry)
      (rest : List mbedtls_x509_crl_entry) (h : Heap) (r : EntriesRes),
      (∀ e ∈ done, e.raw.len ≠ 0) → (∀ e ∈ rest, e.raw.len ≠ 0) →
      entries_loop K E mem end_ fuel p done cur rest h = .ok r → r.ret = 0 → p < end_ →
      ∀ e ∈ r.entry :: r.next, e.raw.len ≠ 0 := by
  intro fuel
  induction fuel with
  | zero =>
    intro p done cur rest h r _ _ hl _ hp
    simp only [entries_loop, if_pos hp] at hl
    cases hl
  | succ fuel ih =>
    intro p done cur rest h r hdone hrest hl h0 hp
    simp only [entries_loop, if_pos hp] at hl
    cases hg : get_entry K E mem end_ p cur with
    | error f => rw [hg] at hl; cases hl
    | ok g =>
      rw [hg] at hl
      simp only at hl
      by_cases hgr : g.ret ≠ 0
      · rw [if_pos hgr] at hl
        cases hl
        exact absurd h0 hgr
      · rw [if_neg hgr] at hl
        have hcur := get_entry_raw_len K E hserial mem end_ p cur g hg (not_not.mp hgr)
        by_cases hgp : g.p < end_
        · rw [if_pos hgp] at hl
          have hdone2 : ∀ e ∈ done ++ [g.cur], e.raw.len ≠ 0 := by
            intro e he
            rw [List.mem_append, List.mem_singleton] at he
            rcases he with he | rfl
            · exact hdone e he
            · exact hcur
          split at hl
          · exact ih g.p _ zero_entry [] _ r hdone2 (by simp) hl h0 hgp
          · cases hl
            simp only [entries_result, relink_list]
            intro e he
            exact hdone2 e (by simpa using he)
        · rw [if_neg hgp, entries_loop_done K E mem end_ fuel g.p done g.cur rest h hgp] at hl
          cases hl
          simp only [entries_result, relink_list]
          intro e he
          rw [List.mem_append, List.mem_cons] at he
          rcases he with he | rfl | he
          · exact hdone e he
          · exact hcur
          · exact hrest e he

/-- After `x509_get_entries` has returned `0`, the list that starts at the
embedded entry is as it was before the call (no entry was decoded) or consists
of decoded entries, each with `raw.len != 0`. -/
theorem get_entries_raw_len
    (hserial : ∀ mem p end_ sr, end_ ≤ p → (E.mbedtls_x509_get_serial mem p end_ sr).ret ≠ 0)
    (mem : List Nat) (p end_ : Nat) (entry : mbedtls_x509_crl_entry)
    (next : List mbedtls_x509_crl_entry) (h : Heap) (r : EntriesRes)
    (hnext : ∀ e ∈ next, e.raw.len ≠ 0)
    (hr : x509_get_entries K E mem p end_ entry next h = .ok r) (h0 : r.ret = 0) :
    (r.entry = entry ∧ r.next = next) ∨ (∀ e ∈ r.entry :: r.next, e.raw.len ≠ 0) := by
  unfold x509_get_entries at hr
  split at hr
  · cases hr
    exact Or.inl ⟨rfl, rfl⟩
  · simp only at hr
    split at hr
    · split at hr
      · cases hr
        exact Or.inl ⟨rfl, rfl⟩
      · rename_i h1 _
        cases hr
        exact absurd h0 h1
    · by_cases hlt : (E.mbedtls_asn1_get_tag mem p end_ 0 (seq_tag K)).p <
          (E.mbedtls_asn1_get_tag mem p end_ 0 (seq_tag K)).p +
            (E.mbedtls_asn1_get_tag mem p end_ 0 (seq_tag K)).len
      · exact Or.inr (entries_loop_raw_len K E hserial mem _ _ _ [] entry next h r (by simp)
          hnext hr h0 hlt)
      · rw [entries_loop_done K E mem _ _ _ [] entry next h hlt] at hr
        cases hr
        exact Or.inl ⟨rfl, rfl⟩

/-- Before the entries block no block changes the entry list. -/
theorem early_steps_entry (f : DecSt → Step DecSt)
    (hf : f ∈ (decode_steps K E).take 8) (s s' : DecSt) (h : f s = .next s') :
    (s'.crl.entry, s'.crl.entry_next) = (s.crl.entry, s.crl.entry_next) := by
  simp only [decode_steps, steps_to_version, steps_to_times, steps_to_tbs_end, steps_to_end,
    List.cons_append, List.nil_append, List.take_succ_cons, List.take_zero, List.mem_cons,
    List.mem_singleton, List.not_mem_nil, or_false] at hf
  rcases hf with rfl | rfl | rfl | rfl | rfl | rfl | rfl | rfl
  · obtain ⟨-, -, rfl⟩ := step_outer_seq_next K E _ _ h; rfl
  · obtain ⟨-, rfl⟩ := step_tbs_next K E _ _ h; rfl
  · obtain ⟨-, -, rfl⟩ := step_version_alg_next K E _ _ h; rfl
  · obtain ⟨-, -, rfl⟩ := step_version_range_next K _ _ h; rfl
  · obtain ⟨-, rfl⟩ := step_sig_alg_next K E _ _ h; rfl
  · obtain ⟨-, -, rfl⟩ := step_issuer_next K E _ _ h; rfl
  · obtain ⟨-, rfl⟩ := step_this_update_next K E _ _ h; rfl
  · have := step_next_update_next K E _ _ h; subst this; rfl

/-- The entries that the renderer prints when no node has `raw.len == 0`. -/
theorem printed_entries_all (crl : mbedtls_x509_crl)
    (h : ∀ e ∈ crl.entry :: crl.entry_next, e.raw.len ≠ 0) :
    printed_entries crl = crl.entry :: crl.entry_next := by
  unfold printed_entries
  rw [List.takeWhile_eq_self_iff]
  intro e he
  simpa using h e he

end EntryLen

/-! ## The sample serial reader on an empty range -/

namespace Sample

/-- The sample serial reader fails when no byte is left. -/
theorem get_serial_empty (mem : List Nat) (p end_ : Nat) (sr : mbedtls_x509_buf)
    (h : end_ ≤ p) : (get_serial mem p end_ sr).ret ≠ 0 := by
  unfold get_serial
  rw [if_pos h]
  show ERR_X509_INVALID_SERIAL + consts.MBEDTLS_ERR_ASN1_OUT_OF_DATA ≠ 0
  decide

end Sample

/-! ## The renderer and the printed entries -/

section InfoEntries

variable (K : Consts) (E : Env)

/-- The call as one run of the write steps for the printed entries. -/
theorem info_eq_result (T : Txt) (buf : List Nat) (size : Nat) (pfx : List Nat)
    (crl : mbedtls_x509_crl) :
    mbedtls_x509_crl_info T buf size pfx crl =
      info_result T size (run_writes T (info_writes T pfx crl (printed_entries crl))
        { out := buf, p := 0, n := size, ret := 0 }) := by
  rw [info_eq_run]
  cases run_writes T (info_writes T pfx crl (printed_entries crl))
    { out := buf, p := 0, n := size, ret := 0 } <;> rfl

end InfoEntries

/-! ## The walk over the nested extensions -/

section ExtWalk

variable (K : Consts) (E : Env)

/-- When the tag reader announces only contents that end within its bound, the
walk over the nested SEQUENCEs, started at or before the bound, is left
normally only with the cursor on the bound. -/
theorem ext_walk_exit
    (htag : ∀ mem p end_ len, (E.mbedtls_asn1_get_tag mem p end_ len (seq_tag K)).ret = 0 →
      (E.mbedtls_asn1_get_tag mem p end_ len (seq_tag K)).p +
        (E.mbedtls_asn1_get_tag mem p end_ len (seq_tag K)).len ≤ end_)
    (mem : List Nat) (end_ : Nat) :
    ∀ (fuel p len p1 l : Nat), p ≤ end_ →
      ext_walk K E mem end_ fuel p len = .ok (none, p1, l) → p1 = end_ := by
  intro fuel
  induction fuel with
  | zero =>
    intro p len p1 l hle h
    unfold ext_walk at h
    by_cases hp : p < end_
    · rw [if_pos hp] at h; cases h
    · rw [if_neg hp] at h
      cases h
      omega
  | succ fuel ih =>
    intro p len p1 l hle h
    unfold ext_walk at h
    by_cases hp : p < end_
    · rw [if_pos hp] at h
      by_cases ht : (E.mbedtls_asn1_get_tag mem p end_ len (seq_tag K)).ret = 0
      · simp only [ht, ne_eq, not_true_eq_false, if_false] at h
        exact ih _ _ p1 l (htag mem p end_ len ht) h
      · simp only [ne_eq, ht, not_false_eq_true, if_true] at h
        cases h
    · rw [if_neg hp] at h
      cases h
      omega

/-- A value returned from inside the walk is
`MBEDTLS_ERR_X509_INVALID_EXTENSIONS` plus a failure code of the tag reader. -/
theorem ext_walk_code (mem : List Nat) (end_ : Nat) :
    ∀ (fuel p len : Nat) (c : Int) (p1 l : Nat),
      ext_walk K E mem end_ fuel p len = .ok (some c, p1, l) →
      ∃ q l0, (E.mbedtls_asn1_get_tag mem q end_ l0 (seq_tag K)).ret ≠ 0 ∧
        c = K.MBEDTLS_ERR_X509_INVALID_EXTENSIONS +
          (E.mbedtls_asn1_get_tag mem q end_ l0 (seq_tag K)).ret := by
  intro fuel
  induction fuel with
  | zero =>
    intro p len c p1 l h
    unfold ext_walk at h
    by_cases hp : p < end_
    · rw [if_pos hp] at h; cases h
    · rw [if_neg hp] at h; cases h
  | succ fuel ih =>
    intro p len c p1 l h
    unfold ext_walk at h
    by_cases hp : p < end_
    · rw [if_pos hp] at h
      by_cases ht : (E.mbedtls_asn1_get_tag mem p end_ len (seq_tag K)).ret = 0
      · simp only [ht, ne_eq, not_true_eq_false, if_false] at h
        exact ih _ _ c p1 l h
      · simp only [ne_eq, ht, not_false_eq_true, if_true] at h
        cases h
        exact ⟨p, len, ht, rfl⟩
    · rw [if_neg hp] at h
      cases h

end ExtWalk

/-! ## The cursor of x509_get_entries -/

namespace Sample

/-- The sample serial reader stays within its bound. -/
theorem get_serial_bounds (mem : List Nat) (p end_ : Nat) (sr : mbedtls_x509_buf)
    (h : (get_serial mem p end_ sr).ret = 0) : (get_serial mem p end_ sr).p ≤ end_ := by
  unfold get_serial at h ⊢
  by_cases h1 : end_ ≤ p
  · rw [if_pos h1] at h
    exact absurd h
      (show ERR_X509_INVALID_SERIAL + consts.MBEDTLS_ERR_ASN1_OUT_OF_DATA ≠ 0 by decide)
  · rw [if_neg h1] at h ⊢
    by_cases h2 : byte mem p ≠ 0x82 ∧ byte mem p ≠ 0x02
    · rw [if_pos h2] at h
      exact absurd h
        (show ERR_X509_INVALID_SERIAL + consts.MBEDTLS_ERR_ASN1_UNEXPECTED_TAG ≠ 0 by decide)
    · rw [if_neg h2] at h ⊢
      simp only at h ⊢
      by_cases hl : (get_len mem (p + 1) end_ sr.len).ret = 0
      · simp only [hl, ne_eq, not_true_eq_false, if_false]
        exact (get_len_bounds mem (p + 1) end_ sr.len hl).2
      · exfalso
        simp only [ne_eq, hl, not_false_eq_true, if_true] at h
        rcases get_len_ret mem (p + 1) end_ sr.len with h3 | h3 | h3
        · exact hl h3
        · rw [h3] at h; revert h; decide
        · rw [h3] at h; revert h; decide

/-- The sample time reader stays within its bound. -/
theorem get_time_bounds (mem : List Nat) (p end_ : Nat) (t : mbedtls_x509_time)
    (h : (get_time mem p end_ t).ret = 0) : (get_time mem p end_ t).p ≤ end_ := by
  unfold get_time at h ⊢
  by_cases h1 : end_ ≤ p
  · rw [if_pos h1] at h
    exact absurd h
      (show consts.MBEDTLS_ERR_X509_INVALID_DATE + consts.MBEDTLS_ERR_ASN1_OUT_OF_DATA ≠ 0
        by decide)
  · rw [if_neg h1] at h ⊢
    simp only at h ⊢
    by_cases h2 : byte mem p ≠ 0x17 ∧ byte mem p ≠ 0x18
    · rw [if_pos h2] at h
      exact absurd h
        (show consts.MBEDTLS_ERR_X509_INVALID_DATE + consts.MBEDTLS_ERR_ASN1_UNEXPECTED_TAG ≠ 0
          by decide)
    · rw [if_neg h2] at h ⊢
      by_cases hl : (get_len mem (p + 1) end_ 0).ret = 0
      · have hb := get_len_bounds mem (p + 1) end_ 0 hl
        simp only [hl, ne_eq, not_true_eq_false, if_false]
        repeat' split
        all_goals first | omega | (simp only; omega)
      · exfalso
        simp only [ne_eq, hl, not_false_eq_true, if_true] at h
        rcases get_len_ret mem (p + 1) end_ 0 with h3 | h3 | h3
        · exact hl h3
        · rw [h3] at h; revert h; decide
        · rw [h3] at h; revert h; decide

/-- No code of the sample tag reader cancels
`MBEDTLS_ERR_X509_INVALID_EXTENSIONS`. -/
theorem invalid_ext_code (mem : List Nat) (p end_ len : Nat) (tag : Int) :
    consts.MBEDTLS_ERR_X509_INVALID_EXTENSIONS + (get_tag mem p end_ len tag).ret ≠ 0 := by
  rcases get_tag_ret mem p end_ len tag with (h | h | h) | ⟨h, -⟩ <;> rw [h] <;> decide

/-- The sample readers stay within their bounds. -/
theorem readers_in_bounds : ReadersInBounds consts env :=
  { tag := fun mem p end_ len hh => get_tag_bounds mem p end_ len (seq_tag consts) hh
    tag_keeps := fun mem p end_ len hh => get_tag_keeps mem p end_ len (seq_tag consts) hh
    serial := fun mem p end_ sr hh => get_serial_bounds mem p end_ sr hh
    time := fun mem p end_ t hh => get_time_bounds mem p end_ t hh }

end Sample

section EntriesCursor

variable (K : Consts) (E : Env)

/-- Under the assumptions on the readers, `x509_get_crl_entry_ext` returns `0`
only with the cursor at or before the bound it was given. -/
theorem crl_entry_ext_bound
    (hext : ∀ mem p end_ len, K.MBEDTLS_ERR_X509_INVALID_EXTENSIONS +
      (E.mbedtls_asn1_get_tag mem p end_ len (seq_tag K)).ret ≠ 0)
    (hb : ReadersInBounds K E)
    (mem : List Nat) (p end_ : Nat) (ext : mbedtls_x509_buf) (x : ExtRes)
    (hx : x509_get_crl_entry_ext K E mem p end_ ext = .ok x) (h0 : x.ret = 0)
    (hle : p ≤ end_) : x.p ≤ end_ := by
  unfold x509_get_crl_entry_ext at hx
  by_cases hp : end_ ≤ p
  · rw [if_pos hp] at hx
    cases hx
    exact hle
  · rw [if_neg hp] at hx
    cases hm : mem[p]? with
    | none => rw [hm] at hx; cases hx
    | some b =>
      rw [hm] at hx
      by_cases ht : (E.mbedtls_asn1_get_tag mem p end_ ext.len (seq_tag K)).ret = 0
      · simp only [ht, ne_eq, not_true_eq_false, if_false] at hx
        have hbt := hb.tag mem p end_ ext.len ht
        split at hx
        · cases hx
        · rename_i c p1 l hw
          cases hx
          obtain ⟨q, l0, -, hc⟩ := ext_walk_code K E mem _ _ _ _ c p1 l hw
          exact absurd (hc ▸ h0) (hext mem q _ l0)
        · rename_i p1 l hw
          have hp1 := ext_walk_exit K E (fun m a e l hh => (hb.tag m a e l hh).2) mem _ _ _ _ p1 l
            (Nat.le_add_right _ _) hw
          rw [if_neg (by simp [hp1])] at hx
          cases hx
          show p1 ≤ end_
          omega
      · simp only [ne_eq, ht, not_false_eq_true, if_true] at hx
        by_cases hu : (E.mbedtls_asn1_get_tag mem p end_ ext.len (seq_tag K)).ret =
            K.MBEDTLS_ERR_ASN1_UNEXPECTED_TAG
        · rw [if_pos hu] at hx
          cases hx
          show (E.mbedtls_asn1_get_tag mem p end_ ext.len (seq_tag K)).p ≤ end_
          rw [hb.tag_keeps mem p end_ ext.len hu]
          exact hle
        · rw [if_neg hu] at hx
          cases hx
          exact absurd h0 (hext mem p end_ ext.len)

/-- Under the assumptions on the readers, an entry that is decoded leaves the
cursor at or before the end its header declares, which is at or before the end
of the enclosing SEQUENCE. -/
theorem get_entry_bound
    (hext : ∀ mem p end_ len, K.MBEDTLS_ERR_X509_INVALID_EXTENSIONS +
      (E.mbedtls_asn1_get_tag mem p end_ len (seq_tag K)).ret ≠ 0)
    (hb : ReadersInBounds K E)
    (mem : List Nat) (end_ p : Nat) (cur : mbedtls_x509_crl_entry) (g : EntryRes)
    (hg : get_entry K E mem end_ p cur = .ok g) (h0 : g.ret = 0) :
    (E.mbedtls_asn1_get_tag mem p end_ 0 (seq_tag K)).ret = 0 ∧
    g.p ≤ (E.mbedtls_asn1_get_tag mem p end_ 0 (seq_tag K)).p +
      (E.mbedtls_asn1_get_tag mem p end_ 0 (seq_tag K)).len ∧
    (E.mbedtls_asn1_get_tag mem p end_ 0 (seq_tag K)).p +
      (E.mbedtls_asn1_get_tag mem p end_ 0 (seq_tag K)).len ≤ end_ := by
  unfold get_entry at hg
  by_cases ht : (E.mbedtls_asn1_get_tag mem p end_ 0 (seq_tag K)).ret = 0
  · have hbt := hb.tag mem p end_ 0 ht
    refine ⟨ht, ?_, hbt.2⟩
    simp only [ht, ne_eq, not_true_eq_false, if_false] at hg
    cases hm : mem[(E.mbedtls_asn1_get_tag mem p end_ 0 (seq_tag K)).p]? with
    | none => rw [hm] at hg; cases hg
    | some b =>
      rw [hm] at hg
      simp only at hg
      split at hg
      · rename_i hs
        cases hg
        exact absurd h0 hs
      · rename_i hs
        have hs0 := not_not.mp hs
        have hsb := hb.serial _ _ _ _ hs0
        split at hg
        · rename_i hd
          cases hg
          exact absurd h0 hd
        · rename_i hd
          have hd0 := not_not.mp hd
          have hdb := hb.time _ _ _ _ hd0
          split at hg
          · cases hg
          · rename_i e he
            cases hg
            exact crl_entry_ext_bound K E hext hb mem _ _ _ e he h0 hdb
  · simp only [ne_eq, ht, not_false_eq_true, if_true] at hg
    cases hg
    exact absurd h0 ht

/-- Under the assumptions on the readers, the loop of `x509_get_entries`,
entered at or before its bound, returns `0` only with the cursor on the
bound. -/
theorem entries_loop_end (halloc : K.MBEDTLS_ERR_X509_ALLOC_FAILED ≠ 0)
    (hext : ∀ mem p end_ len, K.MBEDTLS_ERR_X509_INVALID_EXTENSIONS +
      (E.mbedtls_asn1_get_tag mem p end_ len (seq_tag K)).ret ≠ 0)
    (hb : ReadersInBounds K E) (mem : List Nat) (end_ : Nat) :
    ∀ (fuel p : Nat) (done : List mbedtls_x509_crl_entry) (cur : mbedtls_x509_crl_entry)
      (rest : List mbedtls_x509_crl_entry) (h : Heap) (r : EntriesRes), p ≤ end_ →
      entries_loop K E mem end_ fuel p done cur rest h = .ok r → r.ret = 0 → r.p = end_ := by
  intro fuel
  induction fuel with
  | zero =>
    intro p done cur rest h r hle hr h0
    unfold entries_loop at hr
    by_cases hp : p < end_
    · rw [if_pos hp] at hr; cases hr
    · rw [if_neg hp] at hr
      cases hr
      show p = end_
      omega
  | succ fuel ih =>
    intro p done cur rest h r hle hr h0
    unfold entries_loop at hr
    by_cases hp : p < end_
    · rw [if_pos hp] at hr
      cases hg : get_entry K E mem end_ p cur with
      | error f => rw [hg] at hr; cases hr
      | ok g =>
        rw [hg] at hr
        simp only at hr
        by_cases hg0 : g.ret = 0
        · obtain ⟨-, h1, h2⟩ := get_entry_bound K E hext hb mem end_ p cur g hg hg0
          simp only [hg0, ne_eq, not_true_eq_false, if_false] at hr
          by_cases hlt : g.p < end_
          · rw [if_pos hlt] at hr
            by_cases hc : E.calloc_ok h.nalloc = true
            · rw [if_pos hc] at hr
              exact ih _ _ _ _ _ r (by omega) hr h0
            · rw [if_neg hc] at hr
              cases hr
              exact absurd h0 halloc
          · rw [if_neg hlt] at hr
            exact ih _ _ _ _ _ r (by omega) hr h0
        · simp only [ne_eq, hg0, not_false_eq_true, if_true] at hr
          cases hr
          exact absurd h0 hg0
    · rw [if_neg hp] at hr
      cases hr
      show p = end_
      omega

end EntriesCursor

/-! ## The rounds of the envelope loop -/

namespace Sample

theorem starts_with_length : ∀ (pat data : List Nat), starts_with pat data = true →
    pat.length ≤ data.length
  | [], _, _ => by simp
  | _ :: _, [], h => by simp [starts_with] at h
  | a :: as, d :: ds, h => by
    simp only [starts_with, Bool.and_eq_true] at h
    have := starts_with_length as ds h.2
    simp only [List.length_cons]
    omega

theorem find_sub_bounds (pat : List Nat) : ∀ (data : List Nat) (i j : Nat),
    find_sub pat data i = some j → i ≤ j ∧ j + pat.length ≤ i + data.length := by
  intro data
  induction data with
  | nil =>
    intro i j h
    unfold find_sub at h
    by_cases hp : pat = []
    · rw [if_pos hp] at h
      cases h
      simp [hp]
    · rw [if_neg hp] at h
      cases h
  | cons c cs ih =>
    intro i j h
    unfold find_sub at h
    by_cases hs : starts_with pat (c :: cs) = true
    · rw [if_pos hs] at h
      cases h
      have := starts_with_length pat (c :: cs) hs
      omega
    · rw [if_neg hs] at h
      have := ih (i + 1) j h
      simp only [List.length_cons]
      omega

theorem skip_char_bounds (str : List Nat) (c i : Nat) (h : i ≤ str.length) :
    i ≤ skip_char str c i ∧ skip_char str c i ≤ str.length := by
  unfold skip_char
  by_cases hc : str[i]? = some c
  · rw [if_pos hc]
    have hi : i < str.length := by
      by_contra hn
      rw [List.getElem?_eq_none (by omega)] at hc
      cases hc
    omega
  · rw [if_neg hc]
    omega

theorem take_while_length : ∀ (l : List Nat) (k : Nat), l[k]? = some 0 →
    (l.takeWhile (fun c => decide (c ≠ 0))).length ≤ k
  | [], k, h => by simp at h
  | a :: l, 0, h => by
    simp only [List.getElem?_cons_zero, Option.some.injEq] at h
    simp [h]
  | a :: l, k + 1, h => by
    simp only [List.getElem?_cons_succ] at h
    have := take_while_length l k h
    rw [List.takeWhile_cons]
    split
    · simp only [List.length_cons]; omega
    · simp

/-- A successful call of the sample envelope reader uses at least one byte
and no byte at or behind the first NUL. -/
theorem pem_read_buffer_use_len (data : List Nat) (use_len k : Nat)
    (hk : data[k]? = some 0)
    (h : (pem_read_buffer pem_begin pem_end data none 0 use_len).ret = 0) :
    1 ≤ (pem_read_buffer pem_begin pem_end data none 0 use_len).use_len ∧
    (pem_read_buffer pem_begin pem_end data none 0 use_len).use_len ≤ k := by
  have hlen := take_while_length data k hk
  have hne : (-0x1080 : Int) ≠ 0 := by decide
  unfold pem_read_buffer at h ⊢
  simp only at h ⊢
  split
  · rename_i s1 s2 hs1 hs2
    rw [hs1, hs2] at h
    simp only at h
    have hb2 := find_sub_bounds pem_end _ 0 s2 hs2
    have hl : pem_end.length = 22 := by rfl
    by_cases c1 : s2 ≤ s1
    · rw [if_pos c1] at h; exact absurd h hne
    · rw [if_neg c1] at h ⊢
      split
      · rename_i c2; rw [if_pos c2] at h; exact absurd h hne
      · rename_i c2
        rw [if_neg c2] at h
        have e1 := skip_char_bounds (data.takeWhile (fun c => decide (c ≠ 0))) 32
          (s2 + pem_end.length) (by omega)
        have e2 := skip_char_bounds (data.takeWhile (fun c => decide (c ≠ 0))) 13 _ e1.2
        have e3 := skip_char_bounds (data.takeWhile (fun c => decide (c ≠ 0))) 10 _ e2.2
        split
        · simp only; omega
        · split
          · simp only; omega
          · simp only; omega
  · rename_i hn
    exfalso
    split at h
    · rename_i s1 s2 hs1 hs2
      exact hn s1 s2 hs1 hs2
    · exact absurd h hne

/-- Every successful unwrap of the sample envelope reader uses between one
byte and the number of bytes that remain. -/
theorem pem_use_len (s : ParseSt) (r : PemRes) (hr : read_envelope pem s = .ok r)
    (h0 : r.ret = 0) : 1 ≤ r.use_len ∧ r.use_len ≤ s.buflen := by
  have hne : (-0x1080 : Int) ≠ 0 := by decide
  unfold read_envelope at hr
  by_cases hb : s.buflen = 0
  · rw [if_pos hb] at hr
    cases hr
    exact absurd h0 hne
  · rw [if_neg hb] at hr
    cases hm : s.buf[s.buflen - 1]? with
    | none => rw [hm] at hr; cases hr
    | some c =>
      rw [hm] at hr
      by_cases hc : c ≠ 0
      · simp only [hc, ne_eq, not_false_eq_true, if_true] at hr
        cases hr
        exact absurd h0 hne
      · have hc0 : c = 0 := not_not.mp hc
        subst hc0
        simp only [ne_eq, not_true_eq_false, if_false, Except.ok.injEq] at hr
        subst hr
        have := pem_read_buffer_use_len s.buf s.use_len (s.buflen - 1) hm h0
        show 1 ≤ (pem_read_buffer pem_begin pem_end s.buf none 0 s.use_len).use_len ∧
          (pem_read_buffer pem_begin pem_end s.buf none 0 s.use_len).use_len ≤ s.buflen
        omega

end Sample

section LoopRounds

variable (K : Consts) (E : Env)

/-- A round that falls through with `is_pem` set is one in which a record was
unwrapped and decoded; when the unwrap used between one byte and the bytes
that remained, the remaining length is the difference, without wrap-around,
and it is smaller than before. -/
theorem parse_round_shrinks (P : Pem)
    (hlen : ∀ (s : ParseSt) (r : PemRes), read_envelope P s = .ok r → r.ret = 0 →
      1 ≤ r.use_len ∧ r.use_len ≤ s.buflen)
    (s s1 : ParseSt) (h : parse_round K E P s = .next s1) (hp : s1.is_pem = true) :
    1 ≤ s1.use_len ∧ s1.use_len ≤ s.buflen ∧ s1.buflen = s.buflen - s1.use_len ∧
      s1.buflen < s.buflen := by
  unfold parse_round at h
  cases hre : read_envelope P s with
  | error f => rw [hre] at h; cases h
  | ok r =>
    rw [hre] at h
    simp only at h
    by_cases hr : r.ret = 0
    · obtain ⟨h1, h2⟩ := hlen s r hre hr
      simp only [hr, if_true] at h
      cases hd : mbedtls_x509_crl_parse_der K E s.chain r.buf r.buflen s.heap with
      | error f => rw [hd] at h; cases h
      | ok d =>
        rw [hd] at h
        simp only at h
        by_cases hd0 : d.ret ≠ 0
        · rw [if_pos hd0] at h; cases h
        · rw [if_neg hd0] at h
          cases h
          have hsz : size_of_diff K s.buflen r.use_len = s.buflen - r.use_len := by
            unfold size_of_diff
            rw [if_pos h2]
          refine ⟨h1, h2, hsz, ?_⟩
          show size_of_diff K s.buflen r.use_len < s.buflen
          omega
    · rw [if_neg hr] at h
      by_cases hs : s.is_pem = true
      · rw [if_pos hs] at h; cases h
      · rw [if_neg hs] at h
        cases h
        exact absurd hp hs

/-- The number of rounds is at most `buflen`, and one when `buflen` is `0`. -/
theorem loop_rounds_le (P : Pem)
    (hlen : ∀ (s : ParseSt) (r : PemRes), read_envelope P s = .ok r → r.ret = 0 →
      1 ≤ r.use_len ∧ r.use_len ≤ s.buflen) :
    ∀ (fuel : Nat) (s : ParseSt), loop_rounds K E P fuel s ≤ max 1 s.buflen := by
  intro fuel
  induction fuel with
  | zero => intro s; simp [loop_rounds]
  | succ fuel ih =>
    intro s
    unfold loop_rounds
    cases hr : parse_round K E P s with
    | next s1 =>
      simp only
      by_cases hc : s1.is_pem = true ∧ s1.buflen > 1
      · rw [if_pos hc]
        have h1 := parse_round_shrinks K E P hlen s s1 hr hc.1
        have h2 := ih s1
        have h3 := hc.2
        omega
      · rw [if_neg hc]
        omega
    | ret code w => simp only; omega
    | fault f => simp only; omega

/-- Two runs of the loop that are each allowed at least `max 1 n` rounds, from
a state with `buflen ≤ n`, agree. -/
theorem parse_loop_fuel (P : Pem)
    (hlen : ∀ (s : ParseSt) (r : PemRes), read_envelope P s = .ok r → r.ret = 0 →
      1 ≤ r.use_len ∧ r.use_len ≤ s.buflen) :
    ∀ (n : Nat) (s : ParseSt) (f1 f2 : Nat), s.buflen ≤ n → max 1 n ≤ f1 → max 1 n ≤ f2 →
      parse_loop K E P f1 s = parse_loop K E P f2 s := by
  intro n
  induction n with
  | zero =>
    intro s f1 f2 hs h1 h2
    obtain ⟨a, rfl⟩ : ∃ a, f1 = a + 1 := ⟨f1 - 1, by omega⟩
    obtain ⟨b, rfl⟩ : ∃ b, f2 = b + 1 := ⟨f2 - 1, by omega⟩
    unfold parse_loop
    cases hr : parse_round K E P s with
    | next s1 =>
      simp only
      by_cases hc : s1.is_pem = true ∧ s1.buflen > 1
      · have := parse_round_shrinks K E P hlen s s1 hr hc.1
        omega
      · rw [if_neg hc, if_neg hc]
    | ret code w => rfl
    | fault f => rfl
  | succ n ih =>
    intro s f1 f2 hs h1 h2
    obtain ⟨a, rfl⟩ : ∃ a, f1 = a + 1 := ⟨f1 - 1, by omega⟩
    obtain ⟨b, rfl⟩ : ∃ b, f2 = b + 1 := ⟨f2 - 1, by omega⟩
    unfold parse_loop
    cases hr : parse_round K E P s with
    | next s1 =>
      simp only
      by_cases hc : s1.is_pem = true ∧ s1.buflen > 1
      · rw [if_pos hc, if_pos hc]
        have h3 := parse_round_shrinks K E P hlen s s1 hr hc.1
        have h4 := hc.2
        exact ih s1 a b (by omega) (by omega) (by omega)
      · rw [if_neg hc, if_neg hc]
    | ret code w => rfl
    | fault f => rfl

/-- The loop is left by falling through with `is_pem` set only when at most one
byte remains. -/
theorem parse_loop_exit (P : Pem) :
    ∀ (fuel : Nat) (s sf : ParseSt), parse_loop K E P fuel s = .next sf → sf.is_pem = true →
      sf.buflen ≤ 1 := by
  intro fuel
  induction fuel with
  | zero => intro s sf h; simp [parse_loop] at h
  | succ fuel ih =>
    intro s sf h hp
    unfold parse_loop at h
    cases hr : parse_round K E P s with
    | next s1 =>
      rw [hr] at h
      simp only at h
      by_cases hc : s1.is_pem = true ∧ s1.buflen > 1
      · rw [if_pos hc] at h
        exact ih s1 sf h hp
      · rw [if_neg hc] at h
        cases h
        by_contra hn
        exact hc ⟨hp, by omega⟩
    | ret code w => rw [hr] at h; cases h
    | fault f => rw [hr] at h; cases h

end LoopRounds

/-! ## The chain invariant -/

section ChainInvariant

variable (K : Consts) (E : Env)

theorem find_slot_inv : ∀ (rest pre : List mbedtls_x509_crl) (c : mbedtls_x509_crl)
    (init : List mbedtls_x509_crl) (last : mbedtls_x509_crl), c :: rest = init ++ [last] →
    (∀ n ∈ init, n.version ≠ 0) → find_slot pre c rest = (pre ++ init, last, []) := by
  intro rest
  induction rest with
  | nil =>
    intro pre c init last heq _
    cases init with
    | nil =>
      simp only [List.nil_append, List.cons.injEq, and_true] at heq
      subst heq
      simp [find_slot]
    | cons a init1 =>
      simp only [List.cons_append, List.cons.injEq] at heq
      have := congrArg List.length heq.2
      simp at this
  | cons n rest ih =>
    intro pre c init last heq hinit
    cases init with
    | nil =>
      simp only [List.nil_append, List.cons.injEq] at heq
      cases heq.2
    | cons a init1 =>
      simp only [List.cons_append, List.cons.injEq] at heq
      obtain ⟨rfl, h2⟩ := heq
      have hc : c.version ≠ 0 := hinit c (List.mem_cons_self _ _)
      simp only [find_slot, hc, ne_eq, not_false_eq_true, if_true]
      rw [ih (pre ++ [c]) n init1 last h2 (fun m hm => hinit m (List.mem_cons_of_mem _ hm))]
      simp

/-- A run through all blocks leaves the nodes around the decoded one as they
were and stores version 1 or 2. -/
theorem run_next_chain (s0 sf : DecSt) (hrun : run_steps (decode_steps K E) s0 = .next sf) :
    sf.pre = s0.pre ∧ sf.post = s0.post ∧ (sf.crl.version = 1 ∨ sf.crl.version = 2) := by
  obtain ⟨s3, hs3, hrest⟩ := state_before_of_run K E s0 sf hrun 3
  have hdrop : (decode_steps K E).drop 3 =
      step_version_range K :: (decode_steps K E).drop 4 := rfl
  rw [hdrop] at hrest
  obtain ⟨s4, h4, hrest⟩ := (run_steps_cons_next _ _ _ _).mp hrest
  have hver : sf.crl.version = s4.crl.version :=
    run_steps_inv (fun s => s.crl.version) _ (late_steps_version K E) s4 sf hrest
  obtain ⟨hpre, hpost, -, -, -⟩ := state_before_fixed K E _ s0 sf
    (show state_before K E (decode_steps K E).length s0 = .next sf by
      unfold state_before; rw [List.take_length]; exact hrun)
  obtain ⟨hv0, hv1, e4⟩ := step_version_range_next K _ _ h4
  have hv4 : s4.crl.version = s3.crl.version + 1 := by rw [e4]
  refine ⟨hpre, hpost, ?_⟩
  rw [hver, hv4]; omega

theorem copy_raw_ret (pre : List mbedtls_x509_crl) (c : mbedtls_x509_crl)
    (post : List mbedtls_x509_crl) (h : Heap) (b : List Nat) (buflen : Nat) (code : Int)
    (w : World) (hc : copy_raw K E pre c post h b buflen = .ret code w) :
    w.chain = pre ++ c :: post := by
  unfold copy_raw at hc
  split at hc
  · split at hc
    · cases hc
    · cases hc
  · cases hc
    rfl

/-- The node at which the decoding starts, for a chain whose nodes before the
last one are populated: the last node when it is empty, a new node behind it
otherwise. -/
theorem begin_slot_inv (chain init : List mbedtls_x509_crl) (last : mbedtls_x509_crl)
    (hch : chain = init ++ [last])
    (hinit : ∀ n ∈ init, n.version ≠ 0) (buf : Option (List Nat)) (buflen : Nat) (h : Heap)
    (s0 : DecSt) (hb : parse_der_begin K E chain buf buflen h = .next s0) :
    ∃ b, buf = some b ∧ s0.post = [] ∧
      ((last.version = 0 ∧ s0.pre = init ∧
          s0.crl = { last with raw_p := some (b.take buflen), raw_len := buflen }) ∨
       (last.version ≠ 0 ∧ s0.pre = init ++ [last] ∧
          s0.crl = { zero_crl with raw_p := some (b.take buflen), raw_len := buflen })) := by
  unfold parse_der_begin at hb
  split at hb
  · cases hb
  · cases hb
  · rename_i c0 rest0 b
    have hfs := find_slot_inv rest0 [] c0 init last hch hinit
    simp only [hfs, List.nil_append, and_true] at hb
    refine ⟨b, rfl, ?_⟩
    by_cases hv : last.version = 0
    · simp only [hv, ne_eq, not_true_eq_false, if_false] at hb
      obtain ⟨h1, h2, h3⟩ := copy_raw_frame K E _ _ _ _ _ _ _ hb
      exact ⟨h2, Or.inl ⟨hv, h1, h3⟩⟩
    · simp only [ne_eq, hv, not_false_eq_true, if_true] at hb
      split at hb
      · obtain ⟨h1, h2, h3⟩ := copy_raw_frame K E _ _ _ _ _ _ _ hb
        exact ⟨h2, Or.inr ⟨hv, h1, h3⟩⟩
      · cases hb

/-- The chain left when the call returns before the decoding starts. -/
theorem begin_ret_inv (chain init : List mbedtls_x509_crl) (last : mbedtls_x509_crl)
    (hch : chain = init ++ [last])
    (hinit : ∀ n ∈ init, n.version ≠ 0) (buf : Option (List Nat)) (buflen : Nat) (h : Heap)
    (code : Int) (w : World)
    (hb : parse_der_begin K E chain buf buflen h = .ret code w) :
    w.chain = init ++ [last] ∨ w.chain = init ++ [zero_crl] ∨
      (last.version ≠ 0 ∧ w.chain = init ++ [last] ++ [zero_crl]) := by
  unfold parse_der_begin at hb
  split at hb
  · cases hb
    exact Or.inl hch
  · cases hb
    exact Or.inl hch
  · rename_i c0 rest0 b
    have hfs := find_slot_inv rest0 [] c0 init last hch hinit
    simp only [hfs, List.nil_append, and_true] at hb
    by_cases hv : last.version = 0
    · simp only [hv, ne_eq, not_true_eq_false, if_false] at hb
      exact Or.inl (copy_raw_ret K E _ _ _ _ _ _ _ _ hb)
    · simp only [ne_eq, hv, not_false_eq_true, if_true] at hb
      split at hb
      · exact Or.inr (Or.inr ⟨hv, copy_raw_ret K E _ _ _ _ _ _ _ _ hb⟩)
      · cases hb
        exact Or.inr (Or.inl rfl)

/-- The chain that a call of `mbedtls_x509_crl_parse_der` leaves, for a chain
whose nodes before the last one are populated: the chain as it was, or the
nodes before the last one and one node that is empty or populated, or, when
the last node is populated, the whole chain and one such node behind it. -/
theorem parse_der_chain (chain init : List mbedtls_x509_crl) (last : mbedtls_x509_crl)
    (hch : chain = init ++ [last]) (hinit : ∀ n ∈ init, n.version = 1 ∨ n.version = 2)
    (buf : Option (List Nat)) (buflen : Nat) (h : Heap) (r : Result)
    (hr : mbedtls_x509_crl_parse_der K E chain buf buflen h = .ok r) :
    r.world.chain = chain ∨
    ∃ x, (x = zero_crl ∨ x.version = 1 ∨ x.version = 2) ∧
      (r.world.chain = init ++ [x] ∨
        (last.version ≠ 0 ∧ r.world.chain = init ++ [last] ++ [x])) := by
  have hinit0 : ∀ n ∈ init, n.version ≠ 0 := by
    intro n hn
    rcases hinit n hn with h1 | h1 <;> rw [h1] <;> decide
  unfold mbedtls_x509_crl_parse_der at hr
  cases hb : parse_der_begin K E chain buf buflen h with
  | next s0 =>
    rw [hb] at hr
    simp only at hr
    obtain ⟨b, -, hpost, hslot⟩ := begin_slot_inv K E chain init last hch hinit0 buf buflen h s0 hb
    cases hrun : run_steps (decode_steps K E) s0 with
    | next sf =>
      rw [hrun] at hr
      cases hr
      obtain ⟨h1, h2, h3⟩ := run_next_chain K E s0 sf hrun
      refine Or.inr ⟨sf.crl, Or.inr h3, ?_⟩
      show sf.pre ++ sf.crl :: sf.post = _ ∨ _ ∧ sf.pre ++ sf.crl :: sf.post = _
      rw [h1, h2, hpost]
      rcases hslot with ⟨-, hp, -⟩ | ⟨hv, hp, -⟩
      · exact Or.inl (by rw [hp])
      · exact Or.inr ⟨hv, by rw [hp]⟩
    | ret code w =>
      rw [hrun] at hr
      cases hr
      obtain ⟨hw, -⟩ := run_steps_ret_world K E (decode_steps K E) (fun f hf => hf) s0 code w hrun
      refine Or.inr ⟨zero_crl, Or.inl rfl, ?_⟩
      show w.chain = _ ∨ _ ∧ w.chain = _
      rw [hw]
      rcases hslot with ⟨-, hp, -⟩ | ⟨hv, hp, -⟩
      · exact Or.inl (by rw [hp])
      · exact Or.inr ⟨hv, by rw [hp]⟩
    | fault f => rw [hrun] at hr; cases hr
  | ret code w =>
    rw [hb] at hr
    cases hr
    rcases begin_ret_inv K E chain init last hch hinit0 buf buflen h code w hb with h1 | h1 | h1
    · exact Or.inl (h1.trans hch.symm)
    · exact Or.inr ⟨zero_crl, Or.inl rfl, Or.inl h1⟩
    · exact Or.inr ⟨zero_crl, Or.inl rfl, Or.inr h1⟩
  | fault f => rw [hb] at hr; cases hr

/-- A call of `mbedtls_x509_crl_parse_der` keeps the chain invariant. -/
theorem parse_der_inv (chain : List mbedtls_x509_crl) (hinv : ChainInv chain)
    (buf : Option (List Nat)) (buflen : Nat) (h : Heap) (r : Result)
    (hr : mbedtls_x509_crl_parse_der K E chain buf buflen h = .ok r) :
    ChainInv r.world.chain := by
  obtain ⟨init, last, hch, hinit, hlast⟩ := hinv
  have hx : ∀ x : mbedtls_x509_crl, (x = zero_crl ∨ x.version = 1 ∨ x.version = 2) →
      (x.version = 0 ∨ x.version = 1 ∨ x.version = 2) := by
    intro x hx
    rcases hx with rfl | h1 | h1
    · exact Or.inl rfl
    · exact Or.inr (Or.inl h1)
    · exact Or.inr (Or.inr h1)
  rcases parse_der_chain K E chain init last hch hinit buf buflen h r hr with
    h1 | ⟨x, hxv, h1 | ⟨hv, h1⟩⟩
  · exact ⟨init, last, h1.trans hch, hinit, hlast⟩
  · exact ⟨init, x, h1, hinit, hx x hxv⟩
  · refine ⟨init ++ [last], x, h1, ?_, hx x hxv⟩
    intro n hn
    rcases List.mem_append.mp hn with h2 | h2
    · exact hinit n h2
    · rw [List.mem_singleton] at h2
      subst h2
      rcases hlast with h3 | h3
      · exact absurd h3 hv
      · exact h3

/-- One round of the loop of `mbedtls_x509_crl_parse` keeps the chain
invariant, whether it falls through or returns. -/
theorem parse_round_inv (P : Pem) (s : ParseSt) (hinv : ChainInv s.chain) :
    (∀ s1, parse_round K E P s = .next s1 → ChainInv s1.chain) ∧
    (∀ code w, parse_round K E P s = .ret code w → ChainInv w.chain) := by
  unfold parse_round
  cases hre : read_envelope P s with
  | error f => exact ⟨(fun s1 h => by cases h), fun code w h => by cases h⟩
  | ok r =>
    simp only
    by_cases hr : r.ret = 0
    · simp only [hr, if_true]
      cases hd : mbedtls_x509_crl_parse_der K E s.chain r.buf r.buflen s.heap with
      | error f => exact ⟨(fun s1 h => by cases h), fun code w h => by cases h⟩
      | ok d =>
        have hdi := parse_der_inv K E s.chain hinv r.buf r.buflen s.heap d hd
        simp only
        by_cases hd0 : d.ret ≠ 0
        · rw [if_pos hd0]
          refine ⟨(fun s1 h => by cases h), fun code w h => ?_⟩
          cases h
          exact hdi
        · rw [if_neg hd0]
          refine ⟨fun s1 h => ?_, fun code w h => by cases h⟩
          cases h
          exact hdi
    · rw [if_neg hr]
      by_cases hs : s.is_pem = true
      · rw [if_pos hs]
        refine ⟨(fun s1 h => by cases h), fun code w h => ?_⟩
        cases h
        exact hinv
      · rw [if_neg hs]
        refine ⟨fun s1 h => ?_, fun code w h => by cases h⟩
        cases h
        exact hinv

/-- The loop of `mbedtls_x509_crl_parse` keeps the chain invariant. -/
theorem parse_loop_inv (P : Pem) : ∀ (fuel : Nat) (s : ParseSt), ChainInv s.chain →
    (∀ sf, parse_loop K E P fuel s = .next sf → ChainInv sf.chain) ∧
    (∀ code w, parse_loop K E P fuel s = .ret code w → ChainInv w.chain) := by
  intro fuel
  induction fuel with
  | zero =>
    intro s _
    exact ⟨(fun sf h => by simp [parse_loop] at h), fun code w h => by simp [parse_loop] at h⟩
  | succ fuel ih =>
    intro s hinv
    obtain ⟨hn, hrt⟩ := parse_round_inv K E P s hinv
    unfold parse_loop
    cases hr : parse_round K E P s with
    | next s1 =>
      simp only
      by_cases hc : s1.is_pem = true ∧ s1.buflen > 1
      · rw [if_pos hc]
        exact ih s1 (hn s1 hr)
      · rw [if_neg hc]
        refine ⟨fun sf h => ?_, fun code w h => by cases h⟩
        cases h
        exact hn s1 hr
    | ret code w =>
      refine ⟨(fun sf h => by cases h), fun code1 w1 h => ?_⟩
      cases h
      exact hrt code w hr
    | fault f => exact ⟨(fun sf h => by cases h), fun code w h => by cases h⟩

/-- A call of `mbedtls_x509_crl_parse` keeps the chain invariant. -/
theorem parse_inv (P : Pem) (chain : List mbedtls_x509_crl) (hinv : ChainInv chain)
    (buf : Option (List Nat)) (buflen : Nat) (h : Heap) (r : Result)
    (hr : mbedtls_x509_crl_parse K E P chain buf buflen h = .ok r) :
    ChainInv r.world.chain := by
  unfold mbedtls_x509_crl_parse at hr
  cases hP : P.MBEDTLS_PEM_PARSE_C with
  | false =>
    rw [hP] at hr
    exact parse_der_inv K E chain hinv buf buflen h r hr
  | true =>
    rw [hP] at hr
    simp only [if_true] at hr
    split at hr
    · cases hr
      exact hinv
    · cases hr
      exact hinv
    · rename_i c0 rest b
      obtain ⟨hn, hrt⟩ := parse_loop_inv K E P (buflen + 1)
        ⟨c0 :: rest, h, b, buflen, 0, 0, false⟩ hinv
      split at hr
      · rename_i sf hl
        by_cases hp : sf.is_pem = true
        · rw [if_pos hp] at hr
          cases hr
          exact hn sf hl
        · rw [if_neg hp] at hr
          exact parse_der_inv K E sf.chain (hn sf hl) _ _ _ r hr
      · rename_i code w hl
        cases hr
        exact hrt code w hl
      · cases hr

/-- A sequence of calls keeps the chain invariant. -/
theorem run_calls_inv (P : Pem) (calls : List (Bool × Option (List Nat) × Nat)) :
    ∀ (w w1 : World), ChainInv w.chain → run_calls K E P w calls = .ok w1 →
      ChainInv w1.chain := by
  induction calls with
  | nil =>
    intro w w1 hinv h
    simp only [run_calls, Except.ok.injEq] at h
    rw [← h]
    exact hinv
  | cons c cs ih =>
    intro w w1 hinv h
    unfold run_calls at h
    by_cases hc : c.1 = true
    · rw [if_pos hc] at h
      cases hp : mbedtls_x509_crl_parse K E P w.chain c.2.1 c.2.2 w.heap with
      | error f => rw [hp] at h; cases h
      | ok r =>
        rw [hp] at h
        exact ih r.world w1 (parse_inv K E P w.chain hinv _ _ _ r hp) h
    · rw [if_neg hc] at h
      cases hp : mbedtls_x509_crl_parse_der K E w.chain c.2.1 c.2.2 w.heap with
      | error f => rw [hp] at h; cases h
      | ok r =>
        rw [hp] at h
        exact ih r.world w1 (parse_der_inv K E w.chain hinv _ _ _ r hp) h

end ChainInvariant

/-! ## The return value of the renderer -/

section IntCast

/-- A value that is at most `INT_MAX` is not changed by the conversion. -/
theorem int_of_size_small (T : Txt) (x : Nat) (h : x ≤ T.INT_MAX) :
    int_of_size T x = (x : Int) := by
  unfold int_of_size
  have hm : x % (2 * (T.INT_MAX + 1)) = x := Nat.mod_eq_of_lt (by omega)
  rw [hm, if_pos h]

/-- With a capacity of one more than the sum of the lengths that the write
steps need, every step fits, one byte of capacity is left, and the call returns
that sum converted to `int`. -/
theorem info_fits (T : Txt) (buf : List Nat) (pfx : List Nat) (crl : mbedtls_x509_crl)
    (lens : List Nat)
    (hneeds : List.Forall₂ Needs (info_writes T pfx crl (printed_entries crl)) lens) :
    ∃ sf, run_writes T (info_writes T pfx crl (printed_entries crl))
        { out := buf, p := 0, n := lens.sum + 1, ret := 0 } = .ok sf ∧
      Fit (info_writes T pfx crl (printed_entries crl))
        { out := buf, p := 0, n := lens.sum + 1, ret := 0 } lens sf ∧ sf.n = 1 ∧
      mbedtls_x509_crl_info T buf (lens.sum + 1) pfx crl =
        { ret := int_of_size T lens.sum, out := sf.out } := by
  obtain ⟨sf, hrun, hfit, hn⟩ := (run_writes_needs T _ lens
    { out := buf, p := 0, n := lens.sum + 1, ret := 0 } hneeds).1 (by simp only; omega)
  simp only [add_tsub_cancel_left] at hn
  refine ⟨sf, hrun, hfit, hn, ?_⟩
  rw [info_eq_run, hrun]
  simp only [hn, add_tsub_cancel_right]

/-- A run of write steps that ends normally has no step that fails or does not
fit. -/
theorem run_writes_ok_no_failure (T : Txt) (ws : List Writer) (s sf : InfoSt)
    (hrun : run_writes T ws s = .ok sf) :
    ¬ ∃ k w lens sk, ws[k]? = some w ∧ Fit (ws.take k) s lens sk ∧
      ((w sk.out sk.p sk.n).ret < 0 ∨ (sk.n : Int) ≤ (w sk.out sk.p sk.n).ret) := by
  rintro ⟨k, w, lens, sk, hk, hfit, hbad⟩
  have h := (run_writes_error T ws s _).mpr ⟨k, w, lens, sk, hk, hfit, hbad, rfl⟩
  rw [hrun] at h
  cases h

end IntCast

namespace Sample

/-- The length of a text expanded from `%s` and a literal remainder. -/
theorem fmt_text_str (s : List Nat) (rest : List Nat) (args : List FmtArg) :
    (fmt_text (37 :: 115 :: rest) (.str s :: args)).length =
      s.length + (fmt_text rest args).length := by
  show (s ++ fmt_text rest args).length = _
  rw [List.length_append]

/-- The length of a text expanded from a line end, `%s` and a literal
remainder. -/
theorem fmt_text_nl_str (s : List Nat) (rest : List Nat) (args : List FmtArg) :
    (fmt_text (10 :: 37 :: 115 :: rest) (.str s :: args)).length =
      s.length + (fmt_text rest args).length + 1 := by
  show (10 :: (s ++ fmt_text rest args)).length = _
  rw [List.length_cons, List.length_append]

/-- The write steps for the sample record with the prefix `pfx` need six times
the length of the prefix and 163 characters more. -/
theorem summary_needs (pfx : List Nat) :
    ∃ lens, List.Forall₂ Needs (info_writes txt pfx crl_node_ok (printed_entries crl_node_ok))
        lens ∧ lens.sum = 6 * pfx.length + 163 := by
  have n1 : Needs (write_version txt pfx crl_node_ok) (pfx.length + 17) := by
    have h := snprintf_needs (c_str "%sCRL version   : %d") [.str pfx, .int crl_node_ok.version]
    have e : (fmt_text (c_str "%sCRL version   : %d")
        [.str pfx, .int crl_node_ok.version]).length = pfx.length + 17 :=
      (fmt_text_str pfx _ _).trans (by rfl)
    rw [e] at h
    exact h
  have n2 : Needs (write_issuer_label txt pfx) (pfx.length + 17) := by
    have h := snprintf_needs (c_str "\n%sissuer name   : ") [.str pfx]
    have e : (fmt_text (c_str "\n%sissuer name   : ") [.str pfx]).length = pfx.length + 17 :=
      (fmt_text_nl_str pfx _ _).trans (by rfl)
    rw [e] at h
    exact h
  have n4 : Needs (write_this_update txt pfx crl_node_ok) (pfx.length + 36) := by
    have h := snprintf_needs
      (c_str ("\n%sthis update   : " ++ "%04d-%02d-%02d %02d:%02d:%02d"))
      (.str pfx :: time_args crl_node_ok.this_update)
    have e : (fmt_text (c_str ("\n%sthis update   : " ++ "%04d-%02d-%02d %02d:%02d:%02d"))
        (.str pfx :: time_args crl_node_ok.this_update)).length = pfx.length + 36 :=
      (fmt_text_nl_str pfx _ _).trans (by rfl)
    rw [e] at h
    exact h
  have n5 : Needs (write_next_update txt pfx crl_node_ok) (pfx.length + 36) := by
    have h := snprintf_needs
      (c_str ("\n%snext update   : " ++ "%04d-%02d-%02d %02d:%02d:%02d"))
      (.str pfx :: time_args crl_node_ok.next_update)
    have e : (fmt_text (c_str ("\n%snext update   : " ++ "%04d-%02d-%02d %02d:%02d:%02d"))
        (.str pfx :: time_args crl_node_ok.next_update)).length = pfx.length + 36 :=
      (fmt_text_nl_str pfx _ _).trans (by rfl)
    rw [e] at h
    exact h
  have n6 : Needs (write_revoked_label txt pfx) (pfx.length + 22) := by
    have h := snprintf_needs (c_str "\n%sRevoked certificates:") [.str pfx]
    have e : (fmt_text (c_str "\n%sRevoked certificates:") [.str pfx]).length =
        pfx.length + 22 := (fmt_text_nl_str pfx _ _).trans (by rfl)
    rw [e] at h
    exact h
  have n7 : Needs (write_signed_label txt pfx) (pfx.length + 17) := by
    have h := snprintf_needs (c_str "\n%ssigned using  : ") [.str pfx]
    have e : (fmt_text (c_str "\n%ssigned using  : ") [.str pfx]).length = pfx.length + 17 :=
      (fmt_text_nl_str pfx _ _).trans (by rfl)
    rw [e] at h
    exact h
  refine ⟨[pfx.length + 17, pfx.length + 17, 10, pfx.length + 36, pfx.length + 36,
    pfx.length + 22, pfx.length + 17, 7, 1], ?_, ?_⟩
  · show List.Forall₂ Needs
      [write_version txt pfx crl_node_ok, write_issuer_label txt pfx,
       write_issuer txt crl_node_ok, write_this_update txt pfx crl_node_ok,
       write_next_update txt pfx crl_node_ok, write_revoked_label txt pfx,
       write_signed_label txt pfx, write_sig_alg txt crl_node_ok, write_newline txt] _
    exact .cons n1 (.cons n2 (.cons (gets_needs _) (.cons n4 (.cons n5 (.cons n6
      (.cons n7 (.cons (gets_needs _) (.cons (snprintf_needs _ _) .nil))))))))
  · simp only [List.sum_cons, List.sum_nil]
    omega

set_option maxRecDepth 1000000 in
/-- The write steps for the sample record with one entry and the prefix `pfx`
need seven times the length of the prefix and 230 characters more. -/
theorem summary_needs_entry (pfx : List Nat) :
    ∃ lens, List.Forall₂ Needs
        (info_writes txt pfx crl_node_long_serial (printed_entries crl_node_long_serial))
        lens ∧ lens.sum = 7 * pfx.length + 230 := by
  have n1 : Needs (write_version txt pfx crl_node_long_serial) (pfx.length + 17) := by
    have h := snprintf_needs (c_str "%sCRL version   : %d")
      [.str pfx, .int crl_node_long_serial.version]
    have e : (fmt_text (c_str "%sCRL version   : %d")
        [.str pfx, .int crl_node_long_serial.version]).length = pfx.length + 17 :=
      (fmt_text_str pfx _ _).trans (by rfl)
    rw [e] at h
    exact h
  have n2 : Needs (write_issuer_label txt pfx) (pfx.length + 17) := by
    have h := snprintf_needs (c_str "\n%sissuer name   : ") [.str pfx]
    have e : (fmt_text (c_str "\n%sissuer name   : ") [.str pfx]).length = pfx.length + 17 :=
      (fmt_text_nl_str pfx _ _).trans (by rfl)
    rw [e] at h
    exact h
  have n4 : Needs (write_this_update txt pfx crl_node_long_serial) (pfx.length + 36) := by
    have h := snprintf_needs
      (c_str ("\n%sthis update   : " ++ "%04d-%02d-%02d %02d:%02d:%02d"))
      (.str pfx :: time_args crl_node_long_serial.this_update)
    have e : (fmt_text (c_str ("\n%sthis update   : " ++ "%04d-%02d-%02d %02d:%02d:%02d"))
        (.str pfx :: time_args crl_node_long_serial.this_update)).length = pfx.length + 36 :=
      (fmt_text_nl_str pfx _ _).trans (by rfl)
    rw [e] at h
    exact h
  have n5 : Needs (write_next_update txt pfx crl_node_long_serial) (pfx.length + 36) := by
    have h := snprintf_needs
      (c_str ("\n%snext update   : " ++ "%04d-%02d-%02d %02d:%02d:%02d"))
      (.str pfx :: time_args crl_node_long_serial.next_update)
    have e : (fmt_text (c_str ("\n%snext update   : " ++ "%04d-%02d-%02d %02d:%02d:%02d"))
        (.str pfx :: time_args crl_node_long_serial.next_update)).length = pfx.length + 36 :=
      (fmt_text_nl_str pfx _ _).trans (by rfl)
    rw [e] at h
    exact h
  have n6 : Needs (write_revoked_label txt pfx) (pfx.length + 22) := by
    have h := snprintf_needs (c_str "\n%sRevoked certificates:") [.str pfx]
    have e : (fmt_text (c_str "\n%sRevoked certificates:") [.str pfx]).length =
        pfx.length + 22 := (fmt_text_nl_str pfx _ _).trans (by rfl)
    rw [e] at h
    exact h
  have n7 : Needs (write_serial_label txt pfx) (pfx.length + 16) := by
    have h := snprintf_needs (c_str "\n%sserial number: ") [.str pfx]
    have e : (fmt_text (c_str "\n%sserial number: ") [.str pfx]).length = pfx.length + 16 :=
      (fmt_text_nl_str pfx _ _).trans (by rfl)
    rw [e] at h
    exact h
  have n10 : Needs (write_signed_label txt pfx) (pfx.length + 17) := by
    have h := snprintf_needs (c_str "\n%ssigned using  : ") [.str pfx]
    have e : (fmt_text (c_str "\n%ssigned using  : ") [.str pfx]).length = pfx.length + 17 :=
      (fmt_text_nl_str pfx _ _).trans (by rfl)
    rw [e] at h
    exact h
  refine ⟨[pfx.length + 17, pfx.length + 17, 10, pfx.length + 36, pfx.length + 36,
    pfx.length + 22, pfx.length + 16, 14, 37, pfx.length + 17, 7, 1], ?_, ?_⟩
  · show List.Forall₂ Needs
      [write_version txt pfx crl_node_long_serial, write_issuer_label txt pfx,
       write_issuer txt crl_node_long_serial, write_this_update txt pfx crl_node_long_serial,
       write_next_update txt pfx crl_node_long_serial, write_revoked_label txt pfx,
       write_serial_label txt pfx,
       write_serial txt crl_node_long_serial.raw_p crl_node_long_serial.entry,
       write_revocation_date txt crl_node_long_serial.entry,
       write_signed_label txt pfx, write_sig_alg txt crl_node_long_serial,
       write_newline txt] _
    exact .cons n1 (.cons n2 (.cons (gets_needs _) (.cons n4 (.cons n5 (.cons n6
      (.cons n7 (.cons (gets_needs _) (.cons (snprintf_needs _ _) (.cons n10
      (.cons (gets_needs _) (.cons (snprintf_needs _ _) .nil)))))))))))
  · simp only [List.sum_cons, List.sum_nil]
    omega

end Sample

/-! ## Well-formed entries -/

section WellFormed

variable (K : Consts) (E : Env)

end WellFormed
/-! ## The claims -/

section Claims

variable (K : Consts) (E : Env)

/-- Claim C1. When the argument check, node choice and raw copy succeed and
the outer SEQUENCE header is read successfully, but the length it declares
differs from the number of bytes that remain after the header, the call
returns `MBEDTLS_ERR_X509_INVALID_FORMAT + MBEDTLS_ERR_ASN1_LENGTH_MISMATCH`.
A declared length that is one less than the remaining bytes is an instance. -/
theorem outer_length_mismatch_rejected (chain : List mbedtls_x509_crl)
    (b : List Nat) (buflen : Nat) (h : Heap) (s0 : DecSt)
    (hb : parse_der_begin K E chain (some b) buflen h = .next s0)
    (ht : (E.mbedtls_asn1_get_tag (b.take buflen) 0 buflen 0 (seq_tag K)).ret = 0)
    (hlen : (E.mbedtls_asn1_get_tag (b.take buflen) 0 buflen 0 (seq_tag K)).len ≠
      size_of_diff K buflen (E.mbedtls_asn1_get_tag (b.take buflen) 0 buflen 0 (seq_tag K)).p) :
    ret_of (mbedtls_x509_crl_parse_der K E chain (some b) buflen h) =
      .ok (K.MBEDTLS_ERR_X509_INVALID_FORMAT + K.MBEDTLS_ERR_ASN1_LENGTH_MISMATCH) := by
  obtain ⟨b', hb', -, -, hmem, hp, hend, hl, -⟩ := parse_der_begin_next K E _ _ _ _ _ hb
  cases hb'
  rw [parse_der_from K E chain (some b) buflen h 0 s0 s0 hb rfl]
  simp [decode_steps, steps_to_version, run_steps, step_outer_seq, hmem, hp, hend, hl, ht, hlen,
    fail_free, finish, ret_of, Except.map]

/-- Witness for C1: a list whose outer length octet is one too small. -/
theorem outer_length_mismatch_rejected_witness :
    ret_of (mbedtls_x509_crl_parse_der Sample.consts Sample.env [zero_crl]
      (some Sample.crl_short_outer) 83 ⟨0, 0⟩) = .ok (-0x2180 + -0x66) :=
  outer_length_mismatch_rejected Sample.consts Sample.env [zero_crl] Sample.crl_short_outer 83
    ⟨0, 0⟩ (Sample.start Sample.crl_short_outer) (by rfl) (by decide) (by decide)


/-- Claim C2, as amended. Let the blocks before the comparison fall through,
so that both algorithm identifiers are decoded, and let the decoded spans lie
inside the record copy. If the decoded OIDs or the decoded parameters differ
in length or in a content byte, the call returns `MBEDTLS_ERR_X509_SIG_MISMATCH`.
Hence, in a call that returns `0`, the two OIDs have the same length and bytes
and the two parameter values have the same length and bytes. The parameter
tags and the length octets of the two encodings do not take part. -/
theorem sig_mismatch_on_decoded_fields (chain : List mbedtls_x509_crl) (buf : Option (List Nat))
    (buflen : Nat) (h : Heap) (s0 s : DecSt)
    (hb : parse_der_begin K E chain buf buflen h = .next s0)
    (hs : state_before K E 12 s0 = .next s)
    (hr : SpansReadable s)
    (hsm : K.MBEDTLS_ERR_X509_SIG_MISMATCH ≠ 0) :
    (AlgsDiffer s →
      ret_of (mbedtls_x509_crl_parse_der K E chain buf buflen h) =
        .ok K.MBEDTLS_ERR_X509_SIG_MISMATCH) ∧
    (ret_of (mbedtls_x509_crl_parse_der K E chain buf buflen h) = .ok 0 →
      s.crl.sig_oid.len = s.sig_oid2.len ∧
      (∀ i, i < s.crl.sig_oid.len →
        read_byte s.mem s.crl.sig_oid.p i = read_byte s.mem s.sig_oid2.p i) ∧
      s.sig_params1.len = s.sig_params2.len ∧
      (∀ i, i < s.sig_params1.len →
        read_byte s.mem s.sig_params1.p i = read_byte s.mem s.sig_params2.p i)) := by
  obtain ⟨d, hd, hiff⟩ := sig_alg_differs_spec s hr
  have hfwd : AlgsDiffer s →
      ret_of (mbedtls_x509_crl_parse_der K E chain buf buflen h) =
        .ok K.MBEDTLS_ERR_X509_SIG_MISMATCH := by
    intro hdiff
    have hdt : d = true := hiff.mpr hdiff
    subst hdt
    rw [parse_der_from K E chain buf buflen h 12 s0 s hb hs]
    simp [decode_steps, steps_to_version, steps_to_times, steps_to_tbs_end, steps_to_end,
      run_steps, step_sig_cmp, hd, fail_free, finish, ret_of, Except.map]
  refine ⟨hfwd, ?_⟩
  intro hacc
  have hnd : ¬ AlgsDiffer s := by
    intro hdiff
    rw [hfwd hdiff] at hacc
    simp only [Except.ok.injEq] at hacc
    exact hsm hacc
  unfold AlgsDiffer BytesDiffer at hnd
  simp only [not_or, not_and, not_exists, ne_eq, not_not] at hnd
  obtain ⟨h1, h2, h3, h4⟩ := hnd
  refine ⟨h1, fun i hi => h2 i hi, h3, fun i hi => ?_⟩
  exact h4 h3 (by omega) i hi

/-- Witness for C2 (amended): a list whose outer OID differs from the inner one. -/
theorem sig_mismatch_on_decoded_fields_witness :
    AlgsDiffer ((state_before Sample.consts Sample.env 12
      (Sample.start Sample.crl_oid_mismatch)).state_or (Sample.start [])) ∧
    ret_of (mbedtls_x509_crl_parse_der Sample.consts Sample.env [zero_crl]
      (some Sample.crl_oid_mismatch) 83 ⟨0, 0⟩) = .ok (-0x2680) :=
  ⟨by decide,
   (sig_mismatch_on_decoded_fields Sample.consts Sample.env [zero_crl]
      (some Sample.crl_oid_mismatch) 83 ⟨0, 0⟩ (Sample.start Sample.crl_oid_mismatch)
      ((state_before Sample.consts Sample.env 12
        (Sample.start Sample.crl_oid_mismatch)).state_or (Sample.start []))
      (by rfl) (by rfl) (by decide) (by decide)).1 (by decide)⟩

/-- Counterexample to C2 as stated. In `crl_param_tag` both algorithm
identifiers decode (the inner one from offset 4 to 19, the outer one from
offset 63 to 78) and every block before the comparison falls through; the two
encodings differ in one octet (`05 00` against `0C 00` for the parameters);
yet the call returns `0`, not `MBEDTLS_ERR_X509_SIG_MISMATCH`. -/
theorem sig_alg_encodings_differ_accepted :
    (∃ s, state_before Sample.consts Sample.env 12 (Sample.start Sample.crl_param_tag) = .next s ∧
      s.crl.sig_oid = ⟨0x06, 9, some 8⟩ ∧ s.sig_params1 = ⟨0x05, 0, some 19⟩ ∧
      s.sig_oid2 = ⟨0x06, 9, some 67⟩ ∧ s.sig_params2 = ⟨0x0C, 0, some 78⟩ ∧ s.p = 78) ∧
    (Sample.env.mbedtls_x509_get_alg Sample.crl_param_tag 4 63 zero_buf zero_buf).ret = 0 ∧
    (Sample.env.mbedtls_x509_get_alg Sample.crl_param_tag 4 63 zero_buf zero_buf).p = 19 ∧
    (Sample.env.mbedtls_x509_get_alg Sample.crl_param_tag 63 83 zero_buf zero_buf).ret = 0 ∧
    (Sample.env.mbedtls_x509_get_alg Sample.crl_param_tag 63 83 zero_buf zero_buf).p = 78 ∧
    (Sample.crl_param_tag.drop 4).take 15 ≠ (Sample.crl_param_tag.drop 63).take 15 ∧
    ret_of (mbedtls_x509_crl_parse_der Sample.consts Sample.env [zero_crl]
      (some Sample.crl_param_tag) 83 ⟨0, 0⟩) = .ok 0 ∧
    (0 : Int) ≠ Sample.consts.MBEDTLS_ERR_X509_SIG_MISMATCH := by
  refine ⟨⟨_, rfl, ?_⟩, ?_⟩
  · decide
  · decide

/-- Claim C3. In the state `s` in which the comparison of the two decoded
algorithm identifiers is reached (the spans lying inside the record copy), the
comparison returns `MBEDTLS_ERR_X509_SIG_MISMATCH` if and only if the OID
lengths differ, or the OID bytes differ, or the parameter lengths differ, or
the parameter lengths are equal and not zero and the parameter bytes differ;
then the call returns that code. Otherwise the comparison passes and the call
goes on with the signature; this is the case when both parameter blocks have
length 0 and the OIDs are equal. -/
theorem sig_compare_iff (chain : List mbedtls_x509_crl) (buf : Option (List Nat))
    (buflen : Nat) (h : Heap) (s0 s : DecSt)
    (hb : parse_der_begin K E chain buf buflen h = .next s0)
    (hs : state_before K E 12 s0 = .next s)
    (hr : SpansReadable s) :
    (step_sig_cmp K s = fail_free K s K.MBEDTLS_ERR_X509_SIG_MISMATCH ↔ AlgsDiffer s) ∧
    (step_sig_cmp K s = .next s ↔ ¬ AlgsDiffer s) ∧
    (AlgsDiffer s →
      ret_of (mbedtls_x509_crl_parse_der K E chain buf buflen h) =
        .ok K.MBEDTLS_ERR_X509_SIG_MISMATCH) ∧
    (¬ AlgsDiffer s →
      mbedtls_x509_crl_parse_der K E chain buf buflen h =
        finish (run_steps [step_sig K E, step_end K] s)) ∧
    (s.sig_params1.len = 0 → s.sig_params2.len = 0 →
      s.crl.sig_oid.len = s.sig_oid2.len →
      ¬ BytesDiffer s.mem s.crl.sig_oid.p s.sig_oid2.p s.crl.sig_oid.len →
      step_sig_cmp K s = .next s) := by
  obtain ⟨d, hd, hiff⟩ := sig_alg_differs_spec s hr
  have hfrom := parse_der_from K E chain buf buflen h 12 s0 s hb hs
  have hdrop : (decode_steps K E).drop 12 = [step_sig_cmp K, step_sig K E, step_end K] := rfl
  rw [hdrop] at hfrom
  cases d with
  | true =>
    have hdiff : AlgsDiffer s := hiff.mp rfl
    have hstep : step_sig_cmp K s = fail_free K s K.MBEDTLS_ERR_X509_SIG_MISMATCH := by
      simp [step_sig_cmp, hd]
    refine ⟨by simp [hstep, hdiff], ?_, ?_, fun hn => absurd hdiff hn, ?_⟩
    · simp [hstep, hdiff, fail_free]
    · intro _
      rw [hfrom]
      simp [run_steps, hstep, fail_free, finish, ret_of, Except.map]
    · intro h1 h2 h3 h4
      exfalso
      unfold AlgsDiffer at hdiff
      rcases hdiff with h | h | h | ⟨_, h, _⟩
      · exact h h3
      · exact h4 h
      · exact h (by rw [h1, h2])
      · exact h h1
  | false =>
    have hnd : ¬ AlgsDiffer s := fun hdiff => by simpa using hiff.mpr hdiff
    have hstep : step_sig_cmp K s = .next s := by
      simp [step_sig_cmp, hd]
    refine ⟨by simp [hstep, hnd, fail_free], by simp [hstep, hnd], fun hdiff => absurd hdiff hnd,
      ?_, fun _ _ _ _ => hstep⟩
    intro _
    rw [hfrom]
    simp [run_steps, hstep]

/-- Witness for C3: the well-formed list `crl_ok_v1`, in which both parameter
blocks have length 0 and the OIDs are equal. -/
theorem sig_compare_iff_witness :
    SpansReadable ((state_before Sample.consts Sample.env 12
      (Sample.start Sample.crl_ok_v1)).state_or (Sample.start [])) ∧
    step_sig_cmp Sample.consts ((state_before Sample.consts Sample.env 12
      (Sample.start Sample.crl_ok_v1)).state_or (Sample.start [])) =
      .next ((state_before Sample.consts Sample.env 12
        (Sample.start Sample.crl_ok_v1)).state_or (Sample.start [])) :=
  ⟨by decide,
   (sig_compare_iff Sample.consts Sample.env [zero_crl] (some Sample.crl_ok_v1) 83 ⟨0, 0⟩
      (Sample.start Sample.crl_ok_v1)
      ((state_before Sample.consts Sample.env 12
        (Sample.start Sample.crl_ok_v1)).state_or (Sample.start []))
      (by rfl) (by rfl) (by decide)).2.2.2.2 (by rfl) (by rfl) (by rfl) (by decide)⟩

/-- Claim C5. In a call that returns `0` (error codes being different from
`0`), the version stored in the node that was filled is the wire value plus
one and is 1 or 2: when the INTEGER is read, it is the value read plus one;
when the integer reader reports an unexpected tag (the version is omitted),
the wire value defaults to 0, the stored version is 1, and the version step
leaves the cursor where it was (the reader leaving it there when it reports an
unexpected tag). -/
theorem accepted_version (chain : List mbedtls_x509_crl) (buf : Option (List Nat))
    (buflen : Nat) (h : Heap) (r : Result)
    (hz : NonzeroCodes K E)
    (hkeep : ∀ mem p end_ val,
      (E.mbedtls_asn1_get_int mem p end_ val).ret = K.MBEDTLS_ERR_ASN1_UNEXPECTED_TAG →
      (E.mbedtls_asn1_get_int mem p end_ val).p = p)
    (hr : mbedtls_x509_crl_parse_der K E chain buf buflen h = .ok r) (h0 : r.ret = 0) :
    ∃ s0 s2 c, parse_der_begin K E chain buf buflen h = .next s0 ∧
      state_before K E 2 s0 = .next s2 ∧
      r.world.chain = s0.pre ++ c :: s0.post ∧
      (c.version = 1 ∨ c.version = 2) ∧
      (((E.mbedtls_asn1_get_int s2.mem s2.p s2.end_ s2.crl.version).ret = 0 ∧
          c.version = (E.mbedtls_asn1_get_int s2.mem s2.p s2.end_ s2.crl.version).val + 1) ∨
       ((E.mbedtls_asn1_get_int s2.mem s2.p s2.end_ s2.crl.version).ret ≠ 0 ∧
          (E.mbedtls_asn1_get_int s2.mem s2.p s2.end_ s2.crl.version).ret =
            K.MBEDTLS_ERR_ASN1_UNEXPECTED_TAG ∧
          c.version = 1 ∧
          (x509_crl_get_version K E s2.mem s2.p s2.end_ s2.crl.version).p = s2.p)) := by
  obtain ⟨s0, sf, hb, hrun, hw⟩ := accepted_falls_through K E hz chain buf buflen h r hr h0
  obtain ⟨s2, hs2, hrest⟩ := state_before_of_run K E s0 sf hrun 2
  have hdrop : (decode_steps K E).drop 2 =
      step_version_alg K E :: step_version_range K :: (decode_steps K E).drop 4 := rfl
  rw [hdrop] at hrest
  obtain ⟨s3, h3, hrest⟩ := (run_steps_cons_next _ _ _ _).mp hrest
  obtain ⟨s4, h4, hrest⟩ := (run_steps_cons_next _ _ _ _).mp hrest
  have hver : sf.crl.version = s4.crl.version :=
    run_steps_inv (fun s => s.crl.version) _ (late_steps_version K E) s4 sf hrest
  obtain ⟨hpre, hpost, -⟩ := state_before_fixed K E _ s0 sf
    (show state_before K E (decode_steps K E).length s0 = .next sf by
      unfold state_before; rw [List.take_length]; exact hrun)
  obtain ⟨hvret, -, e3⟩ := step_version_alg_next K E _ _ h3
  obtain ⟨hv0, hv1, e4⟩ := step_version_range_next K _ _ h4
  have hv4 : s4.crl.version = s3.crl.version + 1 := by rw [e4]
  have hv3 : s3.crl.version = (x509_crl_get_version K E s2.mem s2.p s2.end_ s2.crl.version).ver := by
    rw [e3]
  obtain ⟨hvp, hcases⟩ := x509_crl_get_version_ok K E hz _ _ _ _ hvret
  refine ⟨s0, s2, sf.crl, hb, hs2, ?_, ?_, ?_⟩
  · rw [hw, DecSt.world, hpre, hpost]
  · rw [hver, hv4]; omega
  · rw [hver, hv4, hv3]
    rcases hcases with ⟨hg, hval⟩ | ⟨hg, hut, hval⟩
    · left
      exact ⟨hg, by rw [hval]⟩
    · right
      refine ⟨hg, hut, by rw [hval]; rfl, ?_⟩
      rw [hvp]
      exact hkeep _ _ _ _ hut

/-- Witness for C5: the well-formed list `crl_ok_v1`, in which the version is
omitted; the stored version is 1. -/
theorem accepted_version_witness :
    ∃ c, (result_or ⟨1, ⟨[], ⟨0, 0⟩⟩⟩ (mbedtls_x509_crl_parse_der Sample.consts Sample.env
        [zero_crl] (some Sample.crl_ok_v1) 83 ⟨0, 0⟩)).world.chain = [c] ∧ c.version = 1 := by
  obtain ⟨s0, s2, c, hb, hs2, hc, hv, hcase⟩ :=
    accepted_version Sample.consts Sample.env [zero_crl] (some Sample.crl_ok_v1) 83 ⟨0, 0⟩
      (result_or ⟨1, ⟨[], ⟨0, 0⟩⟩⟩ (mbedtls_x509_crl_parse_der Sample.consts Sample.env
        [zero_crl] (some Sample.crl_ok_v1) 83 ⟨0, 0⟩))
      Sample.nonzero_codes (fun mem p end_ val hh => Sample.get_int_keeps mem p end_ val hh)
      (by rfl) (by rfl)
  have hb' : parse_der_begin Sample.consts Sample.env [zero_crl] (some Sample.crl_ok_v1) 83
      ⟨0, 0⟩ = .next (Sample.start Sample.crl_ok_v1) := by rfl
  rw [hb'] at hb
  cases hb
  have hs2' : state_before Sample.consts Sample.env 2 (Sample.start Sample.crl_ok_v1) =
      .next ((state_before Sample.consts Sample.env 2
        (Sample.start Sample.crl_ok_v1)).state_or (Sample.start [])) := by rfl
  rw [hs2'] at hs2
  cases hs2
  refine ⟨c, hc, ?_⟩
  rcases hcase with ⟨hg, -⟩ | ⟨-, -, h1, -⟩
  · exact absurd hg (by decide)
  · exact h1

/-- Claim C6, as amended. Let the version INTEGER be read successfully with a
value outside {0, 1}. The inner algorithm identifier is decoded before the
range check: when it decodes, the call returns
`MBEDTLS_ERR_X509_UNKNOWN_VERSION`; when its decoding fails, the call returns
the code of that failure. -/
theorem unknown_version_after_alg (chain : List mbedtls_x509_crl) (buf : Option (List Nat))
    (buflen : Nat) (h : Heap) (s0 s2 : DecSt)
    (hb : parse_der_begin K E chain buf buflen h = .next s0)
    (hs : state_before K E 2 s0 = .next s2)
    (hg : (E.mbedtls_asn1_get_int s2.mem s2.p s2.end_ s2.crl.version).ret = 0)
    (hval : (E.mbedtls_asn1_get_int s2.mem s2.p s2.end_ s2.crl.version).val < 0 ∨
      (E.mbedtls_asn1_get_int s2.mem s2.p s2.end_ s2.crl.version).val > 1) :
    ((E.mbedtls_x509_get_alg s2.mem (E.mbedtls_asn1_get_int s2.mem s2.p s2.end_ s2.crl.version).p
        s2.end_ s2.crl.sig_oid s2.sig_params1).ret = 0 →
      ret_of (mbedtls_x509_crl_parse_der K E chain buf buflen h) =
        .ok K.MBEDTLS_ERR_X509_UNKNOWN_VERSION) ∧
    ((E.mbedtls_x509_get_alg s2.mem (E.mbedtls_asn1_get_int s2.mem s2.p s2.end_ s2.crl.version).p
        s2.end_ s2.crl.sig_oid s2.sig_params1).ret ≠ 0 →
      ret_of (mbedtls_x509_crl_parse_der K E chain buf buflen h) =
        .ok (E.mbedtls_x509_get_alg s2.mem
          (E.mbedtls_asn1_get_int s2.mem s2.p s2.end_ s2.crl.version).p
          s2.end_ s2.crl.sig_oid s2.sig_params1).ret) := by
  have hfrom := parse_der_from K E chain buf buflen h 2 s0 s2 hb hs
  have hdrop : (decode_steps K E).drop 2 =
      step_version_alg K E :: step_version_range K :: (decode_steps K E).drop 4 := rfl
  rw [hdrop] at hfrom
  rw [hfrom]
  have hv : x509_crl_get_version K E s2.mem s2.p s2.end_ s2.crl.version =
      { ret := 0, p := (E.mbedtls_asn1_get_int s2.mem s2.p s2.end_ s2.crl.version).p,
        ver := (E.mbedtls_asn1_get_int s2.mem s2.p s2.end_ s2.crl.version).val } := by
    simp [x509_crl_get_version, hg]
  constructor
  · intro ha
    simp only [run_steps, step_version_alg, hv, ne_eq, not_true_eq_false, if_false, ha,
      step_version_range, fail_free, finish, ret_of, Except.map]
    rw [if_pos hval]
  · intro ha
    simp [run_steps, step_version_alg, hv, ha, fail_free, finish, ret_of, Except.map]

/-- Witness for C6 (amended): version 2 followed by a well-formed algorithm
identifier. -/
theorem unknown_version_after_alg_witness :
    ret_of (mbedtls_x509_crl_parse_der Sample.consts Sample.env [zero_crl]
      (some Sample.crl_version2) 22 ⟨0, 0⟩) = .ok (-0x2580) :=
  (unknown_version_after_alg Sample.consts Sample.env [zero_crl] (some Sample.crl_version2) 22
    ⟨0, 0⟩ (Sample.start Sample.crl_version2)
    ((state_before Sample.consts Sample.env 2 (Sample.start Sample.crl_version2)).state_or
      (Sample.start []))
    (by rfl) (by rfl) (by decide) (by decide)).1 (by decide)

/-- Counterexample to C6 as stated. In `crl_version2_bad_alg` the version
INTEGER is read successfully (at offset 4) with the value 2, which is outside
{0, 1}; the bytes that follow are not an algorithm identifier, and the call
returns the code of that failure (`-0x2362`), not
`MBEDTLS_ERR_X509_UNKNOWN_VERSION`. -/
theorem unknown_version_not_returned :
    (∃ s2, state_before Sample.consts Sample.env 2 (Sample.start Sample.crl_version2_bad_alg) =
        .next s2 ∧ s2.p = 4 ∧
      (Sample.env.mbedtls_asn1_get_int s2.mem s2.p s2.end_ s2.crl.version).ret = 0 ∧
      (Sample.env.mbedtls_asn1_get_int s2.mem s2.p s2.end_ s2.crl.version).val = 2) ∧
    ret_of (mbedtls_x509_crl_parse_der Sample.consts Sample.env [zero_crl]
      (some Sample.crl_version2_bad_alg) 9 ⟨0, 0⟩) = .ok (-0x2362) ∧
    (-0x2362 : Int) ≠ Sample.consts.MBEDTLS_ERR_X509_UNKNOWN_VERSION := by
  refine ⟨⟨_, rfl, ?_⟩, ?_⟩
  · decide
  · decide

/-- Claim C7. A failure of the `thisUpdate` read is returned unchanged,
whatever its code. A failure of the `nextUpdate` read is returned unchanged
unless its code is `MBEDTLS_ERR_X509_INVALID_DATE + MBEDTLS_ERR_ASN1_UNEXPECTED_TAG`
or `MBEDTLS_ERR_X509_INVALID_DATE + MBEDTLS_ERR_ASN1_OUT_OF_DATA`; the block
falls through exactly for these two codes, and then the decoding goes on with
the entries, from the cursor and with the `next_update` that the reader left:
all-zero when the reader did not write it and the node was empty. -/
theorem time_read_failures (chain : List mbedtls_x509_crl) (buf : Option (List Nat))
    (buflen : Nat) (h : Heap) (s0 : DecSt)
    (hb : parse_der_begin K E chain buf buflen h = .next s0) :
    (∀ s6, state_before K E 6 s0 = .next s6 →
      (E.mbedtls_x509_get_time s6.mem s6.p s6.end_ s6.crl.this_update).ret ≠ 0 →
      ret_of (mbedtls_x509_crl_parse_der K E chain buf buflen h) =
        .ok (E.mbedtls_x509_get_time s6.mem s6.p s6.end_ s6.crl.this_update).ret) ∧
    (∀ s7, state_before K E 7 s0 = .next s7 →
      (E.mbedtls_x509_get_time s7.mem s7.p s7.end_ s7.crl.next_update).ret ≠ 0 →
      ((E.mbedtls_x509_get_time s7.mem s7.p s7.end_ s7.crl.next_update).ret ≠
          K.MBEDTLS_ERR_X509_INVALID_DATE + K.MBEDTLS_ERR_ASN1_UNEXPECTED_TAG →
        (E.mbedtls_x509_get_time s7.mem s7.p s7.end_ s7.crl.next_update).ret ≠
          K.MBEDTLS_ERR_X509_INVALID_DATE + K.MBEDTLS_ERR_ASN1_OUT_OF_DATA →
        ret_of (mbedtls_x509_crl_parse_der K E chain buf buflen h) =
          .ok (E.mbedtls_x509_get_time s7.mem s7.p s7.end_ s7.crl.next_update).ret) ∧
      ((∃ s8, step_next_update K E s7 = .next s8) ↔
        ((E.mbedtls_x509_get_time s7.mem s7.p s7.end_ s7.crl.next_update).ret =
            K.MBEDTLS_ERR_X509_INVALID_DATE + K.MBEDTLS_ERR_ASN1_UNEXPECTED_TAG ∨
          (E.mbedtls_x509_get_time s7.mem s7.p s7.end_ s7.crl.next_update).ret =
            K.MBEDTLS_ERR_X509_INVALID_DATE + K.MBEDTLS_ERR_ASN1_OUT_OF_DATA)) ∧
      (((E.mbedtls_x509_get_time s7.mem s7.p s7.end_ s7.crl.next_update).ret =
            K.MBEDTLS_ERR_X509_INVALID_DATE + K.MBEDTLS_ERR_ASN1_UNEXPECTED_TAG ∨
          (E.mbedtls_x509_get_time s7.mem s7.p s7.end_ s7.crl.next_update).ret =
            K.MBEDTLS_ERR_X509_INVALID_DATE + K.MBEDTLS_ERR_ASN1_OUT_OF_DATA) →
        ∃ s8, state_before K E 8 s0 = .next s8 ∧
          mbedtls_x509_crl_parse_der K E chain buf buflen h =
            finish (run_steps ((decode_steps K E).drop 8) s8) ∧
          s8.p = (E.mbedtls_x509_get_time s7.mem s7.p s7.end_ s7.crl.next_update).p ∧
          s8.crl.next_update =
            (E.mbedtls_x509_get_time s7.mem s7.p s7.end_ s7.crl.next_update).time ∧
          ((E.mbedtls_x509_get_time s7.mem s7.p s7.end_ s7.crl.next_update).time =
              s7.crl.next_update →
            s0.crl.next_update = zero_time → s8.crl.next_update = zero_time))) := by
  constructor
  · intro s6 hs6 hne
    rw [parse_der_from K E chain buf buflen h 6 s0 s6 hb hs6]
    have hdrop : (decode_steps K E).drop 6 =
        step_this_update K E :: (decode_steps K E).drop 7 := rfl
    rw [hdrop]
    simp [run_steps, step_this_update, hne, fail_free, finish, ret_of, Except.map]
  · intro s7 hs7 hne
    have hfrom := parse_der_from K E chain buf buflen h 7 s0 s7 hb hs7
    have hdrop : (decode_steps K E).drop 7 =
        step_next_update K E :: (decode_steps K E).drop 8 := rfl
    rw [hdrop] at hfrom
    refine ⟨?_, ?_, ?_⟩
    · intro h1 h2
      rw [hfrom]
      simp [run_steps, step_next_update, hne, h1, h2, fail_free, finish, ret_of, Except.map]
    · constructor
      · rintro ⟨s8, h8⟩
        by_contra hcon
        simp only [not_or] at hcon
        simp [step_next_update, hne, hcon.1, hcon.2, fail_free] at h8
      · intro hor
        have hnot : ¬ ((E.mbedtls_x509_get_time s7.mem s7.p s7.end_ s7.crl.next_update).ret ≠
            K.MBEDTLS_ERR_X509_INVALID_DATE + K.MBEDTLS_ERR_ASN1_UNEXPECTED_TAG ∧
            (E.mbedtls_x509_get_time s7.mem s7.p s7.end_ s7.crl.next_update).ret ≠
            K.MBEDTLS_ERR_X509_INVALID_DATE + K.MBEDTLS_ERR_ASN1_OUT_OF_DATA) := by
          rcases hor with h1 | h1 <;> simp [h1]
        refine ⟨{ s7 with
            p := (E.mbedtls_x509_get_time s7.mem s7.p s7.end_ s7.crl.next_update).p,
            ret := (E.mbedtls_x509_get_time s7.mem s7.p s7.end_ s7.crl.next_update).ret,
            crl := { s7.crl with next_update :=
              (E.mbedtls_x509_get_time s7.mem s7.p s7.end_ s7.crl.next_update).time } }, ?_⟩
        unfold step_next_update
        simp only [hne, ne_eq, not_false_eq_true, if_true]
        rw [if_neg hnot]
    · intro hor
      have hnot : ¬ ((E.mbedtls_x509_get_time s7.mem s7.p s7.end_ s7.crl.next_update).ret ≠
          K.MBEDTLS_ERR_X509_INVALID_DATE + K.MBEDTLS_ERR_ASN1_UNEXPECTED_TAG ∧
          (E.mbedtls_x509_get_time s7.mem s7.p s7.end_ s7.crl.next_update).ret ≠
          K.MBEDTLS_ERR_X509_INVALID_DATE + K.MBEDTLS_ERR_ASN1_OUT_OF_DATA) := by
        rcases hor with h1 | h1 <;> simp [h1]
      have hstep : step_next_update K E s7 = .next
          { s7 with
            p := (E.mbedtls_x509_get_time s7.mem s7.p s7.end_ s7.crl.next_update).p,
            ret := (E.mbedtls_x509_get_time s7.mem s7.p s7.end_ s7.crl.next_update).ret,
            crl := { s7.crl with next_update :=
              (E.mbedtls_x509_get_time s7.mem s7.p s7.end_ s7.crl.next_update).time } } := by
        unfold step_next_update
        simp only [hne, ne_eq, not_false_eq_true, if_true]
        rw [if_neg hnot]
      have hs8 := state_before_succ K E 7 s0 s7 hs7 (step_next_update K E) rfl
      rw [hstep] at hs8
      refine ⟨_, hs8, parse_der_from K E chain buf buflen h 8 s0 _ hb hs8, rfl, rfl, ?_⟩
      intro hkeep hzero
      have hframe := run_steps_inv (fun s => s.crl.next_update) ((decode_steps K E).take 7)
        (early_steps_next_update K E) s0 s7 hs7
      simp only at hframe ⊢
      rw [hkeep, hframe, hzero]

/-- Witness for C7: in `crl_no_next_update` the `nextUpdate` read fails with
`MBEDTLS_ERR_X509_INVALID_DATE + MBEDTLS_ERR_ASN1_OUT_OF_DATA`; the decoding
goes on and `next_update` is all-zero. -/
theorem time_read_failures_witness :
    ∃ s8, state_before Sample.consts Sample.env 8 (Sample.start Sample.crl_no_next_update) =
        .next s8 ∧ s8.crl.next_update = zero_time := by
  obtain ⟨s8, h8, -, -, -, hz⟩ :=
    ((time_read_failures Sample.consts Sample.env [zero_crl] (some Sample.crl_no_next_update)
      68 ⟨0, 0⟩ (Sample.start Sample.crl_no_next_update) (by rfl)).2
      ((state_before Sample.consts Sample.env 7
        (Sample.start Sample.crl_no_next_update)).state_or (Sample.start []))
      (by rfl) (by decide)).2.2 (Or.inr (by decide))
  exact ⟨s8, h8, hz (by rfl) (by rfl)⟩

/-- Claim C10. `x509_get_entries` returns `0` with the cursor, the embedded
entry, the list behind it and the heap unchanged when the cursor is already at
`end`, and also when the tag reader reports an unexpected tag (the reader
leaving the cursor in place when it does). Any other failure of the outer tag
read is returned unchanged, the entry list and the heap being untouched. -/
theorem get_entries_absent (mem : List Nat) (p end_ : Nat) (entry : mbedtls_x509_crl_entry)
    (next : List mbedtls_x509_crl_entry) (h : Heap)
    (hkeep : ∀ mem p end_ len tag,
      (E.mbedtls_asn1_get_tag mem p end_ len tag).ret = K.MBEDTLS_ERR_ASN1_UNEXPECTED_TAG →
      (E.mbedtls_asn1_get_tag mem p end_ len tag).p = p) :
    (p = end_ →
      x509_get_entries K E mem p end_ entry next h =
        .ok { ret := 0, p := p, entry := entry, next := next, heap := h }) ∧
    (p ≠ end_ → (E.mbedtls_asn1_get_tag mem p end_ 0 (seq_tag K)).ret ≠ 0 →
      (E.mbedtls_asn1_get_tag mem p end_ 0 (seq_tag K)).ret = K.MBEDTLS_ERR_ASN1_UNEXPECTED_TAG →
      x509_get_entries K E mem p end_ entry next h =
        .ok { ret := 0, p := p, entry := entry, next := next, heap := h }) ∧
    (p ≠ end_ → (E.mbedtls_asn1_get_tag mem p end_ 0 (seq_tag K)).ret ≠ 0 →
      (E.mbedtls_asn1_get_tag mem p end_ 0 (seq_tag K)).ret ≠ K.MBEDTLS_ERR_ASN1_UNEXPECTED_TAG →
      ∃ r, x509_get_entries K E mem p end_ entry next h = .ok r ∧
        r.ret = (E.mbedtls_asn1_get_tag mem p end_ 0 (seq_tag K)).ret ∧
        r.entry = entry ∧ r.next = next ∧ r.heap = h) := by
  refine ⟨?_, ?_, ?_⟩
  · intro hp
    simp [x509_get_entries, hp]
  · intro hp hne hut
    have hk := hkeep mem p end_ 0 (seq_tag K) hut
    unfold x509_get_entries
    simp only [if_neg hp, if_pos hne, if_pos hut, hk]
  · intro hp hne hut
    refine ⟨{ ret := (E.mbedtls_asn1_get_tag mem p end_ 0 (seq_tag K)).ret,
              p := (E.mbedtls_asn1_get_tag mem p end_ 0 (seq_tag K)).p,
              entry := entry, next := next, heap := h }, ?_, rfl, rfl, rfl, rfl⟩
    unfold x509_get_entries
    simp only [if_neg hp, if_pos hne, if_neg hut]


/-- Witness for C10: a cursor already at `end`; the tag `0x17` of a time where
the entries are looked for; and a SEQUENCE tag without length octets, whose
failure code `-0x60` is returned. -/
theorem get_entries_absent_witness :
    x509_get_entries Sample.consts Sample.env [0x17, 0x00] 2 2 zero_entry [] ⟨0, 0⟩ =
      .ok { ret := 0, p := 2, entry := zero_entry, next := [], heap := ⟨0, 0⟩ } ∧
    x509_get_entries Sample.consts Sample.env [0x17, 0x00] 0 2 zero_entry [] ⟨0, 0⟩ =
      .ok { ret := 0, p := 0, entry := zero_entry, next := [], heap := ⟨0, 0⟩ } ∧
    ∃ r, x509_get_entries Sample.consts Sample.env [0x30] 0 1 zero_entry [] ⟨0, 0⟩ = .ok r ∧
      r.ret = -0x60 :=
  have hkeep : ∀ mem p end_ len tag,
      (Sample.env.mbedtls_asn1_get_tag mem p end_ len tag).ret =
        Sample.consts.MBEDTLS_ERR_ASN1_UNEXPECTED_TAG →
      (Sample.env.mbedtls_asn1_get_tag mem p end_ len tag).p = p :=
    fun mem p end_ len tag hh => Sample.get_tag_keeps mem p end_ len tag hh
  ⟨(get_entries_absent Sample.consts Sample.env [0x17, 0x00] 2 2 zero_entry [] ⟨0, 0⟩
      hkeep).1 rfl,
   (get_entries_absent Sample.consts Sample.env [0x17, 0x00] 0 2 zero_entry [] ⟨0, 0⟩
      hkeep).2.1 (by decide) (by decide) (by decide),
   by
    obtain ⟨r, hr, hret, -⟩ :=
      (get_entries_absent Sample.consts Sample.env [0x30] 0 1 zero_entry [] ⟨0, 0⟩
        hkeep).2.2 (by decide) (by decide) (by decide)
    exact ⟨r, hr, by rw [hret]; decide⟩⟩

/-- Claim C9. Let `s9` be the state in which the `crlExtensions` block is
entered. When the stored version is 1, the block falls through with the state
unchanged (the validator is not called), `crl_ext` is what it was in the node
when the decoding started (empty for an empty node), also in the node of a
call that returns `0`; and when the cursor is not at the end of `tbsCertList`,
the call returns `MBEDTLS_ERR_X509_INVALID_FORMAT + MBEDTLS_ERR_ASN1_LENGTH_MISMATCH`.
When the stored version is 2, the result of `x509_get_crl_ext` decides: a
nonzero return value of it is returned unchanged, and with `0` the decoding
goes on from the cursor and with the `crl_ext` it produced. -/
theorem crl_ext_by_version (chain : List mbedtls_x509_crl) (buf : Option (List Nat))
    (buflen : Nat) (h : Heap) (s0 s9 : DecSt)
    (hb : parse_der_begin K E chain buf buflen h = .next s0)
    (hs : state_before K E 9 s0 = .next s9) :
    (s9.crl.version = 1 →
      step_crl_ext K E s9 = .next s9 ∧ s9.crl.crl_ext = s0.crl.crl_ext ∧
      (s9.p ≠ s9.end_ →
        ret_of (mbedtls_x509_crl_parse_der K E chain buf buflen h) =
          .ok (K.MBEDTLS_ERR_X509_INVALID_FORMAT + K.MBEDTLS_ERR_ASN1_LENGTH_MISMATCH)) ∧
      (∀ r, NonzeroCodes K E → mbedtls_x509_crl_parse_der K E chain buf buflen h = .ok r →
        r.ret = 0 →
        ∃ c, r.world.chain = s0.pre ++ c :: s0.post ∧ c.crl_ext = s0.crl.crl_ext)) ∧
    (s9.crl.version = 2 →
      (∀ f, x509_get_crl_ext K E s9.mem s9.p s9.end_ s9.crl.crl_ext = .error f →
        mbedtls_x509_crl_parse_der K E chain buf buflen h = .error f) ∧
      (∀ x, x509_get_crl_ext K E s9.mem s9.p s9.end_ s9.crl.crl_ext = .ok x → x.ret ≠ 0 →
        ret_of (mbedtls_x509_crl_parse_der K E chain buf buflen h) = .ok x.ret) ∧
      (∀ x, x509_get_crl_ext K E s9.mem s9.p s9.end_ s9.crl.crl_ext = .ok x → x.ret = 0 →
        state_before K E 10 s0 =
          .next { s9 with p := x.p, ret := x.ret, crl := { s9.crl with crl_ext := x.ext } })) := by
  have hfrom := parse_der_from K E chain buf buflen h 9 s0 s9 hb hs
  have hdrop : (decode_steps K E).drop 9 =
      step_crl_ext K E :: step_tbs_end K :: (decode_steps K E).drop 11 := rfl
  rw [hdrop] at hfrom
  constructor
  · intro hv
    have hne2 : ¬ s9.crl.version = 2 := by omega
    have hstep : step_crl_ext K E s9 = .next s9 := by
      simp [step_crl_ext, hne2]
    have hframe : s9.crl.crl_ext = s0.crl.crl_ext :=
      run_steps_inv (fun s => s.crl.crl_ext) _ (early_steps_crl_ext K E) s0 s9 hs
    refine ⟨hstep, hframe, ?_, ?_⟩
    · intro hp
      rw [hfrom]
      simp [run_steps, hstep, step_tbs_end, hp, fail_free, finish, ret_of, Except.map]
    · intro r hz hr h0
      obtain ⟨s0', sf, hb', hrun, hw⟩ := accepted_falls_through K E hz chain buf buflen h r hr h0
      rw [hb] at hb'
      cases hb'
      obtain ⟨hpre, hpost, -⟩ := state_before_fixed K E _ s0 sf
        (show state_before K E (decode_steps K E).length s0 = .next sf by
          unfold state_before; rw [List.take_length]; exact hrun)
      have h10 : state_before K E 10 s0 = .next s9 := by
        rw [state_before_succ K E 9 s0 s9 hs (step_crl_ext K E) rfl, hstep]
      obtain ⟨s10, hs10, hrest⟩ := state_before_of_run K E s0 sf hrun 10
      rw [h10] at hs10
      cases hs10
      have hlate : sf.crl.crl_ext = s9.crl.crl_ext :=
        run_steps_inv (fun s => s.crl.crl_ext) _ (late_steps_crl_ext K E) s9 sf hrest
      exact ⟨sf.crl, by rw [hw, DecSt.world, hpre, hpost], by rw [hlate, hframe]⟩
  · intro hv
    refine ⟨?_, ?_, ?_⟩
    · intro f hf
      rw [hfrom]
      simp [run_steps, step_crl_ext, hv, hf, finish]
    · intro x hx hne
      rw [hfrom]
      simp [run_steps, step_crl_ext, hv, hx, hne, fail_free, finish, ret_of, Except.map]
    · intro x hx h0
      rw [state_before_succ K E 9 s0 s9 hs (step_crl_ext K E) rfl]
      simp [step_crl_ext, hv, hx, h0]

/-- Witness for C9: a list without version (stored version 1) whose
`tbsCertList` ends with a `crlExtensions` block. -/
theorem crl_ext_by_version_witness :
    ret_of (mbedtls_x509_crl_parse_der Sample.consts Sample.env [zero_crl]
      (some Sample.crl_v1_with_ext) 89 ⟨0, 0⟩) = .ok (-0x2180 + -0x66) :=
  ((crl_ext_by_version Sample.consts Sample.env [zero_crl] (some Sample.crl_v1_with_ext) 89
    ⟨0, 0⟩ (Sample.start Sample.crl_v1_with_ext)
    ((state_before Sample.consts Sample.env 9 (Sample.start Sample.crl_v1_with_ext)).state_or
      (Sample.start []))
    (by rfl) (by rfl)).1 (by decide)).2.2.1 (by decide)

/-- Claim C8. In a call that returns `0` (error codes being different from
`0`) the four parts tile the input: the outer header is read from offset 0 to
`s1.p` and declares the bytes that remain; `tbsCertList` starts at `s1.p`
(`tbs.p`) and its header and content end at `s2.end_`, where the cursor stands
after its fields are decoded; the outer algorithm identifier is read from
there to `s12.p`; the signature is read from `s12.p` to `buflen`. Conversely,
when every block through the signature falls through and the cursor is not at
`buflen`, the call returns
`MBEDTLS_ERR_X509_INVALID_FORMAT + MBEDTLS_ERR_ASN1_LENGTH_MISMATCH`. -/
theorem accepted_tiles_input (chain : List mbedtls_x509_crl) (buf : Option (List Nat))
    (buflen : Nat) (h : Heap) (s0 : DecSt)
    (hb : parse_der_begin K E chain buf buflen h = .next s0) :
    (∀ r, NonzeroCodes K E → mbedtls_x509_crl_parse_der K E chain buf buflen h = .ok r →
      r.ret = 0 →
      ∃ s1 s2 s10 s11 s12 s14,
        state_before K E 1 s0 = .next s1 ∧ state_before K E 2 s0 = .next s2 ∧
        state_before K E 10 s0 = .next s10 ∧ state_before K E 11 s0 = .next s11 ∧
        state_before K E 12 s0 = .next s12 ∧ state_before K E 14 s0 = .next s14 ∧
        s1.p = (E.mbedtls_asn1_get_tag s0.mem 0 buflen 0 (seq_tag K)).p ∧
        s1.len = size_of_diff K buflen s1.p ∧
        s2.crl.tbs.p = some s1.p ∧
        s2.end_ = (E.mbedtls_asn1_get_tag s0.mem s1.p buflen s1.len (seq_tag K)).p +
          (E.mbedtls_asn1_get_tag s0.mem s1.p buflen s1.len (seq_tag K)).len ∧
        s10.p = s2.end_ ∧ s11.p = s10.p ∧
        s12.p = (E.mbedtls_x509_get_alg s0.mem s11.p buflen s11.sig_oid2 s11.sig_params2).p ∧
        s14.p = (E.mbedtls_x509_get_sig s0.mem s12.p buflen s12.crl.sig).p ∧
        s14.p = buflen) ∧
    (∀ s14, state_before K E 14 s0 = .next s14 →
      s14.end_ = buflen ∧
      (s14.p ≠ buflen →
        ret_of (mbedtls_x509_crl_parse_der K E chain buf buflen h) =
          .ok (K.MBEDTLS_ERR_X509_INVALID_FORMAT + K.MBEDTLS_ERR_ASN1_LENGTH_MISMATCH))) := by
  obtain ⟨b, -, -, -, hmem0, hp0, hend0, hlen0, hraw0, -⟩ :=
    parse_der_begin_next K E chain buf buflen h s0 hb
  have key : ∀ s14, state_before K E 14 s0 = .next s14 →
      ∃ s1 s2 s10 s11 s12,
        state_before K E 1 s0 = .next s1 ∧ state_before K E 2 s0 = .next s2 ∧
        state_before K E 10 s0 = .next s10 ∧ state_before K E 11 s0 = .next s11 ∧
        state_before K E 12 s0 = .next s12 ∧
        s1.p = (E.mbedtls_asn1_get_tag s0.mem 0 buflen 0 (seq_tag K)).p ∧
        s1.len = size_of_diff K buflen s1.p ∧
        s2.crl.tbs.p = some s1.p ∧
        s2.end_ = (E.mbedtls_asn1_get_tag s0.mem s1.p buflen s1.len (seq_tag K)).p +
          (E.mbedtls_asn1_get_tag s0.mem s1.p buflen s1.len (seq_tag K)).len ∧
        s10.p = s2.end_ ∧ s11.p = s10.p ∧
        s12.p = (E.mbedtls_x509_get_alg s0.mem s11.p buflen s11.sig_oid2 s11.sig_params2).p ∧
        s14.p = (E.mbedtls_x509_get_sig s0.mem s12.p buflen s12.crl.sig).p ∧
        s14.end_ = buflen := by
    intro s14 hs14
    have hs14' := hs14
    simp only [state_before, decode_steps, steps_to_version, steps_to_times, steps_to_tbs_end,
      steps_to_end, List.cons_append, List.nil_append, List.take_succ_cons, List.take_zero,
      run_steps_cons_next, run_steps_nil_next] at hs14'
    obtain ⟨s1, h1, s2, h2, s3, h3, s4, h4, s5, h5, s6, h6, s7, h7, s8, h8, s9, h9, s10, h10,
      s11, h11, s12, h12, s13, h13, s14', h14, he⟩ := hs14'
    rw [he] at h14
    have b1 : state_before K E 1 s0 = .next s1 := by
      rw [state_before_succ K E 0 s0 s0 rfl (step_outer_seq K E) rfl, h1]
    have b2 : state_before K E 2 s0 = .next s2 := by
      rw [state_before_succ K E 1 s0 s1 b1 (step_tbs K E) rfl, h2]
    have b10 : state_before K E 10 s0 = .next s10 := by
      rw [state_before_add K E 2 8 s0 s2 b2]
      simp only [decode_steps, steps_to_version, steps_to_times, steps_to_tbs_end,
        steps_to_end, List.cons_append, List.nil_append, List.drop_succ_cons, List.drop_zero,
        List.take_succ_cons, List.take_zero, run_steps_cons_next, run_steps_nil_next]
      exact ⟨s3, h3, s4, h4, s5, h5, s6, h6, s7, h7, s8, h8, s9, h9, s10, h10, rfl⟩
    have b11 : state_before K E 11 s0 = .next s11 := by
      rw [state_before_succ K E 10 s0 s10 b10 (step_tbs_end K) rfl, h11]
    have b12 : state_before K E 12 s0 = .next s12 := by
      rw [state_before_succ K E 11 s0 s11 b11 (step_outer_alg K E) rfl, h12]
    obtain ⟨-, hl1, e1⟩ := step_outer_seq_next K E _ _ h1
    obtain ⟨-, e2⟩ := step_tbs_next K E _ _ h2
    have c1 : s1.p = (E.mbedtls_asn1_get_tag s0.mem 0 buflen 0 (seq_tag K)).p := by
      rw [e1, hp0, hend0, hlen0]
    have c1e : s1.end_ = buflen := by rw [e1, hend0]
    have c1m : s1.mem = s0.mem := by rw [e1]
    have c1l : s1.len = size_of_diff K buflen s1.p := by
      rw [e1]
      simp only
      rw [hl1, hend0]
    have c2 : s2.crl.tbs.p = some s1.p := by rw [e2]
    have c2e : s2.end_ = (E.mbedtls_asn1_get_tag s0.mem s1.p buflen s1.len (seq_tag K)).p +
        (E.mbedtls_asn1_get_tag s0.mem s1.p buflen s1.len (seq_tag K)).len := by
      rw [e2]
      simp only
      rw [c1m, c1e]
    have hmid : s10.end_ = s2.end_ := by
      have hrun : run_steps (((decode_steps K E).drop 2).take 8) s2 = .next s10 := by
        rw [← state_before_add K E 2 8 s0 s2 b2]
        exact b10
      exact run_steps_inv (fun s => s.end_) _ (mid_steps_end K E) s2 s10 hrun
    obtain ⟨t1, t2, t3, t4, t5, t6, t7, t8, t9, t10⟩ := tail_blocks K E s10 s11 s12 s13 s14
      h11 h12 h13 h14
    obtain ⟨-, -, f10m, f10r, -⟩ := state_before_fixed K E 10 s0 s10 b10
    have hrl : s10.crl.raw_len = buflen := by rw [f10r, hraw0]
    refine ⟨s1, s2, s10, s11, s12, b1, b2, b10, b11, b12, c1, c1l, c2, c2e, ?_, t2, ?_, ?_, ?_⟩
    · rw [t1, hmid]
    · rw [t5, t4, t3, f10m, hrl]
    · rw [t9, t7, t6, f10m, hrl]
    · rw [t10, hrl]
  constructor
  · intro r hz hr h0
    obtain ⟨s0', sf, hb', hrun, hw⟩ := accepted_falls_through K E hz chain buf buflen h r hr h0
    rw [hb] at hb'
    cases hb'
    obtain ⟨s14, hs14, hrest⟩ := state_before_of_run K E s0 sf hrun 14
    have hdrop : (decode_steps K E).drop 14 = [step_end K] := rfl
    rw [hdrop] at hrest
    obtain ⟨s15, h15, -⟩ := (run_steps_cons_next _ _ _ _).mp hrest
    obtain ⟨hpe, -⟩ := step_end_next K _ _ h15
    obtain ⟨s1, s2, s10, s11, s12, b1, b2, b10, b11, b12, c1, c1l, c2, c2e, c3, c4, c5, c6, c7⟩ :=
      key s14 hs14
    exact ⟨s1, s2, s10, s11, s12, s14, b1, b2, b10, b11, b12, hs14, c1, c1l, c2, c2e, c3, c4,
      c5, c6, by rw [hpe, c7]⟩
  · intro s14 hs14
    obtain ⟨s1, s2, s10, s11, s12, -, -, -, -, -, -, -, -, -, -, -, -, -, c7⟩ := key s14 hs14
    refine ⟨c7, ?_⟩
    intro hp
    rw [parse_der_from K E chain buf buflen h 14 s0 s14 hb hs14]
    have hdrop : (decode_steps K E).drop 14 = [step_end K] := rfl
    rw [hdrop]
    have hp' : s14.p ≠ s14.end_ := by rw [c7]; exact hp
    simp [run_steps, step_end, hp', fail_free, finish, ret_of, Except.map]

/-- Witness for C8: the well-formed list `crl_ok_v1` is consumed up to its
83rd byte; the list `crl_trailing_byte`, with one byte behind the signature, is
rejected. -/
theorem accepted_tiles_input_witness :
    (∃ s14, state_before Sample.consts Sample.env 14 (Sample.start Sample.crl_ok_v1) =
        .next s14 ∧ s14.p = 83) ∧
    ret_of (mbedtls_x509_crl_parse_der Sample.consts Sample.env [zero_crl]
      (some Sample.crl_trailing_byte) 84 ⟨0, 0⟩) = .ok (-0x2180 + -0x66) := by
  constructor
  · obtain ⟨s1, s2, s10, s11, s12, s14, -, -, -, -, -, b14, -, -, -, -, -, -, -, -, c⟩ :=
      (accepted_tiles_input Sample.consts Sample.env [zero_crl] (some Sample.crl_ok_v1) 83
        ⟨0, 0⟩ (Sample.start Sample.crl_ok_v1) (by rfl)).1
        (result_or ⟨1, ⟨[], ⟨0, 0⟩⟩⟩ (mbedtls_x509_crl_parse_der Sample.consts Sample.env
          [zero_crl] (some Sample.crl_ok_v1) 83 ⟨0, 0⟩))
        Sample.nonzero_codes (by rfl) (by rfl)
    exact ⟨s14, b14, c⟩
  · exact ((accepted_tiles_input Sample.consts Sample.env [zero_crl]
      (some Sample.crl_trailing_byte) 84 ⟨0, 0⟩ (Sample.start Sample.crl_trailing_byte)
      (by rfl)).2
      ((state_before Sample.consts Sample.env 14
        (Sample.start Sample.crl_trailing_byte)).state_or (Sample.start []))
      (by rfl)).2 (by decide)

/-- Claim C12. When the raw copy has been made (the decoding starts in `s0`)
and the call returns a value other than `0`, the caller sees the nodes that
precede the node being filled, followed by that node in the empty state of
`mbedtls_x509_crl_init` (version 0, nothing behind the embedded entry and
name, no raw copy) with no node behind it; at least one block, the raw copy,
has been released. -/
theorem failed_decode_leaves_empty_node (chain : List mbedtls_x509_crl) (b : List Nat)
    (buflen : Nat) (h : Heap) (s0 : DecSt) (r : Result)
    (hb : parse_der_begin K E chain (some b) buflen h = .next s0)
    (hr : mbedtls_x509_crl_parse_der K E chain (some b) buflen h = .ok r)
    (hne : r.ret ≠ 0) :
    r.world.chain = s0.pre ++ [zero_crl] ∧
    r.world.chain[s0.pre.length]? = some zero_crl ∧
    r.world.chain.length = s0.pre.length + 1 ∧
    h.nfree + 1 ≤ r.world.heap.nfree := by
  unfold mbedtls_x509_crl_parse_der at hr
  rw [hb] at hr
  simp only at hr
  obtain ⟨hraw, hnf⟩ := parse_der_begin_raw K E chain b buflen h s0 hb
  cases hrun : run_steps (decode_steps K E) s0 with
  | next sf =>
    rw [hrun] at hr
    simp only [finish, Except.ok.injEq] at hr
    rw [← hr] at hne
    exact absurd rfl hne
  | ret code w =>
    rw [hrun] at hr
    simp only [finish, Except.ok.injEq] at hr
    obtain ⟨h1, h2⟩ := run_steps_ret_world K E _ (fun f hf => hf) s0 code w hrun
    rw [← hr]
    simp only
    refine ⟨h1, ?_, ?_, ?_⟩
    · rw [h1]
      simp
    · rw [h1]
      simp
    · have := h2 (by rw [hraw]; rfl)
      omega
  | fault e =>
    rw [hrun] at hr
    simp [finish] at hr

/-- Witness for C12: the decoding of `crl_short_outer` fails and leaves the
head zeroed. -/
theorem failed_decode_leaves_empty_node_witness :
    (result_or ⟨0, ⟨[], ⟨0, 0⟩⟩⟩ (mbedtls_x509_crl_parse_der Sample.consts Sample.env
      [zero_crl] (some Sample.crl_short_outer) 83 ⟨0, 0⟩)).world.chain = [zero_crl] :=
  (failed_decode_leaves_empty_node Sample.consts Sample.env [zero_crl] Sample.crl_short_outer 83
    ⟨0, 0⟩ (Sample.start Sample.crl_short_outer)
    (result_or ⟨0, ⟨[], ⟨0, 0⟩⟩⟩ (mbedtls_x509_crl_parse_der Sample.consts Sample.env
      [zero_crl] (some Sample.crl_short_outer) 83 ⟨0, 0⟩))
    (by rfl) (by rfl) (by decide)).1

/-- Claim C20. `x509_crl_get_version` returns `0` with `*ver = 0` when the
integer read fails with `MBEDTLS_ERR_ASN1_UNEXPECTED_TAG`; it returns `0` with
`*ver` as the integer reader set it when the read succeeds; for every other
failure code `r` of the read it returns `MBEDTLS_ERR_X509_INVALID_VERSION + r`
(with `*ver` as the reader left it). The cursor is in each case where the
reader left it. -/
theorem crl_get_version_cases (mem : List Nat) (p end_ : Nat) (ver : Int) :
    ((E.mbedtls_asn1_get_int mem p end_ ver).ret ≠ 0 →
      (E.mbedtls_asn1_get_int mem p end_ ver).ret = K.MBEDTLS_ERR_ASN1_UNEXPECTED_TAG →
      x509_crl_get_version K E mem p end_ ver =
        { ret := 0, p := (E.mbedtls_asn1_get_int mem p end_ ver).p, ver := 0 }) ∧
    ((E.mbedtls_asn1_get_int mem p end_ ver).ret = 0 →
      x509_crl_get_version K E mem p end_ ver =
        { ret := 0, p := (E.mbedtls_asn1_get_int mem p end_ ver).p,
          ver := (E.mbedtls_asn1_get_int mem p end_ ver).val }) ∧
    ((E.mbedtls_asn1_get_int mem p end_ ver).ret ≠ 0 →
      (E.mbedtls_asn1_get_int mem p end_ ver).ret ≠ K.MBEDTLS_ERR_ASN1_UNEXPECTED_TAG →
      x509_crl_get_version K E mem p end_ ver =
        { ret := K.MBEDTLS_ERR_X509_INVALID_VERSION + (E.mbedtls_asn1_get_int mem p end_ ver).ret,
          p := (E.mbedtls_asn1_get_int mem p end_ ver).p,
          ver := (E.mbedtls_asn1_get_int mem p end_ ver).val }) := by
  refine ⟨?_, ?_, ?_⟩
  · intro h1 h2
    unfold x509_crl_get_version
    simp only [if_pos h1, if_pos h2]
  · intro h1
    unfold x509_crl_get_version
    simp only [h1, ne_eq, not_true_eq_false, if_false]
  · intro h1 h2
    unfold x509_crl_get_version
    simp only [if_pos h1, if_neg h2]

/-- Witness for C20: a SEQUENCE tag where the INTEGER is looked for, the
INTEGER 1, and an INTEGER whose content is cut off (`-0x60`, out of data). -/
theorem crl_get_version_cases_witness :
    x509_crl_get_version Sample.consts Sample.env [0x30, 0x00] 0 2 7 = ⟨0, 0, 0⟩ ∧
    x509_crl_get_version Sample.consts Sample.env [0x02, 0x01, 0x01] 0 3 7 = ⟨0, 3, 1⟩ ∧
    x509_crl_get_version Sample.consts Sample.env [0x02, 0x05] 0 2 7 = ⟨-0x2200 + -0x60, 2, 7⟩ :=
  ⟨(crl_get_version_cases Sample.consts Sample.env [0x30, 0x00] 0 2 7).1
      (by decide) (by decide),
   (crl_get_version_cases Sample.consts Sample.env [0x02, 0x01, 0x01] 0 3 7).2.1 (by decide),
   (crl_get_version_cases Sample.consts Sample.env [0x02, 0x05] 0 2 7).2.2
      (by decide) (by decide)⟩

/-- Claim C15. A call of `mbedtls_x509_crl_parse_der` that returns `0` fills
the chain head itself when the head is in the empty state (version 0): the
nodes behind the head are as before and the number of nodes is unchanged.
When every node of the chain is populated (version not 0) it appends exactly
one node behind the last one and fills that node; all earlier nodes are
unchanged. The filled node has version 1 or 2. -/
theorem decode_fills_head_or_appends (hz : NonzeroCodes K E) (chain : List mbedtls_x509_crl)
    (buf : Option (List Nat)) (buflen : Nat) (h : Heap) (r : Result)
    (hr : mbedtls_x509_crl_parse_der K E chain buf buflen h = .ok r) (h0 : r.ret = 0) :
    (∀ c0 rest, chain = c0 :: rest → c0.version = 0 →
      ∃ c, r.world.chain = c :: rest ∧ (c.version = 1 ∨ c.version = 2) ∧
        r.world.chain.length = chain.length) ∧
    ((∀ n ∈ chain, n.version ≠ 0) →
      ∃ c, r.world.chain = chain ++ [c] ∧ (c.version = 1 ∨ c.version = 2) ∧
        r.world.chain.length = chain.length + 1 ∧
        ∀ k, k < chain.length → r.world.chain[k]? = chain[k]?) := by
  obtain ⟨s0, sf, hb, -, hw, hv, -⟩ := accepted_world K E hz chain buf buflen h r hr h0
  obtain ⟨hhead, hall⟩ := parse_der_begin_slot K E chain buf buflen h s0 hb
  constructor
  · intro c0 rest hch hv0
    obtain ⟨hpre, hpost, -⟩ := hhead c0 rest hch hv0
    refine ⟨sf.crl, ?_, hv, ?_⟩
    · rw [hw, hpre, hpost]
      rfl
    · rw [hw, hpre, hpost, hch]
      simp
  · intro hpop
    obtain ⟨hpre, hpost, -⟩ := hall hpop
    refine ⟨sf.crl, ?_, hv, ?_, ?_⟩
    · rw [hw, hpre, hpost]
    · rw [hw, hpre, hpost]
      simp
    · intro k hk
      rw [hw, hpre, hpost]
      exact List.getElem?_append_left hk

/-- Witness for C15: a second record decoded into a chain whose only node is
populated is appended behind that node. -/
theorem decode_fills_head_or_appends_witness :
    ∃ c, (result_or ⟨1, ⟨[], ⟨0, 0⟩⟩⟩ (mbedtls_x509_crl_parse_der Sample.consts Sample.env
        Sample.first_call.world.chain (some Sample.crl_no_next_update) 68
        Sample.first_call.world.heap)).world.chain = Sample.first_call.world.chain ++ [c] ∧
      Sample.first_call.world.chain.length = 1 ∧ c.version = 1 := by
  obtain ⟨c, hc, hv, hlen, -⟩ :=
    (decode_fills_head_or_appends Sample.consts Sample.env Sample.nonzero_codes
      Sample.first_call.world.chain (some Sample.crl_no_next_update) 68
      Sample.first_call.world.heap
      (result_or ⟨1, ⟨[], ⟨0, 0⟩⟩⟩ (mbedtls_x509_crl_parse_der Sample.consts Sample.env
        Sample.first_call.world.chain (some Sample.crl_no_next_update) 68
        Sample.first_call.world.heap)) (by rfl) (by rfl)).2 (by decide)
  refine ⟨c, hc, by rfl, ?_⟩
  have h2 : (result_or ⟨1, ⟨[], ⟨0, 0⟩⟩⟩ (mbedtls_x509_crl_parse_der Sample.consts Sample.env
      Sample.first_call.world.chain (some Sample.crl_no_next_update) 68
      Sample.first_call.world.heap)).world.chain[1]?.map (fun n => n.version) = some 1 := by rfl
  rw [hc] at h2
  have h3 : (Sample.first_call.world.chain ++ [c])[1]? = some c := by
    rw [List.getElem?_append_right (by decide)]
    rfl
  rw [h3] at h2
  simpa using h2

/-- Claim C18. Let `mbedtls_x509_crl_parse_der( chain, buf, buflen )` return `0`
and let `c` be the node it filled. Then `c.raw.len = buflen`, `c.raw.p` is a
block `copy` of `buflen` bytes with `copy[i] = buf[i]` for every `i < buflen`,
and the spans of the record are positions in `copy`: every block of the decoder
runs on `copy`; `tbs.p` and `issuer_raw.p` are the cursor in `copy` before the
`tbsCertList` header and before the issuer header; `sig_oid`, the entry list
and `sig` are what the readers return when given `copy`. The caller's buffer is
not referred to: the call on `copy` itself has the same outcome. -/
theorem accepted_raw_copy (hz : NonzeroCodes K E) (chain : List mbedtls_x509_crl)
    (b : List Nat) (buflen : Nat) (h : Heap) (r : Result)
    (hr : mbedtls_x509_crl_parse_der K E chain (some b) buflen h = .ok r) (h0 : r.ret = 0) :
    ∃ s0 c copy, parse_der_begin K E chain (some b) buflen h = .next s0 ∧
      r.world.chain = s0.pre ++ c :: s0.post ∧
      c.raw_len = buflen ∧ c.raw_p = some copy ∧ copy.length = buflen ∧
      (∀ i : Nat, i < buflen → copy[i]? = b[i]?) ∧
      (∀ n s, state_before K E n s0 = .next s → s.mem = copy) ∧
      (∃ s1 s2 s5 s8 s13 e, state_before K E 1 s0 = .next s1 ∧
        state_before K E 2 s0 = .next s2 ∧ state_before K E 5 s0 = .next s5 ∧
        state_before K E 8 s0 = .next s8 ∧ state_before K E 13 s0 = .next s13 ∧
        c.tbs.p = some s1.p ∧
        c.sig_oid = (E.mbedtls_x509_get_alg copy
          (x509_crl_get_version K E copy s2.p s2.end_ s2.crl.version).p
          s2.end_ s2.crl.sig_oid s2.sig_params1).alg ∧
        c.issuer_raw.p = some s5.p ∧
        x509_get_entries K E copy s8.p s8.end_ s8.crl.entry s8.crl.entry_next s8.heap = .ok e ∧
        c.entry = e.entry ∧ c.entry_next = e.next ∧
        c.sig = (E.mbedtls_x509_get_sig copy s13.p s13.end_ s13.crl.sig).out) ∧
      mbedtls_x509_crl_parse_der K E chain (some copy) buflen h = .ok r := by
  obtain ⟨s0, sf, hb, hrun, hw, -, hrp, hrl, -⟩ :=
    accepted_world K E hz chain (some b) buflen h r hr h0
  obtain ⟨b', hb', -, hlen, hmem0, -, -, -, hrl0, -⟩ := parse_der_begin_next K E _ _ _ _ _ hb
  cases hb'
  obtain ⟨hraw0, -⟩ := parse_der_begin_raw K E _ _ _ _ _ hb
  have hmem : ∀ n s, state_before K E n s0 = .next s → s.mem = b.take buflen := by
    intro n s hs
    rw [(state_before_fixed K E n s0 s hs).2.2.1, hmem0]
  obtain ⟨s1, hs1, -⟩ := state_before_of_run K E s0 sf hrun 1
  obtain ⟨s2, hs2, hr2⟩ := state_before_of_run K E s0 sf hrun 2
  obtain ⟨s5, hs5, -⟩ := state_before_of_run K E s0 sf hrun 5
  obtain ⟨s8, hs8, -⟩ := state_before_of_run K E s0 sf hrun 8
  obtain ⟨s13, hs13, -⟩ := state_before_of_run K E s0 sf hrun 13
  -- the block that writes each span, and the state it leaves
  have e2 := state_before_succ K E 1 s0 s1 hs1 (step_tbs K E) rfl
  rw [hs2] at e2
  have e3 := state_before_succ K E 2 s0 s2 hs2 (step_version_alg K E) rfl
  obtain ⟨s3, hs3, hr3⟩ := state_before_of_run K E s0 sf hrun 3
  rw [hs3] at e3
  have e6 := state_before_succ K E 5 s0 s5 hs5 (step_issuer K E) rfl
  obtain ⟨s6, hs6, hr6⟩ := state_before_of_run K E s0 sf hrun 6
  rw [hs6] at e6
  have e9 := state_before_succ K E 8 s0 s8 hs8 (step_entries K E) rfl
  obtain ⟨s9, hs9, hr9⟩ := state_before_of_run K E s0 sf hrun 9
  rw [hs9] at e9
  have e14 := state_before_succ K E 13 s0 s13 hs13 (step_sig K E) rfl
  obtain ⟨s14, hs14, hr14⟩ := state_before_of_run K E s0 sf hrun 14
  rw [hs14] at e14
  have e15 := state_before_succ K E 14 s0 s14 hs14 (step_end K) rfl
  rw [show state_before K E (14 + 1) s0 = run_steps (decode_steps K E) s0 from by
    unfold state_before
    rw [show (decode_steps K E).take (14 + 1) = decode_steps K E from rfl], hrun] at e15
  obtain ⟨-, x2⟩ := step_tbs_next K E _ _ e2.symm
  obtain ⟨-, -, x3⟩ := step_version_alg_next K E _ _ e3.symm
  obtain ⟨-, -, x6⟩ := step_issuer_next K E _ _ e6.symm
  obtain ⟨e, he, -, x9⟩ := step_entries_next K E _ _ e9.symm
  obtain ⟨-, x14⟩ := step_sig_next K E _ _ e14.symm
  obtain ⟨-, x15⟩ := step_end_next K _ _ e15.symm
  have t1 : sf.crl.tbs = s2.crl.tbs :=
    run_steps_inv (fun s => s.crl.tbs) _ (late_steps_tbs K E) s2 sf hr2
  have t2 : sf.crl.sig_oid = s3.crl.sig_oid :=
    run_steps_inv (fun s => s.crl.sig_oid) _ (late_steps_sig_oid K E) s3 sf hr3
  have t3 : sf.crl.issuer_raw = s6.crl.issuer_raw :=
    run_steps_inv (fun s => s.crl.issuer_raw) _ (late_steps_issuer_raw K E) s6 sf hr6
  have t4 := run_steps_inv (fun s => (s.crl.entry, s.crl.entry_next)) _
    (late_steps_entry K E) s9 sf hr9
  simp only [Prod.mk.injEq] at t4
  have m2 := hmem 2 s2 hs2
  have m8 := hmem 8 s8 hs8
  have m13 := hmem 13 s13 hs13
  refine ⟨s0, sf.crl, b.take buflen, hb, hw, ?_, ?_, ?_, ?_, hmem,
    ⟨s1, s2, s5, s8, s13, e, hs1, hs2, hs5, hs8, hs13, ?_, ?_, ?_, ?_, ?_, ?_, ?_⟩, ?_⟩
  · rw [hrl, hrl0]
  · rw [hrp, hraw0]
  · rw [List.length_take]; omega
  · intro i hi
    rw [List.getElem?_take, if_pos hi]
  · rw [t1, x2]
  · rw [t2, x3, m2]
  · rw [t3, x6]
  · rw [← m8]; exact he
  · rw [t4.1, x9]
  · rw [t4.2, x9]
  · rw [x15, x14, m13]
  · unfold mbedtls_x509_crl_parse_der at hr ⊢
    rw [parse_der_begin_take K E chain b buflen h hlen]
    exact hr

/-- Witness for C18: the sample record of 83 bytes. -/
theorem accepted_raw_copy_witness :
    ∃ c, (result_or ⟨1, ⟨[], ⟨0, 0⟩⟩⟩ (mbedtls_x509_crl_parse_der Sample.consts Sample.env
        [zero_crl] (some Sample.crl_ok_v1) 83 ⟨0, 0⟩)).world.chain = [c] ∧
      c.raw_len = 83 ∧ c.raw_p = some Sample.crl_ok_v1 ∧ c.tbs.p = some 2 := by
  obtain ⟨s0, c, copy, hb, hc, hl, hp, -, -, -, ⟨s1, -, -, -, -, -, hs1, -, -, -, -, ht, -⟩, -⟩ :=
    accepted_raw_copy Sample.consts Sample.env Sample.nonzero_codes [zero_crl]
      Sample.crl_ok_v1 83 ⟨0, 0⟩
      (result_or ⟨1, ⟨[], ⟨0, 0⟩⟩⟩ (mbedtls_x509_crl_parse_der Sample.consts Sample.env
        [zero_crl] (some Sample.crl_ok_v1) 83 ⟨0, 0⟩)) (by rfl) (by rfl)
  have hb' : parse_der_begin Sample.consts Sample.env [zero_crl] (some Sample.crl_ok_v1) 83
      ⟨0, 0⟩ = .next (Sample.start Sample.crl_ok_v1) := by rfl
  rw [hb'] at hb
  cases hb
  have hs1' : state_before Sample.consts Sample.env 1 (Sample.start Sample.crl_ok_v1) =
      .next ((state_before Sample.consts Sample.env 1
        (Sample.start Sample.crl_ok_v1)).state_or (Sample.start [])) := by rfl
  rw [hs1'] at hs1
  cases hs1
  have hchain : (result_or ⟨1, ⟨[], ⟨0, 0⟩⟩⟩ (mbedtls_x509_crl_parse_der Sample.consts
      Sample.env [zero_crl] (some Sample.crl_ok_v1) 83 ⟨0, 0⟩)).world.chain =
      [(Sample.first_call.world.chain).headD zero_crl] := by rfl
  rw [hchain] at hc
  have hcc : c = (Sample.first_call.world.chain).headD zero_crl := by
    have := hc
    simp only [Sample.start] at this
    simpa using this.symm
  refine ⟨c, hchain.trans (by rw [hcc]), hl, ?_, ht⟩
  rw [hcc]
  rfl

/-- Claim C19. Let the tag reader, whenever it succeeds, leave the cursor at or
behind where it was and announce a content that ends within the bound it was
given. For every input accepted by `mbedtls_x509_crl_parse_der`, with `c` the
filled node: `tbs.p` is the cursor left by the read of the outer SEQUENCE
header; `tbs.len` is the length of the `tbsCertList` header plus the content
length that header declares; the span lies inside the raw copy; and
`tbs.p + tbs.len` is the cursor at which the outer `signatureAlgorithm` is
decoded. -/
theorem tbs_span (hz : NonzeroCodes K E)
    (htag : ∀ mem p end_ len tag, (E.mbedtls_asn1_get_tag mem p end_ len tag).ret = 0 →
      p ≤ (E.mbedtls_asn1_get_tag mem p end_ len tag).p ∧
      (E.mbedtls_asn1_get_tag mem p end_ len tag).p +
        (E.mbedtls_asn1_get_tag mem p end_ len tag).len ≤ end_)
    (chain : List mbedtls_x509_crl) (buf : Option (List Nat)) (buflen : Nat) (h : Heap)
    (r : Result)
    (hr : mbedtls_x509_crl_parse_der K E chain buf buflen h = .ok r) (h0 : r.ret = 0) :
    ∃ s0 s1 s11 c, parse_der_begin K E chain buf buflen h = .next s0 ∧
      state_before K E 1 s0 = .next s1 ∧ state_before K E 11 s0 = .next s11 ∧
      r.world.chain = s0.pre ++ c :: s0.post ∧
      s1.p = (E.mbedtls_asn1_get_tag s0.mem 0 buflen 0 (seq_tag K)).p ∧
      c.tbs.p = some s1.p ∧
      s1.p ≤ (E.mbedtls_asn1_get_tag s1.mem s1.p s1.end_ s1.len (seq_tag K)).p ∧
      c.tbs.len = ((E.mbedtls_asn1_get_tag s1.mem s1.p s1.end_ s1.len (seq_tag K)).p - s1.p) +
        (E.mbedtls_asn1_get_tag s1.mem s1.p s1.end_ s1.len (seq_tag K)).len ∧
      c.raw_len = buflen ∧ s1.p + c.tbs.len ≤ c.raw_len ∧
      s11.p = s1.p + c.tbs.len ∧
      run_steps (decode_steps K E) s0 =
        run_steps ((decode_steps K E).drop 12) ((step_outer_alg K E s11).state_or s11) := by
  obtain ⟨s0, sf, hb, hrun, hw, -, -, hrl, -⟩ :=
    accepted_world K E hz chain buf buflen h r hr h0
  obtain ⟨b, -, -, -, -, hp0, hend0, hlen0, hrl0, -⟩ := parse_der_begin_next K E _ _ _ _ _ hb
  obtain ⟨s1, hs1, -⟩ := state_before_of_run K E s0 sf hrun 1
  obtain ⟨s2, hs2, hr2⟩ := state_before_of_run K E s0 sf hrun 2
  obtain ⟨s10, hs10, -⟩ := state_before_of_run K E s0 sf hrun 10
  obtain ⟨s11, hs11, hr11⟩ := state_before_of_run K E s0 sf hrun 11
  obtain ⟨s12, hs12, hr12⟩ := state_before_of_run K E s0 sf hrun 12
  have e1 := state_before_succ K E 0 s0 s0 rfl (step_outer_seq K E) rfl
  rw [hs1] at e1
  have e2 := state_before_succ K E 1 s0 s1 hs1 (step_tbs K E) rfl
  rw [hs2] at e2
  have e11 := state_before_succ K E 10 s0 s10 hs10 (step_tbs_end K) rfl
  rw [hs11] at e11
  have e12 := state_before_succ K E 11 s0 s11 hs11 (step_outer_alg K E) rfl
  rw [hs12] at e12
  obtain ⟨-, -, x1⟩ := step_outer_seq_next K E _ _ e1.symm
  obtain ⟨ht1, x2⟩ := step_tbs_next K E _ _ e2.symm
  obtain ⟨hp10, x11⟩ := step_tbs_end_next K _ _ e11.symm
  obtain ⟨hle, hin⟩ := htag _ _ _ _ _ ht1
  have a1 : s1.p = (E.mbedtls_asn1_get_tag s0.mem 0 buflen 0 (seq_tag K)).p := by
    rw [x1, hp0, hend0, hlen0]
  have a2 : s1.end_ = buflen := by rw [x1, hend0]
  have a3 : s2.end_ = (E.mbedtls_asn1_get_tag s1.mem s1.p s1.end_ s1.len (seq_tag K)).p +
      (E.mbedtls_asn1_get_tag s1.mem s1.p s1.end_ s1.len (seq_tag K)).len := by rw [x2]
  have a4 : s2.crl.tbs.p = some s1.p := by rw [x2]
  have a5 : s2.crl.tbs.len = size_of_diff K
      ((E.mbedtls_asn1_get_tag s1.mem s1.p s1.end_ s1.len (seq_tag K)).p +
        (E.mbedtls_asn1_get_tag s1.mem s1.p s1.end_ s1.len (seq_tag K)).len) s1.p := by rw [x2]
  have a6 : s11.p = s10.p := by rw [x11]
  have hmid := state_before_add K E 2 8 s0 s2 hs2
  rw [hs10] at hmid
  have a7 : s10.end_ = s2.end_ :=
    run_steps_inv (fun s => s.end_) _ (mid_steps_end K E) s2 s10 hmid.symm
  have t1 : sf.crl.tbs = s2.crl.tbs :=
    run_steps_inv (fun s => s.crl.tbs) _ (late_steps_tbs K E) s2 sf hr2
  have a8 : sf.crl.tbs.len =
      ((E.mbedtls_asn1_get_tag s1.mem s1.p s1.end_ s1.len (seq_tag K)).p - s1.p) +
        (E.mbedtls_asn1_get_tag s1.mem s1.p s1.end_ s1.len (seq_tag K)).len := by
    rw [t1, a5, size_of_diff, if_pos (by omega)]
    omega
  refine ⟨s0, s1, s11, sf.crl, hb, hs1, hs11, hw, a1, ?_, hle, a8, ?_, ?_, ?_, ?_⟩
  · rw [t1, a4]
  · rw [hrl, hrl0]
  · rw [hrl, hrl0, a8]
    omega
  · rw [a6, hp10, a7, a3, a8]
    omega
  · rw [← e12, Step.state_or, hr12, hrun]

/-- Witness for C19: in the sample record the span is the 61 bytes from
position 2, and the outer algorithm identifier is read at position 63. -/
theorem tbs_span_witness :
    ∃ c, (result_or ⟨1, ⟨[], ⟨0, 0⟩⟩⟩ (mbedtls_x509_crl_parse_der Sample.consts Sample.env
        [zero_crl] (some Sample.crl_ok_v1) 83 ⟨0, 0⟩)).world.chain = [c] ∧
      c.tbs.p = some 2 ∧ c.tbs.len = 2 + 59 ∧
      ((state_before Sample.consts Sample.env 11 (Sample.start Sample.crl_ok_v1)).state_or
        (Sample.start [])).p = 63 := by
  obtain ⟨s0, s1, s11, c, hb, hs1, hs11, hc, -, hp, -, hl, -, -, h11, -⟩ :=
    tbs_span Sample.consts Sample.env Sample.nonzero_codes
      (fun mem p end_ len tag hh => Sample.get_tag_bounds mem p end_ len tag hh)
      [zero_crl] (some Sample.crl_ok_v1) 83 ⟨0, 0⟩
      (result_or ⟨1, ⟨[], ⟨0, 0⟩⟩⟩ (mbedtls_x509_crl_parse_der Sample.consts Sample.env
        [zero_crl] (some Sample.crl_ok_v1) 83 ⟨0, 0⟩)) (by rfl) (by rfl)
  have hb' : parse_der_begin Sample.consts Sample.env [zero_crl] (some Sample.crl_ok_v1) 83
      ⟨0, 0⟩ = .next (Sample.start Sample.crl_ok_v1) := by rfl
  rw [hb'] at hb
  cases hb
  have hs1' : state_before Sample.consts Sample.env 1 (Sample.start Sample.crl_ok_v1) =
      .next ((state_before Sample.consts Sample.env 1
        (Sample.start Sample.crl_ok_v1)).state_or (Sample.start [])) := by rfl
  rw [hs1'] at hs1
  cases hs1
  have hs11' : state_before Sample.consts Sample.env 11 (Sample.start Sample.crl_ok_v1) =
      .next ((state_before Sample.consts Sample.env 11
        (Sample.start Sample.crl_ok_v1)).state_or (Sample.start [])) := by rfl
  rw [hs11'] at hs11
  cases hs11
  refine ⟨c, ?_, hp, hl.trans (by rfl), by rfl⟩
  simpa [Sample.start] using hc

/-- Claim C17, counterexample. A record whose first byte is not a SEQUENCE tag
(reader code `-0x62`, unexpected tag) and a record that ends after its first
byte (reader code `-0x60`, out of data) both make `mbedtls_x509_crl_parse_der`
return `MBEDTLS_ERR_X509_INVALID_FORMAT` (`-0x2180`) alone: the value is not the
reader code, and it is not the sum of the reader code and one of the X.509
error codes. -/
theorem outer_header_cause_dropped :
    (Sample.env.mbedtls_asn1_get_tag [0x31, 0x00] 0 2 0 (seq_tag Sample.consts)).ret = -0x62 ∧
    (Sample.env.mbedtls_asn1_get_tag [0x30] 0 1 0 (seq_tag Sample.consts)).ret = -0x60 ∧
    ret_of (mbedtls_x509_crl_parse_der Sample.consts Sample.env [zero_crl]
      (some [0x31, 0x00]) 2 ⟨0, 0⟩) = .ok (-0x2180) ∧
    ret_of (mbedtls_x509_crl_parse_der Sample.consts Sample.env [zero_crl]
      (some [0x30]) 1 ⟨0, 0⟩) = .ok (-0x2180) ∧
    (-0x2180 : Int) ≠ -0x62 ∧
    ∀ B ∈ [Sample.consts.MBEDTLS_ERR_X509_INVALID_FORMAT,
        Sample.consts.MBEDTLS_ERR_X509_INVALID_VERSION,
        Sample.consts.MBEDTLS_ERR_X509_INVALID_DATE,
        Sample.consts.MBEDTLS_ERR_X509_INVALID_EXTENSIONS,
        Sample.consts.MBEDTLS_ERR_X509_UNKNOWN_VERSION,
        Sample.consts.MBEDTLS_ERR_X509_UNKNOWN_SIG_ALG,
        Sample.consts.MBEDTLS_ERR_X509_SIG_MISMATCH,
        Sample.consts.MBEDTLS_ERR_X509_BAD_INPUT_DATA,
        Sample.consts.MBEDTLS_ERR_X509_ALLOC_FAILED], (-0x2180 : Int) ≠ B + -0x62 := by
  refine ⟨by decide, by decide, by rfl, by rfl, by decide, by decide⟩

/-- Claim C17, as amended. What `mbedtls_x509_crl_parse_der` returns when a
sub-call fails with code `r`, site by site. Outer SEQUENCE header:
`MBEDTLS_ERR_X509_INVALID_FORMAT` alone, `r` is dropped. `tbsCertList` header
and issuer header: `MBEDTLS_ERR_X509_INVALID_FORMAT + r`. Version INTEGER, for
`r` other than the tolerated `MBEDTLS_ERR_ASN1_UNEXPECTED_TAG` (the sum not
being `0`): `MBEDTLS_ERR_X509_INVALID_VERSION + r`. Inner and outer
AlgorithmIdentifier, issuer name, `thisUpdate`, `nextUpdate` (outside the two
tolerated codes) and signature: `r`. A nonzero result of the entry reader or
of the extensions reader: that result. Resolution of the signature algorithm:
`MBEDTLS_ERR_X509_UNKNOWN_SIG_ALG` alone. -/
theorem reader_failure_codes (chain : List mbedtls_x509_crl) (buf : Option (List Nat))
    (buflen : Nat) (h : Heap) (s0 : DecSt)
    (hb : parse_der_begin K E chain buf buflen h = .next s0) :
    ((E.mbedtls_asn1_get_tag s0.mem s0.p s0.end_ s0.len (seq_tag K)).ret ≠ 0 →
      ret_of (mbedtls_x509_crl_parse_der K E chain buf buflen h) =
        .ok K.MBEDTLS_ERR_X509_INVALID_FORMAT) ∧
    (∀ s, state_before K E 1 s0 = .next s →
      (E.mbedtls_asn1_get_tag s.mem s.p s.end_ s.len (seq_tag K)).ret ≠ 0 →
      ret_of (mbedtls_x509_crl_parse_der K E chain buf buflen h) =
        .ok (K.MBEDTLS_ERR_X509_INVALID_FORMAT +
          (E.mbedtls_asn1_get_tag s.mem s.p s.end_ s.len (seq_tag K)).ret)) ∧
    (∀ s, state_before K E 2 s0 = .next s →
      (E.mbedtls_asn1_get_int s.mem s.p s.end_ s.crl.version).ret ≠ 0 →
      (E.mbedtls_asn1_get_int s.mem s.p s.end_ s.crl.version).ret ≠
        K.MBEDTLS_ERR_ASN1_UNEXPECTED_TAG →
      K.MBEDTLS_ERR_X509_INVALID_VERSION +
        (E.mbedtls_asn1_get_int s.mem s.p s.end_ s.crl.version).ret ≠ 0 →
      ret_of (mbedtls_x509_crl_parse_der K E chain buf buflen h) =
        .ok (K.MBEDTLS_ERR_X509_INVALID_VERSION +
          (E.mbedtls_asn1_get_int s.mem s.p s.end_ s.crl.version).ret)) ∧
    (∀ s, state_before K E 2 s0 = .next s →
      (x509_crl_get_version K E s.mem s.p s.end_ s.crl.version).ret = 0 →
      (E.mbedtls_x509_get_alg s.mem (x509_crl_get_version K E s.mem s.p s.end_ s.crl.version).p
        s.end_ s.crl.sig_oid s.sig_params1).ret ≠ 0 →
      ret_of (mbedtls_x509_crl_parse_der K E chain buf buflen h) =
        .ok (E.mbedtls_x509_get_alg s.mem
          (x509_crl_get_version K E s.mem s.p s.end_ s.crl.version).p
          s.end_ s.crl.sig_oid s.sig_params1).ret) ∧
    (∀ s, state_before K E 4 s0 = .next s →
      (E.mbedtls_x509_get_sig_alg s.mem s.crl.sig_oid s.sig_params1
        s.crl.sig_md s.crl.sig_pk s.crl.sig_opts).ret ≠ 0 →
      ret_of (mbedtls_x509_crl_parse_der K E chain buf buflen h) =
        .ok K.MBEDTLS_ERR_X509_UNKNOWN_SIG_ALG) ∧
    (∀ s, state_before K E 5 s0 = .next s →
      (E.mbedtls_asn1_get_tag s.mem s.p s.end_ s.len (seq_tag K)).ret ≠ 0 →
      ret_of (mbedtls_x509_crl_parse_der K E chain buf buflen h) =
        .ok (K.MBEDTLS_ERR_X509_INVALID_FORMAT +
          (E.mbedtls_asn1_get_tag s.mem s.p s.end_ s.len (seq_tag K)).ret)) ∧
    (∀ s, state_before K E 5 s0 = .next s →
      (E.mbedtls_asn1_get_tag s.mem s.p s.end_ s.len (seq_tag K)).ret = 0 →
      (E.mbedtls_x509_get_name s.mem
        (E.mbedtls_asn1_get_tag s.mem s.p s.end_ s.len (seq_tag K)).p
        ((E.mbedtls_asn1_get_tag s.mem s.p s.end_ s.len (seq_tag K)).p +
          (E.mbedtls_asn1_get_tag s.mem s.p s.end_ s.len (seq_tag K)).len)
        s.crl.issuer s.crl.issuer_next).ret ≠ 0 →
      ret_of (mbedtls_x509_crl_parse_der K E chain buf buflen h) =
        .ok (E.mbedtls_x509_get_name s.mem
          (E.mbedtls_asn1_get_tag s.mem s.p s.end_ s.len (seq_tag K)).p
          ((E.mbedtls_asn1_get_tag s.mem s.p s.end_ s.len (seq_tag K)).p +
            (E.mbedtls_asn1_get_tag s.mem s.p s.end_ s.len (seq_tag K)).len)
          s.crl.issuer s.crl.issuer_next).ret) ∧
    (∀ s, state_before K E 6 s0 = .next s →
      (E.mbedtls_x509_get_time s.mem s.p s.end_ s.crl.this_update).ret ≠ 0 →
      ret_of (mbedtls_x509_crl_parse_der K E chain buf buflen h) =
        .ok (E.mbedtls_x509_get_time s.mem s.p s.end_ s.crl.this_update).ret) ∧
    (∀ s, state_before K E 7 s0 = .next s →
      (E.mbedtls_x509_get_time s.mem s.p s.end_ s.crl.next_update).ret ≠ 0 →
      (E.mbedtls_x509_get_time s.mem s.p s.end_ s.crl.next_update).ret ≠
        K.MBEDTLS_ERR_X509_INVALID_DATE + K.MBEDTLS_ERR_ASN1_UNEXPECTED_TAG →
      (E.mbedtls_x509_get_time s.mem s.p s.end_ s.crl.next_update).ret ≠
        K.MBEDTLS_ERR_X509_INVALID_DATE + K.MBEDTLS_ERR_ASN1_OUT_OF_DATA →
      ret_of (mbedtls_x509_crl_parse_der K E chain buf buflen h) =
        .ok (E.mbedtls_x509_get_time s.mem s.p s.end_ s.crl.next_update).ret) ∧
    (∀ s e, state_before K E 8 s0 = .next s →
      x509_get_entries K E s.mem s.p s.end_ s.crl.entry s.crl.entry_next s.heap = .ok e →
      e.ret ≠ 0 →
      ret_of (mbedtls_x509_crl_parse_der K E chain buf buflen h) = .ok e.ret) ∧
    (∀ s x, state_before K E 9 s0 = .next s → s.crl.version = 2 →
      x509_get_crl_ext K E s.mem s.p s.end_ s.crl.crl_ext = .ok x → x.ret ≠ 0 →
      ret_of (mbedtls_x509_crl_parse_der K E chain buf buflen h) = .ok x.ret) ∧
    (∀ s, state_before K E 11 s0 = .next s →
      (E.mbedtls_x509_get_alg s.mem s.p s.end_ s.sig_oid2 s.sig_params2).ret ≠ 0 →
      ret_of (mbedtls_x509_crl_parse_der K E chain buf buflen h) =
        .ok (E.mbedtls_x509_get_alg s.mem s.p s.end_ s.sig_oid2 s.sig_params2).ret) ∧
    (∀ s, state_before K E 13 s0 = .next s →
      (E.mbedtls_x509_get_sig s.mem s.p s.end_ s.crl.sig).ret ≠ 0 →
      ret_of (mbedtls_x509_crl_parse_der K E chain buf buflen h) =
        .ok (E.mbedtls_x509_get_sig s.mem s.p s.end_ s.crl.sig).ret) := by
  refine ⟨?_, ?_, ?_, ?_, ?_, ?_, ?_, ?_, ?_, ?_, ?_, ?_, ?_⟩
  · intro hne
    rw [parse_der_from K E chain buf buflen h 0 s0 s0 hb rfl]
    rw [show (decode_steps K E).drop 0 = step_outer_seq K E :: (decode_steps K E).drop 1 from rfl]
    simp [run_steps, step_outer_seq, hne, fail_free, finish, ret_of, Except.map]
  · intro s hs hne
    rw [parse_der_from K E chain buf buflen h 1 s0 s hb hs]
    rw [show (decode_steps K E).drop 1 = step_tbs K E :: (decode_steps K E).drop 2 from rfl]
    simp [run_steps, step_tbs, hne, fail_free, finish, ret_of, Except.map]
  · intro s hs hne hut hsum
    rw [parse_der_from K E chain buf buflen h 2 s0 s hb hs]
    rw [show (decode_steps K E).drop 2 = step_version_alg K E :: (decode_steps K E).drop 3
      from rfl]
    have hv : x509_crl_get_version K E s.mem s.p s.end_ s.crl.version =
        { ret := K.MBEDTLS_ERR_X509_INVALID_VERSION +
            (E.mbedtls_asn1_get_int s.mem s.p s.end_ s.crl.version).ret,
          p := (E.mbedtls_asn1_get_int s.mem s.p s.end_ s.crl.version).p,
          ver := (E.mbedtls_asn1_get_int s.mem s.p s.end_ s.crl.version).val } := by
      unfold x509_crl_get_version
      simp only [if_pos hne, if_neg hut]
    simp only [run_steps, step_version_alg, hv, ne_eq, hsum, not_false_eq_true, if_true,
      fail_free, finish, ret_of, Except.map]
  · intro s hs hv hne
    rw [parse_der_from K E chain buf buflen h 2 s0 s hb hs]
    rw [show (decode_steps K E).drop 2 = step_version_alg K E :: (decode_steps K E).drop 3
      from rfl]
    simp [run_steps, step_version_alg, hv, hne, fail_free, finish, ret_of, Except.map]
  · intro s hs hne
    rw [parse_der_from K E chain buf buflen h 4 s0 s hb hs]
    rw [show (decode_steps K E).drop 4 = step_sig_alg K E :: (decode_steps K E).drop 5 from rfl]
    simp [run_steps, step_sig_alg, hne, fail_free, finish, ret_of, Except.map]
  · intro s hs hne
    rw [parse_der_from K E chain buf buflen h 5 s0 s hb hs]
    rw [show (decode_steps K E).drop 5 = step_issuer K E :: (decode_steps K E).drop 6 from rfl]
    simp [run_steps, step_issuer, hne, fail_free, finish, ret_of, Except.map]
  · intro s hs ht hne
    rw [parse_der_from K E chain buf buflen h 5 s0 s hb hs]
    rw [show (decode_steps K E).drop 5 = step_issuer K E :: (decode_steps K E).drop 6 from rfl]
    simp [run_steps, step_issuer, ht, hne, fail_free, finish, ret_of, Except.map]
  · intro s hs hne
    rw [parse_der_from K E chain buf buflen h 6 s0 s hb hs]
    rw [show (decode_steps K E).drop 6 = step_this_update K E :: (decode_steps K E).drop 7
      from rfl]
    simp [run_steps, step_this_update, hne, fail_free, finish, ret_of, Except.map]
  · intro s hs hne h1 h2
    rw [parse_der_from K E chain buf buflen h 7 s0 s hb hs]
    rw [show (decode_steps K E).drop 7 = step_next_update K E :: (decode_steps K E).drop 8
      from rfl]
    simp [run_steps, step_next_update, hne, h1, h2, fail_free, finish, ret_of, Except.map]
  · intro s e hs he hne
    rw [parse_der_from K E chain buf buflen h 8 s0 s hb hs]
    rw [show (decode_steps K E).drop 8 = step_entries K E :: (decode_steps K E).drop 9 from rfl]
    simp [run_steps, step_entries, he, hne, fail_free, finish, ret_of, Except.map]
  · intro s x hs hv hx hne
    rw [parse_der_from K E chain buf buflen h 9 s0 s hb hs]
    rw [show (decode_steps K E).drop 9 = step_crl_ext K E :: (decode_steps K E).drop 10 from rfl]
    simp [run_steps, step_crl_ext, hv, hx, hne, fail_free, finish, ret_of, Except.map]
  · intro s hs hne
    rw [parse_der_from K E chain buf buflen h 11 s0 s hb hs]
    rw [show (decode_steps K E).drop 11 = step_outer_alg K E :: (decode_steps K E).drop 12
      from rfl]
    simp [run_steps, step_outer_alg, hne, fail_free, finish, ret_of, Except.map]
  · intro s hs hne
    rw [parse_der_from K E chain buf buflen h 13 s0 s hb hs]
    rw [show (decode_steps K E).drop 13 = step_sig K E :: (decode_steps K E).drop 14 from rfl]
    simp [run_steps, step_sig, hne, fail_free, finish, ret_of, Except.map]

/-- Witness for C17: a record whose `tbsCertList` starts with a SET tag. -/
theorem reader_failure_codes_witness :
    ret_of (mbedtls_x509_crl_parse_der Sample.consts Sample.env [zero_crl]
      (some [0x30, 0x02, 0x31, 0x00]) 4 ⟨0, 0⟩) = .ok (-0x2180 + -0x62) :=
  (reader_failure_codes Sample.consts Sample.env [zero_crl] (some [0x30, 0x02, 0x31, 0x00]) 4
    ⟨0, 0⟩ (Sample.start [0x30, 0x02, 0x31, 0x00]) (by rfl)).2.1
    ((state_before Sample.consts Sample.env 1
      (Sample.start [0x30, 0x02, 0x31, 0x00])).state_or (Sample.start []))
    (by rfl) (by decide)

/-- Claim C16. Let the chain and the buffer be non-null and let
`MBEDTLS_ERR_PEM_NO_HEADER_FOOTER_PRESENT` be different from `0`. When
`buflen == 0` or the last byte `buf[buflen - 1]` is not `0`,
`mbedtls_x509_crl_parse` returns what the single call
`mbedtls_x509_crl_parse_der( chain, buf, buflen )` returns, with the same
chain and heap afterwards, whatever the envelope reader is: the reader is not
consulted. The same holds when the last byte is `0` and the first call of the
reader returns `MBEDTLS_ERR_PEM_NO_HEADER_FOOTER_PRESENT`. -/
theorem parse_raw_input (P : Pem) (hP : P.MBEDTLS_ERR_PEM_NO_HEADER_FOOTER_PRESENT ≠ 0)
    (c0 : mbedtls_x509_crl) (rest : List mbedtls_x509_crl) (b : List Nat) (buflen : Nat)
    (h : Heap) :
    ((buflen = 0 ∨ ∃ c, b[buflen - 1]? = some c ∧ c ≠ 0) →
      ∀ f, mbedtls_x509_crl_parse K E { P with mbedtls_pem_read_buffer := f } (c0 :: rest)
          (some b) buflen h =
        mbedtls_x509_crl_parse_der K E (c0 :: rest) (some b) buflen h) ∧
    (0 < buflen → b[buflen - 1]? = some 0 →
      (P.mbedtls_pem_read_buffer pem_begin pem_end b none 0 0).ret =
        P.MBEDTLS_ERR_PEM_NO_HEADER_FOOTER_PRESENT →
      mbedtls_x509_crl_parse K E P (c0 :: rest) (some b) buflen h =
        mbedtls_x509_crl_parse_der K E (c0 :: rest) (some b) buflen h) := by
  constructor
  · intro hcase f
    apply parse_no_envelope K E _ c0 rest b buflen h
      ⟨P.MBEDTLS_ERR_PEM_NO_HEADER_FOOTER_PRESENT, none, 0, 0⟩ _ hP
    unfold read_envelope
    rcases hcase with h0 | ⟨c, hc, hcne⟩
    · simp only [h0, if_true]
    · by_cases h0 : buflen = 0
      · simp only [h0, if_true]
      · simp only [h0, if_false, hc, ne_eq, hcne, not_false_eq_true, if_true]
  · intro hpos hlast hret
    apply parse_no_envelope K E P c0 rest b buflen h
      (P.mbedtls_pem_read_buffer pem_begin pem_end b none 0 0) _ (by rw [hret]; exact hP)
    unfold read_envelope
    have h0 : buflen ≠ 0 := by omega
    simp only [h0, if_false, hlast, ne_eq, not_true_eq_false]

/-- Witness for C16: the raw record `crl_ok_v1`, whose last byte is `BB`. -/
theorem parse_raw_input_witness :
    mbedtls_x509_crl_parse Sample.consts Sample.env Sample.pem [zero_crl]
        (some Sample.crl_ok_v1) 83 ⟨0, 0⟩ =
      mbedtls_x509_crl_parse_der Sample.consts Sample.env [zero_crl]
        (some Sample.crl_ok_v1) 83 ⟨0, 0⟩ :=
  (parse_raw_input Sample.consts Sample.env Sample.pem (by decide) zero_crl []
    Sample.crl_ok_v1 83 ⟨0, 0⟩).1 (Or.inr ⟨0xBB, by rfl, by decide⟩) Sample.pem_read_buffer

set_option maxRecDepth 100000 in
/-- Claim C14, failing input. The chain holds one populated record (version 1)
and the allocator refuses the node for the next record. Called directly,
`mbedtls_x509_crl_parse_der` returns `MBEDTLS_ERR_X509_ALLOC_FAILED`
(`-0x2880`) and the chain is one zeroed node: the record that was populated
before the call is released and wiped. The same happens inside one call of
`mbedtls_x509_crl_parse` on two wrapped records: the first record is decoded
into the head, the node for the second is refused, and the head is wiped.
When instead the node is granted and the raw copy is refused (the next
`calloc` of the same function), the same code is returned and the first record
stays in the chain as it was. -/
theorem new_node_refused_wipes_record :
    Sample.first_call.ret = 0 ∧
    Sample.first_call.world.chain.map (fun c => (c.version, c.raw_len)) = [(1, 83)] ∧
    mbedtls_x509_crl_parse_der Sample.consts (Sample.env_allocs 1)
        Sample.first_call.world.chain (some Sample.crl_no_next_update) 68
        Sample.first_call.world.heap =
      .ok { ret := -0x2880, world := { chain := [zero_crl], heap := ⟨2, 1⟩ } } ∧
    mbedtls_x509_crl_parse Sample.consts (Sample.env_allocs 1) Sample.pem [zero_crl]
        (some Sample.pem_two) 303 ⟨0, 0⟩ =
      .ok { ret := -0x2880, world := { chain := [zero_crl], heap := ⟨2, 1⟩ } } ∧
    mbedtls_x509_crl_parse Sample.consts (Sample.env_allocs 2) Sample.pem [zero_crl]
        (some Sample.pem_two) 303 ⟨0, 0⟩ =
      .ok { ret := -0x2880,
            world := { chain := Sample.first_call.world.chain ++ [zero_crl], heap := ⟨3, 0⟩ } } := by
  refine ⟨by rfl, by rfl, by rfl, by rfl, by rfl⟩

/-- Claim C13. Let the PEM support be compiled in, let the chain be one node
in the empty state (version 0), and let the `buflen` bytes of the buffer be
`N ≥ 1` wrapped records one behind the other followed by the terminating NUL
alone, whose payloads all decode (each call of `mbedtls_x509_crl_parse_der`,
made on the chain left by the calls before it, returns `0`). Then
`mbedtls_x509_crl_parse` returns `0` and leaves the chain of these decodes: it
has exactly `N` nodes, all populated (version 1 or 2), and for every `k` from
1 to `N` its first `k` nodes are the chain as the decode of the `k`-th record
left it, so that the `k`-th node is the one filled from the `k`-th record. -/
theorem parse_wrapped_records (P : Pem) (hz : NonzeroCodes K E)
    (hP : P.MBEDTLS_PEM_PARSE_C = true) (c0 : mbedtls_x509_crl) (hv : c0.version = 0)
    (b : List Nat) (buflen : Nat) (h : Heap) (recs : List (Option (List Nat) × Nat))
    (hne : recs ≠ []) (hw : HoldsRecords P recs b buflen 0) (r : Result)
    (hd : decode_all K E { chain := [c0], heap := h } recs = .ok r) (h0 : r.ret = 0) :
    mbedtls_x509_crl_parse K E P [c0] (some b) buflen h = .ok { ret := 0, world := r.world } ∧
    r.world.chain.length = recs.length ∧
    (∀ n ∈ r.world.chain, n.version = 1 ∨ n.version = 2) ∧
    ∀ k, 1 ≤ k → k ≤ recs.length →
      ∃ wk, decode_all K E { chain := [c0], heap := h } (recs.take k) =
        .ok { ret := 0, world := wk } ∧ wk.chain = r.world.chain.take k := by
  have hlen := holds_records_length P recs b buflen 0 hw
  obtain ⟨sf, hloop, hpem, hch, hhp⟩ := parse_loop_records K E P recs (buflen + 1)
    ⟨[c0], h, b, buflen, 0, 0, false⟩ r hne (by omega) hw hd h0
  refine ⟨?_, ?_⟩
  · unfold mbedtls_x509_crl_parse
    simp only [hP, if_true, hloop, hpem, hch, hhp]
  · cases recs with
    | nil => exact absurd rfl hne
    | cons x rest =>
      obtain ⟨d, hpd, hd0, hdrest⟩ := decode_all_cons K E _ x rest r hd h0
      obtain ⟨c, hc, hcv⟩ := (accepted_slot K E hz _ _ _ _ d hpd hd0).1 c0 [] rfl hv
      have hpop : ∀ n ∈ d.world.chain, n.version ≠ 0 := by
        intro n hn
        rw [hc, List.mem_singleton] at hn
        rw [hn]
        omega
      obtain ⟨ext, hext, hlen2, hver, hk⟩ := decode_all_appends K E hz rest d.world r hpop
        hdrest h0
      rw [hc] at hext
      refine ⟨?_, ?_, ?_⟩
      · rw [hext]; simp [hlen2]
      · intro n hn
        rw [hext] at hn
        simp only [List.singleton_append, List.mem_cons] at hn
        rcases hn with rfl | hn
        · exact hcv
        · exact hver n hn
      · intro k hk1 hkle
        cases k with
        | zero => omega
        | succ k =>
          simp only [List.length_cons] at hkle
          obtain ⟨wk, hwk, hwkc⟩ := hk k (by omega)
          refine ⟨wk, ?_, ?_⟩
          · simp only [List.take_succ_cons, decode_all, hpd, hd0, ne_eq, not_true_eq_false,
              if_false]
            exact hwk
          · rw [hwkc, hc, hext]; simp

set_option maxRecDepth 100000 in
/-- Witness for C13: two wrapped records and the terminating NUL give a chain
of two nodes, the first from the first record and the second from the second. -/
theorem parse_wrapped_records_witness :
    ∃ w, mbedtls_x509_crl_parse Sample.consts Sample.env Sample.pem [zero_crl]
        (some Sample.pem_two) 303 ⟨0, 0⟩ = .ok { ret := 0, world := w } ∧
      w.chain.length = 2 ∧
      w.chain.map (fun c => c.raw_p) = [some Sample.crl_ok_v1, some Sample.crl_no_next_update] :=
  ⟨_, (parse_wrapped_records Sample.consts Sample.env Sample.pem Sample.nonzero_codes rfl
      zero_crl rfl Sample.pem_two 303 ⟨0, 0⟩
      [(some Sample.crl_ok_v1, 83), (some Sample.crl_no_next_update, 68)] (by simp)
      ⟨by decide, by rfl, by rfl, by rfl, by rfl, by decide, by decide,
        by decide, by rfl, by rfl, by rfl, by rfl, by decide, by decide, by rfl⟩
      (result_or ⟨1, ⟨[], ⟨0, 0⟩⟩⟩ (decode_all Sample.consts Sample.env ⟨[zero_crl], ⟨0, 0⟩⟩
        [(some Sample.crl_ok_v1, 83), (some Sample.crl_no_next_update, 68)]))
      (by rfl) (by rfl)).1, by rfl, by rfl⟩

/-- Claim C25. For a non-null chain of any length and with any content of its
nodes (a node left half filled included), `mbedtls_x509_crl_free` leaves the
head alone, not released, in the state of `mbedtls_x509_crl_init` (all fields
zero, `next` null). The number of blocks it releases is exactly: one for every
node behind the head; for every node, one for each issuer name node behind the
embedded one and one for each entry node behind the embedded one; and, for
every node, the raw copy when there is one and `sig_opts` when RSASSA-PSS
support is compiled in and the pointer is set. No block is allocated. -/
theorem crl_free_releases (c : mbedtls_x509_crl) (rest : List mbedtls_x509_crl) (h : Heap) :
    (mbedtls_x509_crl_free K (c :: rest) h).1 = [mbedtls_x509_crl_init c] ∧
    (mbedtls_x509_crl_free K (c :: rest) h).1 = [zero_crl] ∧
    (mbedtls_x509_crl_free K (c :: rest) h).2.nalloc = h.nalloc ∧
    (mbedtls_x509_crl_free K (c :: rest) h).2.nfree =
      h.nfree + rest.length +
        ((c :: rest).map (fun n => n.issuer_next.length)).sum +
        ((c :: rest).map (fun n => n.entry_next.length)).sum +
        ((c :: rest).map (fun n => if n.raw_p.isSome then 1 else 0)).sum +
        ((c :: rest).map (fun n =>
          if K.MBEDTLS_X509_RSASSA_PSS_SUPPORT && n.sig_opts.isSome then 1 else 0)).sum := by
  obtain ⟨a1, a2⟩ := free_contents_count K (c :: rest) h
  obtain ⟨b1, b2⟩ := free_tail_nodes_count rest (free_contents K (c :: rest) h)
  have hsum : ∀ l : List mbedtls_x509_crl, (l.map (free_node_blocks K)).sum =
      (l.map (fun n => n.issuer_next.length)).sum +
      (l.map (fun n => n.entry_next.length)).sum +
      (l.map (fun n => if n.raw_p.isSome then 1 else 0)).sum +
      (l.map (fun n =>
        if K.MBEDTLS_X509_RSASSA_PSS_SUPPORT && n.sig_opts.isSome then 1 else 0)).sum := by
    intro l
    induction l with
    | nil => simp
    | cons n l ih =>
      simp only [List.map_cons, List.sum_cons, ih, free_node_blocks]
      omega
  refine ⟨rfl, rfl, ?_, ?_⟩
  · show (free_tail_nodes rest (free_contents K (c :: rest) h)).nalloc = h.nalloc
    rw [b1, a1]
  · show (free_tail_nodes rest (free_contents K (c :: rest) h)).nfree = _
    rw [b2, a2, hsum]
    omega

/-- Claim C26. `mbedtls_x509_crl_free` applied to a null chain head returns at
once: there is no node afterwards either, and the heap is as it was. -/
theorem crl_free_null (h : Heap) : mbedtls_x509_crl_free K [] h = ([], h) := rfl

/-- Claim C23. When the read of the explicit tag (`mbedtls_x509_get_ext` with
tag 0) fails with `MBEDTLS_ERR_ASN1_UNEXPECTED_TAG`, `x509_get_crl_ext` returns
`0` with the cursor and `*ext` as that read left them: no nested SEQUENCE is
walked. Every other failure code of that read is returned unchanged, again
with the cursor and `*ext` as the read left them. -/
theorem crl_ext_absent_or_failed (mem : List Nat) (p end_ : Nat) (ext : mbedtls_x509_buf) :
    ((E.mbedtls_x509_get_ext mem p end_ ext 0).ret ≠ 0 →
      (E.mbedtls_x509_get_ext mem p end_ ext 0).ret = K.MBEDTLS_ERR_ASN1_UNEXPECTED_TAG →
      x509_get_crl_ext K E mem p end_ ext =
        .ok { ret := 0, p := (E.mbedtls_x509_get_ext mem p end_ ext 0).p,
              ext := (E.mbedtls_x509_get_ext mem p end_ ext 0).out }) ∧
    ((E.mbedtls_x509_get_ext mem p end_ ext 0).ret ≠ 0 →
      (E.mbedtls_x509_get_ext mem p end_ ext 0).ret ≠ K.MBEDTLS_ERR_ASN1_UNEXPECTED_TAG →
      x509_get_crl_ext K E mem p end_ ext =
        .ok { ret := (E.mbedtls_x509_get_ext mem p end_ ext 0).ret,
              p := (E.mbedtls_x509_get_ext mem p end_ ext 0).p,
              ext := (E.mbedtls_x509_get_ext mem p end_ ext 0).out }) := by
  constructor
  · intro h1 h2
    unfold x509_get_crl_ext
    simp only [if_pos h1, if_pos h2]
  · intro h1 h2
    unfold x509_get_crl_ext
    simp only [if_pos h1, if_neg h2]

/-- Witness for C23: a SEQUENCE where the explicit tag `A0` is looked for
(unexpected tag, `-0x62`), and an explicit tag cut after its first byte (out of
data, `-0x60`). -/
theorem crl_ext_absent_or_failed_witness :
    x509_get_crl_ext Sample.consts Sample.env [0x30, 0x00] 0 2 zero_buf =
      .ok { ret := 0, p := 0, ext := ⟨0x30, 0, none⟩ } ∧
    x509_get_crl_ext Sample.consts Sample.env [0xA0] 0 1 zero_buf =
      .ok { ret := -0x60, p := 1, ext := ⟨0xA0, 0, none⟩ } :=
  ⟨(crl_ext_absent_or_failed Sample.consts Sample.env [0x30, 0x00] 0 2 zero_buf).1
      (by decide) (by decide),
   (crl_ext_absent_or_failed Sample.consts Sample.env [0xA0] 0 1 zero_buf).2
      (by decide) (by decide)⟩

/-- Claim C24. `x509_get_crl_entry_ext` returns `0` and leaves the cursor and
`*ext` as they were when no byte remains (`end <= *p`). When bytes remain and
the tag reader reports an unexpected tag (the next tag is not a constructed
SEQUENCE), it returns `0` with `ext->p` null and with the cursor where it was
(the reader leaving it there when it reports an unexpected tag). Every other
failure code `r` of the header read gives
`MBEDTLS_ERR_X509_INVALID_EXTENSIONS + r`. -/
theorem crl_entry_ext_absent_or_failed (mem : List Nat) (p end_ : Nat)
    (ext : mbedtls_x509_buf) (b : Nat)
    (hkeep : ∀ mem p end_ len tag,
      (E.mbedtls_asn1_get_tag mem p end_ len tag).ret = K.MBEDTLS_ERR_ASN1_UNEXPECTED_TAG →
      (E.mbedtls_asn1_get_tag mem p end_ len tag).p = p) :
    (end_ ≤ p →
      x509_get_crl_entry_ext K E mem p end_ ext = .ok { ret := 0, p := p, ext := ext }) ∧
    (p < end_ → mem[p]? = some b →
      (E.mbedtls_asn1_get_tag mem p end_ ext.len (seq_tag K)).ret ≠ 0 →
      (E.mbedtls_asn1_get_tag mem p end_ ext.len (seq_tag K)).ret =
        K.MBEDTLS_ERR_ASN1_UNEXPECTED_TAG →
      ∃ r, x509_get_crl_entry_ext K E mem p end_ ext = .ok r ∧ r.ret = 0 ∧ r.p = p ∧
        r.ext.p = none) ∧
    (p < end_ → mem[p]? = some b →
      (E.mbedtls_asn1_get_tag mem p end_ ext.len (seq_tag K)).ret ≠ 0 →
      (E.mbedtls_asn1_get_tag mem p end_ ext.len (seq_tag K)).ret ≠
        K.MBEDTLS_ERR_ASN1_UNEXPECTED_TAG →
      ∃ r, x509_get_crl_entry_ext K E mem p end_ ext = .ok r ∧
        r.ret = K.MBEDTLS_ERR_X509_INVALID_EXTENSIONS +
          (E.mbedtls_asn1_get_tag mem p end_ ext.len (seq_tag K)).ret) := by
  refine ⟨?_, ?_, ?_⟩
  · intro hle
    unfold x509_get_crl_entry_ext
    rw [if_pos hle]
  · intro hlt hb hne hut
    unfold x509_get_crl_entry_ext
    rw [if_neg (by omega), hb]
    simp only [if_pos hne, if_pos hut]
    exact ⟨_, rfl, rfl, hkeep _ _ _ _ _ hut, rfl⟩
  · intro hlt hb hne hut
    unfold x509_get_crl_entry_ext
    rw [if_neg (by omega), hb]
    simp only [if_pos hne, if_neg hut]
    exact ⟨_, rfl, rfl⟩

/-- Witness for C24: an entry whose date is followed by an INTEGER instead of
an extensions SEQUENCE; the span is cleared and the cursor stays. -/
theorem crl_entry_ext_absent_or_failed_witness :
    ∃ r, x509_get_crl_entry_ext Sample.consts Sample.env [0x02, 0x01, 0x05] 0 3 zero_buf =
        .ok r ∧ r.ret = 0 ∧ r.p = 0 ∧ r.ext.p = none :=
  (crl_entry_ext_absent_or_failed Sample.consts Sample.env [0x02, 0x01, 0x05] 0 3 zero_buf 0x02
    (fun mem p end_ len tag hh => Sample.get_tag_keeps mem p end_ len tag hh)).2.1
    (by decide) (by rfl) (by decide) (by decide)

/-- Claim C21, failing input. The bytes `A0 04 30 02 30 00 30 00` with the
bound at 8: the explicit tag declares four bytes from position 2, so the
extension block ends at position 6. `x509_get_crl_ext` returns `0` with the
cursor at 8: the walk went on to the bound it was called with and took the two
bytes behind the block as one more header. A version 2 list with these bytes
at the end of `tbsCertList` is accepted (`crl_ext` is the span of four bytes
at position 68, the cursor reached 74). `x509_get_crl_entry_ext` on
`30 02 30 00 30 00` stops at the end that its header declares, position 4. -/
theorem crl_ext_walk_passes_declared_end :
    x509_get_crl_ext Sample.consts Sample.env [0xA0, 0x04, 0x30, 0x02, 0x30, 0x00, 0x30, 0x00]
        0 8 zero_buf = .ok { ret := 0, p := 8, ext := ⟨0xA0, 4, some 2⟩ } ∧
    mbedtls_x509_crl_parse_der Sample.consts Sample.env [zero_crl]
        (some Sample.crl_v2_ext_trailing) 94 ⟨0, 0⟩ =
      .ok { ret := 0, world := (result_or ⟨1, ⟨[], ⟨0, 0⟩⟩⟩ (mbedtls_x509_crl_parse_der
        Sample.consts Sample.env [zero_crl] (some Sample.crl_v2_ext_trailing) 94
        ⟨0, 0⟩)).world } ∧
    (result_or ⟨1, ⟨[], ⟨0, 0⟩⟩⟩ (mbedtls_x509_crl_parse_der Sample.consts Sample.env [zero_crl]
        (some Sample.crl_v2_ext_trailing) 94 ⟨0, 0⟩)).world.chain.map
      (fun c => (c.version, c.crl_ext)) = [(2, ⟨0xA0, 4, some 68⟩)] ∧
    ((state_before Sample.consts Sample.env 10 (Sample.start Sample.crl_v2_ext_trailing)).state_or
      (Sample.start [])).p = 74 ∧
    x509_get_crl_entry_ext Sample.consts Sample.env [0x30, 0x02, 0x30, 0x00, 0x30, 0x00]
        0 6 zero_buf = .ok { ret := 0, p := 4, ext := ⟨0x30, 2, some 0⟩ } := by
  refine ⟨by rfl, by rfl, by rfl, by rfl, by rfl⟩

/-- Claim C22, failing input. The extensions `30 02 30 00` of the entry in
`crl_v1_entry_ext`, at position 85 with the entry ending at 89:
`x509_get_crl_entry_ext` returns `0` with the cursor at 89 and records
`entry_ext.p = 85`, the position of the SEQUENCE tag, with `entry_ext.len = 2`,
the length of the content; `entry_ext.p + entry_ext.len` is 87, two bytes (the
header) short of the cursor. The `raw` span of the same entry is recorded
behind its header, so that `raw.p + raw.len` is the end of the entry. -/
theorem entry_ext_span_short_of_cursor :
    x509_get_crl_entry_ext Sample.consts Sample.env Sample.crl_v1_entry_ext 85 89 zero_buf =
      .ok { ret := 0, p := 89, ext := ⟨0x30, 2, some 85⟩ } ∧
    (85 : Nat) + 2 ≠ 89 ∧
    get_entry Sample.consts Sample.env Sample.crl_v1_entry_ext 89 65 zero_entry =
      .ok { ret := 0, p := 89, cur := Sample.entry_with_ext } ∧
    Sample.entry_with_ext.raw = ⟨0x02, 22, some 67⟩ ∧ (67 : Nat) + 22 = 89 ∧
    Sample.entry_with_ext.entry_ext = ⟨0x30, 2, some 85⟩ := by
  refine ⟨by rfl, by decide, by rfl, by rfl, by decide, by rfl⟩

/-- Claim C27. Let `snprintf` store nothing when its capacity argument is `0`.
For every record, prefix and buffer, `mbedtls_x509_crl_info` called with
`size == 0` returns `MBEDTLS_ERR_X509_BUFFER_TOO_SMALL` and leaves every byte
of the buffer as it was. -/
theorem info_zero_size (T : Txt)
    (hsn : ∀ out p fmt args, (T.snprintf out p 0 fmt args).out = out)
    (buf : List Nat) (pfx : List Nat) (crl : mbedtls_x509_crl) :
    mbedtls_x509_crl_info T buf 0 pfx crl =
      { ret := T.MBEDTLS_ERR_X509_BUFFER_TOO_SMALL, out := buf } := by
  have h1 : write_step T (write_version T pfx crl) { out := buf, p := 0, n := 0, ret := 0 } =
      .error { ret := T.MBEDTLS_ERR_X509_BUFFER_TOO_SMALL, out := buf } := by
    rw [write_step_error]
    refine ⟨?_, ?_⟩
    · simp only [Nat.cast_zero]
      exact Int.lt_or_le _ _
    · simp only [write_version, hsn]
  simp only [mbedtls_x509_crl_info, info_head, run_writes, h1]

/-- Witness for C27: a buffer of three bytes `07` and capacity `0`. -/
theorem info_zero_size_witness :
    mbedtls_x509_crl_info Sample.txt [7, 7, 7] 0 [] Sample.crl_node_ok =
      { ret := -0x2980, out := [7, 7, 7] } :=
  info_zero_size Sample.txt (fun _ _ _ _ => rfl) [7, 7, 7] [] Sample.crl_node_ok

set_option maxRecDepth 1000000 in
/-- Claim C28, counterexample. The summary of the sample record with an empty
prefix has 163 characters: with capacity 164 the call returns 163. With
capacity 163, the length of the summary, the call returns
`MBEDTLS_ERR_X509_BUFFER_TOO_SMALL` (`-0x2980`). With a prefix of 357913942
characters the summary has 2147483815 characters, more than `INT_MAX`: with
capacity 2147483816 every write step fits and the value returned,
`(int) ( size - n )`, is `-2147483481`, not the length of the summary. -/
theorem info_exact_length_too_small :
    (mbedtls_x509_crl_info Sample.txt (List.replicate 164 0) 164 [] Sample.crl_node_ok).ret =
      163 ∧
    (mbedtls_x509_crl_info Sample.txt (List.replicate 163 0) 163 [] Sample.crl_node_ok).ret =
      Sample.txt.MBEDTLS_ERR_X509_BUFFER_TOO_SMALL ∧
    Sample.txt.MBEDTLS_ERR_X509_BUFFER_TOO_SMALL = -0x2980 ∧
    (∃ lens sf, Fit (info_writes Sample.txt (List.replicate 357913942 65) Sample.crl_node_ok
          (printed_entries Sample.crl_node_ok))
        { out := [], p := 0, n := 2147483816, ret := 0 } lens sf ∧
      lens.sum = 2147483815 ∧ sf.n = 1) ∧
    (mbedtls_x509_crl_info Sample.txt [] 2147483816 (List.replicate 357913942 65)
      Sample.crl_node_ok).ret = -2147483481 := by
  refine ⟨by rfl, by rfl, by rfl, ?_⟩
  obtain ⟨lens, hneeds, hsum⟩ := Sample.summary_needs (List.replicate 357913942 65)
  have hs : lens.sum = 2147483815 := by
    rw [hsum, List.length_replicate]
  obtain ⟨sf, -, hfit, hn, h⟩ := info_fits Sample.txt [] (List.replicate 357913942 65)
    Sample.crl_node_ok lens hneeds
  rw [hs] at hfit h
  refine ⟨⟨lens, sf, hfit, hs, hn⟩, ?_⟩
  have h2 : mbedtls_x509_crl_info Sample.txt [] 2147483816 (List.replicate 357913942 65)
      Sample.crl_node_ok = { ret := int_of_size Sample.txt 2147483815, out := sf.out } := h
  rw [h2]
  rfl

/-- Claim C28, as amended. Let the write steps of the call produce pieces of
the lengths `lens` (each step returns its length when the capacity is more
than that, and fails or returns a value not less than the capacity otherwise),
so that the summary has `lens.sum` characters. With capacity `lens.sum + 1`,
the length of the summary and its terminating NUL, the call succeeds: every
write step is performed, the remaining capacity at the return is one, and the
return value is `(int) lens.sum`; when the summary has at most `INT_MAX`
characters this is `lens.sum`, the capacity minus one. With a capacity up to
`lens.sum` the call returns `MBEDTLS_ERR_X509_BUFFER_TOO_SMALL`. -/
theorem info_exact_fit (T : Txt) (buf : List Nat) (pfx : List Nat) (crl : mbedtls_x509_crl)
    (lens : List Nat)
    (hneeds : List.Forall₂ Needs (info_writes T pfx crl (printed_entries crl)) lens) :
    (∃ sf, Fit (info_writes T pfx crl (printed_entries crl))
        { out := buf, p := 0, n := lens.sum + 1, ret := 0 } lens sf ∧ sf.n = 1 ∧
      mbedtls_x509_crl_info T buf (lens.sum + 1) pfx crl =
        { ret := int_of_size T lens.sum, out := sf.out } ∧
      (lens.sum ≤ T.INT_MAX →
        mbedtls_x509_crl_info T buf (lens.sum + 1) pfx crl =
          { ret := (lens.sum : Int), out := sf.out })) ∧
    (∀ size, size ≤ lens.sum →
      (mbedtls_x509_crl_info T buf size pfx crl).ret = T.MBEDTLS_ERR_X509_BUFFER_TOO_SMALL) := by
  constructor
  · obtain ⟨sf, -, hfit, hn, h⟩ := info_fits T buf pfx crl lens hneeds
    refine ⟨sf, hfit, hn, h, ?_⟩
    intro hmax
    rw [h, int_of_size_small T _ hmax]
  · intro size hle
    have hne : info_writes T pfx crl (printed_entries crl) ≠ [] := by
      simp [info_writes, info_head]
    obtain ⟨out, hrun⟩ := (run_writes_needs T _ lens
      { out := buf, p := 0, n := size, ret := 0 } hneeds).2 hle hne
    rw [info_eq_run, hrun]

set_option maxRecDepth 1000000 in
/-- Witness for C28: the nine write steps for the sample record, which has no
entry, need 163 characters in all; capacity 164 gives the return value 163. -/
theorem info_exact_fit_witness :
    (mbedtls_x509_crl_info Sample.txt (List.replicate 164 0) 164 [] Sample.crl_node_ok).ret =
      163 := by
  obtain ⟨⟨sf, -, -, -, h⟩, -⟩ := info_exact_fit Sample.txt (List.replicate 164 0) []
    Sample.crl_node_ok [17, 17, 10, 36, 36, 22, 17, 7, 1]
    (show List.Forall₂ Needs
      [write_version Sample.txt [] Sample.crl_node_ok, write_issuer_label Sample.txt [],
       write_issuer Sample.txt Sample.crl_node_ok,
       write_this_update Sample.txt [] Sample.crl_node_ok,
       write_next_update Sample.txt [] Sample.crl_node_ok, write_revoked_label Sample.txt [],
       write_signed_label Sample.txt [], write_sig_alg Sample.txt Sample.crl_node_ok,
       write_newline Sample.txt] _ from
      .cons (Sample.snprintf_needs _ _) (.cons (Sample.snprintf_needs _ _)
      (.cons (Sample.gets_needs _) (.cons (Sample.snprintf_needs _ _)
      (.cons (Sample.snprintf_needs _ _) (.cons (Sample.snprintf_needs _ _)
      (.cons (Sample.snprintf_needs _ _) (.cons (Sample.gets_needs _)
      (.cons (Sample.snprintf_needs _ _) .nil)))))))))
  have h2 : mbedtls_x509_crl_info Sample.txt (List.replicate 164 0) 164 [] Sample.crl_node_ok =
      { ret := 163, out := sf.out } := h (by decide)
  rw [h2]

set_option maxRecDepth 1000000 in
/-- Claim C29, counterexample. The record `crl_long_serial` has one entry; with
a prefix of 613565206 characters its summary has 4294956672 characters. With
capacity 4294956673 no write step fails and every piece is shorter than the
capacity that remains when it is written, `size - n` is 4294956672, the sum of
the lengths of the pieces, and the value returned, `(int) ( size - n )`, is
`-0x2980`, which is `MBEDTLS_ERR_X509_BUFFER_TOO_SMALL`. -/
theorem info_too_small_without_failure :
    (¬ ∃ k w lens sk,
      (info_writes Sample.txt (List.replicate 613565206 65) Sample.crl_node_long_serial
        (printed_entries Sample.crl_node_long_serial))[k]? = some w ∧
      Fit ((info_writes Sample.txt (List.replicate 613565206 65) Sample.crl_node_long_serial
          (printed_entries Sample.crl_node_long_serial)).take k)
        { out := [], p := 0, n := 4294956673, ret := 0 } lens sk ∧
      ((w sk.out sk.p sk.n).ret < 0 ∨ (sk.n : Int) ≤ (w sk.out sk.p sk.n).ret)) ∧
    (∃ lens sf, Fit (info_writes Sample.txt (List.replicate 613565206 65)
          Sample.crl_node_long_serial (printed_entries Sample.crl_node_long_serial))
        { out := [], p := 0, n := 4294956673, ret := 0 } lens sf ∧
      lens.sum = 4294956672 ∧ sf.n = 1) ∧
    (mbedtls_x509_crl_info Sample.txt [] 4294956673 (List.replicate 613565206 65)
      Sample.crl_node_long_serial).ret = Sample.txt.MBEDTLS_ERR_X509_BUFFER_TOO_SMALL ∧
    Sample.txt.MBEDTLS_ERR_X509_BUFFER_TOO_SMALL = -0x2980 := by
  obtain ⟨lens, hneeds, hsum⟩ := Sample.summary_needs_entry (List.replicate 613565206 65)
  have hs : lens.sum = 4294956672 := by
    rw [hsum, List.length_replicate]
  obtain ⟨sf, hrun, hfit, hn, h⟩ := info_fits Sample.txt [] (List.replicate 613565206 65)
    Sample.crl_node_long_serial lens hneeds
  rw [hs] at hrun hfit h
  refine ⟨run_writes_ok_no_failure Sample.txt _ _ sf hrun, ⟨lens, sf, hfit, hs, hn⟩, ?_, by rfl⟩
  have h2 : mbedtls_x509_crl_info Sample.txt [] 4294956673 (List.replicate 613565206 65)
      Sample.crl_node_long_serial =
      { ret := int_of_size Sample.txt 4294956672, out := sf.out } := h
  rw [h2]
  rfl

/-- Claim C29, as amended. Let `MBEDTLS_ERR_X509_BUFFER_TOO_SMALL` be negative
and let `ws` be the write steps of the call in order (the steps before the
entry lines, three steps for each printed entry, the steps behind them). When
some step `w`, reached because all steps before it fit, fails (`ret < 0`) or
produces a piece whose length is not strictly less than the capacity that
remains when it runs, the call returns `MBEDTLS_ERR_X509_BUFFER_TOO_SMALL` at
once, the buffer being as that step left it. When there is no such step, every
step fits and the call returns `(int) ( size - n )`, where `size - n` is the
sum of the lengths of the pieces and is strictly less than `size`; for
`size ≤ INT_MAX + 1` that return value is the sum itself. For
`size ≤ INT_MAX + 1` the call returns `MBEDTLS_ERR_X509_BUFFER_TOO_SMALL` if and
only if there is such a step. -/
theorem info_return_value (T : Txt) (hneg : T.MBEDTLS_ERR_X509_BUFFER_TOO_SMALL < 0)
    (buf : List Nat) (size : Nat) (pfx : List Nat) (crl : mbedtls_x509_crl) (ws : List Writer)
    (hws : ws = info_writes T pfx crl (printed_entries crl)) :
    (∀ k w lens sk, ws[k]? = some w →
      Fit (ws.take k) { out := buf, p := 0, n := size, ret := 0 } lens sk →
      ((w sk.out sk.p sk.n).ret < 0 ∨ (sk.n : Int) ≤ (w sk.out sk.p sk.n).ret) →
      mbedtls_x509_crl_info T buf size pfx crl =
        { ret := T.MBEDTLS_ERR_X509_BUFFER_TOO_SMALL, out := (w sk.out sk.p sk.n).out }) ∧
    ((¬ ∃ k w lens sk, ws[k]? = some w ∧
        Fit (ws.take k) { out := buf, p := 0, n := size, ret := 0 } lens sk ∧
        ((w sk.out sk.p sk.n).ret < 0 ∨ (sk.n : Int) ≤ (w sk.out sk.p sk.n).ret)) →
      ∃ lens sf, Fit ws { out := buf, p := 0, n := size, ret := 0 } lens sf ∧
        mbedtls_x509_crl_info T buf size pfx crl =
          { ret := int_of_size T (size - sf.n), out := sf.out } ∧
        size - sf.n = lens.sum ∧ lens.sum < size ∧
        (size ≤ T.INT_MAX + 1 →
          mbedtls_x509_crl_info T buf size pfx crl =
            { ret := (lens.sum : Int), out := sf.out })) ∧
    (size ≤ T.INT_MAX + 1 →
      ((mbedtls_x509_crl_info T buf size pfx crl).ret = T.MBEDTLS_ERR_X509_BUFFER_TOO_SMALL ↔
        ∃ k w lens sk, ws[k]? = some w ∧
          Fit (ws.take k) { out := buf, p := 0, n := size, ret := 0 } lens sk ∧
          ((w sk.out sk.p sk.n).ret < 0 ∨ (sk.n : Int) ≤ (w sk.out sk.p sk.n).ret))) := by
  subst hws
  have hfail : ∀ k w lens sk,
      (info_writes T pfx crl (printed_entries crl))[k]? = some w →
      Fit ((info_writes T pfx crl (printed_entries crl)).take k)
        { out := buf, p := 0, n := size, ret := 0 } lens sk →
      ((w sk.out sk.p sk.n).ret < 0 ∨ (sk.n : Int) ≤ (w sk.out sk.p sk.n).ret) →
      mbedtls_x509_crl_info T buf size pfx crl =
        { ret := T.MBEDTLS_ERR_X509_BUFFER_TOO_SMALL, out := (w sk.out sk.p sk.n).out } := by
    intro k w lens sk hk hfit hbad
    rw [info_eq_run, (run_writes_error T _ _ _).mpr ⟨k, w, lens, sk, hk, hfit, hbad, rfl⟩]
  have hok : ∀ sf, run_writes T (info_writes T pfx crl (printed_entries crl))
      { out := buf, p := 0, n := size, ret := 0 } = .ok sf →
      ∃ lens, Fit (info_writes T pfx crl (printed_entries crl))
          { out := buf, p := 0, n := size, ret := 0 } lens sf ∧
        mbedtls_x509_crl_info T buf size pfx crl =
          { ret := int_of_size T (size - sf.n), out := sf.out } ∧
        size - sf.n = lens.sum ∧ lens.sum < size ∧
        (size ≤ T.INT_MAX + 1 →
          mbedtls_x509_crl_info T buf size pfx crl =
            { ret := (lens.sum : Int), out := sf.out }) := by
    intro sf hrun
    obtain ⟨lens, hfit⟩ := (run_writes_ok T _ _ _).mp hrun
    obtain ⟨h1, -, -, h4⟩ := fit_sum _ _ _ _ hfit
    have hpos := h4 (by simp [info_writes, info_head])
    simp only at h1
    have hsum : size - sf.n = lens.sum := by omega
    have hinfo : mbedtls_x509_crl_info T buf size pfx crl =
        { ret := int_of_size T (size - sf.n), out := sf.out } := by
      rw [info_eq_run, hrun]
    refine ⟨lens, hfit, hinfo, hsum, by omega, ?_⟩
    intro hmax
    rw [hinfo, hsum, int_of_size_small T _ (by omega)]
  refine ⟨hfail, ?_, ?_⟩
  · intro hno
    cases hrun : run_writes T (info_writes T pfx crl (printed_entries crl))
        { out := buf, p := 0, n := size, ret := 0 } with
    | error r =>
      obtain ⟨k, w, lens, sk, hk, hfit, hbad, -⟩ := (run_writes_error T _ _ _).mp hrun
      exact absurd ⟨k, w, lens, sk, hk, hfit, hbad⟩ hno
    | ok sf =>
      obtain ⟨lens, h⟩ := hok sf hrun
      exact ⟨lens, sf, h⟩
  · intro hmax
    constructor
    · intro hret
      cases hrun : run_writes T (info_writes T pfx crl (printed_entries crl))
          { out := buf, p := 0, n := size, ret := 0 } with
      | error r =>
        obtain ⟨k, w, lens, sk, hk, hfit, hbad, -⟩ := (run_writes_error T _ _ _).mp hrun
        exact ⟨k, w, lens, sk, hk, hfit, hbad⟩
      | ok sf =>
        obtain ⟨lens, -, -, -, -, heq⟩ := hok sf hrun
        rw [heq hmax] at hret
        simp only at hret
        omega
    · rintro ⟨k, w, lens, sk, hk, hfit, hbad⟩
      rw [hfail k w lens sk hk hfit hbad]

set_option maxRecDepth 1000000 in
/-- Witness for C29: with capacity 20 the version line (17 characters) fits and
the label of the issuer line (17 characters) does not fit in the 3 bytes that
remain; the call returns at once. -/
theorem info_return_value_witness :
    (mbedtls_x509_crl_info Sample.txt (List.replicate 20 0) 20 [] Sample.crl_node_ok).ret =
      -0x2980 := by
  have h := (info_return_value Sample.txt (by decide) (List.replicate 20 0) 20 []
    Sample.crl_node_ok _ rfl).1 1 (write_issuer_label Sample.txt []) [17]
    { out := ((write_version Sample.txt [] Sample.crl_node_ok) (List.replicate 20 0) 0 20).out,
      p := 17, n := 3, ret := 17 }
    (by rfl) ⟨17, [], rfl, by rfl, by decide, rfl, rfl⟩ (Or.inr (by decide))
  rw [h]
  rfl

/-- Claim C30. Let the serial reader fail on an empty range, let error codes be
different from `0`, and let a call of `mbedtls_x509_crl_parse_der` return `0`
after filling a node `c` whose embedded entry was zeroed, with nothing behind
it, when the decoding started. Then either no entry was decoded: the embedded
entry of `c` is still zeroed and `mbedtls_x509_crl_info` performs no write step
for an entry; or every node of the list that starts at the embedded entry is a
decoded entry with `raw.len != 0`, and `mbedtls_x509_crl_info` performs, between
the steps of the heading and those of the signature line, the three write steps
of every node of that list, in list order, none being skipped (up to the step
at which it returns for lack of capacity). -/
theorem info_prints_decoded_entries (T : Txt) (hz : NonzeroCodes K E)
    (hserial : ∀ mem p end_ sr, end_ ≤ p → (E.mbedtls_x509_get_serial mem p end_ sr).ret ≠ 0)
    (chain : List mbedtls_x509_crl) (buf : Option (List Nat)) (buflen : Nat) (h : Heap)
    (r : Result) (s0 : DecSt)
    (hb : parse_der_begin K E chain buf buflen h = .next s0)
    (hfresh : s0.crl.entry = zero_entry ∧ s0.crl.entry_next = [])
    (hr : mbedtls_x509_crl_parse_der K E chain buf buflen h = .ok r) (h0 : r.ret = 0) :
    ∃ c, r.world.chain = s0.pre ++ c :: s0.post ∧
      ((c.entry = zero_entry ∧ c.entry_next = [] ∧
          ∀ out size pfx, mbedtls_x509_crl_info T out size pfx c =
            info_result T size (run_writes T (info_writes T pfx c [])
              { out := out, p := 0, n := size, ret := 0 })) ∨
       ((∀ e ∈ c.entry :: c.entry_next, e.raw.len ≠ 0) ∧
          ∀ out size pfx, mbedtls_x509_crl_info T out size pfx c =
            info_result T size (run_writes T (info_writes T pfx c (c.entry :: c.entry_next))
              { out := out, p := 0, n := size, ret := 0 }))) := by
  obtain ⟨s0', sf, hb', hrun, hw, -⟩ := accepted_world K E hz chain buf buflen h r hr h0
  rw [hb] at hb'
  cases hb'
  obtain ⟨s8, hs8, -⟩ := state_before_of_run K E s0 sf hrun 8
  obtain ⟨s9, hs9, hr9⟩ := state_before_of_run K E s0 sf hrun 9
  have e9 := state_before_succ K E 8 s0 s8 hs8 (step_entries K E) rfl
  rw [hs9] at e9
  obtain ⟨e, he, he0, x9⟩ := step_entries_next K E _ _ e9.symm
  have t8 := run_steps_inv (fun s => (s.crl.entry, s.crl.entry_next)) _
    (early_steps_entry K E) s0 s8 hs8
  simp only [Prod.mk.injEq] at t8
  have t9 := run_steps_inv (fun s => (s.crl.entry, s.crl.entry_next)) _
    (late_steps_entry K E) s9 sf hr9
  simp only [Prod.mk.injEq] at t9
  have a1 : sf.crl.entry = e.entry := by rw [t9.1, x9]
  have a2 : sf.crl.entry_next = e.next := by rw [t9.2, x9]
  rw [t8.1, t8.2, hfresh.1, hfresh.2] at he
  refine ⟨sf.crl, hw, ?_⟩
  rcases get_entries_raw_len K E hserial _ _ _ _ _ _ e (by simp) he he0 with ⟨h1, h2⟩ | hall
  · left
    refine ⟨by rw [a1, h1], by rw [a2, h2], ?_⟩
    intro out size pfx
    rw [info_eq_result]
    have hp : printed_entries sf.crl = [] := by
      unfold printed_entries
      rw [a1, h1]
      rfl
    rw [hp]
  · right
    rw [← a1, ← a2] at hall
    refine ⟨hall, ?_⟩
    intro out size pfx
    rw [info_eq_result, printed_entries_all sf.crl hall]

set_option maxRecDepth 1000000 in
/-- Witness for C30: the record `crl_v1_entry_ext` has one entry, and the
renderer prints that entry. -/
theorem info_prints_decoded_entries_witness :
    ∃ c, (result_or ⟨1, ⟨[], ⟨0, 0⟩⟩⟩ (mbedtls_x509_crl_parse_der Sample.consts Sample.env
        [zero_crl] (some Sample.crl_v1_entry_ext) 109 ⟨0, 0⟩)).world.chain = [c] ∧
      c.entry :: c.entry_next = [Sample.entry_with_ext] ∧
      ∀ out size pfx, mbedtls_x509_crl_info Sample.txt out size pfx c =
        info_result Sample.txt size (run_writes Sample.txt
          (info_writes Sample.txt pfx c (c.entry :: c.entry_next))
          { out := out, p := 0, n := size, ret := 0 }) := by
  obtain ⟨c, hc, hcase⟩ := info_prints_decoded_entries Sample.consts Sample.env Sample.txt
    Sample.nonzero_codes (fun mem p end_ sr hh => Sample.get_serial_empty mem p end_ sr hh)
    [zero_crl] (some Sample.crl_v1_entry_ext) 109 ⟨0, 0⟩
    (result_or ⟨1, ⟨[], ⟨0, 0⟩⟩⟩ (mbedtls_x509_crl_parse_der Sample.consts Sample.env
      [zero_crl] (some Sample.crl_v1_entry_ext) 109 ⟨0, 0⟩))
    (Sample.start Sample.crl_v1_entry_ext) (by rfl) ⟨rfl, rfl⟩ (by rfl) (by rfl)
  have hchain : (result_or ⟨1, ⟨[], ⟨0, 0⟩⟩⟩ (mbedtls_x509_crl_parse_der Sample.consts
      Sample.env [zero_crl] (some Sample.crl_v1_entry_ext) 109 ⟨0, 0⟩)).world.chain =
      [Sample.crl_node_entry] := by rfl
  rw [hchain] at hc
  have hcc : c = Sample.crl_node_entry := by
    simp only [Sample.start, List.nil_append, List.cons.injEq, and_true] at hc
    exact hc.symm
  have hlist : c.entry :: c.entry_next = [Sample.entry_with_ext] := by
    rw [hcc]
    rfl
  refine ⟨c, by rw [hchain, hcc], hlist, ?_⟩
  rcases hcase with ⟨hz, -, -⟩ | ⟨-, hinfo⟩
  · rw [hcc] at hz
    exact absurd hz (by decide)
  · exact hinfo

/-- Claim C31. When the chain is null (the empty list) or the buffer is null,
`mbedtls_x509_crl_parse_der` and `mbedtls_x509_crl_parse` (with or without the
PEM support compiled in) return `MBEDTLS_ERR_X509_BAD_INPUT_DATA`, and the chain
and the heap are the ones given. The result is the same for every buffer
content, length, reader and allocator, and no fault of a read is possible:
nothing is read from the buffer. -/
theorem null_argument_rejected (P : Pem) (chain : List mbedtls_x509_crl)
    (buf : Option (List Nat)) (buflen : Nat) (h : Heap) (hnull : chain = [] ∨ buf = none) :
    mbedtls_x509_crl_parse_der K E chain buf buflen h =
      .ok { ret := K.MBEDTLS_ERR_X509_BAD_INPUT_DATA, world := { chain := chain, heap := h } } ∧
    mbedtls_x509_crl_parse K E P chain buf buflen h =
      .ok { ret := K.MBEDTLS_ERR_X509_BAD_INPUT_DATA, world := { chain := chain, heap := h } } := by
  have hder : mbedtls_x509_crl_parse_der K E chain buf buflen h =
      .ok { ret := K.MBEDTLS_ERR_X509_BAD_INPUT_DATA,
            world := { chain := chain, heap := h } } := by
    rcases hnull with hc | hb
    · subst hc
      rfl
    · subst hb
      cases chain with
      | nil => rfl
      | cons c0 rest => rfl
  refine ⟨hder, ?_⟩
  unfold mbedtls_x509_crl_parse
  cases P.MBEDTLS_PEM_PARSE_C with
  | false => exact hder
  | true =>
    rcases hnull with hc | hb
    · subst hc
      rfl
    · subst hb
      cases chain with
      | nil => rfl
      | cons c0 rest => rfl

/-- Witness for C31: a null buffer with a chain of one empty node, the length
given as `83`. -/
theorem null_argument_rejected_witness :
    mbedtls_x509_crl_parse_der Sample.consts Sample.env [zero_crl] none 83 ⟨0, 0⟩ =
      .ok { ret := -0x2800, world := { chain := [zero_crl], heap := ⟨0, 0⟩ } } ∧
    mbedtls_x509_crl_parse Sample.consts Sample.env Sample.pem [zero_crl] none 83 ⟨0, 0⟩ =
      .ok { ret := -0x2800, world := { chain := [zero_crl], heap := ⟨0, 0⟩ } } :=
  null_argument_rejected Sample.consts Sample.env Sample.pem [zero_crl] none 83 ⟨0, 0⟩
    (Or.inr rfl)

/-- Claim C39. Let the buffer be non-null with `buflen > 0` and last byte
`buf[buflen - 1] == 0`, so that the envelope reader is called in the first
round. When that first call returns any value other than `0`,
`mbedtls_x509_crl_parse` is the single call
`mbedtls_x509_crl_parse_der( chain, buf, buflen )` on the entire buffer: same
return value, same chain and heap afterwards (same fault, if a read faults).
The value the reader returned does not enter the result. -/
theorem first_unwrap_failure_falls_back (P : Pem) (chain : List mbedtls_x509_crl)
    (b : List Nat) (buflen : Nat) (h : Heap) (hpos : 0 < buflen)
    (hlast : b[buflen - 1]? = some 0)
    (hfail : (P.mbedtls_pem_read_buffer pem_begin pem_end b none 0 0).ret ≠ 0) :
    mbedtls_x509_crl_parse K E P chain (some b) buflen h =
      mbedtls_x509_crl_parse_der K E chain (some b) buflen h := by
  cases chain with
  | nil =>
    unfold mbedtls_x509_crl_parse
    cases P.MBEDTLS_PEM_PARSE_C with
    | false => rfl
    | true => rfl
  | cons c0 rest =>
    apply parse_no_envelope K E P c0 rest b buflen h
      (P.mbedtls_pem_read_buffer pem_begin pem_end b none 0 0) _ hfail
    unfold read_envelope
    have h0 : buflen ≠ 0 := by omega
    simp only [h0, if_false, hlast, ne_eq, not_true_eq_false]

set_option maxRecDepth 100000 in
/-- Witness for C39: the text `pem_bad_payload` has both markers and a payload
that is not Base64; the reader returns `-0x112C`, and the call returns what the
raw decoding of the 54 bytes returns, `MBEDTLS_ERR_X509_INVALID_FORMAT`. -/
theorem first_unwrap_failure_falls_back_witness :
    (Sample.pem.mbedtls_pem_read_buffer pem_begin pem_end Sample.pem_bad_payload none 0 0).ret =
      -0x112C ∧
    mbedtls_x509_crl_parse Sample.consts Sample.env Sample.pem [zero_crl]
        (some Sample.pem_bad_payload) 54 ⟨0, 0⟩ =
      mbedtls_x509_crl_parse_der Sample.consts Sample.env [zero_crl]
        (some Sample.pem_bad_payload) 54 ⟨0, 0⟩ ∧
    ret_of (mbedtls_x509_crl_parse_der Sample.consts Sample.env [zero_crl]
        (some Sample.pem_bad_payload) 54 ⟨0, 0⟩) = .ok (-0x2180) :=
  ⟨by rfl,
   first_unwrap_failure_falls_back Sample.consts Sample.env Sample.pem [zero_crl]
     Sample.pem_bad_payload 54 ⟨0, 0⟩ (by decide) (by rfl) (by decide),
   by rfl⟩

/-- Claim C38. In a round of the loop of `mbedtls_x509_crl_parse` that is
entered with `is_pem` set (a wrapped record was unwrapped before), let the
unwrap attempt not succeed: `ret` is not `0`, be it the value the envelope
reader returns or `MBEDTLS_ERR_PEM_NO_HEADER_FOOTER_PRESENT` set by the function
itself. Then the loop ends in this round and returns that value, with the chain
and heap as they were when the round started; `mbedtls_x509_crl_parse_der` is
not called again. For the whole call: when the first round unwraps a record
that decodes (returns `0`), more than one byte remains, and the attempt on the
remainder does not succeed, `mbedtls_x509_crl_parse` returns the status of that
attempt and leaves the chain and heap of the first decode. -/
theorem later_unwrap_failure_returned (P : Pem) :
    (∀ (fuel : Nat) (s : ParseSt) (r : PemRes), s.is_pem = true →
      read_envelope P s = .ok r → r.ret ≠ 0 →
      parse_round K E P s = .ret r.ret { chain := s.chain, heap := s.heap } ∧
      parse_loop K E P (fuel + 1) s = .ret r.ret { chain := s.chain, heap := s.heap }) ∧
    (∀ (c0 : mbedtls_x509_crl) (rest : List mbedtls_x509_crl) (b : List Nat) (buflen : Nat)
        (h : Heap) (d : Result) (r2 : PemRes),
      P.MBEDTLS_PEM_PARSE_C = true → 0 < buflen → b[buflen - 1]? = some 0 →
      (P.mbedtls_pem_read_buffer pem_begin pem_end b none 0 0).ret = 0 →
      mbedtls_x509_crl_parse_der K E (c0 :: rest)
        (P.mbedtls_pem_read_buffer pem_begin pem_end b none 0 0).buf
        (P.mbedtls_pem_read_buffer pem_begin pem_end b none 0 0).buflen h = .ok d →
      d.ret = 0 →
      1 < size_of_diff K buflen (P.mbedtls_pem_read_buffer pem_begin pem_end b none 0 0).use_len →
      read_envelope P
        ⟨d.world.chain, d.world.heap,
         b.drop (P.mbedtls_pem_read_buffer pem_begin pem_end b none 0 0).use_len,
         size_of_diff K buflen (P.mbedtls_pem_read_buffer pem_begin pem_end b none 0 0).use_len,
         0, (P.mbedtls_pem_read_buffer pem_begin pem_end b none 0 0).use_len, true⟩ = .ok r2 →
      r2.ret ≠ 0 →
      mbedtls_x509_crl_parse K E P (c0 :: rest) (some b) buflen h =
        .ok { ret := r2.ret, world := d.world }) := by
  have hround : ∀ (s : ParseSt) (r : PemRes), s.is_pem = true →
      read_envelope P s = .ok r → r.ret ≠ 0 →
      parse_round K E P s = .ret r.ret { chain := s.chain, heap := s.heap } := by
    intro s r hpem hread hne
    unfold parse_round
    rw [hread]
    simp only [if_neg hne, hpem, if_true]
  constructor
  · intro fuel s r hpem hread hne
    refine ⟨hround s r hpem hread hne, ?_⟩
    simp only [parse_loop, hround s r hpem hread hne]
  · intro c0 rest b buflen h d r2 hP hpos hlast hret hd hd0 hrem hread2 hne
    have hread1 : read_envelope P ⟨c0 :: rest, h, b, buflen, 0, 0, false⟩ =
        .ok (P.mbedtls_pem_read_buffer pem_begin pem_end b none 0 0) := by
      unfold read_envelope
      have h0 : buflen ≠ 0 := by omega
      simp only [h0, if_false, hlast, ne_eq, not_true_eq_false]
    have hr1 : parse_round K E P ⟨c0 :: rest, h, b, buflen, 0, 0, false⟩ = .next
        ⟨d.world.chain, d.world.heap,
         b.drop (P.mbedtls_pem_read_buffer pem_begin pem_end b none 0 0).use_len,
         size_of_diff K buflen (P.mbedtls_pem_read_buffer pem_begin pem_end b none 0 0).use_len,
         0, (P.mbedtls_pem_read_buffer pem_begin pem_end b none 0 0).use_len, true⟩ := by
      unfold parse_round
      rw [hread1]
      simp only [hret, if_true, hd, hd0, ne_eq, not_true_eq_false, if_false]
    have hr2 := hround _ r2 rfl hread2 hne
    obtain ⟨k, hk⟩ : ∃ k, buflen + 1 = (k + 1) + 1 := ⟨buflen - 1, by omega⟩
    unfold mbedtls_x509_crl_parse
    rw [hP, hk]
    simp only [if_true, parse_loop, hr1, hr2, true_and, gt_iff_lt, hrem]

set_option maxRecDepth 100000 in
/-- Witness for C38: `pem_then_text` holds the wrapped record `pem_ok_v1`, the
text `junk` with a line end, and the terminating NUL. After the first record 6
bytes remain; the reader finds no markers in them and returns `-0x1080`, which
the call returns, leaving the one decoded record in the chain. -/
theorem later_unwrap_failure_returned_witness :
    mbedtls_x509_crl_parse Sample.consts Sample.env Sample.pem [zero_crl]
        (some Sample.pem_then_text) 167 ⟨0, 0⟩ =
      .ok { ret := -0x1080, world := Sample.first_call.world } :=
  (later_unwrap_failure_returned Sample.consts Sample.env Sample.pem).2 zero_crl []
    Sample.pem_then_text 167 ⟨0, 0⟩ Sample.first_call
    ⟨-0x1080, none, 0, 161⟩ (by rfl) (by decide) (by rfl) (by rfl) (by rfl) (by rfl)
    (by decide) (by rfl) (by decide)

/-- Claim C35. Let the tag reader, whenever it succeeds on a SEQUENCE header,
announce a content that ends within the bound it was given. Then: the walk over
the nested SEQUENCEs, started at or before its bound, is left normally only
with the cursor on the bound, so the test `*p != end` behind it is false. For
`x509_get_crl_ext`, when the explicit tag was read and left the cursor at or
before `end`, the result is either `0` with the cursor on `end` or
`MBEDTLS_ERR_X509_INVALID_EXTENSIONS` plus a failure code of the tag reader,
returned from inside the walk. For `x509_get_crl_entry_ext`, when a byte
remains and the header is read, the bound is set to the cursor plus the
declared length, the test `end != *p + ext->len` behind the assignment is
false, and the result is either `0` with the cursor on that new bound or a
value returned from inside the walk. The bound the caller gave (the end of the
entry) takes no part: on the six bytes `30 02 30 00 05 00` with bound `6` the
function returns `0` with the cursor at `4`. -/
theorem ext_length_mismatch_unreachable
    (htag : ∀ mem p end_ len, (E.mbedtls_asn1_get_tag mem p end_ len (seq_tag K)).ret = 0 →
      (E.mbedtls_asn1_get_tag mem p end_ len (seq_tag K)).p +
        (E.mbedtls_asn1_get_tag mem p end_ len (seq_tag K)).len ≤ end_) :
    (∀ (mem : List Nat) (end_ fuel p len p1 l : Nat), p ≤ end_ →
      ext_walk K E mem end_ fuel p len = .ok (none, p1, l) → p1 = end_) ∧
    (∀ (mem : List Nat) (p end_ : Nat) (ext : mbedtls_x509_buf) (x : ExtRes),
      x509_get_crl_ext K E mem p end_ ext = .ok x →
      (E.mbedtls_x509_get_ext mem p end_ ext 0).ret = 0 →
      (E.mbedtls_x509_get_ext mem p end_ ext 0).p ≤ end_ →
      (x.ret = 0 ∧ x.p = end_) ∨
      ∃ q l0, (E.mbedtls_asn1_get_tag mem q end_ l0 (seq_tag K)).ret ≠ 0 ∧
        x.ret = K.MBEDTLS_ERR_X509_INVALID_EXTENSIONS +
          (E.mbedtls_asn1_get_tag mem q end_ l0 (seq_tag K)).ret) ∧
    (∀ (mem : List Nat) (p end_ : Nat) (ext : mbedtls_x509_buf) (x : ExtRes),
      x509_get_crl_entry_ext K E mem p end_ ext = .ok x → p < end_ →
      (E.mbedtls_asn1_get_tag mem p end_ ext.len (seq_tag K)).ret = 0 →
      (x.ret = 0 ∧ x.p = (E.mbedtls_asn1_get_tag mem p end_ ext.len (seq_tag K)).p +
          (E.mbedtls_asn1_get_tag mem p end_ ext.len (seq_tag K)).len) ∨
      ∃ q l0, (E.mbedtls_asn1_get_tag mem q
            ((E.mbedtls_asn1_get_tag mem p end_ ext.len (seq_tag K)).p +
              (E.mbedtls_asn1_get_tag mem p end_ ext.len (seq_tag K)).len) l0 (seq_tag K)).ret ≠ 0 ∧
        x.ret = K.MBEDTLS_ERR_X509_INVALID_EXTENSIONS +
          (E.mbedtls_asn1_get_tag mem q
            ((E.mbedtls_asn1_get_tag mem p end_ ext.len (seq_tag K)).p +
              (E.mbedtls_asn1_get_tag mem p end_ ext.len (seq_tag K)).len) l0 (seq_tag K)).ret) ∧
    x509_get_crl_entry_ext Sample.consts Sample.env [0x30, 0x02, 0x30, 0x00, 0x05, 0x00] 0 6
        zero_buf = .ok { ret := 0, p := 4, ext := ⟨0x30, 2, some 0⟩ } := by
  refine ⟨fun mem end_ => ext_walk_exit K E htag mem end_, ?_, ?_, by rfl⟩
  · intro mem p end_ ext x hx hr hle
    unfold x509_get_crl_ext at hx
    simp only [hr, ne_eq, not_true_eq_false, if_false] at hx
    split at hx
    · cases hx
    · rename_i c p1 l hw
      cases hx
      exact Or.inr (ext_walk_code K E mem end_ _ _ _ c p1 l hw)
    · rename_i p1 l hw
      have hp1 := ext_walk_exit K E htag mem end_ _ _ _ p1 l hle hw
      rw [if_neg (by simp [hp1])] at hx
      cases hx
      exact Or.inl ⟨rfl, hp1⟩
  · intro mem p end_ ext x hx hp ht
    unfold x509_get_crl_entry_ext at hx
    rw [if_neg (by omega)] at hx
    cases hm : mem[p]? with
    | none => rw [hm] at hx; cases hx
    | some b =>
      rw [hm] at hx
      simp only [ht, ne_eq, not_true_eq_false, if_false] at hx
      split at hx
      · cases hx
      · rename_i c p1 l hw
        cases hx
        exact Or.inr (ext_walk_code K E mem _ _ _ _ c p1 l hw)
      · rename_i p1 l hw
        have hp1 := ext_walk_exit K E htag mem _ _ _ _ p1 l (Nat.le_add_right _ _) hw
        rw [if_neg (by simp [hp1])] at hx
        cases hx
        exact Or.inl ⟨rfl, hp1⟩

/-- Witness for C35: the sample tag reader meets the assumption; on the six
bytes `30 02 30 00 05 00` with bound `6` the header at `0` is read and the
result is the first of the two cases, the cursor `4` being the sum of the
header's end `2` and the declared length `2`. -/
theorem ext_length_mismatch_unreachable_witness :
    (0 < 6 ∧ (Sample.get_tag [0x30, 0x02, 0x30, 0x00, 0x05, 0x00] 0 6 0 0x30).ret = 0) ∧
    (((0 : Int) = 0 ∧ 4 = (Sample.get_tag [0x30, 0x02, 0x30, 0x00, 0x05, 0x00] 0 6 0 0x30).p +
        (Sample.get_tag [0x30, 0x02, 0x30, 0x00, 0x05, 0x00] 0 6 0 0x30).len) ∨
      ∃ q l0, (Sample.get_tag [0x30, 0x02, 0x30, 0x00, 0x05, 0x00] q
            ((Sample.get_tag [0x30, 0x02, 0x30, 0x00, 0x05, 0x00] 0 6 0 0x30).p +
              (Sample.get_tag [0x30, 0x02, 0x30, 0x00, 0x05, 0x00] 0 6 0 0x30).len) l0 0x30).ret ≠ 0 ∧
        (0 : Int) = -0x2500 +
          (Sample.get_tag [0x30, 0x02, 0x30, 0x00, 0x05, 0x00] q
            ((Sample.get_tag [0x30, 0x02, 0x30, 0x00, 0x05, 0x00] 0 6 0 0x30).p +
              (Sample.get_tag [0x30, 0x02, 0x30, 0x00, 0x05, 0x00] 0 6 0 0x30).len) l0 0x30).ret) :=
  ⟨⟨by decide, by rfl⟩,
   (ext_length_mismatch_unreachable Sample.consts Sample.env
     (fun mem p end_ len hh =>
       (Sample.get_tag_bounds mem p end_ len (seq_tag Sample.consts) hh).2)).2.2.1
     [0x30, 0x02, 0x30, 0x00, 0x05, 0x00] 0 6 zero_buf ⟨0, 4, ⟨0x30, 2, some 0⟩⟩
     (by rfl) (by decide) (by rfl)⟩

/-- Claim C32. Let the readers stay within their bounds (`ReadersInBounds`:
the reader of a SEQUENCE header succeeds only when the declared content ends
within the bound it was given, and the serial and time readers do not pass
theirs), and let `MBEDTLS_ERR_X509_ALLOC_FAILED` and the sums of
`MBEDTLS_ERR_X509_INVALID_EXTENSIONS` with a code of the tag reader be
different from `0`. When `x509_get_entries` returns `0` and the outer
`revokedCertificates` SEQUENCE is present (the cursor is not on `end` and its
header is read), the cursor at return is the end that header declares, and this
is at or before `end`, the end of the `tbsCertList`. Every entry that is
decoded on the way leaves the cursor at or before the end its own header
declares, which is at or before the end of the outer SEQUENCE. -/
theorem entries_cursor_at_outer_end (halloc : K.MBEDTLS_ERR_X509_ALLOC_FAILED ≠ 0)
    (hext : ∀ mem p end_ len, K.MBEDTLS_ERR_X509_INVALID_EXTENSIONS +
      (E.mbedtls_asn1_get_tag mem p end_ len (seq_tag K)).ret ≠ 0)
    (hb : ReadersInBounds K E) :
    (∀ (mem : List Nat) (p end_ : Nat) (entry : mbedtls_x509_crl_entry)
        (next : List mbedtls_x509_crl_entry) (h : Heap) (r : EntriesRes),
      x509_get_entries K E mem p end_ entry next h = .ok r → r.ret = 0 → p ≠ end_ →
      (E.mbedtls_asn1_get_tag mem p end_ 0 (seq_tag K)).ret = 0 →
      r.p = (E.mbedtls_asn1_get_tag mem p end_ 0 (seq_tag K)).p +
        (E.mbedtls_asn1_get_tag mem p end_ 0 (seq_tag K)).len ∧ r.p ≤ end_) ∧
    (∀ (mem : List Nat) (end1 q : Nat) (cur : mbedtls_x509_crl_entry) (g : EntryRes),
      get_entry K E mem end1 q cur = .ok g → g.ret = 0 →
      g.p ≤ (E.mbedtls_asn1_get_tag mem q end1 0 (seq_tag K)).p +
        (E.mbedtls_asn1_get_tag mem q end1 0 (seq_tag K)).len ∧
      (E.mbedtls_asn1_get_tag mem q end1 0 (seq_tag K)).p +
        (E.mbedtls_asn1_get_tag mem q end1 0 (seq_tag K)).len ≤ end1) := by
  constructor
  · intro mem p end_ entry next h r hr h0 hne ht
    unfold x509_get_entries at hr
    rw [if_neg hne] at hr
    simp only [ht, ne_eq, not_true_eq_false, if_false] at hr
    have hbt := hb.tag mem p end_ 0 ht
    have hend := entries_loop_end K E halloc hext hb mem _ _ _ _ _ _ _ r
      (Nat.le_add_right _ _) hr h0
    exact ⟨hend, by omega⟩
  · intro mem end1 q cur g hg h0
    exact (get_entry_bound K E hext hb mem end1 q cur g hg h0).2

set_option maxRecDepth 100000 in
/-- Witness for C32: on the 42 bytes of `revoked_two` the call returns `0`
with two entries; the cursor `42` is the sum of the position `2` behind the
outer header and the length `40` it declares. -/
theorem entries_cursor_at_outer_end_witness :
    x509_get_entries Sample.consts Sample.env Sample.revoked_two 0 42 zero_entry [] ⟨0, 0⟩ =
      .ok ⟨0, 42, Sample.revoked_two_first, [Sample.revoked_two_second], ⟨1, 0⟩⟩ ∧
    (42 = (Sample.get_tag Sample.revoked_two 0 42 0 0x30).p +
        (Sample.get_tag Sample.revoked_two 0 42 0 0x30).len ∧ 42 ≤ 42) :=
  ⟨by rfl,
   (entries_cursor_at_outer_end Sample.consts Sample.env (by decide)
     (fun mem p end_ len => Sample.invalid_ext_code mem p end_ len (seq_tag Sample.consts))
     Sample.readers_in_bounds).1 Sample.revoked_two 0 42 zero_entry [] ⟨0, 0⟩
     ⟨0, 42, Sample.revoked_two_first, [Sample.revoked_two_second], ⟨1, 0⟩⟩
     (by rfl) (by rfl) (by decide) (by rfl)⟩

set_option maxRecDepth 100000 in
/-- Claim C33, failing input. The 129 bytes of `crl_nested_entry` are a
version 1 list with one revoked entry whose header, read at position 65,
declares the span from 67 to 109: serial, date, the extensions `30 02 30 00`
(ending at 89) and 20 more bytes. `x509_get_crl_entry_ext` takes the end of
the extensions from their own header, so the entry is left with the cursor at
89, not at `raw.p + raw.len = 109`. The loop reads the next entry header at
89, inside the span of the first entry, and `mbedtls_x509_crl_parse_der`
returns `0` with a second entry node whose span, 91 to 109, lies inside the
span of the first one. -/
theorem entry_decoded_inside_entry :
    ret_of (mbedtls_x509_crl_parse_der Sample.consts Sample.env [zero_crl]
      (some Sample.crl_nested_entry) 129 ⟨0, 0⟩) = .ok 0 ∧
    (result_or ⟨1, ⟨[], ⟨0, 0⟩⟩⟩ (mbedtls_x509_crl_parse_der Sample.consts Sample.env [zero_crl]
      (some Sample.crl_nested_entry) 129 ⟨0, 0⟩)).world.chain.map
        (fun c => (c.entry.raw, c.entry.entry_ext, c.entry_next.map (fun e => e.raw))) =
      [(⟨0x02, 42, some 67⟩, ⟨0x30, 2, some 85⟩, [⟨0x02, 18, some 91⟩])] ∧
    (get_entry Sample.consts Sample.env Sample.crl_nested_entry 109 65 zero_entry).map
        (fun g => (g.ret, g.p, g.cur.raw)) = .ok (0, 89, ⟨0x02, 42, some 67⟩) ∧
    (get_entry Sample.consts Sample.env Sample.crl_nested_entry 109 89 zero_entry).map
        (fun g => (g.ret, g.p, g.cur.raw)) = .ok (0, 109, ⟨0x02, 18, some 91⟩) := by
  refine ⟨by rfl, by rfl, by rfl, by rfl⟩

set_option maxRecDepth 100000 in
/-- Claim C34, failing input. The 67 bytes of `crl_empty_entry_at_end` are an
outer SEQUENCE and a `tbsCertList` that both end with the buffer; the last four
bytes `30 02 30 00` are a `revokedCertificates` SEQUENCE holding one entry of
declared length 0. The fields before it are decoded and `x509_get_entries` is
entered at position 63. The header of the entry is read at 65 and leaves the
cursor at 67, the length of the raw copy; the read `**p` for `raw.tag` is then
made at index 67, one past the last byte of the copy. -/
theorem entry_tag_read_past_buffer :
    Sample.crl_empty_entry_at_end.length = 67 ∧
    ((state_before Sample.consts Sample.env 8
      (Sample.start Sample.crl_empty_entry_at_end)).state_or (Sample.start [])).p = 63 ∧
    Sample.get_tag Sample.crl_empty_entry_at_end 65 67 0 0x30 = ⟨0, 67, 0⟩ ∧
    Sample.crl_empty_entry_at_end[67]? = none ∧
    get_entry Sample.consts Sample.env Sample.crl_empty_entry_at_end 67 65 zero_entry =
      .error .out_of_bounds ∧
    x509_get_entries Sample.consts Sample.env Sample.crl_empty_entry_at_end 63 67 zero_entry []
      ⟨1, 0⟩ = .error .out_of_bounds ∧
    mbedtls_x509_crl_parse_der Sample.consts Sample.env [zero_crl]
      (some Sample.crl_empty_entry_at_end) 67 ⟨0, 0⟩ = .error .out_of_bounds := by
  refine ⟨by rfl, by rfl, by rfl, by rfl, by rfl, by rfl, by rfl⟩

/-- Claim C37. Let each successful unwrap report a consumed length between `1`
and the number of bytes that remain (`buflen` when the round starts). Then the
loop of `mbedtls_x509_crl_parse` runs at most `buflen` rounds, and one round
when `buflen` is `0`: the count of rounds is at most `max 1 buflen` however
many rounds are allowed, and a run that is allowed more rounds than that gives
the same result. In every round that unwraps and decodes a record, the
remaining length is `buflen - use_len` without wrap-around and is smaller than
before. The loop is left by falling through in the envelope mode only with at
most one byte remaining, and a round that decodes a record and leaves at most
one byte ends the loop; the call then returns `0`. -/
theorem parse_loop_rounds_bounded (P : Pem)
    (hlen : ∀ (s : ParseSt) (r : PemRes), read_envelope P s = .ok r → r.ret = 0 →
      1 ≤ r.use_len ∧ r.use_len ≤ s.buflen) :
    (∀ (fuel : Nat) (s : ParseSt), loop_rounds K E P fuel s ≤ max 1 s.buflen) ∧
    (∀ (s : ParseSt) (k : Nat),
      parse_loop K E P (max 1 s.buflen + k) s = parse_loop K E P (max 1 s.buflen) s) ∧
    (∀ (s s1 : ParseSt), parse_round K E P s = .next s1 → s1.is_pem = true →
      1 ≤ s1.use_len ∧ s1.use_len ≤ s.buflen ∧ s1.buflen = s.buflen - s1.use_len ∧
        s1.buflen < s.buflen) ∧
    (∀ (fuel : Nat) (s sf : ParseSt), parse_loop K E P fuel s = .next sf →
      sf.is_pem = true → sf.buflen ≤ 1) ∧
    (∀ (fuel : Nat) (s s1 : ParseSt), parse_round K E P s = .next s1 → s1.is_pem = true →
      s1.buflen ≤ 1 → parse_loop K E P (fuel + 1) s = .next s1) ∧
    (∀ (c0 : mbedtls_x509_crl) (rest : List mbedtls_x509_crl) (b : List Nat) (buflen : Nat)
        (h : Heap) (sf : ParseSt), P.MBEDTLS_PEM_PARSE_C = true →
      parse_loop K E P (max 1 buflen) ⟨c0 :: rest, h, b, buflen, 0, 0, false⟩ = .next sf →
      sf.is_pem = true →
      mbedtls_x509_crl_parse K E P (c0 :: rest) (some b) buflen h =
        .ok { ret := 0, world := { chain := sf.chain, heap := sf.heap } }) := by
  refine ⟨loop_rounds_le K E P hlen, ?_, parse_round_shrinks K E P hlen,
    parse_loop_exit K E P, ?_, ?_⟩
  · intro s k
    exact parse_loop_fuel K E P hlen s.buflen s _ _ (le_refl _) (by omega) (le_refl _)
  · intro fuel s s1 hr hp hle
    unfold parse_loop
    rw [hr]
    simp only
    rw [if_neg (by omega)]
  · intro c0 rest b buflen h sf hP hl hp
    have hf : parse_loop K E P (buflen + 1) ⟨c0 :: rest, h, b, buflen, 0, 0, false⟩ =
        parse_loop K E P (max 1 buflen) ⟨c0 :: rest, h, b, buflen, 0, 0, false⟩ :=
      parse_loop_fuel K E P hlen buflen _ _ _ (le_refl _) (by omega) (le_refl _)
    unfold mbedtls_x509_crl_parse
    rw [hP]
    simp only [if_true, hf, hl, hp]

set_option maxRecDepth 1000000 in
/-- Witness for C37: the sample envelope reader meets the assumption; on the
303 bytes of `pem_two` the loop runs two rounds. -/
theorem parse_loop_rounds_bounded_witness :
    loop_rounds Sample.consts Sample.env Sample.pem 304
      ⟨[zero_crl], ⟨0, 0⟩, Sample.pem_two, 303, 0, 0, false⟩ = 2 ∧
    loop_rounds Sample.consts Sample.env Sample.pem 304
      ⟨[zero_crl], ⟨0, 0⟩, Sample.pem_two, 303, 0, 0, false⟩ ≤ max 1 303 :=
  ⟨by rfl,
   (parse_loop_rounds_bounded Sample.consts Sample.env Sample.pem Sample.pem_use_len).1 304
     ⟨[zero_crl], ⟨0, 0⟩, Sample.pem_two, 303, 0, 0, false⟩⟩

/-- Counterexample for C37 as stated: with `buflen == 0` the body of the
`do ... while` loop is run once, which is more than `buflen` rounds. The
sample reader meets the assumption of the claim; it is not called in that
round, and the call goes on to `mbedtls_x509_crl_parse_der` with `buflen == 0`,
which returns `MBEDTLS_ERR_X509_INVALID_FORMAT`. -/
theorem loop_runs_once_on_empty_buffer :
    (∀ (s : ParseSt) (r : PemRes), read_envelope Sample.pem s = .ok r → r.ret = 0 →
      1 ≤ r.use_len ∧ r.use_len ≤ s.buflen) ∧
    loop_rounds Sample.consts Sample.env Sample.pem 1
      ⟨[zero_crl], ⟨0, 0⟩, [], 0, 0, 0, false⟩ = 1 ∧
    ¬ loop_rounds Sample.consts Sample.env Sample.pem 1
      ⟨[zero_crl], ⟨0, 0⟩, [], 0, 0, 0, false⟩ ≤ 0 ∧
    ret_of (mbedtls_x509_crl_parse Sample.consts Sample.env Sample.pem [zero_crl] (some []) 0
      ⟨0, 0⟩) = .ok (-0x2180) := by
  refine ⟨Sample.pem_use_len, by rfl, by decide, by rfl⟩

/-- Claim C36. `ChainInv` says that a chain is not empty, every node before
the last one has version 1 or 2, and the last node has version 0, 1 or 2. The
chain made by `mbedtls_x509_crl_init` satisfies it; every call of
`mbedtls_x509_crl_parse_der` and of `mbedtls_x509_crl_parse` that returns, with
whatever value, leaves a chain that satisfies it when the chain before did, and
so does every sequence of such calls. On a chain that satisfies it, the node at
which a decoding starts has version 0 and no node behind it, every populated
node of the chain is among the nodes before it, and the chain after the call is
these nodes followed by one node. When the last node is empty (as after a
failed decoding, which leaves the nodes before the decoded one and a zeroed
node), the decoding of the next call starts at that node. -/
theorem chain_invariant_kept :
    (∀ c, ChainInv [mbedtls_x509_crl_init c]) ∧
    (∀ (chain : List mbedtls_x509_crl) (buf : Option (List Nat)) (buflen : Nat) (h : Heap)
        (r : Result), ChainInv chain →
      mbedtls_x509_crl_parse_der K E chain buf buflen h = .ok r → ChainInv r.world.chain) ∧
    (∀ (P : Pem) (chain : List mbedtls_x509_crl) (buf : Option (List Nat)) (buflen : Nat)
        (h : Heap) (r : Result), ChainInv chain →
      mbedtls_x509_crl_parse K E P chain buf buflen h = .ok r → ChainInv r.world.chain) ∧
    (∀ (P : Pem) (calls : List (Bool × Option (List Nat) × Nat)) (w w1 : World),
      ChainInv w.chain → run_calls K E P w calls = .ok w1 → ChainInv w1.chain) ∧
    (∀ (chain : List mbedtls_x509_crl) (buf : Option (List Nat)) (buflen : Nat) (h : Heap)
        (s0 : DecSt), ChainInv chain → parse_der_begin K E chain buf buflen h = .next s0 →
      s0.crl.version = 0 ∧ s0.post = [] ∧ (∀ n ∈ chain, n.version ≠ 0 → n ∈ s0.pre) ∧
      (∀ n ∈ s0.pre, n ∈ chain ∧ n.version ≠ 0) ∧
      ∀ r, mbedtls_x509_crl_parse_der K E chain buf buflen h = .ok r →
        ∃ x, r.world.chain = s0.pre ++ [x] ∧
          (r.ret ≠ 0 → x = zero_crl)) ∧
    (∀ (init : List mbedtls_x509_crl) (last : mbedtls_x509_crl) (buf : Option (List Nat))
        (buflen : Nat) (h : Heap) (s0 : DecSt),
      (∀ n ∈ init, n.version = 1 ∨ n.version = 2) → last.version = 0 →
      parse_der_begin K E (init ++ [last]) buf buflen h = .next s0 →
      s0.pre = init ∧ s0.post = [] ∧
        ∃ b, buf = some b ∧
          s0.crl = { last with raw_p := some (b.take buflen), raw_len := buflen }) := by
  have h12 : ∀ (init : List mbedtls_x509_crl), (∀ n ∈ init, n.version = 1 ∨ n.version = 2) →
      ∀ n ∈ init, n.version ≠ 0 := by
    intro init hinit n hn
    rcases hinit n hn with h1 | h1 <;> rw [h1] <;> decide
  refine ⟨?_, ?_, ?_, ?_, ?_, ?_⟩
  · intro c
    refine ⟨[], zero_crl, rfl, ?_, Or.inl rfl⟩
    intro n hn
    cases hn
  · intro chain buf buflen h r hinv hr
    exact parse_der_inv K E chain hinv buf buflen h r hr
  · intro P chain buf buflen h r hinv hr
    exact parse_inv K E P chain hinv buf buflen h r hr
  · intro P calls w w1 hinv hr
    exact run_calls_inv K E P calls w w1 hinv hr
  · intro chain buf buflen h s0 hinv hb
    obtain ⟨init, last, hch, hinit, hlast⟩ := hinv
    obtain ⟨b, -, hpost, hslot⟩ :=
      begin_slot_inv K E chain init last hch (h12 init hinit) buf buflen h s0 hb
    have hpre : (∀ n ∈ chain, n.version ≠ 0 → n ∈ s0.pre) ∧
        (∀ n ∈ s0.pre, n ∈ chain ∧ n.version ≠ 0) := by
      rcases hslot with ⟨hv, hp, -⟩ | ⟨hv, hp, -⟩
      · constructor
        · intro n hn hnv
          rw [hch] at hn
          rcases List.mem_append.mp hn with h2 | h2
          · rw [hp]; exact h2
          · rw [List.mem_singleton] at h2
            subst h2
            exact absurd hv hnv
        · intro n hn
          rw [hp] at hn
          exact ⟨by rw [hch]; exact List.mem_append_left _ hn, h12 init hinit n hn⟩
      · constructor
        · intro n hn _
          rw [hp, ← hch]
          exact hn
        · intro n hn
          rw [hp, ← hch] at hn
          refine ⟨hn, ?_⟩
          rw [hch] at hn
          rcases List.mem_append.mp hn with h2 | h2
          · exact h12 init hinit n h2
          · rw [List.mem_singleton] at h2
            subst h2
            exact hv
    have hver : s0.crl.version = 0 := by
      rcases hslot with ⟨hv, -, hc⟩ | ⟨-, -, hc⟩
      · rw [hc]; exact hv
      · rw [hc]; rfl
    refine ⟨hver, hpost, hpre.1, hpre.2, ?_⟩
    intro r hr
    unfold mbedtls_x509_crl_parse_der at hr
    rw [hb] at hr
    simp only at hr
    cases hrun : run_steps (decode_steps K E) s0 with
    | next sf =>
      rw [hrun] at hr
      cases hr
      obtain ⟨h1, h2, -⟩ := run_next_chain K E s0 sf hrun
      refine ⟨sf.crl, ?_, fun hne => absurd rfl hne⟩
      show sf.pre ++ sf.crl :: sf.post = _
      rw [h1, h2, hpost]
    | ret code w =>
      rw [hrun] at hr
      cases hr
      obtain ⟨hw, -⟩ := run_steps_ret_world K E (decode_steps K E) (fun f hf => hf) s0 code w hrun
      exact ⟨zero_crl, hw, fun _ => rfl⟩
    | fault f => rw [hrun] at hr; cases hr
  · intro init last buf buflen h s0 hinit hv hb
    obtain ⟨b, hbuf, hpost, hslot⟩ :=
      begin_slot_inv K E (init ++ [last]) init last rfl (h12 init hinit) buf buflen h s0 hb
    rcases hslot with ⟨-, hp, hc⟩ | ⟨hnv, -, -⟩
    · exact ⟨hp, hpost, b, hbuf, hc⟩
    · exact absurd hv hnv

set_option maxRecDepth 1000000 in
/-- Witness for C36: on a chain made by `mbedtls_x509_crl_init`, one call of
`mbedtls_x509_crl_parse` on the two wrapped records of `pem_two`, one call of
`mbedtls_x509_crl_parse_der` on `crl_short_outer`, which fails, and one on
`crl_ok_v1` leave three nodes of version 1: the node that the failed call left
empty is the one the last call fills. -/
theorem chain_invariant_kept_witness :
    (run_calls Sample.consts Sample.env Sample.pem ⟨[mbedtls_x509_crl_init zero_crl], ⟨0, 0⟩⟩
      [(true, some Sample.pem_two, 303), (false, some Sample.crl_short_outer, 83)]).map
        (fun w => w.chain.map (fun c => (c.version, c.raw_len))) =
      .ok [(1, 83), (1, 68), (0, 0)] ∧
    (run_calls Sample.consts Sample.env Sample.pem ⟨[mbedtls_x509_crl_init zero_crl], ⟨0, 0⟩⟩
      [(true, some Sample.pem_two, 303), (false, some Sample.crl_short_outer, 83),
       (false, some Sample.crl_ok_v1, 83)]).map
        (fun w => w.chain.map (fun c => (c.version, c.raw_len))) =
      .ok [(1, 83), (1, 68), (1, 83)] ∧
    ChainInv ((run_calls Sample.consts Sample.env Sample.pem
      ⟨[mbedtls_x509_crl_init zero_crl], ⟨0, 0⟩⟩
      [(true, some Sample.pem_two, 303), (false, some Sample.crl_short_outer, 83),
       (false, some Sample.crl_ok_v1, 83)]).toOption.getD ⟨[], ⟨0, 0⟩⟩).chain :=
  ⟨by rfl, by rfl,
   (chain_invariant_kept Sample.consts Sample.env).2.2.2.1 Sample.pem
     [(true, some Sample.pem_two, 303), (false, some Sample.crl_short_outer, 83),
      (false, some Sample.crl_ok_v1, 83)]
     ⟨[mbedtls_x509_crl_init zero_crl], ⟨0, 0⟩⟩ _
     ((chain_invariant_kept Sample.consts Sample.env).1 zero_crl) (by rfl)⟩

end Claims
end X509Crl
